import Mathlib

/-!
# c10 intrusive reference counting (`c10/util/intrusive_ptr.h`)

A shallow embedding of `intrusive_ptr_target`, `intrusive_ptr`, `weak_intrusive_ptr`
and of the sequential semantics of their member functions, followed by the
properties proved about them. Executions of several threads are interleavings of the
atomic accesses of `reset_()` and `lock()` (section Threads). Two value types of `c10/core` come after the pointer
types: `DispatchKey` with `DispatchKeySet`, and `TensorOptions`; their conventions are
stated where they are defined.

Conventions of the embedding

* A raw `TTarget*` is an address (`Addr`); address `0` is `nullptr`.
* The heap is a list of cells; the object at address `k + 1` lives in cell `k`.
  `new` appends a cell, `delete` empties one, so an address is never handed out twice.
* `std::atomic<size_t>` counters are natural numbers; `++` and `--` wrap modulo `2 ^ 64`.
* Two things the C++ program does that leave no trace in the counters are recorded in an
  event list: each call of the virtual `release_resources()` and each completed `delete`.
* A member function that may modify `*this` returns the new value of `*this`.
* `release_resources()` is virtual; what an override does to the payload is not modelled,
  and it is taken not to touch the two counters (the default override does nothing).
* `debug` says whether the build evaluates `TORCH_INTERNAL_ASSERT_DEBUG_ONLY`.
* A failed assertion throws. Inside a constructor or a raw function, the destructor of an
  object that is alive at the throw runs before the failure reaches the caller
  (`Result.unwind`).
-/

namespace c10

/-- A raw pointer to an `intrusive_ptr_target`. -/
abbrev Addr := Nat

/-- The null pointer. -/
def nullptr : Addr := 0

/-- Pre-increment of a `size_t`: `++x`. -/
def size_t_inc (x : Nat) : Nat := (x + 1) % 2 ^ 64

/-- Pre-decrement of a `size_t`: `--x`. -/
def size_t_dec (x : Nat) : Nat := (x + (2 ^ 64 - 1)) % 2 ^ 64

/-- The state every `intrusive_ptr_target` carries: `refcount_` and `weakcount_`. -/
structure intrusive_ptr_target where
  refcount_ : Nat
  weakcount_ : Nat
deriving DecidableEq, Repr

/-- Observable actions on a target that are not counter updates. -/
inductive Event where
  /-- The virtual `release_resources()` was called on the target at this address. -/
  | release_resources (a : Addr)
  /-- The expression `delete target_` completed: destructor run, storage returned. -/
  | deallocate (a : Addr)
deriving DecidableEq, Repr

/-- The messages of the assertions in `intrusive_ptr.h`. -/
inductive Assertion where
  /-- "Tried to destruct an intrusive_ptr_target that still has intrusive_ptr to it" -/
  | destruct_with_intrusive_ptr
  /-- "Tried to destruct an intrusive_ptr_target that still has weak_intrusive_ptr to it" -/
  | destruct_with_weak_intrusive_ptr
  /-- "intrusive_ptr: Cannot increase refcount after it reached zero." -/
  | cannot_increase_refcount
  /-- "weak_intrusive_ptr: Cannot increase weakcount after it reached zero." -/
  | cannot_increase_weakcount
  /-- "intrusive_ptr: Can only reclaim pointers that are owned by someone" -/
  | reclaim_not_owned
  /-- "weak_intrusive_ptr: Can only weak_intrusive_ptr::reclaim() owning pointers that were
  created using weak_intrusive_ptr::release()." -/
  | weak_reclaim_not_released
deriving DecidableEq, Repr

/-- The heap of targets and the events so far (newest first). -/
structure Memory where
  objects : List (Option intrusive_ptr_target)
  events : List Event
deriving DecidableEq, Repr

/-- The target stored at an address, if a live object is there. -/
def Memory.load (m : Memory) (a : Addr) : Option intrusive_ptr_target :=
  match a with
  | 0 => none
  | k + 1 => m.objects[k]?.join

/-- Overwrite the target stored at an address. -/
def Memory.store (m : Memory) (a : Addr) (t : intrusive_ptr_target) : Memory :=
  match a with
  | 0 => m
  | k + 1 => { m with objects := m.objects.set k (some t) }

/-- Return the storage at an address. -/
def Memory.free (m : Memory) (a : Addr) : Memory :=
  match a with
  | 0 => m
  | k + 1 => { m with objects := m.objects.set k none }

/-- Record an event. -/
def Memory.emit (m : Memory) (e : Event) : Memory :=
  { m with events := e :: m.events }

/-- The outcome of running a piece of the library on a memory. -/
inductive Result (α : Type) where
  /-- Normal return. -/
  | ok (val : α) (m : Memory)
  /-- An assertion failed; `m` is the memory at that moment. -/
  | assertion_failed (msg : Assertion) (m : Memory)
  /-- A counter was accessed through a pointer to no live object. -/
  | undefined_behavior
  /-- A retry loop was cut off before it completed. -/
  | out_of_fuel
deriving DecidableEq, Repr

/-- Sequencing: run `f` on the value and memory of a normal return. -/
def Result.bind {α β : Type} (r : Result α) (f : α → Memory → Result β) : Result β :=
  match r with
  | .ok v m => f v m
  | .assertion_failed msg m => .assertion_failed msg m
  | .undefined_behavior => .undefined_behavior
  | .out_of_fuel => .out_of_fuel

/-- Stack unwinding past one object: when `r` ends in a failed assertion, the destructor
`cleanup` of the object runs on the memory at the throw, and the failure goes on to the
caller. A destructor that fails in turn ends the execution with its own failure. -/
def Result.unwind {α : Type} (r : Result α) (cleanup : Memory → Result Unit) : Result α :=
  match r with
  | .assertion_failed msg m =>
    match cleanup m with
    | .ok _ m => .assertion_failed msg m
    | .assertion_failed msg2 m => .assertion_failed msg2 m
    | .undefined_behavior => .undefined_behavior
    | .out_of_fuel => .out_of_fuel
  | r => r

/-- Modelled from the spec: the macro `TORCH_INTERNAL_ASSERT_DEBUG_ONLY` of
`c10/util/Exception.h`, which is not among the sources. The spec calls these
"debug-only assertions" that are "fatal in debug builds", while "release builds trust
the invariants and skip checks": with `debug` set a false condition fails with the
message, otherwise nothing happens. -/
def TORCH_INTERNAL_ASSERT_DEBUG_ONLY (debug : Bool) (cond : Bool) (msg : Assertion)
    (m : Memory) : Result Unit :=
  if debug && !cond then .assertion_failed msg m else .ok () m

/-- The template parameter `NullType`: `singleton()` is the pointer that stands for
"no object". -/
structure NullType where
  singleton : Addr
deriving DecidableEq, Repr

/-- The default `detail::intrusive_target_default_null_type`: `singleton()` is `nullptr`. -/
def intrusive_target_default_null_type : NullType := ⟨nullptr⟩

/-! ### Atomic accesses to the two counters -/

/-- The access `target_->refcount_.load()`. -/
def refcount_load (a : Addr) (m : Memory) : Result Nat :=
  match m.load a with
  | none => .undefined_behavior
  | some t => .ok t.refcount_ m

/-- The access `target_->weakcount_.load()`. -/
def weakcount_load (a : Addr) (m : Memory) : Result Nat :=
  match m.load a with
  | none => .undefined_behavior
  | some t => .ok t.weakcount_ m

/-- The update `++target_->refcount_`; the value is the new count. -/
def refcount_inc (a : Addr) (m : Memory) : Result Nat :=
  match m.load a with
  | none => .undefined_behavior
  | some t => .ok (size_t_inc t.refcount_) (m.store a { t with refcount_ := size_t_inc t.refcount_ })

/-- The update `--target_->refcount_`; the value is the new count. -/
def refcount_dec (a : Addr) (m : Memory) : Result Nat :=
  match m.load a with
  | none => .undefined_behavior
  | some t => .ok (size_t_dec t.refcount_) (m.store a { t with refcount_ := size_t_dec t.refcount_ })

/-- The update `++target_->weakcount_`; the value is the new count. -/
def weakcount_inc (a : Addr) (m : Memory) : Result Nat :=
  match m.load a with
  | none => .undefined_behavior
  | some t =>
    .ok (size_t_inc t.weakcount_) (m.store a { t with weakcount_ := size_t_inc t.weakcount_ })

/-- The update `--target_->weakcount_`; the value is the new count. -/
def weakcount_dec (a : Addr) (m : Memory) : Result Nat :=
  match m.load a with
  | none => .undefined_behavior
  | some t =>
    .ok (size_t_dec t.weakcount_) (m.store a { t with weakcount_ := size_t_dec t.weakcount_ })

/-- The call `target_->refcount_.compare_exchange_weak(expected, desired)`. The value is
the returned flag and the new content of `expected`. A weak exchange may fail although
the counter holds `expected`; `spurious` says whether this one does. -/
def refcount_compare_exchange_weak (spurious : Bool) (a : Addr) (expected desired : Nat)
    (m : Memory) : Result (Bool × Nat) :=
  match m.load a with
  | none => .undefined_behavior
  | some t =>
    if t.refcount_ = expected ∧ spurious = false then
      .ok (true, expected) (m.store a { t with refcount_ := desired })
    else .ok (false, t.refcount_) m

/-- The call `target_->release_resources()` (the default override does nothing). -/
def release_resources (a : Addr) (m : Memory) : Result Unit :=
  match m.load a with
  | none => .undefined_behavior
  | some _ => .ok () (m.emit (.release_resources a))

/-- The expression `new TTarget(args...)`: fresh storage whose `intrusive_ptr_target`
constructor sets `refcount_(0), weakcount_(0)`. -/
def new_target (m : Memory) : Result Addr :=
  .ok (m.objects.length + 1) { m with objects := m.objects ++ [some ⟨0, 0⟩] }

/-- The expression `delete target_`: the destructor `~intrusive_ptr_target` with its two
assertions, then the storage is returned. -/
def delete_target (debug : Bool) (a : Addr) (m : Memory) : Result Unit :=
  (refcount_load a m).bind fun r m =>
  (TORCH_INTERNAL_ASSERT_DEBUG_ONLY debug (r == 0) .destruct_with_intrusive_ptr m).bind fun _ m =>
  (weakcount_load a m).bind fun w m =>
  (TORCH_INTERNAL_ASSERT_DEBUG_ONLY debug (w == 0) .destruct_with_weak_intrusive_ptr m).bind
    fun _ m => .ok () ((m.free a).emit (.deallocate a))

/-! ### `intrusive_ptr` -/

/-- The class `intrusive_ptr<TTarget, NullType>`: its only member is `target_`. -/
structure intrusive_ptr where
  target_ : Addr
deriving DecidableEq, Repr

/-- The class `weak_intrusive_ptr<TTarget, NullType>`: its only member is `target_`. -/
structure weak_intrusive_ptr where
  target_ : Addr
deriving DecidableEq, Repr

/-- The private `intrusive_ptr::retain_()`. -/
def intrusive_ptr.retain_ (debug : Bool) (N : NullType) (self : intrusive_ptr) (m : Memory) :
    Result Unit :=
  if self.target_ ≠ N.singleton then
    (refcount_inc self.target_ m).bind fun new_refcount m =>
    TORCH_INTERNAL_ASSERT_DEBUG_ONLY debug (new_refcount != 1) .cannot_increase_refcount m
  else .ok () m

/-- The private `intrusive_ptr::reset_()`; the value is `*this` afterwards. -/
def intrusive_ptr.reset_ (debug : Bool) (N : NullType) (self : intrusive_ptr) (m : Memory) :
    Result intrusive_ptr :=
  if self.target_ ≠ N.singleton then
    (refcount_dec self.target_ m).bind fun r m =>
    if r = 0 then
      (release_resources self.target_ m).bind fun _ m =>
      (weakcount_dec self.target_ m).bind fun w m =>
      if w = 0 then
        (delete_target debug self.target_ m).bind fun _ m => .ok ⟨N.singleton⟩ m
      else .ok ⟨N.singleton⟩ m
    else .ok ⟨N.singleton⟩ m
  else .ok ⟨N.singleton⟩ m

/-- The private constructor `intrusive_ptr(TTarget* target)`: no counter is touched. -/
def intrusive_ptr.mk_raw (target : Addr) : intrusive_ptr := ⟨target⟩

/-- The default constructor `intrusive_ptr()`. -/
def intrusive_ptr.default (N : NullType) : intrusive_ptr := intrusive_ptr.mk_raw N.singleton

/-- The move constructor `intrusive_ptr(intrusive_ptr&& rhs)`: the new pointer and `rhs`
afterwards. -/
def intrusive_ptr.move_ctor (N : NullType) (rhs : intrusive_ptr) : intrusive_ptr × intrusive_ptr :=
  (⟨rhs.target_⟩, ⟨N.singleton⟩)

/-- The copy constructor `intrusive_ptr(const intrusive_ptr& rhs)`. -/
def intrusive_ptr.copy_ctor (debug : Bool) (N : NullType) (rhs : intrusive_ptr) (m : Memory) :
    Result intrusive_ptr :=
  (intrusive_ptr.retain_ debug N ⟨rhs.target_⟩ m).bind fun _ m => .ok ⟨rhs.target_⟩ m

/-- The destructor `~intrusive_ptr()`. -/
def intrusive_ptr.dtor (debug : Bool) (N : NullType) (self : intrusive_ptr) (m : Memory) :
    Result Unit :=
  (intrusive_ptr.reset_ debug N self m).bind fun _ m => .ok () m

/-- The member `swap(intrusive_ptr& rhs)`: `*this` and `rhs` afterwards. -/
def intrusive_ptr.swap (self rhs : intrusive_ptr) : intrusive_ptr × intrusive_ptr :=
  (⟨rhs.target_⟩, ⟨self.target_⟩)

/-- The member `reset()`; the value is `*this` afterwards. -/
def intrusive_ptr.reset (debug : Bool) (N : NullType) (self : intrusive_ptr) (m : Memory) :
    Result intrusive_ptr :=
  intrusive_ptr.reset_ debug N self m

/-- The member `get()`. -/
def intrusive_ptr.get (self : intrusive_ptr) : Addr := self.target_

/-- The member `defined()`. -/
def intrusive_ptr.defined (N : NullType) (self : intrusive_ptr) : Bool :=
  self.target_ != N.singleton

/-- The member `use_count()`. -/
def intrusive_ptr.use_count (N : NullType) (self : intrusive_ptr) (m : Memory) : Result Nat :=
  if self.target_ = N.singleton then .ok 0 m else refcount_load self.target_ m

/-- The member `weak_use_count()`. -/
def intrusive_ptr.weak_use_count (N : NullType) (self : intrusive_ptr) (m : Memory) :
    Result Nat :=
  if self.target_ = N.singleton then .ok 0 m else weakcount_load self.target_ m

/-- The member `unique()`. -/
def intrusive_ptr.unique (N : NullType) (self : intrusive_ptr) (m : Memory) : Result Bool :=
  (intrusive_ptr.use_count N self m).bind fun c m => .ok (c == 1) m

/-- The member `release()`: the returned raw pointer and `*this` afterwards. -/
def intrusive_ptr.release (N : NullType) (self : intrusive_ptr) : Addr × intrusive_ptr :=
  (self.target_, ⟨N.singleton⟩)

/-- The static `intrusive_ptr::reclaim(TTarget* owning_ptr)`. -/
def intrusive_ptr.reclaim (owning_ptr : Addr) : intrusive_ptr := intrusive_ptr.mk_raw owning_ptr

/-- The static `intrusive_ptr::make(args...)`. -/
def intrusive_ptr.make (m : Memory) : Result intrusive_ptr :=
  (new_target m).bind fun a m =>
  (refcount_inc a m).bind fun _ m =>
  (weakcount_inc a m).bind fun _ m => .ok (intrusive_ptr.mk_raw a) m

/-- The free function `make_intrusive<TTarget, NullType>(args...)`. -/
def make_intrusive (m : Memory) : Result intrusive_ptr := intrusive_ptr.make m

/-! ### `weak_intrusive_ptr` -/

/-- The private `weak_intrusive_ptr::retain_()`. -/
def weak_intrusive_ptr.retain_ (debug : Bool) (N : NullType) (self : weak_intrusive_ptr)
    (m : Memory) : Result Unit :=
  if self.target_ ≠ N.singleton then
    (weakcount_inc self.target_ m).bind fun new_weakcount m =>
    TORCH_INTERNAL_ASSERT_DEBUG_ONLY debug (new_weakcount != 1) .cannot_increase_weakcount m
  else .ok () m

/-- The private `weak_intrusive_ptr::reset_()`; the value is `*this` afterwards. -/
def weak_intrusive_ptr.reset_ (debug : Bool) (N : NullType) (self : weak_intrusive_ptr)
    (m : Memory) : Result weak_intrusive_ptr :=
  if self.target_ ≠ N.singleton then
    (weakcount_dec self.target_ m).bind fun w m =>
    if w = 0 then
      (delete_target debug self.target_ m).bind fun _ m => .ok ⟨N.singleton⟩ m
    else .ok ⟨N.singleton⟩ m
  else .ok ⟨N.singleton⟩ m

/-- The move constructor `weak_intrusive_ptr(weak_intrusive_ptr&& rhs)`: the new pointer
and `rhs` afterwards. -/
def weak_intrusive_ptr.move_ctor (N : NullType) (rhs : weak_intrusive_ptr) :
    weak_intrusive_ptr × weak_intrusive_ptr :=
  (⟨rhs.target_⟩, ⟨N.singleton⟩)

/-- The copy constructor `weak_intrusive_ptr(const weak_intrusive_ptr& rhs)`. -/
def weak_intrusive_ptr.copy_ctor (debug : Bool) (N : NullType) (rhs : weak_intrusive_ptr)
    (m : Memory) : Result weak_intrusive_ptr :=
  (weak_intrusive_ptr.retain_ debug N ⟨rhs.target_⟩ m).bind fun _ m => .ok ⟨rhs.target_⟩ m

/-- The destructor `~weak_intrusive_ptr()`. -/
def weak_intrusive_ptr.dtor (debug : Bool) (N : NullType) (self : weak_intrusive_ptr)
    (m : Memory) : Result Unit :=
  (weak_intrusive_ptr.reset_ debug N self m).bind fun _ m => .ok () m

/-- The constructor `weak_intrusive_ptr(const intrusive_ptr& ptr)`. It delegates to
`weak_intrusive_ptr(ptr.get())` and then calls `retain_()` in its body: the object counts
as constructed once the delegate returns, so when `retain_()` throws, the destructor of
the new weak pointer runs before the failure goes on to the caller. -/
def weak_intrusive_ptr.from_strong (debug : Bool) (N : NullType) (ptr : intrusive_ptr)
    (m : Memory) : Result weak_intrusive_ptr :=
  ((weak_intrusive_ptr.retain_ debug N ⟨ptr.get⟩ m).unwind
    (weak_intrusive_ptr.dtor debug N ⟨ptr.get⟩)).bind fun _ m => .ok ⟨ptr.get⟩ m

/-- The member `swap(weak_intrusive_ptr& rhs)`: `*this` and `rhs` afterwards. -/
def weak_intrusive_ptr.swap (self rhs : weak_intrusive_ptr) :
    weak_intrusive_ptr × weak_intrusive_ptr :=
  (⟨rhs.target_⟩, ⟨self.target_⟩)

/-- The member `reset()`; the value is `*this` afterwards. -/
def weak_intrusive_ptr.reset (debug : Bool) (N : NullType) (self : weak_intrusive_ptr)
    (m : Memory) : Result weak_intrusive_ptr :=
  weak_intrusive_ptr.reset_ debug N self m

/-- The member `use_count()`: the refcount, not the weakcount. -/
def weak_intrusive_ptr.use_count (N : NullType) (self : weak_intrusive_ptr) (m : Memory) :
    Result Nat :=
  if self.target_ = N.singleton then .ok 0 m else refcount_load self.target_ m

/-- The member `weak_use_count()`. -/
def weak_intrusive_ptr.weak_use_count (N : NullType) (self : weak_intrusive_ptr) (m : Memory) :
    Result Nat :=
  if self.target_ = N.singleton then .ok 0 m else weakcount_load self.target_ m

/-- The member `expired()`. -/
def weak_intrusive_ptr.expired (N : NullType) (self : weak_intrusive_ptr) (m : Memory) :
    Result Bool :=
  (weak_intrusive_ptr.use_count N self m).bind fun c m => .ok (c == 0) m

/-- The `do { ... } while (!compare_exchange_weak(refcount, refcount + 1))` loop of
`lock()`, entered with the local variable `refcount`. Each entry of `oracle` decides
whether the next exchange fails spuriously; the loop is cut off when the oracle is used
up. -/
def weak_intrusive_ptr.lock_loop (N : NullType) (self : weak_intrusive_ptr) :
    List Bool → Nat → Memory → Result intrusive_ptr
  | oracle, refcount, m =>
    if refcount = 0 then .ok (intrusive_ptr.mk_raw N.singleton) m
    else
      match oracle with
      | [] => .out_of_fuel
      | spurious :: rest =>
        (refcount_compare_exchange_weak spurious self.target_ refcount
            ((refcount + 1) % 2 ^ 64) m).bind fun r m =>
          if r.1 then .ok (intrusive_ptr.mk_raw self.target_) m
          else weak_intrusive_ptr.lock_loop N self rest r.2 m

/-- The member `lock()`. -/
def weak_intrusive_ptr.lock (N : NullType) (self : weak_intrusive_ptr) (oracle : List Bool)
    (m : Memory) : Result intrusive_ptr :=
  (refcount_load self.target_ m).bind fun refcount m =>
  weak_intrusive_ptr.lock_loop N self oracle refcount m

/-- The member `release()`: the returned raw pointer and `*this` afterwards. -/
def weak_intrusive_ptr.release (N : NullType) (self : weak_intrusive_ptr) :
    Addr × weak_intrusive_ptr :=
  (self.target_, ⟨N.singleton⟩)

/-- The static `weak_intrusive_ptr::reclaim(TTarget* owning_weak_ptr)`. -/
def weak_intrusive_ptr.reclaim (debug : Bool) (N : NullType) (owning_weak_ptr : Addr)
    (m : Memory) : Result weak_intrusive_ptr :=
  let cond : Result Bool :=
    if owning_weak_ptr = N.singleton then .ok true m
    else
      (weakcount_load owning_weak_ptr m).bind fun w m =>
      if w > 1 then .ok true m
      else
        (refcount_load owning_weak_ptr m).bind fun r m =>
        if r = 0 then (weakcount_load owning_weak_ptr m).bind fun w m => .ok (decide (w > 0)) m
        else .ok false m
  if debug then
    cond.bind fun c m =>
    (TORCH_INTERNAL_ASSERT_DEBUG_ONLY debug c .weak_reclaim_not_released m).bind fun _ m =>
    .ok ⟨owning_weak_ptr⟩ m
  else .ok ⟨owning_weak_ptr⟩ m

/-! ### Constructors and assignment of `intrusive_ptr_target` -/

/-- The constructor `intrusive_ptr_target() : refcount_(0), weakcount_(0)`. -/
def intrusive_ptr_target.default_ctor : intrusive_ptr_target := ⟨0, 0⟩

/-- The copy constructor `intrusive_ptr_target(const intrusive_ptr_target& other)`, which
delegates to the default constructor: the new object, and `other` afterwards. -/
def intrusive_ptr_target.copy_ctor (other : intrusive_ptr_target) :
    intrusive_ptr_target × intrusive_ptr_target :=
  (intrusive_ptr_target.default_ctor, other)

/-- The move constructor `intrusive_ptr_target(intrusive_ptr_target&& other)`, which
delegates to the default constructor: the new object, and `other` afterwards. -/
def intrusive_ptr_target.move_ctor (other : intrusive_ptr_target) :
    intrusive_ptr_target × intrusive_ptr_target :=
  (intrusive_ptr_target.default_ctor, other)

/-- The assignment `operator=(const intrusive_ptr_target& other) { return *this; }`:
`*this` and `other` afterwards. -/
def intrusive_ptr_target.copy_assign (self other : intrusive_ptr_target) :
    intrusive_ptr_target × intrusive_ptr_target :=
  (self, other)

/-- The assignment `operator=(intrusive_ptr_target&& other) { return *this; }`:
`*this` and `other` afterwards. -/
def intrusive_ptr_target.move_assign (self other : intrusive_ptr_target) :
    intrusive_ptr_target × intrusive_ptr_target :=
  (self, other)

/-! ### More of `intrusive_ptr`, and the raw interop layer -/

/-- The free `operator==` on two strong pointers: `lhs.get() == rhs.get()`. -/
def intrusive_ptr.operator_eq (lhs rhs : intrusive_ptr) : Bool :=
  lhs.get == rhs.get

/-- The static `intrusive_ptr::unsafe_reclaim_from_nonowning(TTarget* raw_ptr)`. The
asserted condition `raw_ptr == NullType::singleton() || raw_ptr->refcount_.load() > 0`
is evaluated in a debug build only. -/
def intrusive_ptr.unsafe_reclaim_from_nonowning (debug : Bool) (N : NullType) (raw_ptr : Addr)
    (m : Memory) : Result intrusive_ptr :=
  let cond : Result Bool :=
    if raw_ptr = N.singleton then .ok true m
    else (refcount_load raw_ptr m).bind fun r m => .ok (decide (r > 0)) m
  let checked : Result Unit :=
    if debug then
      cond.bind fun c m => TORCH_INTERNAL_ASSERT_DEBUG_ONLY debug c .reclaim_not_owned m
    else .ok () m
  checked.bind fun _ m =>
  (intrusive_ptr.retain_ debug N (intrusive_ptr.reclaim raw_ptr) m).bind fun _ m =>
  .ok (intrusive_ptr.reclaim raw_ptr) m

/-- The function `raw::intrusive_ptr::incref(intrusive_ptr_target* self)`:
`if (self) { ++self->refcount_; }`. -/
def raw.intrusive_ptr.incref (self : Addr) (m : Memory) : Result Unit :=
  if self ≠ nullptr then (refcount_inc self m).bind fun _ m => .ok () m
  else .ok () m

/-- The typed pointer path that `raw::intrusive_ptr::incref(p)` stands for, in the words
of the specification: copy-construct a strong pointer from a strong pointer that holds
`p`, and release the copy, so that the destructor of the copy has no effect. The raw
layer works on `intrusive_ptr<intrusive_ptr_target>`, whose null type is the default
one. -/
def typed_incref (debug : Bool) (p : Addr) (m : Memory) : Result Unit :=
  (intrusive_ptr.copy_ctor debug intrusive_target_default_null_type ⟨p⟩ m).bind fun copy m =>
  intrusive_ptr.dtor debug intrusive_target_default_null_type
    (copy.release intrusive_target_default_null_type).2 m

/-- The function `raw::weak_intrusive_ptr::lock(T* self)`: `reclaim`, `lock()`, then
`wptr.release()` and `return ptr.release()`. At the end of the scope the destructors of
the two locals run, `ptr` first; both hold the sentinel by then. -/
def raw.weak_intrusive_ptr.lock (debug : Bool) (self : Addr) (oracle : List Bool)
    (m : Memory) : Result Addr :=
  (weak_intrusive_ptr.reclaim debug intrusive_target_default_null_type self m).bind
    fun wptr m =>
  (wptr.lock intrusive_target_default_null_type oracle m).bind fun ptr m =>
  (intrusive_ptr.dtor debug intrusive_target_default_null_type
      (ptr.release intrusive_target_default_null_type).2 m).bind fun _ m =>
  (weak_intrusive_ptr.dtor debug intrusive_target_default_null_type
      (wptr.release intrusive_target_default_null_type).2 m).bind fun _ m =>
  .ok (ptr.release intrusive_target_default_null_type).1 m

/-- The memory an execution ends with: that of a normal return or of a failed assertion. -/
def Result.final_memory {α : Type} : Result α → Option Memory
  | .ok _ m => some m
  | .assertion_failed _ m => some m
  | .undefined_behavior => none
  | .out_of_fuel => none

/-- The function `raw::intrusive_ptr::make_weak(T* self)`: `reclaim`, the constructor of
a weak pointer from the strong one, `ptr.release()` and `return wptr.release()`. The
constructor is the only step that can throw; it cleans up the weak pointer itself, and
`ptr` holds `self` at that point, so the destructor of `ptr` runs next. At the normal
end of the scope the destructors of the two locals run, `wptr` first; both hold the
sentinel by then. -/
def raw.intrusive_ptr.make_weak (debug : Bool) (self : Addr) (m : Memory) : Result Addr :=
  ((weak_intrusive_ptr.from_strong debug intrusive_target_default_null_type
      (intrusive_ptr.reclaim self) m).unwind
    (intrusive_ptr.dtor debug intrusive_target_default_null_type
      (intrusive_ptr.reclaim self))).bind fun wptr m =>
  (weak_intrusive_ptr.dtor debug intrusive_target_default_null_type
      (wptr.release intrusive_target_default_null_type).2 m).bind fun _ m =>
  (intrusive_ptr.dtor debug intrusive_target_default_null_type
      ((intrusive_ptr.reclaim self).release intrusive_target_default_null_type).2 m).bind
    fun _ m =>
  .ok (wptr.release intrusive_target_default_null_type).1 m

/-- The conversion of a `size_t` value to the return type `uint32_t`. -/
def to_uint32_t (x : Nat) : Nat := x % 2 ^ 32

/-- The function `raw::intrusive_ptr::use_count(intrusive_ptr_target* self)`, whose
return type is `uint32_t`: `reclaim`, `auto r = ptr.use_count()`, `ptr.release()`,
`return r`; the destructor of `ptr` runs at the end of the scope. -/
def raw.intrusive_ptr.use_count (debug : Bool) (self : Addr) (m : Memory) : Result Nat :=
  ((intrusive_ptr.reclaim self).use_count intrusive_target_default_null_type m).bind
    fun r m =>
  (intrusive_ptr.dtor debug intrusive_target_default_null_type
      ((intrusive_ptr.reclaim self).release intrusive_target_default_null_type).2 m).bind
    fun _ m =>
  .ok (to_uint32_t r) m

/-- The function `raw::weak_intrusive_ptr::use_count(weak_intrusive_ptr_target* self)`,
whose return type is `uint32_t`: `reclaim`, `auto r = wptr.use_count()`,
`wptr.release()`, `return r`; the destructor of `wptr` runs at the end of the scope. -/
def raw.weak_intrusive_ptr.use_count (debug : Bool) (self : Addr) (m : Memory) :
    Result Nat :=
  (weak_intrusive_ptr.reclaim debug intrusive_target_default_null_type self m).bind
    fun wptr m =>
  (wptr.use_count intrusive_target_default_null_type m).bind fun r m =>
  (weak_intrusive_ptr.dtor debug intrusive_target_default_null_type
      (wptr.release intrusive_target_default_null_type).2 m).bind fun _ m =>
  .ok (to_uint32_t r) m

/-- Whether an execution ended in a failed assertion. -/
def Result.is_assertion_failed {α : Type} : Result α → Bool
  | .assertion_failed _ _ => true
  | _ => false

/-! ### Programs over the two pointer types

A client program owns pointer objects and calls their member functions one after the
other. The pointer objects that are alive are kept in `Pointers`; an `Op` is one
statement of the client. -/

/-- The pointer objects of a client program that are alive, and the owning raw pointers
it got from `release()` and has not yet given back to `reclaim()`. -/
structure Pointers where
  strong : List intrusive_ptr
  weak : List weak_intrusive_ptr
  raw_strong : List Addr
  raw_weak : List Addr
deriving DecidableEq, Repr

/-- One statement of a client program. Indices name pointer objects by their position
in `Pointers`; a newly constructed pointer object is appended, a destroyed one removed. -/
inductive Op where
  /-- The statement `intrusive_ptr q(strong[i]);` -/
  | copy (i : Nat)
  /-- The statement `intrusive_ptr q(std::move(strong[i]));` -/
  | move (i : Nat)
  /-- The statement `strong[i] = strong[j];` -/
  | copy_assign (i j : Nat)
  /-- The statement `strong[i] = std::move(strong[j]);` -/
  | move_assign (i j : Nat)
  /-- The statement `strong[i].reset();` -/
  | reset (i : Nat)
  /-- The end of the lifetime of `strong[i]`. -/
  | destroy (i : Nat)
  /-- The statement `raw = strong[i].release();` -/
  | release (i : Nat)
  /-- The statement `intrusive_ptr q = intrusive_ptr::reclaim(raw_strong[k]);` -/
  | reclaim (k : Nat)
  /-- The statement `weak_intrusive_ptr w(strong[i]);` -/
  | weak_from_strong (i : Nat)
  /-- The statement `weak_intrusive_ptr w(weak[i]);` -/
  | weak_copy (i : Nat)
  /-- The statement `weak_intrusive_ptr w(std::move(weak[i]));` -/
  | weak_move (i : Nat)
  /-- The statement `weak[i] = weak[j];` -/
  | weak_copy_assign (i j : Nat)
  /-- The statement `weak[i] = std::move(weak[j]);` -/
  | weak_move_assign (i j : Nat)
  /-- The statement `weak[i].reset();` -/
  | weak_reset (i : Nat)
  /-- The end of the lifetime of `weak[i]`. -/
  | weak_destroy (i : Nat)
  /-- The statement `raw = weak[i].release();` -/
  | weak_release (i : Nat)
  /-- The statement `weak_intrusive_ptr w = weak_intrusive_ptr::reclaim(raw_weak[k]);` -/
  | weak_reclaim (k : Nat)
  /-- The statement `intrusive_ptr q = weak[i].lock();` with the oracle of its exchanges. -/
  | lock (i : Nat) (oracle : List Bool)
deriving DecidableEq, Repr

/-- Run one statement. Naming a pointer object that does not exist is not a program; it
is reported as `undefined_behavior`. The bodies of the two `operator=` templates are
spelled out: `tmp = rhs` (or `tmp = std::move(rhs)`), `swap(tmp)`, then `~tmp`. -/
def step (debug : Bool) (N : NullType) (op : Op) (e : Pointers) (m : Memory) :
    Result Pointers :=
  match op with
  | .copy i =>
    match e.strong[i]? with
    | none => .undefined_behavior
    | some rhs =>
      (intrusive_ptr.copy_ctor debug N rhs m).bind fun q m =>
      .ok { e with strong := e.strong ++ [q] } m
  | .move i =>
    match e.strong[i]? with
    | none => .undefined_behavior
    | some rhs =>
      .ok { e with strong := e.strong.set i (intrusive_ptr.move_ctor N rhs).2
                              ++ [(intrusive_ptr.move_ctor N rhs).1] } m
  | .copy_assign i j =>
    match e.strong[i]?, e.strong[j]? with
    | some self, some rhs =>
      (intrusive_ptr.copy_ctor debug N rhs m).bind fun tmp m =>
      (intrusive_ptr.dtor debug N (intrusive_ptr.swap self tmp).2 m).bind fun _ m =>
      .ok { e with strong := e.strong.set i (intrusive_ptr.swap self tmp).1 } m
    | _, _ => .undefined_behavior
  | .move_assign i j =>
    match e.strong[j]? with
    | none => .undefined_behavior
    | some rhs =>
      let tmp := (intrusive_ptr.move_ctor N rhs).1
      let l := e.strong.set j (intrusive_ptr.move_ctor N rhs).2
      match l[i]? with
      | none => .undefined_behavior
      | some self =>
        (intrusive_ptr.dtor debug N (intrusive_ptr.swap self tmp).2 m).bind fun _ m =>
        .ok { e with strong := l.set i (intrusive_ptr.swap self tmp).1 } m
  | .reset i =>
    match e.strong[i]? with
    | none => .undefined_behavior
    | some self =>
      (intrusive_ptr.reset debug N self m).bind fun self m =>
      .ok { e with strong := e.strong.set i self } m
  | .destroy i =>
    match e.strong[i]? with
    | none => .undefined_behavior
    | some self =>
      (intrusive_ptr.dtor debug N self m).bind fun _ m =>
      .ok { e with strong := e.strong.eraseIdx i } m
  | .release i =>
    match e.strong[i]? with
    | none => .undefined_behavior
    | some self =>
      .ok { e with strong := e.strong.set i (intrusive_ptr.release N self).2,
                   raw_strong := e.raw_strong ++ [(intrusive_ptr.release N self).1] } m
  | .reclaim k =>
    match e.raw_strong[k]? with
    | none => .undefined_behavior
    | some raw =>
      .ok { e with strong := e.strong ++ [intrusive_ptr.reclaim raw],
                   raw_strong := e.raw_strong.eraseIdx k } m
  | .weak_from_strong i =>
    match e.strong[i]? with
    | none => .undefined_behavior
    | some ptr =>
      (weak_intrusive_ptr.from_strong debug N ptr m).bind fun w m =>
      .ok { e with weak := e.weak ++ [w] } m
  | .weak_copy i =>
    match e.weak[i]? with
    | none => .undefined_behavior
    | some rhs =>
      (weak_intrusive_ptr.copy_ctor debug N rhs m).bind fun w m =>
      .ok { e with weak := e.weak ++ [w] } m
  | .weak_move i =>
    match e.weak[i]? with
    | none => .undefined_behavior
    | some rhs =>
      .ok { e with weak := e.weak.set i (weak_intrusive_ptr.move_ctor N rhs).2
                            ++ [(weak_intrusive_ptr.move_ctor N rhs).1] } m
  | .weak_copy_assign i j =>
    match e.weak[i]?, e.weak[j]? with
    | some self, some rhs =>
      (weak_intrusive_ptr.copy_ctor debug N rhs m).bind fun tmp m =>
      (weak_intrusive_ptr.dtor debug N (weak_intrusive_ptr.swap self tmp).2 m).bind fun _ m =>
      .ok { e with weak := e.weak.set i (weak_intrusive_ptr.swap self tmp).1 } m
    | _, _ => .undefined_behavior
  | .weak_move_assign i j =>
    match e.weak[j]? with
    | none => .undefined_behavior
    | some rhs =>
      let tmp := (weak_intrusive_ptr.move_ctor N rhs).1
      let l := e.weak.set j (weak_intrusive_ptr.move_ctor N rhs).2
      match l[i]? with
      | none => .undefined_behavior
      | some self =>
        (weak_intrusive_ptr.dtor debug N (weak_intrusive_ptr.swap self tmp).2 m).bind fun _ m =>
        .ok { e with weak := l.set i (weak_intrusive_ptr.swap self tmp).1 } m
  | .weak_reset i =>
    match e.weak[i]? with
    | none => .undefined_behavior
    | some self =>
      (weak_intrusive_ptr.reset debug N self m).bind fun self m =>
      .ok { e with weak := e.weak.set i self } m
  | .weak_destroy i =>
    match e.weak[i]? with
    | none => .undefined_behavior
    | some self =>
      (weak_intrusive_ptr.dtor debug N self m).bind fun _ m =>
      .ok { e with weak := e.weak.eraseIdx i } m
  | .weak_release i =>
    match e.weak[i]? with
    | none => .undefined_behavior
    | some self =>
      .ok { e with weak := e.weak.set i (weak_intrusive_ptr.release N self).2,
                   raw_weak := e.raw_weak ++ [(weak_intrusive_ptr.release N self).1] } m
  | .weak_reclaim k =>
    match e.raw_weak[k]? with
    | none => .undefined_behavior
    | some raw =>
      (weak_intrusive_ptr.reclaim debug N raw m).bind fun w m =>
      .ok { e with weak := e.weak ++ [w], raw_weak := e.raw_weak.eraseIdx k } m
  | .lock i oracle =>
    match e.weak[i]? with
    | none => .undefined_behavior
    | some self =>
      (weak_intrusive_ptr.lock N self oracle m).bind fun q m =>
      .ok { e with strong := e.strong ++ [q] } m

/-- Run the statements of a program in order. -/
def run (debug : Bool) (N : NullType) : List Op → Pointers → Memory → Result Pointers
  | [], e, m => .ok e m
  | op :: ops, e, m => (step debug N op e m).bind fun e m => run debug N ops e m

/-- The program start the claims speak of: `auto p = make_intrusive<T>(...)` and no other
pointer object. -/
def start (m : Memory) : Result Pointers :=
  (make_intrusive m).bind fun p m => .ok ⟨[p], [], [], []⟩ m

/-- A client program: `auto p = make_intrusive<T>(...)`, then the statements `ops`. -/
def program (debug : Bool) (N : NullType) (ops : List Op) (m : Memory) : Result Pointers :=
  (start m).bind fun e m => run debug N ops e m

/-- The statements of property P1: copy and move construction, copy and move assignment,
`reset()` and destruction of strong pointers. -/
def Op.is_strong_lifecycle : Op → Bool
  | .copy _ => true
  | .move _ => true
  | .copy_assign _ _ => true
  | .move_assign _ _ => true
  | .reset _ => true
  | .destroy _ => true
  | _ => false

/-- The number of strong pointer objects that hold the target at `a`. -/
def strong_holders (a : Addr) (l : List intrusive_ptr) : Nat :=
  l.countP fun p => decide (p.target_ = a)

/-- The number of weak pointer objects that hold the target at `a`. -/
def weak_holders (a : Addr) (l : List weak_intrusive_ptr) : Nat :=
  l.countP fun p => decide (p.target_ = a)

/-- The number of owning raw pointers in `l` that point to the target at `a`. -/
def raw_holders (a : Addr) (l : List Addr) : Nat :=
  l.countP fun r => decide (r = a)

/-- The strong references to the target at `a` that a program holds: its strong pointer
objects, and the raw pointers it got from `intrusive_ptr::release()`. -/
def strong_refs (a : Addr) (e : Pointers) : Nat :=
  strong_holders a e.strong + raw_holders a e.raw_strong

/-- The weak references to the target at `a` that a program holds: its weak pointer
objects, and the raw pointers it got from `weak_intrusive_ptr::release()`. -/
def weak_refs (a : Addr) (e : Pointers) : Nat :=
  weak_holders a e.weak + raw_holders a e.raw_weak

/-- The number of pointers (objects and owning raw pointers) a program holds. -/
def population (e : Pointers) : Nat :=
  e.strong.length + e.weak.length + e.raw_strong.length + e.raw_weak.length

/-! ### Vocabulary of the statements -/

/-- The memories `m` and `m'` hold the same objects at every address but `a`. -/
def same_elsewhere (a : Addr) (m m' : Memory) : Prop :=
  ∀ b, b ≠ a → m'.load b = m.load b

/-- The scheme of Note [Weak references for intrusive refcounting] for the target at `a`,
given that there are `S` strong and `W` weak references to it and that `ev0` are the
events from before the target was made. Either the target is allocated, its refcount is
`S`, its weakcount is `W` plus one if `S > 0`, some reference exists, and
`release_resources` has been called (once) exactly if `S = 0`; or there is no reference
left and the target has been deallocated, after its one call of `release_resources`. -/
def accounted (a : Addr) (ev0 : List Event) (S W : Nat) (m : Memory) : Prop :=
  (m.load a = some ⟨S, W + (if 0 < S then 1 else 0)⟩ ∧ 0 < S + W ∧
      m.events = (if S = 0 then [Event.release_resources a] else []) ++ ev0) ∨
  (m.load a = none ∧ S = 0 ∧ W = 0 ∧
      m.events = Event.deallocate a :: Event.release_resources a :: ev0)

/-- The invariant of a program whose pointers all come from one `make_intrusive`: every
pointer holds that target or the sentinel, and the target is `accounted` for the
references the program holds. -/
structure Inv (N : NullType) (a : Addr) (ev0 : List Event) (e : Pointers) (m : Memory) :
    Prop where
  strong_ok : ∀ p ∈ e.strong, p.target_ = a ∨ p.target_ = N.singleton
  weak_ok : ∀ p ∈ e.weak, p.target_ = a ∨ p.target_ = N.singleton
  raw_strong_ok : ∀ r ∈ e.raw_strong, r = a ∨ r = N.singleton
  raw_weak_ok : ∀ r ∈ e.raw_weak, r = a ∨ r = N.singleton
  acc : accounted a ev0 (strong_refs a e) (weak_refs a e) m

/-- What every statement keeps: the invariant, with a population that grew by one pointer at
most and a number of strong references that fell by one at most and did not leave zero. -/
def Kept (N : NullType) (a : Addr) (ev0 : List Event) (e e' : Pointers) (m' : Memory) : Prop :=
  Inv N a ev0 e' m' ∧ population e' ≤ population e + 1 ∧
    strong_refs a e ≤ strong_refs a e' + 1 ∧ (strong_refs a e = 0 → strong_refs a e' = 0)

/-- During a step from memory `m` to memory `m2` the function `release_resources()` was
called on the target at `a`: the events of `m2` are those of `m`, then that call, then
possibly the deallocation of the target. -/
def called_release_resources (a : Addr) (m m2 : Memory) : Prop :=
  m2.events = .release_resources a :: m.events ∨
  m2.events = .deallocate a :: .release_resources a :: m.events

/-- The client statements "destroy `j` weak pointers that hold the target at `a`", one
after the other. -/
def drop_weak (debug : Bool) (N : NullType) (a : Addr) : Nat → Memory → Result Unit
  | 0, m => .ok () m
  | j + 1, m => (weak_intrusive_ptr.dtor debug N ⟨a⟩ m).bind fun _ m => drop_weak debug N a j m

/-! ### `DispatchKey` and `DispatchKeySet`

A `DispatchKey` is a value of its underlying type `uint8_t`; the member `repr_` of a
`DispatchKeySet` is a `uint64_t`, a natural number reduced modulo `2 ^ 64` where the C++
arithmetic would wrap. The constructors shift by `static_cast<uint8_t>(t) - 1`, which C++
defines for the keys 1 to 64 only; all enumerators lie below 64. -/

/-- The type `enum class DispatchKey : uint8_t`, a key being its numeric value. -/
structure DispatchKey where
  value : Nat
deriving DecidableEq, Repr

/-! The enumerators of `DispatchKey`, numbered in the order of their declaration; the
source repeats the numbers in its comments. -/

def DispatchKey.Undefined : DispatchKey := ⟨0⟩
def DispatchKey.CatchAll : DispatchKey := DispatchKey.Undefined
def DispatchKey.CPU : DispatchKey := ⟨1⟩
def DispatchKey.CUDA : DispatchKey := ⟨2⟩
def DispatchKey.HIP : DispatchKey := ⟨3⟩
def DispatchKey.FPGA : DispatchKey := ⟨4⟩
def DispatchKey.MSNPU : DispatchKey := ⟨5⟩
def DispatchKey.XLA : DispatchKey := ⟨6⟩
def DispatchKey.Vulkan : DispatchKey := ⟨7⟩
def DispatchKey.MKLDNN : DispatchKey := ⟨8⟩
def DispatchKey.OpenGL : DispatchKey := ⟨9⟩
def DispatchKey.OpenCL : DispatchKey := ⟨10⟩
def DispatchKey.IDEEP : DispatchKey := ⟨11⟩
def DispatchKey.QuantizedCPU : DispatchKey := ⟨12⟩
def DispatchKey.QuantizedCUDA : DispatchKey := ⟨13⟩
def DispatchKey.ComplexCPU : DispatchKey := ⟨14⟩
def DispatchKey.ComplexCUDA : DispatchKey := ⟨15⟩
def DispatchKey.CustomRNGKeyId : DispatchKey := ⟨16⟩
def DispatchKey.MkldnnCPU : DispatchKey := ⟨17⟩
def DispatchKey.SparseCPU : DispatchKey := ⟨18⟩
def DispatchKey.SparseCUDA : DispatchKey := ⟨19⟩
def DispatchKey.SparseHIP : DispatchKey := ⟨20⟩
def DispatchKey.PrivateUse1 : DispatchKey := ⟨21⟩
def DispatchKey.PrivateUse2 : DispatchKey := ⟨22⟩
def DispatchKey.PrivateUse3 : DispatchKey := ⟨23⟩
def DispatchKey.Meta : DispatchKey := ⟨24⟩
def DispatchKey.BackendSelect : DispatchKey := ⟨25⟩
def DispatchKey.Named : DispatchKey := ⟨26⟩
def DispatchKey.Autograd : DispatchKey := ⟨27⟩
def DispatchKey.Profiler : DispatchKey := ⟨28⟩
def DispatchKey.Tracer : DispatchKey := ⟨29⟩
def DispatchKey.XLAPreAutograd : DispatchKey := ⟨30⟩
def DispatchKey.Autocast : DispatchKey := ⟨31⟩
def DispatchKey.PrivateUse1_PreAutograd : DispatchKey := ⟨32⟩
def DispatchKey.PrivateUse2_PreAutograd : DispatchKey := ⟨33⟩
def DispatchKey.PrivateUse3_PreAutograd : DispatchKey := ⟨34⟩
def DispatchKey.Batched : DispatchKey := ⟨35⟩
def DispatchKey.TESTING_ONLY_GenericWrapper : DispatchKey := ⟨36⟩
def DispatchKey.TESTING_ONLY_GenericMode : DispatchKey := ⟨37⟩
def DispatchKey.NumDispatchKeys : DispatchKey := ⟨38⟩
def DispatchKey.CPUTensorId : DispatchKey := DispatchKey.CPU
def DispatchKey.CUDATensorId : DispatchKey := DispatchKey.CUDA

/-- The type `DispatchKeySet`: its only member is `repr_`. -/
structure DispatchKeySet where
  repr_ : Nat
deriving DecidableEq, Repr

/-- Modelled from the spec: the macro `TORCH_INTERNAL_ASSERT` of `c10/util/Exception.h`,
which is not among the sources. Unlike its debug-only sibling it is evaluated in every
build; `none` stands for the error it raises on a false condition. -/
def TORCH_INTERNAL_ASSERT (cond : Bool) : Option Unit :=
  if cond then some () else none

/-- Modelled from the spec: the helper `llvm::countLeadingZeros` of
`c10/util/llvmMathExtras.h`, which is not among the sources, on the `k` low bits of `x`:
the number of zero bits from bit `k - 1` downwards before the first set bit. -/
def llvm.countLeadingZeros_below : Nat → Nat → Nat
  | 0, _ => 0
  | k + 1, x => if x.testBit k then 0 else llvm.countLeadingZeros_below k x + 1

/-- Modelled from the spec: `llvm::countLeadingZeros` on a `uint64_t`, not among the
sources. `DispatchKey.h` says of it: higher bit indexes get handled first "because we
count leading zeros when we extract the highest priority dispatch key". It counts the
zero bits above the highest set bit of the 64-bit word, and gives 64 for the word 0. -/
def llvm.countLeadingZeros (x : Nat) : Nat := llvm.countLeadingZeros_below 64 x

/-- The operator `~` on a `uint64_t`. -/
def uint64_not (x : Nat) : Nat := 2 ^ 64 - 1 - x % 2 ^ 64

/-- The constructor `DispatchKeySet()`. -/
def DispatchKeySet.default_ctor : DispatchKeySet := ⟨0⟩

/-- The constructor `DispatchKeySet(FULL)`: `std::numeric_limits<uint64_t>::max()`. -/
def DispatchKeySet.FULL : DispatchKeySet := ⟨2 ^ 64 - 1⟩

/-- The constructor `DispatchKeySet(FULL_AFTER, t)`:
`repr_((1ULL << (static_cast<uint8_t>(t) - 1)) - 1)`. For `Undefined` the C++ shift count
is `-1`; the embedding is meant for the keys from 1 on. -/
def DispatchKeySet.FULL_AFTER (t : DispatchKey) : DispatchKeySet :=
  ⟨((1 <<< (t.value - 1)) % 2 ^ 64 + (2 ^ 64 - 1)) % 2 ^ 64⟩

/-- The constructor `DispatchKeySet(RAW, x)`. -/
def DispatchKeySet.RAW (x : Nat) : DispatchKeySet := ⟨x % 2 ^ 64⟩

/-- The constructor `DispatchKeySet(DispatchKey t)`:
`repr_(t == DispatchKey::Undefined ? 0 : 1ULL << (static_cast<uint8_t>(t) - 1))`. -/
def DispatchKeySet.of_key (t : DispatchKey) : DispatchKeySet :=
  ⟨if t = DispatchKey.Undefined then 0 else (1 <<< (t.value - 1)) % 2 ^ 64⟩

/-- The constructor `DispatchKeySet(std::initializer_list<DispatchKey> ks)`: starting
from the empty set, `repr_ |= DispatchKeySet(k).repr_` for each `k`. -/
def DispatchKeySet.of_list (ks : List DispatchKey) : DispatchKeySet :=
  ⟨ks.foldl (fun repr_ k => repr_ ||| (DispatchKeySet.of_key k).repr_)
    DispatchKeySet.default_ctor.repr_⟩

/-- The member `has(t)`: the assertion `t != DispatchKey::Undefined`, then
`static_cast<bool>(repr_ & DispatchKeySet(t).repr_)`. -/
def DispatchKeySet.has (self : DispatchKeySet) (t : DispatchKey) : Option Bool :=
  (TORCH_INTERNAL_ASSERT (t != DispatchKey.Undefined)).bind fun _ =>
  some ((self.repr_ &&& (DispatchKeySet.of_key t).repr_) != 0)

/-- The member `operator|`: set union. -/
def DispatchKeySet.operator_or (self other : DispatchKeySet) : DispatchKeySet :=
  ⟨self.repr_ ||| other.repr_⟩

/-- The member `operator&`: set intersection. -/
def DispatchKeySet.operator_and (self other : DispatchKeySet) : DispatchKeySet :=
  ⟨self.repr_ &&& other.repr_⟩

/-- The member `operator-`: `repr_ & ~other.repr_`. -/
def DispatchKeySet.operator_sub (self other : DispatchKeySet) : DispatchKeySet :=
  ⟨self.repr_ &&& uint64_not other.repr_⟩

/-- The member `operator==`. -/
def DispatchKeySet.operator_eq (self other : DispatchKeySet) : Bool :=
  self.repr_ == other.repr_

/-- The member `add(t)`: `*this | DispatchKeySet(t)`. -/
def DispatchKeySet.add (self : DispatchKeySet) (t : DispatchKey) : DispatchKeySet :=
  self.operator_or (DispatchKeySet.of_key t)

/-- The member `remove(t)`: `DispatchKeySet(repr_ & ~DispatchKeySet(t).repr_)`. -/
def DispatchKeySet.remove (self : DispatchKeySet) (t : DispatchKey) : DispatchKeySet :=
  ⟨self.repr_ &&& uint64_not (DispatchKeySet.of_key t).repr_⟩

/-- The member `empty()`. -/
def DispatchKeySet.empty (self : DispatchKeySet) : Bool := self.repr_ == 0

/-- The member `raw_repr()`. -/
def DispatchKeySet.raw_repr (self : DispatchKeySet) : Nat := self.repr_

/-- The member `highestPriorityTypeId()`:
`static_cast<DispatchKey>(64 - llvm::countLeadingZeros(repr_))`. -/
def DispatchKeySet.highestPriorityTypeId (self : DispatchKeySet) : DispatchKey :=
  ⟨64 - llvm.countLeadingZeros self.repr_⟩

/-- The function `legacyExtractDispatchKey(s)`. -/
def legacyExtractDispatchKey (s : DispatchKeySet) : DispatchKey := s.highestPriorityTypeId

/-- The function `XLA()`: `DispatchKeySet{DispatchKey::XLA, DispatchKey::XLAPreAutograd}`. -/
def XLA : DispatchKeySet :=
  DispatchKeySet.of_list [DispatchKey.XLA, DispatchKey.XLAPreAutograd]

/-! ### `TensorOptions`

The headers that declare `Device`, `Layout`, `MemoryFormat` and `caffe2::TypeMeta` are
not among the sources. Each type is given the values that `TensorOptions.h` names, and
one more constructor for the values it does not name. `c10::optional<T>` is `Option T`. -/

/-- Modelled from the spec: `enum class DeviceType`, declared in a header that is not
among the sources, with the enumerators `TensorOptions.h` names. -/
inductive DeviceType where
  | CPU | CUDA | MKLDNN | OPENGL | OPENCL | IDEEP | HIP | FPGA | MSNPU | XLA | Vulkan
  /-- An enumerator that `TensorOptions.h` does not name. -/
  | other (tag : Nat)
deriving DecidableEq, Repr

/-- The constant `at::kCPU`. -/
def kCPU : DeviceType := .CPU

/-- The constant `at::kCUDA`. -/
def kCUDA : DeviceType := .CUDA

/-- Modelled from the spec: the class `Device` of `c10/core/Device.h`, which is not among
the sources: a device type and a device index. -/
structure Device where
  type_ : DeviceType
  index_ : Int
deriving DecidableEq, Repr

/-- Modelled from the spec: the constructor of `Device`, which the note in
`TensorOptions.h` gives as `Device(DeviceType, DeviceIndex = -1)`, with the index left
out. -/
def Device.of_type (type : DeviceType) : Device := ⟨type, -1⟩

/-- Modelled from the spec: `enum class Layout` of `c10/core/Layout.h`, which is not
among the sources, with the enumerators `TensorOptions.h` names. -/
inductive Layout where
  | Strided | Sparse | Mkldnn
  /-- An enumerator that `TensorOptions.h` does not name. -/
  | other (tag : Nat)
deriving DecidableEq, Repr

/-- The constant `at::kStrided`. -/
def kStrided : Layout := .Strided

/-- Modelled from the spec: `enum class MemoryFormat` of `c10/core/MemoryFormat.h`,
which is not among the sources. -/
inductive MemoryFormat where
  | Contiguous
  /-- An enumerator that `TensorOptions.h` does not name. -/
  | other (tag : Nat)
deriving DecidableEq, Repr

/-- Modelled from the spec: the class `caffe2::TypeMeta`, which is not among the sources:
the metadata of `float`, or that of another type. -/
inductive caffe2.TypeMeta where
  | Make_float
  /-- The metadata of a type other than `float`. -/
  | other (id : Nat)
deriving DecidableEq, Repr

/-- The class `TensorOptions`, with its data members in the order of their declaration. -/
structure TensorOptions where
  dtype_ : caffe2.TypeMeta
  device_ : Device
  layout_ : Layout
  memory_format_ : MemoryFormat
  requires_grad_ : Bool
  pinned_memory_ : Bool
  has_device_ : Bool
  has_dtype_ : Bool
  has_layout_ : Bool
  has_requires_grad_ : Bool
  has_pinned_memory_ : Bool
  has_memory_format_ : Bool
deriving DecidableEq, Repr

/-- The constructor `TensorOptions()`: the member initializers of the declaration and
those of the constructor. -/
def TensorOptions.default_ctor : TensorOptions :=
  { dtype_ := .Make_float, device_ := Device.of_type kCPU, layout_ := kStrided,
    memory_format_ := .Contiguous, requires_grad_ := false, pinned_memory_ := false,
    has_device_ := false, has_dtype_ := false, has_layout_ := false,
    has_requires_grad_ := false, has_pinned_memory_ := false,
    has_memory_format_ := false }

/-- The private `set_device(c10::optional<Device> device)`. -/
def TensorOptions.set_device (self : TensorOptions) (device : Option Device) :
    TensorOptions :=
  match device with
  | some d => { self with device_ := d, has_device_ := true }
  | none => { self with has_device_ := false }

/-- The private `set_dtype(c10::optional<caffe2::TypeMeta> dtype)`. -/
def TensorOptions.set_dtype (self : TensorOptions) (dtype : Option caffe2.TypeMeta) :
    TensorOptions :=
  match dtype with
  | some d => { self with dtype_ := d, has_dtype_ := true }
  | none => { self with has_dtype_ := false }

/-- The private `set_layout(c10::optional<Layout> layout)`. -/
def TensorOptions.set_layout (self : TensorOptions) (layout : Option Layout) :
    TensorOptions :=
  match layout with
  | some l => { self with layout_ := l, has_layout_ := true }
  | none => { self with has_layout_ := false }

/-- The private `set_requires_grad(c10::optional<bool> requires_grad)`. -/
def TensorOptions.set_requires_grad (self : TensorOptions) (requires_grad : Option Bool) :
    TensorOptions :=
  match requires_grad with
  | some r => { self with requires_grad_ := r, has_requires_grad_ := true }
  | none => { self with has_requires_grad_ := false }

/-- The private `set_pinned_memory(c10::optional<bool> pinned_memory)`. -/
def TensorOptions.set_pinned_memory (self : TensorOptions) (pinned_memory : Option Bool) :
    TensorOptions :=
  match pinned_memory with
  | some p => { self with pinned_memory_ := p, has_pinned_memory_ := true }
  | none => { self with has_pinned_memory_ := false }

/-- The private `set_memory_format(c10::optional<MemoryFormat> memory_format)`. -/
def TensorOptions.set_memory_format (self : TensorOptions)
    (memory_format : Option MemoryFormat) : TensorOptions :=
  match memory_format with
  | some f => { self with memory_format_ := f, has_memory_format_ := true }
  | none => { self with has_memory_format_ := false }

/-- The implicit constructor of a `TensorOptions` from a `Device`. -/
def TensorOptions.of_device (device : Device) : TensorOptions :=
  TensorOptions.default_ctor.set_device (some device)

/-- The implicit constructor of a `TensorOptions` from the arguments of a `Device`
constructor, here a device type: `TensorOptions(Device(args...))`. -/
def TensorOptions.of_device_type (type : DeviceType) : TensorOptions :=
  TensorOptions.of_device (Device.of_type type)

/-- The builder `device(c10::optional<Device> device) const`. -/
def TensorOptions.device (self : TensorOptions) (device : Option Device) : TensorOptions :=
  self.set_device device

/-- The builder `dtype(c10::optional<caffe2::TypeMeta> dtype) const`. -/
def TensorOptions.dtype (self : TensorOptions) (dtype : Option caffe2.TypeMeta) :
    TensorOptions :=
  self.set_dtype dtype

/-- The builder `layout(c10::optional<Layout> layout) const`. -/
def TensorOptions.layout (self : TensorOptions) (layout : Option Layout) : TensorOptions :=
  self.set_layout layout

/-- The builder `requires_grad(c10::optional<bool> requires_grad) const`. -/
def TensorOptions.requires_grad (self : TensorOptions) (requires_grad : Option Bool) :
    TensorOptions :=
  self.set_requires_grad requires_grad

/-- The builder `pinned_memory(c10::optional<bool> pinned_memory) const`. -/
def TensorOptions.pinned_memory (self : TensorOptions) (pinned_memory : Option Bool) :
    TensorOptions :=
  self.set_pinned_memory pinned_memory

/-- The builder `memory_format(c10::optional<MemoryFormat> memory_format) const`. -/
def TensorOptions.memory_format (self : TensorOptions)
    (memory_format : Option MemoryFormat) : TensorOptions :=
  self.set_memory_format memory_format

/-- The member `has_device()`. -/
def TensorOptions.has_device (self : TensorOptions) : Bool := self.has_device_

/-- The member `device_opt()`. -/
def TensorOptions.device_opt (self : TensorOptions) : Option Device :=
  if self.has_device_ then some self.device_ else none

/-- The member `has_dtype()`. -/
def TensorOptions.has_dtype (self : TensorOptions) : Bool := self.has_dtype_

/-- The member `dtype_opt()`. -/
def TensorOptions.dtype_opt (self : TensorOptions) : Option caffe2.TypeMeta :=
  if self.has_dtype_ then some self.dtype_ else none

/-- The member `has_layout()`. -/
def TensorOptions.has_layout (self : TensorOptions) : Bool := self.has_layout_

/-- The member `layout_opt()`. -/
def TensorOptions.layout_opt (self : TensorOptions) : Option Layout :=
  if self.has_layout_ then some self.layout_ else none

/-- The member `has_requires_grad()`. -/
def TensorOptions.has_requires_grad (self : TensorOptions) : Bool := self.has_requires_grad_

/-- The member `requires_grad_opt()`. -/
def TensorOptions.requires_grad_opt (self : TensorOptions) : Option Bool :=
  if self.has_requires_grad_ then some self.requires_grad_ else none

/-- The member `has_pinned_memory()`. -/
def TensorOptions.has_pinned_memory (self : TensorOptions) : Bool := self.has_pinned_memory_

/-- The member `pinned_memory_opt()`. -/
def TensorOptions.pinned_memory_opt (self : TensorOptions) : Option Bool :=
  if self.has_pinned_memory_ then some self.pinned_memory_ else none

/-- The member `has_memory_format()`. -/
def TensorOptions.has_memory_format (self : TensorOptions) : Bool := self.has_memory_format_

/-- The member `memory_format_opt()`. -/
def TensorOptions.memory_format_opt (self : TensorOptions) : Option MemoryFormat :=
  if self.has_memory_format_ then some self.memory_format_ else none

/-- One statement `if (!r.has_X()) r.set_X(X_opt());` of `merge_in`. -/
def TensorOptions.merge_axis {α : Type} (r : TensorOptions) (has_X : TensorOptions → Bool)
    (set_X : TensorOptions → Option α → TensorOptions) (X_opt : Option α) : TensorOptions :=
  if !has_X r then set_X r X_opt else r

/-- The member `merge_in(TensorOptions options) const`. -/
def TensorOptions.merge_in (self options : TensorOptions) : TensorOptions :=
  let r := options
  let r := r.merge_axis TensorOptions.has_device TensorOptions.set_device self.device_opt
  let r := r.merge_axis TensorOptions.has_dtype TensorOptions.set_dtype self.dtype_opt
  let r := r.merge_axis TensorOptions.has_layout TensorOptions.set_layout self.layout_opt
  let r := r.merge_axis TensorOptions.has_requires_grad TensorOptions.set_requires_grad
    self.requires_grad_opt
  let r := r.merge_axis TensorOptions.has_pinned_memory TensorOptions.set_pinned_memory
    self.pinned_memory_opt
  let r := r.merge_axis TensorOptions.has_memory_format TensorOptions.set_memory_format
    self.memory_format_opt
  r

/-- The free function `device(Device device)`: `TensorOptions().device(device)`. -/
def device (device : Device) : TensorOptions :=
  TensorOptions.default_ctor.device (some device)

/-- The free function `requires_grad(bool requires_grad = true)`. -/
def requires_grad (requires_grad : Bool) : TensorOptions :=
  TensorOptions.default_ctor.requires_grad (some requires_grad)

/-! ### Getters of `TensorOptions`, and its dispatch key

The getter `device()` shares its name with the builder `device(optional)`; the getters
carry the suffix `_getter` here. `get_default_dtype`, `scalarTypeToTypeMeta`,
`typeMetaToScalarType` and `isQIntType` are declared in headers that are not among the
sources; they are parameters. -/

/-- The getter `device()`: `has_device_ ? device_ : Device(kCPU)`. -/
def TensorOptions.device_getter (self : TensorOptions) : Device :=
  if self.has_device_ then self.device_ else Device.of_type kCPU

/-- The getter `device_index()`: `device().index()`. -/
def TensorOptions.device_index_getter (self : TensorOptions) : Int :=
  self.device_getter.index_

/-- The getter `dtype()`: `has_dtype_ ? dtype_ : get_default_dtype()`. -/
def TensorOptions.dtype_getter (get_default_dtype : caffe2.TypeMeta) (self : TensorOptions) :
    caffe2.TypeMeta :=
  if self.has_dtype_ then self.dtype_ else get_default_dtype

/-- The getter `layout()`: `has_layout_ ? layout_ : kStrided`. -/
def TensorOptions.layout_getter (self : TensorOptions) : Layout :=
  if self.has_layout_ then self.layout_ else kStrided

/-- The getter `requires_grad()`: `has_requires_grad_ ? requires_grad_ : false`. -/
def TensorOptions.requires_grad_getter (self : TensorOptions) : Bool :=
  if self.has_requires_grad_ then self.requires_grad_ else false

/-- The getter `pinned_memory()`: `has_pinned_memory_ ? pinned_memory_ : false`. -/
def TensorOptions.pinned_memory_getter (self : TensorOptions) : Bool :=
  if self.has_pinned_memory_ then self.pinned_memory_ else false

/-- The member `is_sparse()`: `layout_ == c10::Layout::Sparse`. -/
def TensorOptions.is_sparse (self : TensorOptions) : Bool :=
  self.layout_ == Layout.Sparse

/-- The private legacy overload `set_dtype(c10::optional<ScalarType> dtype)`. -/
def TensorOptions.set_dtype_scalar {ScalarType : Type}
    (scalarTypeToTypeMeta : ScalarType → caffe2.TypeMeta) (self : TensorOptions)
    (dtype : Option ScalarType) : TensorOptions :=
  match dtype with
  | some d => { self with dtype_ := scalarTypeToTypeMeta d, has_dtype_ := true }
  | none => { self with has_dtype_ := false }

/-- The legacy builder `dtype(c10::optional<ScalarType> dtype) const`. -/
def TensorOptions.dtype_scalar {ScalarType : Type}
    (scalarTypeToTypeMeta : ScalarType → caffe2.TypeMeta) (self : TensorOptions)
    (dtype : Option ScalarType) : TensorOptions :=
  self.set_dtype_scalar scalarTypeToTypeMeta dtype

/-- The member template `TensorOptions& dtype<T>()`, which is not `const`: it sets
`dtype_ = caffe2::TypeMeta::Make<T>()` and `has_dtype_ = true` in `*this` and returns a
reference to it. The value is `*this` afterwards; `make_T` is `Make<T>()`. -/
def TensorOptions.dtype_template (self : TensorOptions) (make_T : caffe2.TypeMeta) :
    TensorOptions :=
  { self with dtype_ := make_T, has_dtype_ := true }

/-- The member `computeDispatchKey()`; `none` stands for the error that `AT_ERROR`
raises in the `default:` branches. -/
def TensorOptions.computeDispatchKey {ScalarType : Type} (get_default_dtype : caffe2.TypeMeta)
    (typeMetaToScalarType : caffe2.TypeMeta → ScalarType) (isQIntType : ScalarType → Bool)
    (self : TensorOptions) : Option DispatchKey :=
  match self.layout_getter with
  | .Strided =>
    match self.device_getter.type_ with
    | .CPU =>
      if isQIntType (typeMetaToScalarType (self.dtype_getter get_default_dtype)) then
        some DispatchKey.QuantizedCPU
      else some DispatchKey.CPU
    | .CUDA =>
      if isQIntType (typeMetaToScalarType (self.dtype_getter get_default_dtype)) then
        some DispatchKey.QuantizedCUDA
      else some DispatchKey.CUDA
    | .MKLDNN => some DispatchKey.MKLDNN
    | .OPENGL => some DispatchKey.OpenGL
    | .OPENCL => some DispatchKey.OpenCL
    | .IDEEP => some DispatchKey.IDEEP
    | .HIP => some DispatchKey.HIP
    | .FPGA => some DispatchKey.FPGA
    | .MSNPU => some DispatchKey.MSNPU
    | .XLA => some DispatchKey.XLA
    | .Vulkan => some DispatchKey.Vulkan
    | _ => none
  | .Sparse =>
    match self.device_getter.type_ with
    | .CPU => some DispatchKey.SparseCPU
    | .CUDA => some DispatchKey.SparseCUDA
    | .HIP => some DispatchKey.SparseHIP
    | _ => none
  | .Mkldnn =>
    match self.device_getter.type_ with
    | .CPU => some DispatchKey.MkldnnCPU
    | _ => none
  | _ => none

/-- The member `key_set()`: `DispatchKeySet(computeDispatchKey())`. -/
def TensorOptions.key_set {ScalarType : Type} (get_default_dtype : caffe2.TypeMeta)
    (typeMetaToScalarType : caffe2.TypeMeta → ScalarType) (isQIntType : ScalarType → Bool)
    (self : TensorOptions) : Option DispatchKeySet :=
  (self.computeDispatchKey get_default_dtype typeMetaToScalarType isQIntType).map
    DispatchKeySet.of_key

/-! ### Threads

Every access to the two counters is an operation of `std::atomic<size_t>` with the
default memory order, sequential consistency, so an execution of several threads is an
interleaving of their atomic accesses. A thread is a call of `intrusive_ptr::reset_()` or
of `weak_intrusive_ptr::lock()`, cut at its accesses to the target: one step of a thread
runs its code from one access up to the next. A schedule says which thread makes the
next step, and whether that step, if it is a weak exchange, fails spuriously. -/

/-- Where a thread stands in `intrusive_ptr::reset_()`. -/
inductive ResetPc where
  /-- Before `--target_->refcount_`. -/
  | start
  /-- The decrement returned 0; before `target_->release_resources()`. -/
  | call_release
  /-- Before `--target_->weakcount_`. -/
  | dec_weak
  /-- That decrement returned 0; before `delete target_`. -/
  | call_delete
  /-- After `target_ = NullType::singleton()`. -/
  | done
deriving DecidableEq, Repr

/-- One step of `intrusive_ptr::reset_()` on the pointer `self`: the code from the place
`pc` up to the next access to the target. -/
def intrusive_ptr.reset_step (debug : Bool) (N : NullType) (self : intrusive_ptr)
    (pc : ResetPc) (m : Memory) : Result ResetPc :=
  match pc with
  | .start =>
    if self.target_ ≠ N.singleton then
      (refcount_dec self.target_ m).bind fun r m =>
      .ok (if r = 0 then .call_release else .done) m
    else .ok .done m
  | .call_release =>
    (release_resources self.target_ m).bind fun _ m => .ok .dec_weak m
  | .dec_weak =>
    (weakcount_dec self.target_ m).bind fun w m =>
    .ok (if w = 0 then .call_delete else .done) m
  | .call_delete =>
    (delete_target debug self.target_ m).bind fun _ m => .ok .done m
  | .done => .ok .done m

/-- Where a thread stands in `weak_intrusive_ptr::lock()`. -/
inductive LockPc where
  /-- Before `auto refcount = target_->refcount_.load()`. -/
  | load
  /-- At the head of the body of the `do ... while` loop, with the local `refcount`. -/
  | loop (refcount : Nat)
  /-- After the `return`, with the returned strong pointer. -/
  | returned (q : intrusive_ptr)
deriving DecidableEq, Repr

/-- One step of `weak_intrusive_ptr::lock()` on the pointer `self`: the load, or one
round of the loop (the test of `refcount` and the weak exchange), which `lock_loop` runs
in a row. -/
def weak_intrusive_ptr.lock_step (N : NullType) (self : weak_intrusive_ptr)
    (spurious : Bool) (pc : LockPc) (m : Memory) : Result LockPc :=
  match pc with
  | .load => (refcount_load self.target_ m).bind fun refcount m => .ok (.loop refcount) m
  | .loop refcount =>
    if refcount = 0 then .ok (.returned (intrusive_ptr.mk_raw N.singleton)) m
    else
      (refcount_compare_exchange_weak spurious self.target_ refcount
          ((refcount + 1) % 2 ^ 64) m).bind fun r m =>
        if r.1 then .ok (.returned (intrusive_ptr.mk_raw self.target_)) m
        else .ok (.loop r.2) m
  | .returned q => .ok (.returned q) m

/-- A thread: the call it runs, on which pointer, and where it stands. -/
inductive Thread where
  /-- A thread that drops the strong pointer `self`. -/
  | dropping (self : intrusive_ptr) (pc : ResetPc)
  /-- A thread that calls `lock()` on the weak pointer `self`. -/
  | locking (self : weak_intrusive_ptr) (pc : LockPc)
deriving DecidableEq, Repr

/-- One step of a thread. -/
def Thread.step (debug : Bool) (N : NullType) (spurious : Bool) (t : Thread) (m : Memory) :
    Result Thread :=
  match t with
  | .dropping self pc =>
    (self.reset_step debug N pc m).bind fun pc m => .ok (.dropping self pc) m
  | .locking self pc =>
    (self.lock_step N spurious pc m).bind fun pc m => .ok (.locking self pc) m

/-- Run the threads `ts` along a schedule. An entry that names no thread is skipped; a
thread that has finished stays where it is. -/
def interleave (debug : Bool) (N : NullType) :
    List (Nat × Bool) → List Thread → Memory → Result (List Thread)
  | [], ts, m => .ok ts m
  | (i, spurious) :: rest, ts, m =>
    match ts[i]? with
    | none => interleave debug N rest ts m
    | some t =>
      (t.step debug N spurious m).bind fun t m => interleave debug N rest (ts.set i t) m

/-- The number of steps that the schedule gives to thread `i`. -/
def steps_of (i : Nat) (sched : List (Nat × Bool)) : Nat :=
  sched.countP fun s => s.1 == i

/-- The number of steps a dropping thread still has to make at most. -/
def ResetPc.rank : ResetPc → Nat
  | .start => 4
  | .call_release => 3
  | .dec_weak => 2
  | .call_delete => 1
  | .done => 0

/-- The number of threads that are dropping a strong pointer to `a` and stand at `pc`. -/
def at_pc (a : Addr) (pc : ResetPc) (ts : List Thread) : Nat :=
  ts.countP fun t => decide (t = .dropping ⟨a⟩ pc)

/-- The states that threads reach which all drop a strong pointer to the target at `a`,
when the weak count was `w` and the events were `ev0` at their start. While some thread
has not yet decremented, the strong count is the number of those threads and nothing else
has happened. Afterwards one single thread, the one whose decrement returned 0, is on
its way through `release_resources()`, the decrement of the weak count and, if that
returned 0, `delete`; all other threads have finished. -/
def dropping_state (a : Addr) (ev0 : List Event) (w : Nat) (ts : List Thread)
    (m : Memory) : Prop :=
  (∀ t ∈ ts, ∃ pc, t = Thread.dropping ⟨a⟩ pc) ∧
  ((0 < at_pc a .start ts ∧ at_pc a .call_release ts = 0 ∧ at_pc a .dec_weak ts = 0 ∧
      at_pc a .call_delete ts = 0 ∧
      m.load a = some ⟨at_pc a .start ts, w⟩ ∧ m.events = ev0) ∨
   (at_pc a .start ts = 0 ∧ at_pc a .call_release ts = 1 ∧ at_pc a .dec_weak ts = 0 ∧
      at_pc a .call_delete ts = 0 ∧
      m.load a = some ⟨0, w⟩ ∧ m.events = ev0) ∨
   (at_pc a .start ts = 0 ∧ at_pc a .call_release ts = 0 ∧ at_pc a .dec_weak ts = 1 ∧
      at_pc a .call_delete ts = 0 ∧
      m.load a = some ⟨0, w⟩ ∧ m.events = .release_resources a :: ev0) ∨
   (at_pc a .start ts = 0 ∧ at_pc a .call_release ts = 0 ∧ at_pc a .dec_weak ts = 0 ∧
      at_pc a .call_delete ts = 1 ∧
      m.load a = some ⟨0, 0⟩ ∧ w = 1 ∧ m.events = .release_resources a :: ev0) ∨
   (at_pc a .start ts = 0 ∧ at_pc a .call_release ts = 0 ∧ at_pc a .dec_weak ts = 0 ∧
      at_pc a .call_delete ts = 0 ∧
      ((1 < w ∧ m.load a = some ⟨0, w - 1⟩ ∧ m.events = .release_resources a :: ev0) ∨
       (w = 1 ∧ m.load a = none ∧
        m.events = .deallocate a :: .release_resources a :: ev0))))

/-- The states that two threads reach of which one drops the last strong pointer to the
target at `a` and the other calls `lock()` on a weak pointer to it, when the weak count
was `c0` and the events were `ev0` at their start. `pc1` is the place of the dropping
thread, `pc2` that of the locking thread. The target stays allocated throughout. While
the dropping thread has not decremented, the strong count is 1, or 2 once `lock()` has
returned the target. If its decrement returned 0 the strong count stays 0, `lock()` has
not returned the target, and `release_resources()` is called and the weak count
decremented in turn. If its decrement returned 1, `lock()` had returned the target
before, and nothing is torn down. -/
def racing_state (N : NullType) (a : Addr) (ev0 : List Event) (c0 : Nat) (pc1 : ResetPc)
    (pc2 : LockPc) (m : Memory) : Prop :=
  (∀ q, pc2 = .returned q → q = ⟨a⟩ ∨ q = ⟨N.singleton⟩) ∧
  match pc1 with
  | .start =>
    m.events = ev0 ∧
    ((pc2 = .returned ⟨a⟩ ∧ m.load a = some ⟨2, c0⟩) ∨
     ((pc2 = .load ∨ ∃ r, pc2 = .loop r ∧ r ≠ 0) ∧ m.load a = some ⟨1, c0⟩))
  | .call_release =>
    m.load a = some ⟨0, c0⟩ ∧ m.events = ev0 ∧ pc2 ≠ .returned ⟨a⟩
  | .dec_weak =>
    m.load a = some ⟨0, c0⟩ ∧ m.events = .release_resources a :: ev0 ∧ pc2 ≠ .returned ⟨a⟩
  | .call_delete => False
  | .done =>
    (m.load a = some ⟨1, c0⟩ ∧ m.events = ev0 ∧ pc2 = .returned ⟨a⟩) ∨
    (m.load a = some ⟨0, c0 - 1⟩ ∧ m.events = .release_resources a :: ev0 ∧
      pc2 ≠ .returned ⟨a⟩)

/-! ## Facts about the memory -/

theorem Memory.load_succ (m : Memory) (k : Nat) : m.load (k + 1) = m.objects[k]?.join := rfl

theorem Memory.load_store_same {m : Memory} {a : Addr} {t0 : intrusive_ptr_target}
    (h : m.load a = some t0) (t : intrusive_ptr_target) : (m.store a t).load a = some t := by
  cases a with
  | zero => simp [Memory.load] at h
  | succ k =>
    have hk : k < m.objects.length := by
      by_contra hc
      have h2 : m.objects[k]? = none := List.getElem?_eq_none (by omega)
      rw [Memory.load_succ, h2] at h
      simp at h
    simp [Memory.load, Memory.store, List.getElem?_set, hk]

theorem Memory.load_store_ne (m : Memory) {a b : Addr} (t : intrusive_ptr_target)
    (h : b ≠ a) : (m.store a t).load b = m.load b := by
  cases a with
  | zero => rfl
  | succ k =>
    cases b with
    | zero => rfl
    | succ j =>
      have hjk : k ≠ j := fun hc => h (by rw [hc])
      simp [Memory.load, Memory.store, List.getElem?_set, hjk]

theorem Memory.load_free_same (m : Memory) (a : Addr) : (m.free a).load a = none := by
  cases a with
  | zero => rfl
  | succ k =>
    by_cases hk : k < m.objects.length
    · simp [Memory.load, Memory.free, List.getElem?_set, hk]
    · have h2 : (m.objects.set k none)[k]? = none :=
        List.getElem?_eq_none (by simp; omega)
      simp [Memory.load, Memory.free, h2]

theorem Memory.load_free_ne (m : Memory) {a b : Addr} (h : b ≠ a) :
    (m.free a).load b = m.load b := by
  cases a with
  | zero => rfl
  | succ k =>
    cases b with
    | zero => rfl
    | succ j =>
      have hjk : k ≠ j := fun hc => h (by rw [hc])
      simp [Memory.load, Memory.free, List.getElem?_set, hjk]

@[simp] theorem Memory.load_emit (m : Memory) (e : Event) (a : Addr) :
    (m.emit e).load a = m.load a := by
  cases a <;> rfl

@[simp] theorem Memory.events_store (m : Memory) (a : Addr) (t : intrusive_ptr_target) :
    (m.store a t).events = m.events := by
  cases a <;> rfl

@[simp] theorem Memory.events_free (m : Memory) (a : Addr) : (m.free a).events = m.events := by
  cases a <;> rfl

@[simp] theorem Memory.events_emit (m : Memory) (e : Event) :
    (m.emit e).events = e :: m.events := rfl

theorem Memory.load_of_length_lt (m : Memory) {a : Addr} (h : m.objects.length < a) :
    m.load a = none := by
  cases a with
  | zero => rfl
  | succ k =>
    have h2 : m.objects[k]? = none := List.getElem?_eq_none (by omega)
    simp [Memory.load, h2]

theorem size_t_inc_eq {x : Nat} (h : x + 1 < 2 ^ 64) : size_t_inc x = x + 1 := by
  unfold size_t_inc; omega

theorem size_t_dec_eq {x : Nat} (h0 : 0 < x) (h : x < 2 ^ 64) : size_t_dec x = x - 1 := by
  unfold size_t_dec; omega

theorem Memory.load_new (m : Memory) :
    (Memory.mk (m.objects ++ [some ⟨0, 0⟩]) m.events).load (m.objects.length + 1)
      = some ⟨0, 0⟩ := by
  simp [Memory.load]

theorem Memory.load_new_ne (m : Memory) (x : Option intrusive_ptr_target) {b : Addr}
    (h : b ≠ m.objects.length + 1) :
    (Memory.mk (m.objects ++ [x]) m.events).load b = m.load b := by
  cases b with
  | zero => rfl
  | succ j =>
    have hj : j ≠ m.objects.length := fun hc => h (by rw [hc])
    by_cases hlt : j < m.objects.length
    · simp [Memory.load, List.getElem?_append_left, hlt]
    · have h1 : (m.objects ++ [x])[j]? = none := List.getElem?_eq_none (by simp; omega)
      have h2 : m.objects[j]? = none := List.getElem?_eq_none (by omega)
      simp [Memory.load, h1, h2]

/-- What `make_intrusive` leaves in memory: the old cells, and one new cell with both
counters at one. -/
theorem make_intrusive_eq (m : Memory) :
    make_intrusive m = .ok ⟨m.objects.length + 1⟩
      ((Memory.mk (m.objects ++ [some ⟨0, 0⟩]) m.events).store (m.objects.length + 1) ⟨1, 1⟩) := by
  have h0 := Memory.load_new m
  have h1 : ((Memory.mk (m.objects ++ [some ⟨0, 0⟩]) m.events).store (m.objects.length + 1)
      ⟨size_t_inc 0, 0⟩).load (m.objects.length + 1) = some ⟨size_t_inc 0, 0⟩ :=
    Memory.load_store_same h0 _
  simp only [make_intrusive, intrusive_ptr.make, new_target, Result.bind, refcount_inc, h0,
    weakcount_inc, h1, intrusive_ptr.mk_raw]
  have e1 : size_t_inc 0 = 1 := by decide
  simp only [e1]
  congr 1
  simp [Memory.store]

/-! ## Facts about the member functions -/

theorem same_elsewhere_refl (a : Addr) (m : Memory) : same_elsewhere a m m := fun _ _ => rfl

theorem same_elsewhere_trans {a : Addr} {m1 m2 m3 : Memory} (h1 : same_elsewhere a m1 m2)
    (h2 : same_elsewhere a m2 m3) : same_elsewhere a m1 m3 :=
  fun b hb => (h2 b hb).trans (h1 b hb)

theorem same_elsewhere_store (a : Addr) (m : Memory) (t : intrusive_ptr_target) :
    same_elsewhere a m (m.store a t) := fun _ hb => Memory.load_store_ne m t hb

theorem same_elsewhere_free (a : Addr) (m : Memory) : same_elsewhere a m (m.free a) :=
  fun _ hb => Memory.load_free_ne m hb

theorem same_elsewhere_emit (a : Addr) (m : Memory) (e : Event) :
    same_elsewhere a m (m.emit e) := fun b _ => Memory.load_emit m e b

/-- Dropping a strong reference to a live target with a positive strong count. -/
theorem strong_reset_spec (debug : Bool) (N : NullType) (p : intrusive_ptr)
    (m : Memory) (n w : Nat) (hp : p.target_ ≠ N.singleton)
    (hl : m.load p.target_ = some ⟨n, w⟩) (hn : 1 ≤ n) (hn2 : n < 2 ^ 64) :
    ∃ m', p.reset_ debug N m = .ok ⟨N.singleton⟩ m' ∧ same_elsewhere p.target_ m m' ∧
      (1 < n → m'.load p.target_ = some ⟨n - 1, w⟩ ∧ m'.events = m.events) ∧
      (n = 1 → size_t_dec w ≠ 0 →
        m'.load p.target_ = some ⟨0, size_t_dec w⟩ ∧
        m'.events = .release_resources p.target_ :: m.events) ∧
      (n = 1 → size_t_dec w = 0 →
        m'.load p.target_ = none ∧
        m'.events = .deallocate p.target_ :: .release_resources p.target_ :: m.events) := by
  have hdec : size_t_dec n = n - 1 := size_t_dec_eq hn hn2
  have l1 : (m.store p.target_ ⟨n - 1, w⟩).load p.target_ = some ⟨n - 1, w⟩ :=
    Memory.load_store_same hl _
  by_cases h1 : 1 < n
  · have hne : n - 1 ≠ 0 := by omega
    refine ⟨m.store p.target_ ⟨n - 1, w⟩, ?_, same_elsewhere_store _ _ _, ?_, ?_, ?_⟩
    · simp [intrusive_ptr.reset_, hp, refcount_dec, hl, Result.bind, hdec, hne]
    · intro _; exact ⟨l1, by simp⟩
    · intro h; omega
    · intro h; omega
  · have hn1 : n = 1 := by omega
    subst hn1
    simp only [Nat.sub_self] at l1 hdec
    have l2 : ((m.store p.target_ ⟨0, w⟩).emit (.release_resources p.target_)).load p.target_
        = some ⟨0, w⟩ := by
      rw [Memory.load_emit]; exact l1
    have l3 : (((m.store p.target_ ⟨0, w⟩).emit (.release_resources p.target_)).store
        p.target_ ⟨0, size_t_dec w⟩).load p.target_ = some ⟨0, size_t_dec w⟩ :=
      Memory.load_store_same l2 _
    have se3 : same_elsewhere p.target_ m
        (((m.store p.target_ ⟨0, w⟩).emit (.release_resources p.target_)).store
          p.target_ ⟨0, size_t_dec w⟩) :=
      same_elsewhere_trans (same_elsewhere_trans (same_elsewhere_store _ _ _)
        (same_elsewhere_emit _ _ _)) (same_elsewhere_store _ _ _)
    by_cases hw : size_t_dec w = 0
    · refine ⟨(((((m.store p.target_ ⟨0, w⟩).emit (.release_resources p.target_)).store
          p.target_ ⟨0, size_t_dec w⟩).free p.target_).emit (.deallocate p.target_)), ?_,
          ?_, ?_, ?_, ?_⟩
      · have l3z := l3
        rw [hw] at l3z
        simp [intrusive_ptr.reset_, hp, refcount_dec, hl, Result.bind, hdec,
          release_resources, l1, weakcount_dec, l2, hw, delete_target, refcount_load,
          weakcount_load, l3z, TORCH_INTERNAL_ASSERT_DEBUG_ONLY]
      · exact same_elsewhere_trans (same_elsewhere_trans se3 (same_elsewhere_free _ _))
          (same_elsewhere_emit _ _ _)
      · intro h; omega
      · intro _ h; exact absurd hw h
      · intro _ _
        refine ⟨?_, by simp⟩
        rw [Memory.load_emit]; exact Memory.load_free_same _ _
    · refine ⟨_, ?_, se3, ?_, ?_, ?_⟩
      · simp [intrusive_ptr.reset_, hp, refcount_dec, hl, Result.bind, hdec,
          release_resources, l1, weakcount_dec, l2, hw]
      · intro h; omega
      · intro _ _; exact ⟨l3, by simp⟩
      · intro _ h; exact absurd h hw

/-- Dropping a strong pointer that holds the sentinel does nothing. -/
theorem strong_reset_sentinel (debug : Bool) (N : NullType) (p : intrusive_ptr)
    (m : Memory) (hp : p.target_ = N.singleton) : p.reset_ debug N m = .ok ⟨N.singleton⟩ m := by
  simp [intrusive_ptr.reset_, hp]

/-- In sequential execution the loop of `lock()` entered with the value just read from
the counter: it fails at once on 0, succeeds at the first exchange that does not fail
spuriously, and is cut off if the oracle holds no such exchange. -/
theorem weak_intrusive_ptr.lock_loop_eq (N : NullType) (b : Addr) (w : Nat) :
    ∀ (oracle : List Bool) (n : Nat) (m : Memory), m.load b = some ⟨n, w⟩ →
      weak_intrusive_ptr.lock_loop N ⟨b⟩ oracle n m =
        if n = 0 then .ok ⟨N.singleton⟩ m
        else if false ∈ oracle then .ok ⟨b⟩ (m.store b ⟨(n + 1) % 2 ^ 64, w⟩)
        else .out_of_fuel := by
  intro oracle
  induction oracle with
  | nil =>
    intro n m _
    by_cases hn : n = 0 <;> simp [weak_intrusive_ptr.lock_loop, hn, intrusive_ptr.mk_raw]
  | cons spurious rest ih =>
    intro n m hl
    by_cases hn : n = 0
    · simp [weak_intrusive_ptr.lock_loop, hn, intrusive_ptr.mk_raw]
    · cases spurious with
      | false =>
        simp [weak_intrusive_ptr.lock_loop, hn, refcount_compare_exchange_weak, hl,
          Result.bind, intrusive_ptr.mk_raw]
      | true =>
        have h := ih n m hl
        simp only [hn, if_false] at h
        simp [weak_intrusive_ptr.lock_loop, hn, refcount_compare_exchange_weak, hl,
          Result.bind, h]

/-- The value of `lock()` on a weak pointer to a live object, in sequential execution. -/
theorem weak_intrusive_ptr.lock_eq (N : NullType) (b : Addr) (n w : Nat) (oracle : List Bool)
    (m : Memory) (hl : m.load b = some ⟨n, w⟩) :
    weak_intrusive_ptr.lock N ⟨b⟩ oracle m =
      if n = 0 then .ok ⟨N.singleton⟩ m
      else if false ∈ oracle then .ok ⟨b⟩ (m.store b ⟨(n + 1) % 2 ^ 64, w⟩)
      else .out_of_fuel := by
  simp only [weak_intrusive_ptr.lock, refcount_load, hl, Result.bind]
  exact weak_intrusive_ptr.lock_loop_eq N b w oracle n m hl

/-- Adding a strong reference to a live target with a positive strong count. -/
theorem strong_retain_spec (debug : Bool) (N : NullType) (p : intrusive_ptr)
    (m : Memory) (n w : Nat) (hp : p.target_ ≠ N.singleton)
    (hl : m.load p.target_ = some ⟨n, w⟩) (hn : 1 ≤ n) (hn2 : n + 1 < 2 ^ 64) :
    p.retain_ debug N m = .ok () (m.store p.target_ ⟨n + 1, w⟩) := by
  have hinc : size_t_inc n = n + 1 := size_t_inc_eq hn2
  have hne : ¬ n = 0 := by omega
  simp [intrusive_ptr.retain_, hp, refcount_inc, hl, Result.bind, hinc,
    TORCH_INTERNAL_ASSERT_DEBUG_ONLY, hne]

/-- Adding a weak reference to a live target with a positive weak count. -/
theorem weak_retain_spec (debug : Bool) (N : NullType) (p : weak_intrusive_ptr)
    (m : Memory) (n w : Nat) (hp : p.target_ ≠ N.singleton)
    (hl : m.load p.target_ = some ⟨n, w⟩) (hw : 1 ≤ w) (hw2 : w + 1 < 2 ^ 64) :
    p.retain_ debug N m = .ok () (m.store p.target_ ⟨n, w + 1⟩) := by
  have hinc : size_t_inc w = w + 1 := size_t_inc_eq hw2
  have hne : ¬ w = 0 := by omega
  simp [weak_intrusive_ptr.retain_, hp, weakcount_inc, hl, Result.bind, hinc,
    TORCH_INTERNAL_ASSERT_DEBUG_ONLY, hne]

/-- Dropping a weak reference to a live target with a positive weak count. The last
weak reference deallocates the target; in a debug build the destructor then asserts that
the strong count is 0. -/
theorem weak_reset_spec (debug : Bool) (N : NullType) (p : weak_intrusive_ptr)
    (m : Memory) (n w : Nat) (hp : p.target_ ≠ N.singleton)
    (hl : m.load p.target_ = some ⟨n, w⟩) (hw1 : 1 ≤ w) (hw2 : w < 2 ^ 64)
    (hadm : 1 < w ∨ n = 0 ∨ debug = false) :
    ∃ m', p.reset_ debug N m = .ok ⟨N.singleton⟩ m' ∧ same_elsewhere p.target_ m m' ∧
      (1 < w → m'.load p.target_ = some ⟨n, w - 1⟩ ∧ m'.events = m.events) ∧
      (w = 1 → m'.load p.target_ = none ∧ m'.events = .deallocate p.target_ :: m.events) := by
  have hdec : size_t_dec w = w - 1 := size_t_dec_eq (by omega) hw2
  have l1 : (m.store p.target_ ⟨n, w - 1⟩).load p.target_ = some ⟨n, w - 1⟩ :=
    Memory.load_store_same hl _
  by_cases h1 : 1 < w
  · have hne : w - 1 ≠ 0 := by omega
    refine ⟨m.store p.target_ ⟨n, w - 1⟩, ?_, same_elsewhere_store _ _ _, ?_, ?_⟩
    · simp [weak_intrusive_ptr.reset_, hp, weakcount_dec, hl, Result.bind, hdec, hne]
    · intro _; exact ⟨l1, by simp⟩
    · intro h; omega
  · have hw : w = 1 := by omega
    subst hw
    simp only [Nat.sub_self] at l1 hdec
    have hpass : (debug && !(n == 0)) = false := by
      rcases hadm with h | h | h
      · exact absurd h h1
      · simp [h]
      · simp [h]
    refine ⟨((m.store p.target_ ⟨n, 0⟩).free p.target_).emit (.deallocate p.target_), ?_, ?_,
      ?_, ?_⟩
    · simp [weak_intrusive_ptr.reset_, hp, weakcount_dec, hl, Result.bind, hdec,
        delete_target, refcount_load, weakcount_load, l1, TORCH_INTERNAL_ASSERT_DEBUG_ONLY,
        hpass]
    · exact same_elsewhere_trans (same_elsewhere_trans (same_elsewhere_store _ _ _)
        (same_elsewhere_free _ _)) (same_elsewhere_emit _ _ _)
    · intro h; omega
    · intro _
      refine ⟨?_, by simp⟩
      rw [Memory.load_emit]; exact Memory.load_free_same _ _

/-- Dropping a weak pointer that holds the sentinel does nothing. -/
theorem weak_reset_sentinel (debug : Bool) (N : NullType)
    (p : weak_intrusive_ptr) (m : Memory) (hp : p.target_ = N.singleton) :
    p.reset_ debug N m = .ok ⟨N.singleton⟩ m := by
  simp [weak_intrusive_ptr.reset_, hp]

/-! ## Facts about counting pointers -/

theorem countP_set_add {α : Type} (q : α → Bool) (l : List α) (i : Nat) (x y : α)
    (h : l[i]? = some y) :
    (l.set i x).countP q + (if q y then 1 else 0) = l.countP q + (if q x then 1 else 0) := by
  induction l generalizing i with
  | nil => simp at h
  | cons z t ih =>
    cases i with
    | zero =>
      simp at h
      subst h
      simp [List.countP_cons]
      omega
    | succ j =>
      simp at h
      have := ih j h
      simp [List.countP_cons]
      omega

theorem countP_eraseIdx_add {α : Type} (q : α → Bool) (l : List α) (i : Nat) (y : α)
    (h : l[i]? = some y) :
    (l.eraseIdx i).countP q + (if q y then 1 else 0) = l.countP q := by
  induction l generalizing i with
  | nil => simp at h
  | cons z t ih =>
    cases i with
    | zero =>
      simp at h
      subst h
      simp [List.countP_cons]
    | succ j =>
      simp at h
      have := ih j h
      simp [List.countP_cons]
      omega

theorem countP_pos_of_getElem? {α : Type} (q : α → Bool) (l : List α) (i : Nat) (y : α)
    (h : l[i]? = some y) (hy : q y = true) : 0 < l.countP q :=
  List.countP_pos_iff.mpr ⟨y, List.getElem?_mem h, hy⟩

theorem mem_set_cases {α : Type} {l : List α} {i : Nat} {x z : α} (h : z ∈ l.set i x) :
    z ∈ l ∨ z = x := List.mem_or_eq_of_mem_set h

theorem mem_eraseIdx_cases {α : Type} {l : List α} {i : Nat} {z : α}
    (h : z ∈ l.eraseIdx i) : z ∈ l := List.mem_of_mem_eraseIdx h

/-! ## The member functions keep the target accounted -/

theorem accounted_of_same {a : Addr} {ev0 : List Event} {S W : Nat} {m m' : Memory}
    (h : accounted a ev0 S W m) (hl : m'.load a = m.load a) (he : m'.events = m.events) :
    accounted a ev0 S W m' := by
  unfold accounted at *
  rw [hl, he]; exact h

theorem accounted_store_ne {a b : Addr} {ev0 : List Event} {S W : Nat} {m : Memory}
    (h : accounted a ev0 S W m) (hb : a ≠ b) (t : intrusive_ptr_target) :
    accounted a ev0 S W (m.store b t) :=
  accounted_of_same h (Memory.load_store_ne m t hb) (Memory.events_store m b t)

/-- A target with a strong reference is allocated with the accounted counts. -/
theorem accounted_load_strong {a : Addr} {ev0 : List Event} {S W : Nat} {m : Memory}
    (h : accounted a ev0 S W m) (hS : 0 < S) :
    m.load a = some ⟨S, W + 1⟩ ∧ m.events = ev0 := by
  rcases h with ⟨hl, _, he⟩ | ⟨_, hS0, _, _⟩
  · have hne : S ≠ 0 := by omega
    simp only [hS, if_true] at hl
    simp only [hne, if_false] at he
    exact ⟨hl, by simpa using he⟩
  · omega

/-- A target with a weak reference is allocated with the accounted counts. -/
theorem accounted_load_weak {a : Addr} {ev0 : List Event} {S W : Nat} {m : Memory}
    (h : accounted a ev0 S W m) (hW : 0 < W) :
    m.load a = some ⟨S, W + (if 0 < S then 1 else 0)⟩ ∧
      m.events = (if S = 0 then [Event.release_resources a] else []) ++ ev0 := by
  rcases h with ⟨hl, _, he⟩ | ⟨_, _, hW0, _⟩
  · exact ⟨hl, he⟩
  · omega

theorem accounted_strong_retain (debug : Bool) (N : NullType) {a : Addr} {ev0 : List Event}
    {S W : Nat} {m : Memory} (ha : a ≠ N.singleton) (h : accounted a ev0 S W m) (hS : 0 < S)
    (hb : S + W + 1 < 2 ^ 64) :
    ∃ m', intrusive_ptr.retain_ debug N ⟨a⟩ m = .ok () m' ∧ accounted a ev0 (S + 1) W m' := by
  obtain ⟨hl, he⟩ := accounted_load_strong h hS
  refine ⟨_, strong_retain_spec debug N ⟨a⟩ m S (W + 1) ha hl hS (by omega), ?_⟩
  left
  refine ⟨?_, by omega, ?_⟩
  · simpa using Memory.load_store_same hl _
  · simp [he]

theorem accounted_strong_reset (debug : Bool) (N : NullType) {a : Addr} {ev0 : List Event}
    {S W : Nat} {m : Memory} (ha : a ≠ N.singleton) (h : accounted a ev0 S W m) (hS : 0 < S)
    (hb : S + W < 2 ^ 64) :
    ∃ m', intrusive_ptr.reset_ debug N ⟨a⟩ m = .ok ⟨N.singleton⟩ m' ∧
      accounted a ev0 (S - 1) W m' := by
  obtain ⟨hl, he⟩ := accounted_load_strong h hS
  obtain ⟨m', hr, _, h1, h2, h3⟩ :=
    strong_reset_spec debug N ⟨a⟩ m S (W + 1) ha hl hS (by omega)
  have hdec : size_t_dec (W + 1) = W := by
    rw [size_t_dec_eq (by omega) (by omega)]; rfl
  refine ⟨m', hr, ?_⟩
  by_cases hS1 : 1 < S
  · obtain ⟨hl', he'⟩ := h1 hS1
    left
    have h0 : 0 < S - 1 := by omega
    have hne : S - 1 ≠ 0 := by omega
    refine ⟨?_, by omega, ?_⟩
    · simpa [h0] using hl'
    · simp [hne, he', he]
  · have hS1 : S = 1 := by omega
    subst hS1
    by_cases hW : W = 0
    · subst hW
      obtain ⟨hl', he'⟩ := h3 rfl (by rw [hdec])
      right
      exact ⟨hl', rfl, rfl, by simpa [he] using he'⟩
    · obtain ⟨hl', he'⟩ := h2 rfl (by rw [hdec]; exact hW)
      left
      refine ⟨?_, by omega, ?_⟩
      · simpa [hdec] using hl'
      · simpa [he] using he'

theorem accounted_weak_retain (debug : Bool) (N : NullType) {a : Addr} {ev0 : List Event}
    {S W : Nat} {m : Memory} (ha : a ≠ N.singleton) (h : accounted a ev0 S W m)
    (hSW : 0 < S + W) (hb : S + W + 1 < 2 ^ 64) :
    ∃ m', weak_intrusive_ptr.retain_ debug N ⟨a⟩ m = .ok () m' ∧
      accounted a ev0 S (W + 1) m' := by
  rcases h with ⟨hl, _, he⟩ | ⟨_, hS0, hW0, _⟩
  · have hw1 : 1 ≤ W + (if 0 < S then 1 else 0) := by
      by_cases hS : 0 < S
      · simp [hS]
      · simp [hS]; omega
    have hw2 : W + (if 0 < S then 1 else 0) + 1 < 2 ^ 64 := by
      by_cases hS : 0 < S
      · simp [hS]; omega
      · simp [hS]; omega
    refine ⟨_, weak_retain_spec debug N ⟨a⟩ m S _ ha hl hw1 hw2, ?_⟩
    left
    refine ⟨?_, by omega, ?_⟩
    · have := Memory.load_store_same hl ⟨S, W + (if 0 < S then 1 else 0) + 1⟩
      rw [this]
      congr 2
      omega
    · simp [he]
  · omega

theorem accounted_weak_reset (debug : Bool) (N : NullType) {a : Addr} {ev0 : List Event}
    {S W : Nat} {m : Memory} (ha : a ≠ N.singleton) (h : accounted a ev0 S W m) (hW : 0 < W)
    (hb : S + W < 2 ^ 64) :
    ∃ m', weak_intrusive_ptr.reset_ debug N ⟨a⟩ m = .ok ⟨N.singleton⟩ m' ∧
      accounted a ev0 S (W - 1) m' := by
  obtain ⟨hl, he⟩ := accounted_load_weak h hW
  by_cases hS : 0 < S
  · simp only [hS, if_true] at hl
    have hne : S ≠ 0 := by omega
    simp only [hne, if_false] at he
    obtain ⟨m', hr, _, h1, _⟩ :=
      weak_reset_spec debug N ⟨a⟩ m S (W + 1) ha hl (by omega) (by omega)
        (Or.inl (by omega))
    obtain ⟨hl', he'⟩ := h1 (by omega)
    refine ⟨m', hr, Or.inl ⟨?_, by omega, ?_⟩⟩
    · simp only [hS, if_true]
      rw [hl']
      congr 2
      omega
    · simp [hne, he', he]
  · have hS0 : S = 0 := by omega
    subst hS0
    simp only [Nat.lt_irrefl, if_false, Nat.add_zero] at hl
    simp only [if_true] at he
    obtain ⟨m', hr, _, h1, h2⟩ :=
      weak_reset_spec debug N ⟨a⟩ m 0 W ha hl (by omega) (by omega)
        (Or.inr (Or.inl rfl))
    refine ⟨m', hr, ?_⟩
    by_cases hW1 : 1 < W
    · obtain ⟨hl', he'⟩ := h1 hW1
      left
      refine ⟨by simpa using hl', by omega, ?_⟩
      simp [he', he]
    · have hW1 : W = 1 := by omega
      subst hW1
      obtain ⟨hl', he'⟩ := h2 rfl
      right
      exact ⟨hl', rfl, rfl, by simp [he', he]⟩

/-- The outcome of `lock()` through a weak pointer to the accounted target. -/
theorem accounted_lock (N : NullType) {a : Addr} {ev0 : List Event} {S W : Nat} {m : Memory}
    (h : accounted a ev0 S W m) (hW : 0 < W) (hb : S + W + 1 < 2 ^ 64)
    (oracle : List Bool) (q : intrusive_ptr) (m' : Memory)
    (hr : weak_intrusive_ptr.lock N ⟨a⟩ oracle m = .ok q m') :
    (S = 0 ∧ q = ⟨N.singleton⟩ ∧ m' = m) ∨
    (0 < S ∧ q = ⟨a⟩ ∧ accounted a ev0 (S + 1) W m') := by
  obtain ⟨hl, he⟩ := accounted_load_weak h hW
  rw [weak_intrusive_ptr.lock_eq N a _ _ oracle m hl] at hr
  by_cases hS : S = 0
  · left
    simp only [hS, if_true] at hr
    injection hr with h1 h2
    exact ⟨hS, h1.symm, h2.symm⟩
  · right
    have hpos : 0 < S := by omega
    simp only [hS, if_false] at hr
    by_cases ho : false ∈ oracle
    · simp only [ho, if_true] at hr
      injection hr with h1 h2
      refine ⟨hpos, h1.symm, ?_⟩
      subst h2
      left
      have hmod : (S + 1) % 2 ^ 64 = S + 1 := Nat.mod_eq_of_lt (by omega)
      refine ⟨?_, by omega, ?_⟩
      · rw [Memory.load_store_same hl, hmod]
        simp [hpos]
      · simp [he, hS]
    · simp [ho] at hr

/-- A call of `lock()` through a pointer that does not point to the accounted target
(the sentinel, say) returns a pointer with that same target or the sentinel, and leaves
the accounted target alone. -/
theorem accounted_lock_elsewhere (N : NullType) {a b : Addr} {ev0 : List Event} {S W : Nat}
    {m : Memory} (h : accounted a ev0 S W m) (hab : a ≠ b)
    (oracle : List Bool) (q : intrusive_ptr) (m' : Memory)
    (hr : weak_intrusive_ptr.lock N ⟨b⟩ oracle m = .ok q m') :
    (q.target_ = N.singleton ∨ q.target_ = b) ∧ accounted a ev0 S W m' := by
  cases hl : m.load b with
  | none => simp [weak_intrusive_ptr.lock, refcount_load, hl, Result.bind] at hr
  | some t =>
    obtain ⟨n, w⟩ := t
    rw [weak_intrusive_ptr.lock_eq N b n w oracle m hl] at hr
    by_cases hn : n = 0
    · simp only [hn, if_true] at hr
      injection hr with h1 h2
      subst h1 h2
      exact ⟨Or.inl rfl, h⟩
    · simp only [hn, if_false] at hr
      by_cases ho : false ∈ oracle
      · simp only [ho, if_true] at hr
        injection hr with h1 h2
        subst h1 h2
        exact ⟨Or.inr rfl, accounted_store_ne h hab _⟩
      · simp [ho] at hr

/-- A successful `weak_intrusive_ptr::reclaim` wraps the raw pointer and changes nothing. -/
theorem weak_intrusive_ptr.reclaim_ok (debug : Bool) (N : NullType) (raw : Addr)
    (m m' : Memory) (q : weak_intrusive_ptr)
    (hr : weak_intrusive_ptr.reclaim debug N raw m = .ok q m') : q = ⟨raw⟩ ∧ m' = m := by
  unfold weak_intrusive_ptr.reclaim at hr
  cases debug with
  | false =>
    simp at hr
    exact ⟨hr.1.symm, hr.2.symm⟩
  | true =>
    simp only [if_true] at hr
    by_cases h1 : raw = N.singleton
    · simp [h1, Result.bind, TORCH_INTERNAL_ASSERT_DEBUG_ONLY] at hr
      exact ⟨by rw [h1]; exact hr.1.symm, hr.2.symm⟩
    · cases hl : m.load raw with
      | none => simp [h1, weakcount_load, hl, Result.bind] at hr
      | some t =>
        by_cases hw : 1 < t.weakcount_
        · simp [h1, weakcount_load, hl, Result.bind, hw, TORCH_INTERNAL_ASSERT_DEBUG_ONLY] at hr
          exact ⟨hr.1.symm, hr.2.symm⟩
        · by_cases hr0 : t.refcount_ = 0
          · by_cases hw0 : 0 < t.weakcount_
            · simp [h1, weakcount_load, refcount_load, hl, Result.bind, hw, hr0, hw0,
                TORCH_INTERNAL_ASSERT_DEBUG_ONLY] at hr
              exact ⟨hr.1.symm, hr.2.symm⟩
            · simp [h1, weakcount_load, refcount_load, hl, Result.bind, hw, hr0, hw0,
                TORCH_INTERNAL_ASSERT_DEBUG_ONLY] at hr
          · simp [h1, weakcount_load, refcount_load, hl, Result.bind, hw, hr0,
              TORCH_INTERNAL_ASSERT_DEBUG_ONLY] at hr

/-! ## Every statement keeps the invariant -/

theorem strong_holders_append (a : Addr) (l : List intrusive_ptr) (q : intrusive_ptr) :
    strong_holders a (l ++ [q]) = strong_holders a l + (if q.target_ = a then 1 else 0) := by
  simp [strong_holders, List.countP_append, List.countP_cons]

theorem strong_holders_set (a : Addr) (l : List intrusive_ptr) (i : Nat) (x y : intrusive_ptr)
    (h : l[i]? = some y) :
    strong_holders a (l.set i x) + (if y.target_ = a then 1 else 0)
      = strong_holders a l + (if x.target_ = a then 1 else 0) := by
  simpa [strong_holders] using countP_set_add (fun p => decide (p.target_ = a)) l i x y h

theorem strong_holders_eraseIdx (a : Addr) (l : List intrusive_ptr) (i : Nat)
    (y : intrusive_ptr) (h : l[i]? = some y) :
    strong_holders a (l.eraseIdx i) + (if y.target_ = a then 1 else 0)
      = strong_holders a l := by
  simpa [strong_holders] using countP_eraseIdx_add (fun p => decide (p.target_ = a)) l i y h

theorem strong_holders_pos (a : Addr) (l : List intrusive_ptr) (i : Nat) (y : intrusive_ptr)
    (h : l[i]? = some y) (hy : y.target_ = a) : 0 < strong_holders a l :=
  countP_pos_of_getElem? _ l i y h (by simpa using hy)

theorem weak_holders_append (a : Addr) (l : List weak_intrusive_ptr) (q : weak_intrusive_ptr) :
    weak_holders a (l ++ [q]) = weak_holders a l + (if q.target_ = a then 1 else 0) := by
  simp [weak_holders, List.countP_append, List.countP_cons]

theorem weak_holders_set (a : Addr) (l : List weak_intrusive_ptr) (i : Nat)
    (x y : weak_intrusive_ptr) (h : l[i]? = some y) :
    weak_holders a (l.set i x) + (if y.target_ = a then 1 else 0)
      = weak_holders a l + (if x.target_ = a then 1 else 0) := by
  simpa [weak_holders] using countP_set_add (fun p => decide (p.target_ = a)) l i x y h

theorem weak_holders_eraseIdx (a : Addr) (l : List weak_intrusive_ptr) (i : Nat)
    (y : weak_intrusive_ptr) (h : l[i]? = some y) :
    weak_holders a (l.eraseIdx i) + (if y.target_ = a then 1 else 0) = weak_holders a l := by
  simpa [weak_holders] using countP_eraseIdx_add (fun p => decide (p.target_ = a)) l i y h

theorem weak_holders_pos (a : Addr) (l : List weak_intrusive_ptr) (i : Nat)
    (y : weak_intrusive_ptr) (h : l[i]? = some y) (hy : y.target_ = a) :
    0 < weak_holders a l :=
  countP_pos_of_getElem? _ l i y h (by simpa using hy)

theorem raw_holders_append (a : Addr) (l : List Addr) (r : Addr) :
    raw_holders a (l ++ [r]) = raw_holders a l + (if r = a then 1 else 0) := by
  simp [raw_holders, List.countP_append, List.countP_cons]

theorem raw_holders_eraseIdx (a : Addr) (l : List Addr) (i : Nat) (y : Addr)
    (h : l[i]? = some y) :
    raw_holders a (l.eraseIdx i) + (if y = a then 1 else 0) = raw_holders a l := by
  simpa [raw_holders] using countP_eraseIdx_add (fun r => decide (r = a)) l i y h

theorem refs_le_population (a : Addr) (e : Pointers) :
    strong_refs a e + weak_refs a e ≤ population e := by
  have h1 : strong_holders a e.strong ≤ e.strong.length := List.countP_le_length _
  have h2 : weak_holders a e.weak ≤ e.weak.length := List.countP_le_length _
  have h3 : raw_holders a e.raw_strong ≤ e.raw_strong.length := List.countP_le_length _
  have h4 : raw_holders a e.raw_weak ≤ e.raw_weak.length := List.countP_le_length _
  unfold strong_refs weak_refs population
  omega

theorem length_eraseIdx_le {α : Type} (l : List α) (i : Nat) :
    (l.eraseIdx i).length ≤ l.length := by
  rw [List.length_eraseIdx]; split <;> omega

theorem forall_mem_append_singleton {α : Type} {P : α → Prop} {l : List α} {q : α}
    (h : ∀ p ∈ l, P p) (hq : P q) : ∀ p ∈ l ++ [q], P p := by
  intro p hp
  rcases List.mem_append.mp hp with hp | hp
  · exact h p hp
  · rw [List.mem_singleton.mp hp]; exact hq

theorem forall_mem_set {α : Type} {P : α → Prop} {l : List α} {i : Nat} {x : α}
    (h : ∀ p ∈ l, P p) (hx : P x) : ∀ p ∈ l.set i x, P p := by
  intro p hp
  rcases mem_set_cases hp with hp | hp
  · exact h p hp
  · rw [hp]; exact hx

theorem forall_mem_eraseIdx {α : Type} {P : α → Prop} {l : List α} {i : Nat}
    (h : ∀ p ∈ l, P p) : ∀ p ∈ l.eraseIdx i, P p :=
  fun p hp => h p (mem_eraseIdx_cases hp)

theorem step_copy (debug : Bool) (N : NullType) {a : Addr} {ev0 : List Event}
    (ha : a ≠ N.singleton) (i : Nat) (e : Pointers) (m : Memory) (e' : Pointers) (m' : Memory)
    (hinv : Inv N a ev0 e m) (hb : population e + 1 < 2 ^ 64)
    (hs : step debug N (.copy i) e m = .ok e' m') : Kept N a ev0 e e' m' := by
  have hle := refs_le_population a e
  cases hi : e.strong[i]? with
  | none => simp [step, hi] at hs
  | some rhs =>
    simp only [step, hi] at hs
    have happ := strong_holders_append a e.strong ⟨rhs.target_⟩
    rcases hinv.strong_ok rhs (List.getElem?_mem hi) with ht | ht
    · have hpos : 0 < strong_refs a e := by
        have := strong_holders_pos a _ i rhs hi ht
        unfold strong_refs; omega
      obtain ⟨m1, hr, hacc⟩ := accounted_strong_retain debug N ha hinv.acc hpos (by omega)
      simp only [intrusive_ptr.copy_ctor, ht, hr, Result.bind] at hs
      injection hs with h1 h2
      subst h1 h2
      simp only [ht, if_true] at happ
      have e1 : strong_refs a { e with strong := e.strong ++ [⟨a⟩] } = strong_refs a e + 1 := by
        simp only [strong_refs, happ]; omega
      refine ⟨⟨forall_mem_append_singleton hinv.strong_ok (Or.inl rfl), hinv.weak_ok,
        hinv.raw_strong_ok, hinv.raw_weak_ok, ?_⟩, ?_, ?_, ?_⟩
      · rw [e1]; exact hacc
      · simp [population]; omega
      · omega
      · omega
    · simp only [intrusive_ptr.copy_ctor, intrusive_ptr.retain_, ht, ne_eq, not_true, if_false,
        Result.bind] at hs
      injection hs with h1 h2
      subst h1 h2
      simp only [ht, ha.symm, if_false] at happ
      have e1 : strong_refs a { e with strong := e.strong ++ [⟨N.singleton⟩] }
          = strong_refs a e := by
        simp only [strong_refs, happ]; omega
      refine ⟨⟨forall_mem_append_singleton hinv.strong_ok (Or.inr rfl), hinv.weak_ok,
        hinv.raw_strong_ok, hinv.raw_weak_ok, ?_⟩, ?_, ?_, ?_⟩
      · rw [e1]; exact hinv.acc
      · simp [population]; omega
      · omega
      · omega

theorem step_move (debug : Bool) (N : NullType) {a : Addr} {ev0 : List Event}
    (ha : a ≠ N.singleton) (i : Nat) (e : Pointers) (m : Memory) (e' : Pointers) (m' : Memory)
    (hinv : Inv N a ev0 e m)
    (hs : step debug N (.move i) e m = .ok e' m') : Kept N a ev0 e e' m' := by
  cases hi : e.strong[i]? with
  | none => simp [step, hi] at hs
  | some rhs =>
    simp only [step, hi, intrusive_ptr.move_ctor] at hs
    injection hs with h1 h2
    subst h1 h2
    have hset := strong_holders_set a e.strong i ⟨N.singleton⟩ rhs hi
    have happ := strong_holders_append a (e.strong.set i ⟨N.singleton⟩) ⟨rhs.target_⟩
    have hrhs := hinv.strong_ok rhs (List.getElem?_mem hi)
    have e1 : strong_refs a { e with strong := e.strong.set i ⟨N.singleton⟩ ++ [⟨rhs.target_⟩] }
        = strong_refs a e := by
      simp only [strong_refs, happ]
      by_cases ht : rhs.target_ = a <;> simp [ht, ha.symm] at hset ⊢ <;> omega
    refine ⟨⟨forall_mem_append_singleton (forall_mem_set hinv.strong_ok (Or.inr rfl)) hrhs,
      hinv.weak_ok, hinv.raw_strong_ok, hinv.raw_weak_ok, ?_⟩, ?_, ?_, ?_⟩
    · rw [e1]; exact hinv.acc
    · simp [population]; omega
    · omega
    · omega

theorem step_reset (debug : Bool) (N : NullType) {a : Addr} {ev0 : List Event}
    (ha : a ≠ N.singleton) (i : Nat) (e : Pointers) (m : Memory) (e' : Pointers) (m' : Memory)
    (hinv : Inv N a ev0 e m) (hb : population e + 1 < 2 ^ 64)
    (hs : step debug N (.reset i) e m = .ok e' m') : Kept N a ev0 e e' m' := by
  have hle := refs_le_population a e
  cases hi : e.strong[i]? with
  | none => simp [step, hi] at hs
  | some self =>
    simp only [step, hi, intrusive_ptr.reset] at hs
    have hset := strong_holders_set a e.strong i ⟨N.singleton⟩ self hi
    rcases hinv.strong_ok self (List.getElem?_mem hi) with ht | ht
    · have hpos : 0 < strong_refs a e := by
        have := strong_holders_pos a _ i self hi ht
        unfold strong_refs; omega
      obtain ⟨m1, hr, hacc⟩ := accounted_strong_reset debug N ha hinv.acc hpos (by omega)
      have hself : self = ⟨a⟩ := by cases self; simp at ht; simp [ht]
      simp only [hself, hr, Result.bind] at hs
      injection hs with h1 h2
      subst h1 h2
      simp only [ht, ha.symm, if_true, if_false] at hset
      have e1 : strong_refs a { e with strong := e.strong.set i ⟨N.singleton⟩ }
          = strong_refs a e - 1 := by
        simp only [strong_refs]; omega
      refine ⟨⟨forall_mem_set hinv.strong_ok (Or.inr rfl), hinv.weak_ok,
        hinv.raw_strong_ok, hinv.raw_weak_ok, ?_⟩, ?_, ?_, ?_⟩
      · rw [e1]; exact hacc
      · simp [population]
      · omega
      · omega
    · rw [strong_reset_sentinel debug N self m ht] at hs
      simp only [Result.bind] at hs
      injection hs with h1 h2
      subst h1 h2
      simp only [ht, ha.symm, if_false] at hset
      have e1 : strong_refs a { e with strong := e.strong.set i ⟨N.singleton⟩ }
          = strong_refs a e := by
        simp only [strong_refs]; omega
      refine ⟨⟨forall_mem_set hinv.strong_ok (Or.inr rfl), hinv.weak_ok,
        hinv.raw_strong_ok, hinv.raw_weak_ok, ?_⟩, ?_, ?_, ?_⟩
      · rw [e1]; exact hinv.acc
      · simp [population]
      · omega
      · omega

theorem step_destroy (debug : Bool) (N : NullType) {a : Addr} {ev0 : List Event}
    (ha : a ≠ N.singleton) (i : Nat) (e : Pointers) (m : Memory) (e' : Pointers) (m' : Memory)
    (hinv : Inv N a ev0 e m) (hb : population e + 1 < 2 ^ 64)
    (hs : step debug N (.destroy i) e m = .ok e' m') : Kept N a ev0 e e' m' := by
  have hle := refs_le_population a e
  cases hi : e.strong[i]? with
  | none => simp [step, hi] at hs
  | some self =>
    simp only [step, hi, intrusive_ptr.dtor] at hs
    have hset := strong_holders_eraseIdx a e.strong i self hi
    have hlen := length_eraseIdx_le e.strong i
    rcases hinv.strong_ok self (List.getElem?_mem hi) with ht | ht
    · have hpos : 0 < strong_refs a e := by
        have := strong_holders_pos a _ i self hi ht
        unfold strong_refs; omega
      obtain ⟨m1, hr, hacc⟩ := accounted_strong_reset debug N ha hinv.acc hpos (by omega)
      have hself : self = ⟨a⟩ := by cases self; simp at ht; simp [ht]
      simp only [hself, hr, Result.bind] at hs
      injection hs with h1 h2
      subst h1 h2
      simp only [ht, if_true] at hset
      have e1 : strong_refs a { e with strong := e.strong.eraseIdx i }
          = strong_refs a e - 1 := by
        simp only [strong_refs]; omega
      refine ⟨⟨forall_mem_eraseIdx hinv.strong_ok, hinv.weak_ok,
        hinv.raw_strong_ok, hinv.raw_weak_ok, ?_⟩, ?_, ?_, ?_⟩
      · rw [e1]; exact hacc
      · simp only [population]; omega
      · omega
      · omega
    · rw [strong_reset_sentinel debug N self m ht] at hs
      simp only [Result.bind] at hs
      injection hs with h1 h2
      subst h1 h2
      simp only [ht, ha.symm, if_false] at hset
      have e1 : strong_refs a { e with strong := e.strong.eraseIdx i }
          = strong_refs a e := by
        simp only [strong_refs]; omega
      refine ⟨⟨forall_mem_eraseIdx hinv.strong_ok, hinv.weak_ok,
        hinv.raw_strong_ok, hinv.raw_weak_ok, ?_⟩, ?_, ?_, ?_⟩
      · rw [e1]; exact hinv.acc
      · simp only [population]; omega
      · omega
      · omega

theorem step_release (debug : Bool) (N : NullType) {a : Addr} {ev0 : List Event}
    (ha : a ≠ N.singleton) (i : Nat) (e : Pointers) (m : Memory) (e' : Pointers) (m' : Memory)
    (hinv : Inv N a ev0 e m)
    (hs : step debug N (.release i) e m = .ok e' m') : Kept N a ev0 e e' m' := by
  cases hi : e.strong[i]? with
  | none => simp [step, hi] at hs
  | some self =>
    simp only [step, hi, intrusive_ptr.release] at hs
    injection hs with h1 h2
    subst h1 h2
    have hset := strong_holders_set a e.strong i ⟨N.singleton⟩ self hi
    have happ := raw_holders_append a e.raw_strong self.target_
    have hself := hinv.strong_ok self (List.getElem?_mem hi)
    have e1 : strong_refs a { e with strong := e.strong.set i ⟨N.singleton⟩,
                                     raw_strong := e.raw_strong ++ [self.target_] }
        = strong_refs a e := by
      simp only [strong_refs, happ]
      by_cases ht : self.target_ = a <;> simp [ht, ha.symm] at hset ⊢ <;> omega
    refine ⟨⟨forall_mem_set hinv.strong_ok (Or.inr rfl), hinv.weak_ok,
      forall_mem_append_singleton hinv.raw_strong_ok hself, hinv.raw_weak_ok, ?_⟩, ?_, ?_, ?_⟩
    · rw [e1]; exact hinv.acc
    · simp [population]; omega
    · omega
    · omega

theorem step_reclaim (debug : Bool) (N : NullType) {a : Addr} {ev0 : List Event}
    (k : Nat) (e : Pointers) (m : Memory) (e' : Pointers) (m' : Memory)
    (hinv : Inv N a ev0 e m)
    (hs : step debug N (.reclaim k) e m = .ok e' m') : Kept N a ev0 e e' m' := by
  cases hk : e.raw_strong[k]? with
  | none => simp [step, hk] at hs
  | some raw =>
    simp only [step, hk, intrusive_ptr.reclaim, intrusive_ptr.mk_raw] at hs
    injection hs with h1 h2
    subst h1 h2
    have hset := raw_holders_eraseIdx a e.raw_strong k raw hk
    have happ := strong_holders_append a e.strong ⟨raw⟩
    have hlen := length_eraseIdx_le e.raw_strong k
    have hraw := hinv.raw_strong_ok raw (List.getElem?_mem hk)
    have e1 : strong_refs a { e with strong := e.strong ++ [⟨raw⟩],
                                     raw_strong := e.raw_strong.eraseIdx k }
        = strong_refs a e := by
      simp only [strong_refs, happ]
      omega
    refine ⟨⟨forall_mem_append_singleton hinv.strong_ok hraw, hinv.weak_ok,
      forall_mem_eraseIdx hinv.raw_strong_ok, hinv.raw_weak_ok, ?_⟩, ?_, ?_, ?_⟩
    · rw [e1]; exact hinv.acc
    · simp [population]; omega
    · omega
    · omega

theorem strong_eq_of_target {p : intrusive_ptr} {a : Addr} (h : p.target_ = a) :
    p = ⟨a⟩ := by
  cases p; simp at h; simp [h]

theorem weak_eq_of_target {p : weak_intrusive_ptr} {a : Addr}
    (h : p.target_ = a) : p = ⟨a⟩ := by
  cases p; simp at h; simp [h]

/-- The temporary of an assignment is destroyed: `~tmp` on a strong pointer that holds
the target or the sentinel. -/
theorem accounted_strong_dtor (debug : Bool) (N : NullType) {a : Addr} {ev0 : List Event}
    {S W : Nat} {m : Memory} (ha : a ≠ N.singleton) (h : accounted a ev0 S W m)
    (hb : S + W < 2 ^ 64) (tmp : intrusive_ptr)
    (htmp : (tmp.target_ = a ∧ 0 < S) ∨ tmp.target_ = N.singleton) :
    ∃ m', intrusive_ptr.dtor debug N tmp m = .ok () m' ∧
      accounted a ev0 (S - (if tmp.target_ = a then 1 else 0)) W m' := by
  rcases htmp with ⟨ht, hS⟩ | ht
  · obtain ⟨m1, hr, hacc⟩ := accounted_strong_reset debug N ha h hS hb
    refine ⟨m1, ?_, ?_⟩
    · simp [intrusive_ptr.dtor, strong_eq_of_target ht, hr, Result.bind]
    · simpa [ht] using hacc
  · refine ⟨m, ?_, ?_⟩
    · simp [intrusive_ptr.dtor, strong_reset_sentinel debug N tmp m ht, Result.bind]
    · simpa [ht, ha.symm] using h

/-- The temporary of an assignment is made: a copy of a strong pointer that holds the
target or the sentinel. -/
theorem accounted_strong_copy (debug : Bool) (N : NullType) {a : Addr} {ev0 : List Event}
    {S W : Nat} {m : Memory} (ha : a ≠ N.singleton) (h : accounted a ev0 S W m)
    (hb : S + W + 1 < 2 ^ 64) (rhs : intrusive_ptr)
    (hrhs : (rhs.target_ = a ∧ 0 < S) ∨ rhs.target_ = N.singleton) :
    ∃ m', intrusive_ptr.copy_ctor debug N rhs m = .ok ⟨rhs.target_⟩ m' ∧
      accounted a ev0 (S + (if rhs.target_ = a then 1 else 0)) W m' := by
  rcases hrhs with ⟨ht, hS⟩ | ht
  · obtain ⟨m1, hr, hacc⟩ := accounted_strong_retain debug N ha h hS hb
    refine ⟨m1, ?_, ?_⟩
    · simp [intrusive_ptr.copy_ctor, ht, hr, Result.bind]
    · simpa [ht] using hacc
  · refine ⟨m, ?_, ?_⟩
    · simp [intrusive_ptr.copy_ctor, intrusive_ptr.retain_, ht, Result.bind]
    · simpa [ht, ha.symm] using h

theorem step_copy_assign (debug : Bool) (N : NullType) {a : Addr} {ev0 : List Event}
    (ha : a ≠ N.singleton) (i j : Nat) (e : Pointers) (m : Memory) (e' : Pointers)
    (m' : Memory) (hinv : Inv N a ev0 e m) (hb : population e + 1 < 2 ^ 64)
    (hs : step debug N (.copy_assign i j) e m = .ok e' m') : Kept N a ev0 e e' m' := by
  have hle := refs_le_population a e
  cases hi : e.strong[i]? with
  | none => simp [step, hi] at hs
  | some self =>
    cases hj : e.strong[j]? with
    | none => simp [step, hi, hj] at hs
    | some rhs =>
      simp only [step, hi, hj, intrusive_ptr.swap] at hs
      have hset := strong_holders_set a e.strong i ⟨rhs.target_⟩ self hi
      have hself := hinv.strong_ok self (List.getElem?_mem hi)
      have hrhs := hinv.strong_ok rhs (List.getElem?_mem hj)
      have hposi : self.target_ = a → 0 < strong_holders a e.strong :=
        strong_holders_pos a _ i self hi
      have hposj : rhs.target_ = a → 0 < strong_holders a e.strong :=
        strong_holders_pos a _ j rhs hj
      obtain ⟨m1, hr1, hacc1⟩ := accounted_strong_copy debug N ha hinv.acc (by omega) rhs
        (by
          rcases hrhs with h | h
          · exact Or.inl ⟨h, by have := hposj h; unfold strong_refs; omega⟩
          · exact Or.inr h)
      obtain ⟨m2, hr2, hacc2⟩ := accounted_strong_dtor debug N ha hacc1
        (by split <;> omega) ⟨self.target_⟩
        (by
          rcases hself with h | h
          · exact Or.inl ⟨h, by have := hposi h; unfold strong_refs; omega⟩
          · exact Or.inr h)
      simp only [hr1, hr2, Result.bind] at hs
      injection hs with h1 h2
      subst h1 h2
      have e1 : strong_refs a { e with strong := e.strong.set i ⟨rhs.target_⟩ }
          = strong_refs a e + (if rhs.target_ = a then 1 else 0)
            - (if self.target_ = a then 1 else 0) := by
        simp only [strong_refs]
        dsimp only at hset
        by_cases h1 : rhs.target_ = a <;> by_cases h2 : self.target_ = a <;>
          simp only [h1, h2, if_true, if_false] at hset ⊢ <;> omega
      have hSpos : self.target_ = a → 0 < strong_refs a e := fun h => by
        have := hposi h; unfold strong_refs; omega
      have hRpos : rhs.target_ = a → 0 < strong_refs a e := fun h => by
        have := hposj h; unfold strong_refs; omega
      refine ⟨⟨forall_mem_set hinv.strong_ok hrhs, hinv.weak_ok,
        hinv.raw_strong_ok, hinv.raw_weak_ok, ?_⟩, ?_, ?_, ?_⟩
      · rw [e1]; exact hacc2
      · simp [population]
      · rw [e1]; split <;> split <;> omega
      · rw [e1]; intro h0
        by_cases h1 : rhs.target_ = a
        · have := hRpos h1; omega
        · simp [h1, h0]

theorem step_move_assign (debug : Bool) (N : NullType) {a : Addr} {ev0 : List Event}
    (ha : a ≠ N.singleton) (i j : Nat) (e : Pointers) (m : Memory) (e' : Pointers)
    (m' : Memory) (hinv : Inv N a ev0 e m) (hb : population e + 1 < 2 ^ 64)
    (hs : step debug N (.move_assign i j) e m = .ok e' m') : Kept N a ev0 e e' m' := by
  have hle := refs_le_population a e
  cases hj : e.strong[j]? with
  | none => simp [step, hj] at hs
  | some rhs =>
    cases hi : (e.strong.set j ⟨N.singleton⟩)[i]? with
    | none => simp [step, hj, hi, intrusive_ptr.move_ctor] at hs
    | some self =>
      simp only [step, hj, hi, intrusive_ptr.move_ctor, intrusive_ptr.swap] at hs
      have hset1 := strong_holders_set a e.strong j ⟨N.singleton⟩ rhs hj
      have hset2 := strong_holders_set a (e.strong.set j ⟨N.singleton⟩) i ⟨rhs.target_⟩ self hi
      simp only [ha.symm, if_false] at hset1
      have hl1 : ∀ p ∈ e.strong.set j ⟨N.singleton⟩, p.target_ = a ∨ p.target_ = N.singleton :=
        forall_mem_set hinv.strong_ok (Or.inr rfl)
      have hself := hl1 self (List.getElem?_mem hi)
      have hrhs := hinv.strong_ok rhs (List.getElem?_mem hj)
      have hposi : self.target_ = a → 0 < strong_holders a (e.strong.set j ⟨N.singleton⟩) :=
        strong_holders_pos a _ i self hi
      obtain ⟨m2, hr2, hacc2⟩ := accounted_strong_dtor debug N ha hinv.acc
        (by omega) ⟨self.target_⟩
        (by
          rcases hself with h | h
          · exact Or.inl ⟨h, by have := hposi h; unfold strong_refs; omega⟩
          · exact Or.inr h)
      simp only [hr2, Result.bind] at hs
      injection hs with h1 h2
      subst h1 h2
      have e1 : strong_refs a
          { e with strong := (e.strong.set j ⟨N.singleton⟩).set i ⟨rhs.target_⟩ }
          = strong_refs a e - (if self.target_ = a then 1 else 0) := by
        simp only [strong_refs]
        by_cases h : self.target_ = a
        · have := hposi h
          simp only [h, if_true] at hset2 ⊢
          omega
        · simp only [h, if_false] at hset2 ⊢
          omega
      refine ⟨⟨forall_mem_set hl1 hrhs, hinv.weak_ok,
        hinv.raw_strong_ok, hinv.raw_weak_ok, ?_⟩, ?_, ?_, ?_⟩
      · rw [e1]; exact hacc2
      · simp [population]
      · rw [e1]; split <;> omega
      · rw [e1]; intro h0; omega

/-- The temporary of a weak assignment is destroyed: `~tmp` on a weak pointer that holds
the target or the sentinel. -/
theorem accounted_weak_dtor (debug : Bool) (N : NullType) {a : Addr} {ev0 : List Event}
    {S W : Nat} {m : Memory} (ha : a ≠ N.singleton) (h : accounted a ev0 S W m)
    (hb : S + W < 2 ^ 64) (tmp : weak_intrusive_ptr)
    (htmp : (tmp.target_ = a ∧ 0 < W) ∨ tmp.target_ = N.singleton) :
    ∃ m', weak_intrusive_ptr.dtor debug N tmp m = .ok () m' ∧
      accounted a ev0 S (W - (if tmp.target_ = a then 1 else 0)) m' := by
  rcases htmp with ⟨ht, hW⟩ | ht
  · obtain ⟨m1, hr, hacc⟩ := accounted_weak_reset debug N ha h hW hb
    refine ⟨m1, ?_, ?_⟩
    · simp [weak_intrusive_ptr.dtor, weak_eq_of_target ht, hr, Result.bind]
    · simpa [ht] using hacc
  · refine ⟨m, ?_, ?_⟩
    · simp [weak_intrusive_ptr.dtor, weak_reset_sentinel debug N tmp m ht,
        Result.bind]
    · simpa [ht, ha.symm] using h

/-- A weak pointer is made from a pointer that holds the target or the sentinel:
`retain_()` on the new weak pointer. -/
theorem accounted_weak_copy (debug : Bool) (N : NullType) {a : Addr} {ev0 : List Event}
    {S W : Nat} {m : Memory} (ha : a ≠ N.singleton) (h : accounted a ev0 S W m)
    (hb : S + W + 1 < 2 ^ 64) (t : Addr)
    (ht : (t = a ∧ 0 < S + W) ∨ t = N.singleton) :
    ∃ m', weak_intrusive_ptr.retain_ debug N ⟨t⟩ m = .ok () m' ∧
      accounted a ev0 S (W + (if t = a then 1 else 0)) m' := by
  rcases ht with ⟨ht, hSW⟩ | ht
  · obtain ⟨m1, hr, hacc⟩ := accounted_weak_retain debug N ha h hSW hb
    refine ⟨m1, ?_, ?_⟩
    · simp [ht, hr]
    · simpa [ht] using hacc
  · refine ⟨m, ?_, ?_⟩
    · simp [weak_intrusive_ptr.retain_, ht]
    · simpa [ht, ha.symm] using h

theorem step_weak_from_strong (debug : Bool) (N : NullType) {a : Addr} {ev0 : List Event}
    (ha : a ≠ N.singleton) (i : Nat) (e : Pointers) (m : Memory) (e' : Pointers) (m' : Memory)
    (hinv : Inv N a ev0 e m) (hb : population e + 1 < 2 ^ 64)
    (hs : step debug N (.weak_from_strong i) e m = .ok e' m') : Kept N a ev0 e e' m' := by
  have hle := refs_le_population a e
  cases hi : e.strong[i]? with
  | none => simp [step, hi] at hs
  | some ptr =>
    simp only [step, hi, weak_intrusive_ptr.from_strong, intrusive_ptr.get] at hs
    have happ := weak_holders_append a e.weak ⟨ptr.target_⟩
    have hptr := hinv.strong_ok ptr (List.getElem?_mem hi)
    have hpos : ptr.target_ = a → 0 < strong_holders a e.strong :=
      strong_holders_pos a _ i ptr hi
    obtain ⟨m1, hr1, hacc1⟩ := accounted_weak_copy debug N ha hinv.acc (by omega) ptr.target_
      (by
        rcases hptr with h | h
        · exact Or.inl ⟨h, by have := hpos h; unfold strong_refs; omega⟩
        · exact Or.inr h)
    simp only [hr1, Result.bind] at hs
    injection hs with h1 h2
    subst h1 h2
    have e1 : weak_refs a { e with weak := e.weak ++ [⟨ptr.target_⟩] }
        = weak_refs a e + (if ptr.target_ = a then 1 else 0) := by
      simp only [weak_refs, happ]; omega
    refine ⟨⟨hinv.strong_ok, forall_mem_append_singleton hinv.weak_ok hptr,
      hinv.raw_strong_ok, hinv.raw_weak_ok, ?_⟩, ?_, ?_, ?_⟩
    · rw [e1]; exact hacc1
    · simp [population]; omega
    · exact Nat.le_succ _
    · exact fun h => h

theorem step_weak_copy (debug : Bool) (N : NullType) {a : Addr} {ev0 : List Event}
    (ha : a ≠ N.singleton) (i : Nat) (e : Pointers) (m : Memory) (e' : Pointers) (m' : Memory)
    (hinv : Inv N a ev0 e m) (hb : population e + 1 < 2 ^ 64)
    (hs : step debug N (.weak_copy i) e m = .ok e' m') : Kept N a ev0 e e' m' := by
  have hle := refs_le_population a e
  cases hi : e.weak[i]? with
  | none => simp [step, hi] at hs
  | some rhs =>
    simp only [step, hi, weak_intrusive_ptr.copy_ctor] at hs
    have happ := weak_holders_append a e.weak ⟨rhs.target_⟩
    have hrhs := hinv.weak_ok rhs (List.getElem?_mem hi)
    have hpos : rhs.target_ = a → 0 < weak_holders a e.weak :=
      weak_holders_pos a _ i rhs hi
    obtain ⟨m1, hr1, hacc1⟩ := accounted_weak_copy debug N ha hinv.acc (by omega) rhs.target_
      (by
        rcases hrhs with h | h
        · exact Or.inl ⟨h, by have := hpos h; unfold weak_refs; omega⟩
        · exact Or.inr h)
    simp only [hr1, Result.bind] at hs
    injection hs with h1 h2
    subst h1 h2
    have e1 : weak_refs a { e with weak := e.weak ++ [⟨rhs.target_⟩] }
        = weak_refs a e + (if rhs.target_ = a then 1 else 0) := by
      simp only [weak_refs, happ]; omega
    refine ⟨⟨hinv.strong_ok, forall_mem_append_singleton hinv.weak_ok hrhs,
      hinv.raw_strong_ok, hinv.raw_weak_ok, ?_⟩, ?_, ?_, ?_⟩
    · rw [e1]; exact hacc1
    · simp [population]; omega
    · exact Nat.le_succ _
    · exact fun h => h

theorem step_weak_move (debug : Bool) (N : NullType) {a : Addr} {ev0 : List Event}
    (ha : a ≠ N.singleton) (i : Nat) (e : Pointers) (m : Memory) (e' : Pointers) (m' : Memory)
    (hinv : Inv N a ev0 e m)
    (hs : step debug N (.weak_move i) e m = .ok e' m') : Kept N a ev0 e e' m' := by
  cases hi : e.weak[i]? with
  | none => simp [step, hi] at hs
  | some rhs =>
    simp only [step, hi, weak_intrusive_ptr.move_ctor] at hs
    injection hs with h1 h2
    subst h1 h2
    have hset := weak_holders_set a e.weak i ⟨N.singleton⟩ rhs hi
    have happ := weak_holders_append a (e.weak.set i ⟨N.singleton⟩) ⟨rhs.target_⟩
    have hrhs := hinv.weak_ok rhs (List.getElem?_mem hi)
    have e1 : weak_refs a { e with weak := e.weak.set i ⟨N.singleton⟩ ++ [⟨rhs.target_⟩] }
        = weak_refs a e := by
      simp only [weak_refs, happ]
      by_cases ht : rhs.target_ = a <;> simp [ht, ha.symm] at hset ⊢ <;> omega
    refine ⟨⟨hinv.strong_ok,
      forall_mem_append_singleton (forall_mem_set hinv.weak_ok (Or.inr rfl)) hrhs,
      hinv.raw_strong_ok, hinv.raw_weak_ok, ?_⟩, ?_, ?_, ?_⟩
    · rw [e1]; exact hinv.acc
    · simp [population]; omega
    · exact Nat.le_succ _
    · exact fun h => h

theorem step_weak_copy_assign (debug : Bool) (N : NullType) {a : Addr} {ev0 : List Event}
    (ha : a ≠ N.singleton) (i j : Nat) (e : Pointers) (m : Memory) (e' : Pointers)
    (m' : Memory) (hinv : Inv N a ev0 e m) (hb : population e + 1 < 2 ^ 64)
    (hs : step debug N (.weak_copy_assign i j) e m = .ok e' m') : Kept N a ev0 e e' m' := by
  have hle := refs_le_population a e
  cases hi : e.weak[i]? with
  | none => simp [step, hi] at hs
  | some self =>
    cases hj : e.weak[j]? with
    | none => simp [step, hi, hj] at hs
    | some rhs =>
      simp only [step, hi, hj, weak_intrusive_ptr.swap, weak_intrusive_ptr.copy_ctor] at hs
      have hset := weak_holders_set a e.weak i ⟨rhs.target_⟩ self hi
      have hself := hinv.weak_ok self (List.getElem?_mem hi)
      have hrhs := hinv.weak_ok rhs (List.getElem?_mem hj)
      have hposi : self.target_ = a → 0 < weak_holders a e.weak :=
        weak_holders_pos a _ i self hi
      have hposj : rhs.target_ = a → 0 < weak_holders a e.weak :=
        weak_holders_pos a _ j rhs hj
      obtain ⟨m1, hr1, hacc1⟩ := accounted_weak_copy debug N ha hinv.acc (by omega) rhs.target_
        (by
          rcases hrhs with h | h
          · exact Or.inl ⟨h, by have := hposj h; unfold weak_refs; omega⟩
          · exact Or.inr h)
      obtain ⟨m2, hr2, hacc2⟩ := accounted_weak_dtor debug N ha hacc1
        (by split <;> omega) ⟨self.target_⟩
        (by
          rcases hself with h | h
          · exact Or.inl ⟨h, by have := hposi h; unfold weak_refs; omega⟩
          · exact Or.inr h)
      simp only [hr1, hr2, Result.bind] at hs
      injection hs with h1 h2
      subst h1 h2
      have e1 : weak_refs a { e with weak := e.weak.set i ⟨rhs.target_⟩ }
          = weak_refs a e + (if rhs.target_ = a then 1 else 0)
            - (if self.target_ = a then 1 else 0) := by
        simp only [weak_refs]
        dsimp only at hset
        by_cases h1 : rhs.target_ = a <;> by_cases h2 : self.target_ = a <;>
          simp only [h1, h2, if_true, if_false] at hset ⊢ <;> omega
      refine ⟨⟨hinv.strong_ok, forall_mem_set hinv.weak_ok hrhs,
        hinv.raw_strong_ok, hinv.raw_weak_ok, ?_⟩, ?_, ?_, ?_⟩
      · rw [e1]; exact hacc2
      · simp [population]
      · exact Nat.le_succ _
      · exact fun h => h

theorem step_weak_move_assign (debug : Bool) (N : NullType) {a : Addr} {ev0 : List Event}
    (ha : a ≠ N.singleton) (i j : Nat) (e : Pointers) (m : Memory) (e' : Pointers)
    (m' : Memory) (hinv : Inv N a ev0 e m) (hb : population e + 1 < 2 ^ 64)
    (hs : step debug N (.weak_move_assign i j) e m = .ok e' m') : Kept N a ev0 e e' m' := by
  have hle := refs_le_population a e
  cases hj : e.weak[j]? with
  | none => simp [step, hj] at hs
  | some rhs =>
    cases hi : (e.weak.set j ⟨N.singleton⟩)[i]? with
    | none => simp [step, hj, hi, weak_intrusive_ptr.move_ctor] at hs
    | some self =>
      simp only [step, hj, hi, weak_intrusive_ptr.move_ctor, weak_intrusive_ptr.swap] at hs
      have hset1 := weak_holders_set a e.weak j ⟨N.singleton⟩ rhs hj
      have hset2 := weak_holders_set a (e.weak.set j ⟨N.singleton⟩) i ⟨rhs.target_⟩ self hi
      simp only [ha.symm, if_false] at hset1
      have hl1 : ∀ p ∈ e.weak.set j ⟨N.singleton⟩, p.target_ = a ∨ p.target_ = N.singleton :=
        forall_mem_set hinv.weak_ok (Or.inr rfl)
      have hself := hl1 self (List.getElem?_mem hi)
      have hrhs := hinv.weak_ok rhs (List.getElem?_mem hj)
      have hposi : self.target_ = a → 0 < weak_holders a (e.weak.set j ⟨N.singleton⟩) :=
        weak_holders_pos a _ i self hi
      obtain ⟨m2, hr2, hacc2⟩ := accounted_weak_dtor debug N ha hinv.acc
        (by omega) ⟨self.target_⟩
        (by
          rcases hself with h | h
          · exact Or.inl ⟨h, by have := hposi h; unfold weak_refs; omega⟩
          · exact Or.inr h)
      simp only [hr2, Result.bind] at hs
      injection hs with h1 h2
      subst h1 h2
      have e1 : weak_refs a
          { e with weak := (e.weak.set j ⟨N.singleton⟩).set i ⟨rhs.target_⟩ }
          = weak_refs a e - (if self.target_ = a then 1 else 0) := by
        simp only [weak_refs]
        by_cases h : self.target_ = a
        · have := hposi h
          simp only [h, if_true] at hset2 ⊢
          omega
        · simp only [h, if_false] at hset2 ⊢
          omega
      refine ⟨⟨hinv.strong_ok, forall_mem_set hl1 hrhs,
        hinv.raw_strong_ok, hinv.raw_weak_ok, ?_⟩, ?_, ?_, ?_⟩
      · rw [e1]; exact hacc2
      · simp [population]
      · exact Nat.le_succ _
      · exact fun h => h

theorem step_weak_reset (debug : Bool) (N : NullType) {a : Addr} {ev0 : List Event}
    (ha : a ≠ N.singleton) (i : Nat) (e : Pointers) (m : Memory) (e' : Pointers) (m' : Memory)
    (hinv : Inv N a ev0 e m) (hb : population e + 1 < 2 ^ 64)
    (hs : step debug N (.weak_reset i) e m = .ok e' m') : Kept N a ev0 e e' m' := by
  have hle := refs_le_population a e
  cases hi : e.weak[i]? with
  | none => simp [step, hi] at hs
  | some self =>
    simp only [step, hi, weak_intrusive_ptr.reset] at hs
    have hset := weak_holders_set a e.weak i ⟨N.singleton⟩ self hi
    simp only [ha.symm, if_false] at hset
    have hself := hinv.weak_ok self (List.getElem?_mem hi)
    have hpos : self.target_ = a → 0 < weak_holders a e.weak :=
      weak_holders_pos a _ i self hi
    obtain ⟨m1, hr1, hacc1⟩ := accounted_weak_dtor debug N ha hinv.acc (by omega) self
      (by
        rcases hself with h | h
        · exact Or.inl ⟨h, by have := hpos h; unfold weak_refs; omega⟩
        · exact Or.inr h)
    have hr : weak_intrusive_ptr.reset_ debug N self m = .ok ⟨N.singleton⟩ m1 := by
      simp only [weak_intrusive_ptr.dtor] at hr1
      rcases hself with h | h
      · have hW : 0 < weak_refs a e := by have := hpos h; unfold weak_refs; omega
        obtain ⟨m2, hr2, _⟩ := accounted_weak_reset debug N ha hinv.acc hW (by omega)
        rw [weak_eq_of_target h] at hr1 ⊢
        rw [hr2] at hr1
        simp only [Result.bind] at hr1
        injection hr1 with _ h2
        rw [hr2, h2]
      · rw [weak_reset_sentinel debug N self m h] at hr1 ⊢
        simp only [Result.bind] at hr1
        injection hr1 with _ h2
        rw [h2]
    simp only [hr, Result.bind] at hs
    injection hs with h1 h2
    subst h1 h2
    have e1 : weak_refs a { e with weak := e.weak.set i ⟨N.singleton⟩ }
        = weak_refs a e - (if self.target_ = a then 1 else 0) := by
      simp only [weak_refs]
      by_cases h : self.target_ = a
      · have := hpos h
        simp only [h, if_true] at hset ⊢
        omega
      · simp only [h, if_false] at hset ⊢
        omega
    refine ⟨⟨hinv.strong_ok, forall_mem_set hinv.weak_ok (Or.inr rfl),
      hinv.raw_strong_ok, hinv.raw_weak_ok, ?_⟩, ?_, ?_, ?_⟩
    · rw [e1]; exact hacc1
    · simp [population]
    · exact Nat.le_succ _
    · exact fun h => h

theorem step_weak_destroy (debug : Bool) (N : NullType) {a : Addr} {ev0 : List Event}
    (ha : a ≠ N.singleton) (i : Nat) (e : Pointers) (m : Memory) (e' : Pointers) (m' : Memory)
    (hinv : Inv N a ev0 e m) (hb : population e + 1 < 2 ^ 64)
    (hs : step debug N (.weak_destroy i) e m = .ok e' m') : Kept N a ev0 e e' m' := by
  have hle := refs_le_population a e
  cases hi : e.weak[i]? with
  | none => simp [step, hi] at hs
  | some self =>
    simp only [step, hi] at hs
    have hset := weak_holders_eraseIdx a e.weak i self hi
    have hlen := length_eraseIdx_le e.weak i
    have hself := hinv.weak_ok self (List.getElem?_mem hi)
    have hpos : self.target_ = a → 0 < weak_holders a e.weak :=
      weak_holders_pos a _ i self hi
    obtain ⟨m1, hr1, hacc1⟩ := accounted_weak_dtor debug N ha hinv.acc (by omega) self
      (by
        rcases hself with h | h
        · exact Or.inl ⟨h, by have := hpos h; unfold weak_refs; omega⟩
        · exact Or.inr h)
    simp only [hr1, Result.bind] at hs
    injection hs with h1 h2
    subst h1 h2
    have e1 : weak_refs a { e with weak := e.weak.eraseIdx i }
        = weak_refs a e - (if self.target_ = a then 1 else 0) := by
      simp only [weak_refs]
      by_cases h : self.target_ = a
      · have := hpos h
        simp only [h, if_true] at hset ⊢
        omega
      · simp only [h, if_false] at hset ⊢
        omega
    refine ⟨⟨hinv.strong_ok, forall_mem_eraseIdx hinv.weak_ok,
      hinv.raw_strong_ok, hinv.raw_weak_ok, ?_⟩, ?_, ?_, ?_⟩
    · rw [e1]; exact hacc1
    · simp only [population]; omega
    · exact Nat.le_succ _
    · exact fun h => h

theorem step_weak_release (debug : Bool) (N : NullType) {a : Addr} {ev0 : List Event}
    (ha : a ≠ N.singleton) (i : Nat) (e : Pointers) (m : Memory) (e' : Pointers) (m' : Memory)
    (hinv : Inv N a ev0 e m)
    (hs : step debug N (.weak_release i) e m = .ok e' m') : Kept N a ev0 e e' m' := by
  cases hi : e.weak[i]? with
  | none => simp [step, hi] at hs
  | some self =>
    simp only [step, hi, weak_intrusive_ptr.release] at hs
    injection hs with h1 h2
    subst h1 h2
    have hset := weak_holders_set a e.weak i ⟨N.singleton⟩ self hi
    have happ := raw_holders_append a e.raw_weak self.target_
    have hself := hinv.weak_ok self (List.getElem?_mem hi)
    have e1 : weak_refs a { e with weak := e.weak.set i ⟨N.singleton⟩,
                                   raw_weak := e.raw_weak ++ [self.target_] }
        = weak_refs a e := by
      simp only [weak_refs, happ]
      by_cases ht : self.target_ = a <;> simp [ht, ha.symm] at hset ⊢ <;> omega
    refine ⟨⟨hinv.strong_ok, forall_mem_set hinv.weak_ok (Or.inr rfl), hinv.raw_strong_ok,
      forall_mem_append_singleton hinv.raw_weak_ok hself, ?_⟩, ?_, ?_, ?_⟩
    · rw [e1]; exact hinv.acc
    · simp [population]; omega
    · exact Nat.le_succ _
    · exact fun h => h

theorem step_weak_reclaim (debug : Bool) (N : NullType) {a : Addr} {ev0 : List Event}
    (k : Nat) (e : Pointers) (m : Memory) (e' : Pointers) (m' : Memory)
    (hinv : Inv N a ev0 e m)
    (hs : step debug N (.weak_reclaim k) e m = .ok e' m') : Kept N a ev0 e e' m' := by
  cases hk : e.raw_weak[k]? with
  | none => simp [step, hk] at hs
  | some raw =>
    simp only [step, hk] at hs
    cases hrc : weak_intrusive_ptr.reclaim debug N raw m with
    | ok q m1 =>
      obtain ⟨hq, hm⟩ := weak_intrusive_ptr.reclaim_ok debug N raw m m1 q hrc
      subst hq hm
      simp only [hrc, Result.bind] at hs
      injection hs with h1 h2
      subst h1 h2
      have hset := raw_holders_eraseIdx a e.raw_weak k raw hk
      have happ := weak_holders_append a e.weak ⟨raw⟩
      have hlen := length_eraseIdx_le e.raw_weak k
      have hraw := hinv.raw_weak_ok raw (List.getElem?_mem hk)
      have e1 : weak_refs a { e with weak := e.weak ++ [⟨raw⟩],
                                     raw_weak := e.raw_weak.eraseIdx k }
          = weak_refs a e := by
        simp only [weak_refs, happ]
        omega
      refine ⟨⟨hinv.strong_ok, forall_mem_append_singleton hinv.weak_ok hraw,
        hinv.raw_strong_ok, forall_mem_eraseIdx hinv.raw_weak_ok, ?_⟩, ?_, ?_, ?_⟩
      · rw [e1]; exact hinv.acc
      · simp [population]; omega
      · exact Nat.le_succ _
      · exact fun h => h
    | assertion_failed msg m1 => simp [hrc, Result.bind] at hs
    | undefined_behavior => simp [hrc, Result.bind] at hs
    | out_of_fuel => simp [hrc, Result.bind] at hs

theorem step_lock (debug : Bool) (N : NullType) {a : Addr} {ev0 : List Event}
    (ha : a ≠ N.singleton) (i : Nat) (oracle : List Bool) (e : Pointers) (m : Memory)
    (e' : Pointers) (m' : Memory)
    (hinv : Inv N a ev0 e m) (hb : population e + 1 < 2 ^ 64)
    (hs : step debug N (.lock i oracle) e m = .ok e' m') : Kept N a ev0 e e' m' := by
  have hle := refs_le_population a e
  cases hi : e.weak[i]? with
  | none => simp [step, hi] at hs
  | some self =>
    simp only [step, hi] at hs
    cases hlk : weak_intrusive_ptr.lock N self oracle m with
    | ok q m1 =>
      simp only [hlk, Result.bind] at hs
      injection hs with h1 h2
      subst h1 h2
      have happ := strong_holders_append a e.strong q
      rcases hinv.weak_ok self (List.getElem?_mem hi) with ht | ht
      · have hW : 0 < weak_refs a e := by
          have := weak_holders_pos a _ i self hi ht
          unfold weak_refs; omega
        rw [weak_eq_of_target ht] at hlk
        rcases accounted_lock N hinv.acc hW (by omega) oracle q m1 hlk with
          ⟨hS, hq, hm⟩ | ⟨hS, hq, hacc⟩
        · subst hq hm
          simp only [ha.symm, if_false] at happ
          have e1 : strong_refs a { e with strong := e.strong ++ [⟨N.singleton⟩] }
              = strong_refs a e := by
            simp only [strong_refs, happ]; omega
          refine ⟨⟨forall_mem_append_singleton hinv.strong_ok (Or.inr rfl), hinv.weak_ok,
            hinv.raw_strong_ok, hinv.raw_weak_ok, ?_⟩, ?_, ?_, ?_⟩
          · rw [e1]; exact hinv.acc
          · simp [population]; omega
          · omega
          · omega
        · subst hq
          simp only [if_true] at happ
          have e1 : strong_refs a { e with strong := e.strong ++ [⟨a⟩] }
              = strong_refs a e + 1 := by
            simp only [strong_refs, happ]; omega
          refine ⟨⟨forall_mem_append_singleton hinv.strong_ok (Or.inl rfl), hinv.weak_ok,
            hinv.raw_strong_ok, hinv.raw_weak_ok, ?_⟩, ?_, ?_, ?_⟩
          · rw [e1]; exact hacc
          · simp [population]; omega
          · omega
          · omega
      · rw [weak_eq_of_target ht] at hlk
        obtain ⟨hq, hacc⟩ := accounted_lock_elsewhere N hinv.acc ha oracle q m1 hlk
        have hq' : q.target_ = N.singleton := by rcases hq with h | h <;> exact h
        have hqa : q.target_ ≠ a := by rw [hq']; exact ha.symm
        simp only [hqa, if_false] at happ
        have e1 : strong_refs a { e with strong := e.strong ++ [q] } = strong_refs a e := by
          simp only [strong_refs, happ]; omega
        refine ⟨⟨forall_mem_append_singleton hinv.strong_ok (Or.inr hq'), hinv.weak_ok,
          hinv.raw_strong_ok, hinv.raw_weak_ok, ?_⟩, ?_, ?_, ?_⟩
        · rw [e1]; exact hacc
        · simp [population]; omega
        · omega
        · omega
    | assertion_failed msg m1 => simp [hlk, Result.bind] at hs
    | undefined_behavior => simp [hlk, Result.bind] at hs
    | out_of_fuel => simp [hlk, Result.bind] at hs

/-- Every statement that returns normally keeps the invariant. -/
theorem step_kept (debug : Bool) (N : NullType) {a : Addr} {ev0 : List Event}
    (ha : a ≠ N.singleton) (op : Op) (e : Pointers) (m : Memory) (e' : Pointers) (m' : Memory)
    (hinv : Inv N a ev0 e m) (hb : population e + 1 < 2 ^ 64)
    (hs : step debug N op e m = .ok e' m') : Kept N a ev0 e e' m' := by
  cases op with
  | copy i => exact step_copy debug N ha i e m e' m' hinv hb hs
  | move i => exact step_move debug N ha i e m e' m' hinv hs
  | copy_assign i j => exact step_copy_assign debug N ha i j e m e' m' hinv hb hs
  | move_assign i j => exact step_move_assign debug N ha i j e m e' m' hinv hb hs
  | reset i => exact step_reset debug N ha i e m e' m' hinv hb hs
  | destroy i => exact step_destroy debug N ha i e m e' m' hinv hb hs
  | release i => exact step_release debug N ha i e m e' m' hinv hs
  | reclaim k => exact step_reclaim debug N k e m e' m' hinv hs
  | weak_from_strong i => exact step_weak_from_strong debug N ha i e m e' m' hinv hb hs
  | weak_copy i => exact step_weak_copy debug N ha i e m e' m' hinv hb hs
  | weak_move i => exact step_weak_move debug N ha i e m e' m' hinv hs
  | weak_copy_assign i j => exact step_weak_copy_assign debug N ha i j e m e' m' hinv hb hs
  | weak_move_assign i j => exact step_weak_move_assign debug N ha i j e m e' m' hinv hb hs
  | weak_reset i => exact step_weak_reset debug N ha i e m e' m' hinv hb hs
  | weak_destroy i => exact step_weak_destroy debug N ha i e m e' m' hinv hb hs
  | weak_release i => exact step_weak_release debug N ha i e m e' m' hinv hs
  | weak_reclaim k => exact step_weak_reclaim debug N k e m e' m' hinv hs
  | lock i oracle => exact step_lock debug N ha i oracle e m e' m' hinv hb hs

/-! ## Runs of programs -/

theorem Result.bind_eq_ok {α β : Type} {r : Result α} {f : α → Memory → Result β} {v : β}
    {m : Memory} (h : r.bind f = .ok v m) : ∃ v1 m1, r = .ok v1 m1 ∧ f v1 m1 = .ok v m := by
  cases r with
  | ok v1 m1 => exact ⟨v1, m1, rfl, h⟩
  | assertion_failed msg m1 => simp [Result.bind] at h
  | undefined_behavior => simp [Result.bind] at h
  | out_of_fuel => simp [Result.bind] at h

/-- A run that returns normally keeps the invariant, adds at most one pointer per
statement, and never brings the number of strong references back up from zero. -/
theorem run_kept (debug : Bool) (N : NullType) {a : Addr} {ev0 : List Event}
    (ha : a ≠ N.singleton) :
    ∀ (ops : List Op) (e : Pointers) (m : Memory) (e' : Pointers) (m' : Memory),
      Inv N a ev0 e m → population e + ops.length < 2 ^ 64 →
      run debug N ops e m = .ok e' m' →
      Inv N a ev0 e' m' ∧ population e' ≤ population e + ops.length ∧
        (strong_refs a e = 0 → strong_refs a e' = 0) := by
  intro ops
  induction ops with
  | nil =>
    intro e m e' m' hinv _ hr
    simp only [run] at hr
    injection hr with h1 h2
    subst h1 h2
    exact ⟨hinv, by simp, fun h => h⟩
  | cons op ops ih =>
    intro e m e' m' hinv hb hr
    simp only [run] at hr
    obtain ⟨e1, m1, hs, hr1⟩ := Result.bind_eq_ok hr
    simp only [List.length_cons] at hb
    obtain ⟨hinv1, hp1, _, hz1⟩ := step_kept debug N ha op e m e1 m1 hinv (by omega) hs
    obtain ⟨hinv2, hp2, hz2⟩ := ih e1 m1 e' m' hinv1 (by omega) hr1
    refine ⟨hinv2, ?_, fun h => hz2 (hz1 h)⟩
    simp only [List.length_cons]; omega

/-- The state right after `make_intrusive`. -/
theorem start_eq (m : Memory) :
    start m = .ok ⟨[⟨m.objects.length + 1⟩], [], [], []⟩
      ((Memory.mk (m.objects ++ [some ⟨0, 0⟩]) m.events).store (m.objects.length + 1) ⟨1, 1⟩) := by
  simp [start, make_intrusive_eq, Result.bind]

theorem sentinel_ne_fresh (N : NullType) (m : Memory) (hN : N.singleton ≤ m.objects.length) :
    m.objects.length + 1 ≠ N.singleton := by
  intro h
  have h2 : m.objects.length + 1 ≤ m.objects.length := h ▸ hN
  omega

/-- The invariant holds right after `make_intrusive`. -/
theorem start_inv (N : NullType) (m : Memory) :
    Inv N (m.objects.length + 1) m.events ⟨[⟨m.objects.length + 1⟩], [], [], []⟩
      ((Memory.mk (m.objects ++ [some ⟨0, 0⟩]) m.events).store (m.objects.length + 1) ⟨1, 1⟩) := by
  refine ⟨?_, ?_, ?_, ?_, ?_⟩
  · intro p hp; simp at hp; subst hp; exact Or.inl rfl
  · intro p hp; simp at hp
  · intro p hp; simp at hp
  · intro p hp; simp at hp
  · left
    have h1 : strong_refs (m.objects.length + 1) ⟨[⟨m.objects.length + 1⟩], [], [], []⟩ = 1 := by
      simp [strong_refs, strong_holders, raw_holders]
    have h2 : weak_refs (m.objects.length + 1) ⟨[⟨m.objects.length + 1⟩], [], [], []⟩ = 0 := by
      simp [weak_refs, weak_holders, raw_holders]
    rw [h1, h2]
    refine ⟨?_, by omega, by simp⟩
    simpa using Memory.load_store_same (Memory.load_new m) ⟨1, 1⟩

/-- A program that returns normally ends in a state with the invariant. -/
theorem program_inv (debug : Bool) (N : NullType) (m0 : Memory)
    (hN : N.singleton ≤ m0.objects.length) (ops : List Op) (hlen : ops.length + 1 < 2 ^ 64)
    (e : Pointers) (m : Memory) (hrun : program debug N ops m0 = .ok e m) :
    Inv N (m0.objects.length + 1) m0.events e m ∧ population e ≤ ops.length + 1 := by
  simp only [program, start_eq, Result.bind] at hrun
  have hp : population ⟨[⟨m0.objects.length + 1⟩], [], [], []⟩ = 1 := by simp [population]
  obtain ⟨hinv, hpop, _⟩ := run_kept debug N (sentinel_ne_fresh N m0 hN) ops _ _ e m
    (start_inv N m0) (by rw [hp]; omega) hrun
  exact ⟨hinv, by rw [hp] at hpop; omega⟩


/-- The three stages of an accounted target, read off the events since it was made. -/
theorem accounted_stage {a : Addr} {ev0 : List Event} {S W : Nat} {m : Memory}
    (h : accounted a ev0 S W m) :
    (0 < S ∧ m.events = ev0 ∧ m.load a = some ⟨S, W + 1⟩) ∨
    (S = 0 ∧ m.events = .release_resources a :: ev0 ∧ m.load a = some ⟨0, W⟩) ∨
    (S = 0 ∧ m.events = .deallocate a :: .release_resources a :: ev0 ∧ m.load a = none) := by
  rcases h with ⟨hl, _, he⟩ | ⟨hl, hS, _, he⟩
  · by_cases hS : S = 0
    · subst hS
      right; left
      exact ⟨rfl, by simpa using he, by simpa using hl⟩
    · left
      have hpos : 0 < S := by omega
      exact ⟨hpos, by simpa [hS] using he, by simpa [hpos] using hl⟩
  · right; right
    exact ⟨hS, he, hl⟩

/-- The statements of P1 touch no weak pointer and no raw pointer of the program. -/
theorem step_strong_lifecycle_frame (debug : Bool) (N : NullType) (op : Op) (e : Pointers)
    (m : Memory) (e' : Pointers) (m' : Memory) (hop : op.is_strong_lifecycle = true)
    (hs : step debug N op e m = .ok e' m') :
    e'.weak = e.weak ∧ e'.raw_strong = e.raw_strong ∧ e'.raw_weak = e.raw_weak := by
  cases op with
  | copy i =>
    simp only [step] at hs
    split at hs
    · simp at hs
    · obtain ⟨_, _, _, h2⟩ := Result.bind_eq_ok hs
      injection h2 with h3 _
      subst h3
      exact ⟨rfl, rfl, rfl⟩
  | move i =>
    simp only [step] at hs
    split at hs
    · simp at hs
    · injection hs with h3 _
      subst h3
      exact ⟨rfl, rfl, rfl⟩
  | copy_assign i j =>
    simp only [step] at hs
    split at hs
    · obtain ⟨_, _, _, h2⟩ := Result.bind_eq_ok hs
      obtain ⟨_, _, _, h3⟩ := Result.bind_eq_ok h2
      injection h3 with h4 _
      subst h4
      exact ⟨rfl, rfl, rfl⟩
    · simp at hs
  | move_assign i j =>
    simp only [step] at hs
    split at hs
    · simp at hs
    · split at hs
      · simp at hs
      · obtain ⟨_, _, _, h2⟩ := Result.bind_eq_ok hs
        injection h2 with h3 _
        subst h3
        exact ⟨rfl, rfl, rfl⟩
  | reset i =>
    simp only [step] at hs
    split at hs
    · simp at hs
    · obtain ⟨_, _, _, h2⟩ := Result.bind_eq_ok hs
      injection h2 with h3 _
      subst h3
      exact ⟨rfl, rfl, rfl⟩
  | destroy i =>
    simp only [step] at hs
    split at hs
    · simp at hs
    · obtain ⟨_, _, _, h2⟩ := Result.bind_eq_ok hs
      injection h2 with h3 _
      subst h3
      exact ⟨rfl, rfl, rfl⟩
  | release i => simp [Op.is_strong_lifecycle] at hop
  | reclaim k => simp [Op.is_strong_lifecycle] at hop
  | weak_from_strong i => simp [Op.is_strong_lifecycle] at hop
  | weak_copy i => simp [Op.is_strong_lifecycle] at hop
  | weak_move i => simp [Op.is_strong_lifecycle] at hop
  | weak_copy_assign i j => simp [Op.is_strong_lifecycle] at hop
  | weak_move_assign i j => simp [Op.is_strong_lifecycle] at hop
  | weak_reset i => simp [Op.is_strong_lifecycle] at hop
  | weak_destroy i => simp [Op.is_strong_lifecycle] at hop
  | weak_release i => simp [Op.is_strong_lifecycle] at hop
  | weak_reclaim k => simp [Op.is_strong_lifecycle] at hop
  | lock i oracle => simp [Op.is_strong_lifecycle] at hop

theorem run_strong_lifecycle_frame (debug : Bool) (N : NullType) :
    ∀ (ops : List Op) (e : Pointers) (m : Memory) (e' : Pointers) (m' : Memory),
      (∀ op ∈ ops, op.is_strong_lifecycle = true) → run debug N ops e m = .ok e' m' →
      e'.weak = e.weak ∧ e'.raw_strong = e.raw_strong ∧ e'.raw_weak = e.raw_weak := by
  intro ops
  induction ops with
  | nil =>
    intro e m e' m' _ hr
    simp only [run] at hr
    injection hr with h1 _
    subst h1
    exact ⟨rfl, rfl, rfl⟩
  | cons op ops ih =>
    intro e m e' m' hops hr
    simp only [run] at hr
    obtain ⟨e1, m1, hs, hr1⟩ := Result.bind_eq_ok hr
    obtain ⟨h1, h2, h3⟩ := step_strong_lifecycle_frame debug N op e m e1 m1
      (hops op (List.mem_cons_self _ _)) hs
    obtain ⟨h4, h5, h6⟩ := ih e1 m1 e' m' (fun o ho => hops o (List.mem_cons_of_mem _ ho)) hr1
    exact ⟨h4.trans h1, h5.trans h2, h6.trans h3⟩

theorem drop_weak_some (debug : Bool) (N : NullType) (a : Addr) (ha : a ≠ N.singleton) :
    ∀ (j : Nat) (m : Memory) (c : Nat), m.load a = some ⟨0, c⟩ → j < c → c < 2 ^ 64 →
      ∃ m2, drop_weak debug N a j m = .ok () m2 ∧ m2.load a = some ⟨0, c - j⟩ ∧
        m2.events = m.events := by
  intro j
  induction j with
  | zero =>
    intro m c hl _ _
    exact ⟨m, rfl, by simpa using hl, rfl⟩
  | succ j ih =>
    intro m c hl hj hc
    obtain ⟨m1, hr, _, h1, _⟩ :=
      weak_reset_spec debug N ⟨a⟩ m 0 c ha hl (by omega) hc (Or.inl (by omega))
    obtain ⟨hl1, he1⟩ := h1 (by omega)
    obtain ⟨m2, hr2, hl2, he2⟩ := ih m1 (c - 1) hl1 (by omega) (by omega)
    refine ⟨m2, ?_, ?_, he2.trans he1⟩
    · simp [drop_weak, weak_intrusive_ptr.dtor, hr, Result.bind, hr2]
    · rw [hl2]
      congr 2
      omega

theorem drop_weak_all (debug : Bool) (N : NullType) (a : Addr) (ha : a ≠ N.singleton) :
    ∀ (j : Nat) (m : Memory), m.load a = some ⟨0, j + 1⟩ → j + 1 < 2 ^ 64 →
      ∃ m3, drop_weak debug N a (j + 1) m = .ok () m3 ∧ m3.load a = none ∧
        m3.events = .deallocate a :: m.events := by
  intro j
  induction j with
  | zero =>
    intro m hl hc
    obtain ⟨m1, hr, _, _, h2⟩ :=
      weak_reset_spec debug N ⟨a⟩ m 0 1 ha hl (by omega) hc (Or.inr (Or.inl rfl))
    obtain ⟨hl1, he1⟩ := h2 rfl
    exact ⟨m1, by simp [drop_weak, weak_intrusive_ptr.dtor, hr, Result.bind], hl1, he1⟩
  | succ j ih =>
    intro m hl hc
    obtain ⟨m1, hr, _, h1, _⟩ :=
      weak_reset_spec debug N ⟨a⟩ m 0 (j + 1 + 1) ha hl (by omega) hc (Or.inl (by omega))
    obtain ⟨hl1, he1⟩ := h1 (by omega)
    obtain ⟨m3, hr3, hl3, he3⟩ := ih m1 hl1 (by omega)
    refine ⟨m3, ?_, hl3, by rw [he3, he1]⟩
    rw [drop_weak]
    simp only [weak_intrusive_ptr.dtor, hr, Result.bind]
    exact hr3

/-! ## Facts about assertions and the raw interop layer -/

theorem size_t_inc_ne_one {n : Nat} (h1 : 1 ≤ n) (h2 : n < 2 ^ 64) : size_t_inc n ≠ 1 := by
  unfold size_t_inc; omega

/-- The value of `retain_()` on a strong pointer to a live object, in every build. -/
theorem strong_retain_eq (debug : Bool) (N : NullType) (p : intrusive_ptr) (m : Memory)
    (n w : Nat) (hp : p.target_ ≠ N.singleton) (hl : m.load p.target_ = some ⟨n, w⟩) :
    p.retain_ debug N m =
      if debug = true ∧ size_t_inc n = 1 then
        .assertion_failed .cannot_increase_refcount (m.store p.target_ ⟨size_t_inc n, w⟩)
      else .ok () (m.store p.target_ ⟨size_t_inc n, w⟩) := by
  by_cases h : size_t_inc n = 1 <;> cases debug <;>
    simp [intrusive_ptr.retain_, hp, refcount_inc, hl, Result.bind,
      TORCH_INTERNAL_ASSERT_DEBUG_ONLY, h]

/-- The value of `weak_intrusive_ptr::reclaim` in a debug build on a pointer to a live
object that is not the sentinel. -/
theorem weak_reclaim_debug_eq (N : NullType) (raw : Addr) (m : Memory) (n c : Nat)
    (hne : raw ≠ N.singleton) (hl : m.load raw = some ⟨n, c⟩) :
    weak_intrusive_ptr.reclaim true N raw m =
      if 1 < c ∨ (n = 0 ∧ 0 < c) then .ok ⟨raw⟩ m
      else .assertion_failed .weak_reclaim_not_released m := by
  by_cases h1 : 1 < c
  · simp [weak_intrusive_ptr.reclaim, hne, weakcount_load, hl, Result.bind, h1,
      TORCH_INTERNAL_ASSERT_DEBUG_ONLY]
  · by_cases h2 : n = 0
    · by_cases h3 : 0 < c
      · simp [weak_intrusive_ptr.reclaim, hne, weakcount_load, refcount_load, hl,
          Result.bind, h1, h2, h3, TORCH_INTERNAL_ASSERT_DEBUG_ONLY]
      · simp [weak_intrusive_ptr.reclaim, hne, weakcount_load, refcount_load, hl,
          Result.bind, h1, h2, h3, TORCH_INTERNAL_ASSERT_DEBUG_ONLY]
    · simp [weak_intrusive_ptr.reclaim, hne, weakcount_load, refcount_load, hl,
        Result.bind, h1, h2, TORCH_INTERNAL_ASSERT_DEBUG_ONLY]

/-- A release build evaluates no assertion: `weak_intrusive_ptr::reclaim` wraps the raw
pointer. -/
theorem weak_reclaim_release_eq (N : NullType) (raw : Addr) (m : Memory) :
    weak_intrusive_ptr.reclaim false N raw m = .ok ⟨raw⟩ m := by
  simp [weak_intrusive_ptr.reclaim]

/-- When the counts admit a weak reference, `weak_intrusive_ptr::reclaim` passes in
every build. -/
theorem weak_reclaim_of_admitted (debug : Bool) (N : NullType) (raw : Addr) (m : Memory)
    (n c : Nat) (hne : raw ≠ N.singleton) (hl : m.load raw = some ⟨n, c⟩)
    (hadm : 1 < c ∨ (n = 0 ∧ 0 < c)) :
    weak_intrusive_ptr.reclaim debug N raw m = .ok ⟨raw⟩ m := by
  cases debug with
  | false => exact weak_reclaim_release_eq N raw m
  | true => rw [weak_reclaim_debug_eq N raw m n c hne hl, if_pos hadm]

/-- The value of `raw::intrusive_ptr::incref` on a pointer to a live object. -/
theorem raw_incref_eq (p : Addr) (m : Memory) (n w : Nat) (hl : m.load p = some ⟨n, w⟩) :
    raw.intrusive_ptr.incref p m = .ok () (m.store p ⟨size_t_inc n, w⟩) := by
  have hp : p ≠ nullptr := by
    intro h
    rw [h] at hl
    simp [nullptr, Memory.load] at hl
  simp [raw.intrusive_ptr.incref, hp, refcount_inc, hl, Result.bind]

/-- The value of the typed path on a pointer to a live object. -/
theorem typed_incref_eq (debug : Bool) (p : Addr) (m : Memory) (n w : Nat)
    (hl : m.load p = some ⟨n, w⟩) :
    typed_incref debug p m =
      if debug = true ∧ size_t_inc n = 1 then
        .assertion_failed .cannot_increase_refcount (m.store p ⟨size_t_inc n, w⟩)
      else .ok () (m.store p ⟨size_t_inc n, w⟩) := by
  have hp : p ≠ intrusive_target_default_null_type.singleton := by
    intro h
    rw [h] at hl
    simp [intrusive_target_default_null_type, nullptr, Memory.load] at hl
  have hr := strong_retain_eq debug intrusive_target_default_null_type ⟨p⟩ m n w hp hl
  by_cases h : debug = true ∧ size_t_inc n = 1
  · rw [if_pos h] at hr
    rw [if_pos h]
    simp [typed_incref, intrusive_ptr.copy_ctor, hr, Result.bind]
  · rw [if_neg h] at hr
    rw [if_neg h]
    simp [typed_incref, intrusive_ptr.copy_ctor, hr, Result.bind, intrusive_ptr.release,
      intrusive_ptr.dtor, intrusive_ptr.reset_]

theorem load_ne_nullptr {p : Addr} {m : Memory} {t : intrusive_ptr_target}
    (hl : m.load p = some t) : p ≠ intrusive_target_default_null_type.singleton := by
  intro h
  rw [h] at hl
  simp [intrusive_target_default_null_type, nullptr, Memory.load] at hl

/-- The value of `raw::intrusive_ptr::make_weak` on a pointer to a live object whose weak
count can be incremented. -/
theorem raw_make_weak_eq (debug : Bool) (p : Addr) (m : Memory) (n c : Nat)
    (hl : m.load p = some ⟨n, c⟩) (hc : 1 ≤ c ∨ debug = false) (hc2 : c + 1 < 2 ^ 64) :
    raw.intrusive_ptr.make_weak debug p m = .ok p (m.store p ⟨n, c + 1⟩) := by
  have hp := load_ne_nullptr hl
  have hinc : size_t_inc c = c + 1 := by unfold size_t_inc; omega
  have hne : debug = true → ¬ (c + 1 = 1) := by
    intro hd
    rcases hc with h | h
    · omega
    · rw [hd] at h; cases h
  cases debug with
  | false =>
    simp [raw.intrusive_ptr.make_weak, weak_intrusive_ptr.from_strong, intrusive_ptr.reclaim,
      intrusive_ptr.mk_raw, intrusive_ptr.get, weak_intrusive_ptr.retain_, hp, weakcount_inc,
      hl, Result.bind, Result.unwind, TORCH_INTERNAL_ASSERT_DEBUG_ONLY, hinc,
      weak_intrusive_ptr.release, intrusive_ptr.release, weak_intrusive_ptr.dtor,
      intrusive_ptr.dtor, weak_intrusive_ptr.reset_, intrusive_ptr.reset_]
  | true =>
    have h1 : ¬ (c + 1 = 1) := hne rfl
    have h2 : ¬ (c = 0) := by omega
    simp [raw.intrusive_ptr.make_weak, weak_intrusive_ptr.from_strong, intrusive_ptr.reclaim,
      intrusive_ptr.mk_raw, intrusive_ptr.get, weak_intrusive_ptr.retain_, hp, weakcount_inc,
      hl, Result.bind, Result.unwind, TORCH_INTERNAL_ASSERT_DEBUG_ONLY, hinc, h2,
      weak_intrusive_ptr.release, intrusive_ptr.release, weak_intrusive_ptr.dtor,
      intrusive_ptr.dtor, weak_intrusive_ptr.reset_, intrusive_ptr.reset_]

/-- The value of `raw::intrusive_ptr::use_count` on a pointer to a live object. -/
theorem raw_use_count_eq (debug : Bool) (p : Addr) (m : Memory) (n c : Nat)
    (hl : m.load p = some ⟨n, c⟩) :
    raw.intrusive_ptr.use_count debug p m = .ok (n % 2 ^ 32) m := by
  have hp := load_ne_nullptr hl
  simp [raw.intrusive_ptr.use_count, intrusive_ptr.use_count, intrusive_ptr.reclaim,
    intrusive_ptr.mk_raw, hp, refcount_load, hl, Result.bind, intrusive_ptr.release,
    intrusive_ptr.dtor, intrusive_ptr.reset_, to_uint32_t]

/-- The value of `raw::weak_intrusive_ptr::use_count` on a pointer to a live object to
which a weak reference exists, or in a release build. -/
theorem raw_weak_use_count_eq (debug : Bool) (p : Addr) (m : Memory) (n c : Nat)
    (hl : m.load p = some ⟨n, c⟩) (hadm : (1 < c ∨ (n = 0 ∧ 0 < c)) ∨ debug = false) :
    raw.weak_intrusive_ptr.use_count debug p m = .ok (n % 2 ^ 32) m := by
  have hp := load_ne_nullptr hl
  have hrec : weak_intrusive_ptr.reclaim debug intrusive_target_default_null_type p m
      = .ok ⟨p⟩ m := by
    rcases hadm with h | h
    · exact weak_reclaim_of_admitted debug _ p m n c hp hl h
    · rw [h]; exact weak_reclaim_release_eq _ p m
  unfold raw.weak_intrusive_ptr.use_count
  rw [hrec]
  simp [weak_intrusive_ptr.use_count, hp, refcount_load, hl, Result.bind,
    weak_intrusive_ptr.release, weak_intrusive_ptr.dtor, weak_intrusive_ptr.reset_,
    to_uint32_t]

/-! ## Facts about `DispatchKeySet` -/

theorem countLeadingZeros_below_spec (k x : Nat) :
    llvm.countLeadingZeros_below k x ≤ k ∧
    (∀ i, k - llvm.countLeadingZeros_below k x ≤ i → i < k → x.testBit i = false) ∧
    (llvm.countLeadingZeros_below k x < k →
      x.testBit (k - llvm.countLeadingZeros_below k x - 1) = true) := by
  induction k with
  | zero => simp [llvm.countLeadingZeros_below]
  | succ k ih =>
    unfold llvm.countLeadingZeros_below
    by_cases hb : x.testBit k = true
    · rw [if_pos hb]
      refine ⟨by omega, ?_, ?_⟩
      · intro i h1 h2
        omega
      · intro _
        simpa using hb
    · rw [if_neg hb]
      obtain ⟨h1, h2, h3⟩ := ih
      refine ⟨by omega, ?_, ?_⟩
      · intro i hi1 hi2
        by_cases hik : i = k
        · rw [hik]
          simpa using hb
        · exact h2 i (by omega) (by omega)
      · intro hlt
        have h4 := h3 (by omega)
        have h5 : k + 1 - (llvm.countLeadingZeros_below k x + 1) - 1
            = k - llvm.countLeadingZeros_below k x - 1 := by omega
        rw [h5]
        exact h4

theorem testBit_false_of_lt_two_pow_64 {x i : Nat} (hx : x < 2 ^ 64) (hi : 64 ≤ i) :
    x.testBit i = false := by
  apply Nat.testBit_lt_two_pow
  calc x < 2 ^ 64 := hx
    _ ≤ 2 ^ i := Nat.pow_le_pow_right (by decide) hi

/-- The value `64 - countLeadingZeros(x)` is 0 exactly for the word 0; otherwise bit
`64 - countLeadingZeros(x) - 1` of `x` is set and no bit from there upwards is. -/
theorem highest_bit_spec (x : Nat) (hx : x < 2 ^ 64) :
    (64 - llvm.countLeadingZeros x = 0 ↔ x = 0) ∧
    (x ≠ 0 → x.testBit (64 - llvm.countLeadingZeros x - 1) = true) ∧
    (∀ i, x.testBit i = true → i < 64 - llvm.countLeadingZeros x) := by
  obtain ⟨h1, h2, h3⟩ := countLeadingZeros_below_spec 64 x
  have hupper : ∀ i, x.testBit i = true → i < 64 - llvm.countLeadingZeros x := by
    intro i hi
    by_contra hc
    have hge : 64 - llvm.countLeadingZeros_below 64 x ≤ i := by
      unfold llvm.countLeadingZeros at hc
      omega
    by_cases h64 : i < 64
    · rw [h2 i hge h64] at hi
      cases hi
    · rw [testBit_false_of_lt_two_pow_64 hx (by omega)] at hi
      cases hi
  have hzero : 64 - llvm.countLeadingZeros x = 0 → x = 0 := by
    intro h0
    apply Nat.eq_of_testBit_eq
    intro i
    rw [Nat.zero_testBit]
    by_contra hc
    have := hupper i (by simpa using hc)
    omega
  have hnz : x ≠ 0 → llvm.countLeadingZeros_below 64 x < 64 := by
    intro hne
    by_contra hc
    apply hne
    apply hzero
    unfold llvm.countLeadingZeros
    omega
  refine ⟨⟨hzero, ?_⟩, ?_, hupper⟩
  · intro h0
    rw [h0]
    rfl
  · intro hne
    exact h3 (hnz hne)

/-- A word meets the single bit `k` of a 64-bit word exactly when `k < 64` and its bit
`k` is set. -/
theorem and_single_ne_zero (x k : Nat) :
    ((x &&& (1 <<< k) % 2 ^ 64) != 0) = (decide (k < 64) && x.testBit k) := by
  rw [Nat.one_shiftLeft]
  by_cases hk : k < 64
  · have h1 : 2 ^ k % 2 ^ 64 = 2 ^ k :=
      Nat.mod_eq_of_lt (Nat.pow_lt_pow_right (by decide) hk)
    rw [h1, Nat.and_two_pow]
    cases hb : x.testBit k
    · simp
    · simp [hk]
  · have h1 : 2 ^ k % 2 ^ 64 = 0 := by
      apply Nat.mod_eq_zero_of_dvd
      exact Nat.pow_dvd_pow 2 (by omega)
    rw [h1]
    simp [hk]

/-- The value of `has(t)` for a key other than `Undefined`. -/
theorem DispatchKeySet.has_eq (s : DispatchKeySet) (t : DispatchKey) (ht : 1 ≤ t.value) :
    s.has t = some (decide (t.value - 1 < 64) && s.repr_.testBit (t.value - 1)) := by
  have hne : t ≠ DispatchKey.Undefined := by
    intro h
    rw [h] at ht
    exact absurd ht (by decide)
  have h1 : (t != DispatchKey.Undefined) = true := by simpa using hne
  unfold DispatchKeySet.has TORCH_INTERNAL_ASSERT DispatchKeySet.of_key
  rw [h1, if_pos rfl, if_neg hne]
  simp only [Option.bind]
  rw [and_single_ne_zero]

/-- The value of `has(t)` for a key from 1 to 64. -/
theorem DispatchKeySet.has_eq_testBit (s : DispatchKeySet) (t : DispatchKey)
    (ht : 1 ≤ t.value) (ht2 : t.value ≤ 64) :
    s.has t = some (s.repr_.testBit (t.value - 1)) := by
  rw [DispatchKeySet.has_eq s t ht]
  have : t.value - 1 < 64 := by omega
  simp [this]

/-- The bits of the singleton set of a key from 1 to 64. -/
theorem DispatchKeySet.of_key_testBit (t : DispatchKey) (ht : 1 ≤ t.value)
    (ht2 : t.value ≤ 64) (i : Nat) :
    (DispatchKeySet.of_key t).repr_.testBit i = decide (t.value - 1 = i) := by
  have hne : t ≠ DispatchKey.Undefined := by
    intro h
    rw [h] at ht
    exact absurd ht (by decide)
  have h1 : 2 ^ (t.value - 1) % 2 ^ 64 = 2 ^ (t.value - 1) :=
    Nat.mod_eq_of_lt (Nat.pow_lt_pow_right (by decide) (by omega))
  simp only [DispatchKeySet.of_key, if_neg hne, Nat.one_shiftLeft, h1]
  exact Nat.testBit_two_pow

/-- The bits of `~x` on a 64-bit word. -/
theorem uint64_not_testBit (x i : Nat) :
    (uint64_not x).testBit i = (decide (i < 64) && !x.testBit i) := by
  unfold uint64_not
  have hlt : x % 2 ^ 64 < 2 ^ 64 := Nat.mod_lt _ (by decide)
  rw [Nat.sub_sub, Nat.add_comm 1, Nat.testBit_two_pow_sub_succ hlt, Nat.testBit_mod_two_pow]
  by_cases h : i < 64 <;> simp [h]

/-! ## Facts about `TensorOptions` -/

@[simp] theorem TensorOptions.device_opt_set_device (r : TensorOptions) (v : Option Device) :
    (r.set_device v).device_opt = v := by
  cases v <;> rfl

@[simp] theorem TensorOptions.has_device_set_device (r : TensorOptions) (v : Option Device) :
    (r.set_device v).has_device = v.isSome := by
  cases v <;> rfl

@[simp] theorem TensorOptions.dtype_opt_set_device (r : TensorOptions) (v : Option Device) :
    (r.set_device v).dtype_opt = r.dtype_opt := by
  cases v <;> rfl

@[simp] theorem TensorOptions.has_dtype_set_device (r : TensorOptions) (v : Option Device) :
    (r.set_device v).has_dtype = r.has_dtype := by
  cases v <;> rfl

@[simp] theorem TensorOptions.layout_opt_set_device (r : TensorOptions) (v : Option Device) :
    (r.set_device v).layout_opt = r.layout_opt := by
  cases v <;> rfl

@[simp] theorem TensorOptions.has_layout_set_device (r : TensorOptions) (v : Option Device) :
    (r.set_device v).has_layout = r.has_layout := by
  cases v <;> rfl

@[simp] theorem TensorOptions.requires_grad_opt_set_device (r : TensorOptions) (v : Option Device) :
    (r.set_device v).requires_grad_opt = r.requires_grad_opt := by
  cases v <;> rfl

@[simp] theorem TensorOptions.has_requires_grad_set_device (r : TensorOptions) (v : Option Device) :
    (r.set_device v).has_requires_grad = r.has_requires_grad := by
  cases v <;> rfl

@[simp] theorem TensorOptions.pinned_memory_opt_set_device (r : TensorOptions) (v : Option Device) :
    (r.set_device v).pinned_memory_opt = r.pinned_memory_opt := by
  cases v <;> rfl

@[simp] theorem TensorOptions.has_pinned_memory_set_device (r : TensorOptions) (v : Option Device) :
    (r.set_device v).has_pinned_memory = r.has_pinned_memory := by
  cases v <;> rfl

@[simp] theorem TensorOptions.memory_format_opt_set_device (r : TensorOptions) (v : Option Device) :
    (r.set_device v).memory_format_opt = r.memory_format_opt := by
  cases v <;> rfl

@[simp] theorem TensorOptions.has_memory_format_set_device (r : TensorOptions) (v : Option Device) :
    (r.set_device v).has_memory_format = r.has_memory_format := by
  cases v <;> rfl

@[simp] theorem TensorOptions.dtype_opt_set_dtype (r : TensorOptions) (v : Option caffe2.TypeMeta) :
    (r.set_dtype v).dtype_opt = v := by
  cases v <;> rfl

@[simp] theorem TensorOptions.has_dtype_set_dtype (r : TensorOptions) (v : Option caffe2.TypeMeta) :
    (r.set_dtype v).has_dtype = v.isSome := by
  cases v <;> rfl

@[simp] theorem TensorOptions.device_opt_set_dtype (r : TensorOptions) (v : Option caffe2.TypeMeta) :
    (r.set_dtype v).device_opt = r.device_opt := by
  cases v <;> rfl

@[simp] theorem TensorOptions.has_device_set_dtype (r : TensorOptions) (v : Option caffe2.TypeMeta) :
    (r.set_dtype v).has_device = r.has_device := by
  cases v <;> rfl

@[simp] theorem TensorOptions.layout_opt_set_dtype (r : TensorOptions) (v : Option caffe2.TypeMeta) :
    (r.set_dtype v).layout_opt = r.layout_opt := by
  cases v <;> rfl

@[simp] theorem TensorOptions.has_layout_set_dtype (r : TensorOptions) (v : Option caffe2.TypeMeta) :
    (r.set_dtype v).has_layout = r.has_layout := by
  cases v <;> rfl

@[simp] theorem TensorOptions.requires_grad_opt_set_dtype (r : TensorOptions) (v : Option caffe2.TypeMeta) :
    (r.set_dtype v).requires_grad_opt = r.requires_grad_opt := by
  cases v <;> rfl

@[simp] theorem TensorOptions.has_requires_grad_set_dtype (r : TensorOptions) (v : Option caffe2.TypeMeta) :
    (r.set_dtype v).has_requires_grad = r.has_requires_grad := by
  cases v <;> rfl

@[simp] theorem TensorOptions.pinned_memory_opt_set_dtype (r : TensorOptions) (v : Option caffe2.TypeMeta) :
    (r.set_dtype v).pinned_memory_opt = r.pinned_memory_opt := by
  cases v <;> rfl

@[simp] theorem TensorOptions.has_pinned_memory_set_dtype (r : TensorOptions) (v : Option caffe2.TypeMeta) :
    (r.set_dtype v).has_pinned_memory = r.has_pinned_memory := by
  cases v <;> rfl

@[simp] theorem TensorOptions.memory_format_opt_set_dtype (r : TensorOptions) (v : Option caffe2.TypeMeta) :
    (r.set_dtype v).memory_format_opt = r.memory_format_opt := by
  cases v <;> rfl

@[simp] theorem TensorOptions.has_memory_format_set_dtype (r : TensorOptions) (v : Option caffe2.TypeMeta) :
    (r.set_dtype v).has_memory_format = r.has_memory_format := by
  cases v <;> rfl

@[simp] theorem TensorOptions.layout_opt_set_layout (r : TensorOptions) (v : Option Layout) :
    (r.set_layout v).layout_opt = v := by
  cases v <;> rfl

@[simp] theorem TensorOptions.has_layout_set_layout (r : TensorOptions) (v : Option Layout) :
    (r.set_layout v).has_layout = v.isSome := by
  cases v <;> rfl

@[simp] theorem TensorOptions.device_opt_set_layout (r : TensorOptions) (v : Option Layout) :
    (r.set_layout v).device_opt = r.device_opt := by
  cases v <;> rfl

@[simp] theorem TensorOptions.has_device_set_layout (r : TensorOptions) (v : Option Layout) :
    (r.set_layout v).has_device = r.has_device := by
  cases v <;> rfl

@[simp] theorem TensorOptions.dtype_opt_set_layout (r : TensorOptions) (v : Option Layout) :
    (r.set_layout v).dtype_opt = r.dtype_opt := by
  cases v <;> rfl

@[simp] theorem TensorOptions.has_dtype_set_layout (r : TensorOptions) (v : Option Layout) :
    (r.set_layout v).has_dtype = r.has_dtype := by
  cases v <;> rfl

@[simp] theorem TensorOptions.requires_grad_opt_set_layout (r : TensorOptions) (v : Option Layout) :
    (r.set_layout v).requires_grad_opt = r.requires_grad_opt := by
  cases v <;> rfl

@[simp] theorem TensorOptions.has_requires_grad_set_layout (r : TensorOptions) (v : Option Layout) :
    (r.set_layout v).has_requires_grad = r.has_requires_grad := by
  cases v <;> rfl

@[simp] theorem TensorOptions.pinned_memory_opt_set_layout (r : TensorOptions) (v : Option Layout) :
    (r.set_layout v).pinned_memory_opt = r.pinned_memory_opt := by
  cases v <;> rfl

@[simp] theorem TensorOptions.has_pinned_memory_set_layout (r : TensorOptions) (v : Option Layout) :
    (r.set_layout v).has_pinned_memory = r.has_pinned_memory := by
  cases v <;> rfl

@[simp] theorem TensorOptions.memory_format_opt_set_layout (r : TensorOptions) (v : Option Layout) :
    (r.set_layout v).memory_format_opt = r.memory_format_opt := by
  cases v <;> rfl

@[simp] theorem TensorOptions.has_memory_format_set_layout (r : TensorOptions) (v : Option Layout) :
    (r.set_layout v).has_memory_format = r.has_memory_format := by
  cases v <;> rfl

@[simp] theorem TensorOptions.requires_grad_opt_set_requires_grad (r : TensorOptions) (v : Option Bool) :
    (r.set_requires_grad v).requires_grad_opt = v := by
  cases v <;> rfl

@[simp] theorem TensorOptions.has_requires_grad_set_requires_grad (r : TensorOptions) (v : Option Bool) :
    (r.set_requires_grad v).has_requires_grad = v.isSome := by
  cases v <;> rfl

@[simp] theorem TensorOptions.device_opt_set_requires_grad (r : TensorOptions) (v : Option Bool) :
    (r.set_requires_grad v).device_opt = r.device_opt := by
  cases v <;> rfl

@[simp] theorem TensorOptions.has_device_set_requires_grad (r : TensorOptions) (v : Option Bool) :
    (r.set_requires_grad v).has_device = r.has_device := by
  cases v <;> rfl

@[simp] theorem TensorOptions.dtype_opt_set_requires_grad (r : TensorOptions) (v : Option Bool) :
    (r.set_requires_grad v).dtype_opt = r.dtype_opt := by
  cases v <;> rfl

@[simp] theorem TensorOptions.has_dtype_set_requires_grad (r : TensorOptions) (v : Option Bool) :
    (r.set_requires_grad v).has_dtype = r.has_dtype := by
  cases v <;> rfl

@[simp] theorem TensorOptions.layout_opt_set_requires_grad (r : TensorOptions) (v : Option Bool) :
    (r.set_requires_grad v).layout_opt = r.layout_opt := by
  cases v <;> rfl

@[simp] theorem TensorOptions.has_layout_set_requires_grad (r : TensorOptions) (v : Option Bool) :
    (r.set_requires_grad v).has_layout = r.has_layout := by
  cases v <;> rfl

@[simp] theorem TensorOptions.pinned_memory_opt_set_requires_grad (r : TensorOptions) (v : Option Bool) :
    (r.set_requires_grad v).pinned_memory_opt = r.pinned_memory_opt := by
  cases v <;> rfl

@[simp] theorem TensorOptions.has_pinned_memory_set_requires_grad (r : TensorOptions) (v : Option Bool) :
    (r.set_requires_grad v).has_pinned_memory = r.has_pinned_memory := by
  cases v <;> rfl

@[simp] theorem TensorOptions.memory_format_opt_set_requires_grad (r : TensorOptions) (v : Option Bool) :
    (r.set_requires_grad v).memory_format_opt = r.memory_format_opt := by
  cases v <;> rfl

@[simp] theorem TensorOptions.has_memory_format_set_requires_grad (r : TensorOptions) (v : Option Bool) :
    (r.set_requires_grad v).has_memory_format = r.has_memory_format := by
  cases v <;> rfl

@[simp] theorem TensorOptions.pinned_memory_opt_set_pinned_memory (r : TensorOptions) (v : Option Bool) :
    (r.set_pinned_memory v).pinned_memory_opt = v := by
  cases v <;> rfl

@[simp] theorem TensorOptions.has_pinned_memory_set_pinned_memory (r : TensorOptions) (v : Option Bool) :
    (r.set_pinned_memory v).has_pinned_memory = v.isSome := by
  cases v <;> rfl

@[simp] theorem TensorOptions.device_opt_set_pinned_memory (r : TensorOptions) (v : Option Bool) :
    (r.set_pinned_memory v).device_opt = r.device_opt := by
  cases v <;> rfl

@[simp] theorem TensorOptions.has_device_set_pinned_memory (r : TensorOptions) (v : Option Bool) :
    (r.set_pinned_memory v).has_device = r.has_device := by
  cases v <;> rfl

@[simp] theorem TensorOptions.dtype_opt_set_pinned_memory (r : TensorOptions) (v : Option Bool) :
    (r.set_pinned_memory v).dtype_opt = r.dtype_opt := by
  cases v <;> rfl

@[simp] theorem TensorOptions.has_dtype_set_pinned_memory (r : TensorOptions) (v : Option Bool) :
    (r.set_pinned_memory v).has_dtype = r.has_dtype := by
  cases v <;> rfl

@[simp] theorem TensorOptions.layout_opt_set_pinned_memory (r : TensorOptions) (v : Option Bool) :
    (r.set_pinned_memory v).layout_opt = r.layout_opt := by
  cases v <;> rfl

@[simp] theorem TensorOptions.has_layout_set_pinned_memory (r : TensorOptions) (v : Option Bool) :
    (r.set_pinned_memory v).has_layout = r.has_layout := by
  cases v <;> rfl

@[simp] theorem TensorOptions.requires_grad_opt_set_pinned_memory (r : TensorOptions) (v : Option Bool) :
    (r.set_pinned_memory v).requires_grad_opt = r.requires_grad_opt := by
  cases v <;> rfl

@[simp] theorem TensorOptions.has_requires_grad_set_pinned_memory (r : TensorOptions) (v : Option Bool) :
    (r.set_pinned_memory v).has_requires_grad = r.has_requires_grad := by
  cases v <;> rfl

@[simp] theorem TensorOptions.memory_format_opt_set_pinned_memory (r : TensorOptions) (v : Option Bool) :
    (r.set_pinned_memory v).memory_format_opt = r.memory_format_opt := by
  cases v <;> rfl

@[simp] theorem TensorOptions.has_memory_format_set_pinned_memory (r : TensorOptions) (v : Option Bool) :
    (r.set_pinned_memory v).has_memory_format = r.has_memory_format := by
  cases v <;> rfl

@[simp] theorem TensorOptions.memory_format_opt_set_memory_format (r : TensorOptions) (v : Option MemoryFormat) :
    (r.set_memory_format v).memory_format_opt = v := by
  cases v <;> rfl

@[simp] theorem TensorOptions.has_memory_format_set_memory_format (r : TensorOptions) (v : Option MemoryFormat) :
    (r.set_memory_format v).has_memory_format = v.isSome := by
  cases v <;> rfl

@[simp] theorem TensorOptions.device_opt_set_memory_format (r : TensorOptions) (v : Option MemoryFormat) :
    (r.set_memory_format v).device_opt = r.device_opt := by
  cases v <;> rfl

@[simp] theorem TensorOptions.has_device_set_memory_format (r : TensorOptions) (v : Option MemoryFormat) :
    (r.set_memory_format v).has_device = r.has_device := by
  cases v <;> rfl

@[simp] theorem TensorOptions.dtype_opt_set_memory_format (r : TensorOptions) (v : Option MemoryFormat) :
    (r.set_memory_format v).dtype_opt = r.dtype_opt := by
  cases v <;> rfl

@[simp] theorem TensorOptions.has_dtype_set_memory_format (r : TensorOptions) (v : Option MemoryFormat) :
    (r.set_memory_format v).has_dtype = r.has_dtype := by
  cases v <;> rfl

@[simp] theorem TensorOptions.layout_opt_set_memory_format (r : TensorOptions) (v : Option MemoryFormat) :
    (r.set_memory_format v).layout_opt = r.layout_opt := by
  cases v <;> rfl

@[simp] theorem TensorOptions.has_layout_set_memory_format (r : TensorOptions) (v : Option MemoryFormat) :
    (r.set_memory_format v).has_layout = r.has_layout := by
  cases v <;> rfl

@[simp] theorem TensorOptions.requires_grad_opt_set_memory_format (r : TensorOptions) (v : Option MemoryFormat) :
    (r.set_memory_format v).requires_grad_opt = r.requires_grad_opt := by
  cases v <;> rfl

@[simp] theorem TensorOptions.has_requires_grad_set_memory_format (r : TensorOptions) (v : Option MemoryFormat) :
    (r.set_memory_format v).has_requires_grad = r.has_requires_grad := by
  cases v <;> rfl

@[simp] theorem TensorOptions.pinned_memory_opt_set_memory_format (r : TensorOptions) (v : Option MemoryFormat) :
    (r.set_memory_format v).pinned_memory_opt = r.pinned_memory_opt := by
  cases v <;> rfl

@[simp] theorem TensorOptions.has_pinned_memory_set_memory_format (r : TensorOptions) (v : Option MemoryFormat) :
    (r.set_memory_format v).has_pinned_memory = r.has_pinned_memory := by
  cases v <;> rfl

theorem TensorOptions.device_opt_eq_none (r : TensorOptions) (h : r.has_device = false) :
    r.device_opt = none := by
  simp only [TensorOptions.has_device] at h
  simp [TensorOptions.device_opt, h]

theorem TensorOptions.dtype_opt_eq_none (r : TensorOptions) (h : r.has_dtype = false) :
    r.dtype_opt = none := by
  simp only [TensorOptions.has_dtype] at h
  simp [TensorOptions.dtype_opt, h]

theorem TensorOptions.layout_opt_eq_none (r : TensorOptions) (h : r.has_layout = false) :
    r.layout_opt = none := by
  simp only [TensorOptions.has_layout] at h
  simp [TensorOptions.layout_opt, h]

theorem TensorOptions.requires_grad_opt_eq_none (r : TensorOptions) (h : r.has_requires_grad = false) :
    r.requires_grad_opt = none := by
  simp only [TensorOptions.has_requires_grad] at h
  simp [TensorOptions.requires_grad_opt, h]

theorem TensorOptions.pinned_memory_opt_eq_none (r : TensorOptions) (h : r.has_pinned_memory = false) :
    r.pinned_memory_opt = none := by
  simp only [TensorOptions.has_pinned_memory] at h
  simp [TensorOptions.pinned_memory_opt, h]

theorem TensorOptions.memory_format_opt_eq_none (r : TensorOptions) (h : r.has_memory_format = false) :
    r.memory_format_opt = none := by
  simp only [TensorOptions.has_memory_format] at h
  simp [TensorOptions.memory_format_opt, h]

/-- A statement of `merge_in` for one axis leaves every getter alone that the setter of
the axis leaves alone. -/
theorem TensorOptions.merge_axis_frame {α β : Type} (g : TensorOptions → β)
    (has_Y : TensorOptions → Bool) (set_Y : TensorOptions → Option α → TensorOptions)
    (h : ∀ r v, g (set_Y r v) = g r) (r : TensorOptions) (v : Option α) :
    g (r.merge_axis has_Y set_Y v) = g r := by
  unfold TensorOptions.merge_axis
  split
  · exact h r v
  · rfl

/-- A statement of `merge_in` for one axis: the axis keeps its value when it is
specified, and takes the given one otherwise. -/
theorem TensorOptions.merge_axis_own {α : Type} (X_opt : TensorOptions → Option α)
    (has_X : TensorOptions → Bool) (set_X : TensorOptions → Option α → TensorOptions)
    (h : ∀ r v, X_opt (set_X r v) = v) (r : TensorOptions) (v : Option α) :
    X_opt (r.merge_axis has_X set_X v) = if has_X r then X_opt r else v := by
  unfold TensorOptions.merge_axis
  cases hx : has_X r
  · simp [h]
  · simp

/-- The axis `device` of `a.merge_in(b)`. -/
theorem TensorOptions.merge_in_device_opt (a b : TensorOptions) :
    (a.merge_in b).device_opt = if b.has_device then b.device_opt else a.device_opt := by
  simp only [TensorOptions.merge_in, TensorOptions.merge_axis_own TensorOptions.device_opt TensorOptions.has_device _
      TensorOptions.device_opt_set_device,
    TensorOptions.merge_axis_frame TensorOptions.device_opt _ _
      TensorOptions.device_opt_set_dtype,
    TensorOptions.merge_axis_frame TensorOptions.has_device _ _
      TensorOptions.has_device_set_dtype,
    TensorOptions.merge_axis_frame TensorOptions.device_opt _ _
      TensorOptions.device_opt_set_layout,
    TensorOptions.merge_axis_frame TensorOptions.has_device _ _
      TensorOptions.has_device_set_layout,
    TensorOptions.merge_axis_frame TensorOptions.device_opt _ _
      TensorOptions.device_opt_set_requires_grad,
    TensorOptions.merge_axis_frame TensorOptions.has_device _ _
      TensorOptions.has_device_set_requires_grad,
    TensorOptions.merge_axis_frame TensorOptions.device_opt _ _
      TensorOptions.device_opt_set_pinned_memory,
    TensorOptions.merge_axis_frame TensorOptions.has_device _ _
      TensorOptions.has_device_set_pinned_memory,
    TensorOptions.merge_axis_frame TensorOptions.device_opt _ _
      TensorOptions.device_opt_set_memory_format,
    TensorOptions.merge_axis_frame TensorOptions.has_device _ _
      TensorOptions.has_device_set_memory_format]

/-- The axis `dtype` of `a.merge_in(b)`. -/
theorem TensorOptions.merge_in_dtype_opt (a b : TensorOptions) :
    (a.merge_in b).dtype_opt = if b.has_dtype then b.dtype_opt else a.dtype_opt := by
  simp only [TensorOptions.merge_in, TensorOptions.merge_axis_own TensorOptions.dtype_opt TensorOptions.has_dtype _
      TensorOptions.dtype_opt_set_dtype,
    TensorOptions.merge_axis_frame TensorOptions.dtype_opt _ _
      TensorOptions.dtype_opt_set_device,
    TensorOptions.merge_axis_frame TensorOptions.has_dtype _ _
      TensorOptions.has_dtype_set_device,
    TensorOptions.merge_axis_frame TensorOptions.dtype_opt _ _
      TensorOptions.dtype_opt_set_layout,
    TensorOptions.merge_axis_frame TensorOptions.has_dtype _ _
      TensorOptions.has_dtype_set_layout,
    TensorOptions.merge_axis_frame TensorOptions.dtype_opt _ _
      TensorOptions.dtype_opt_set_requires_grad,
    TensorOptions.merge_axis_frame TensorOptions.has_dtype _ _
      TensorOptions.has_dtype_set_requires_grad,
    TensorOptions.merge_axis_frame TensorOptions.dtype_opt _ _
      TensorOptions.dtype_opt_set_pinned_memory,
    TensorOptions.merge_axis_frame TensorOptions.has_dtype _ _
      TensorOptions.has_dtype_set_pinned_memory,
    TensorOptions.merge_axis_frame TensorOptions.dtype_opt _ _
      TensorOptions.dtype_opt_set_memory_format,
    TensorOptions.merge_axis_frame TensorOptions.has_dtype _ _
      TensorOptions.has_dtype_set_memory_format]

/-- The axis `layout` of `a.merge_in(b)`. -/
theorem TensorOptions.merge_in_layout_opt (a b : TensorOptions) :
    (a.merge_in b).layout_opt = if b.has_layout then b.layout_opt else a.layout_opt := by
  simp only [TensorOptions.merge_in, TensorOptions.merge_axis_own TensorOptions.layout_opt TensorOptions.has_layout _
      TensorOptions.layout_opt_set_layout,
    TensorOptions.merge_axis_frame TensorOptions.layout_opt _ _
      TensorOptions.layout_opt_set_device,
    TensorOptions.merge_axis_frame TensorOptions.has_layout _ _
      TensorOptions.has_layout_set_device,
    TensorOptions.merge_axis_frame TensorOptions.layout_opt _ _
      TensorOptions.layout_opt_set_dtype,
    TensorOptions.merge_axis_frame TensorOptions.has_layout _ _
      TensorOptions.has_layout_set_dtype,
    TensorOptions.merge_axis_frame TensorOptions.layout_opt _ _
      TensorOptions.layout_opt_set_requires_grad,
    TensorOptions.merge_axis_frame TensorOptions.has_layout _ _
      TensorOptions.has_layout_set_requires_grad,
    TensorOptions.merge_axis_frame TensorOptions.layout_opt _ _
      TensorOptions.layout_opt_set_pinned_memory,
    TensorOptions.merge_axis_frame TensorOptions.has_layout _ _
      TensorOptions.has_layout_set_pinned_memory,
    TensorOptions.merge_axis_frame TensorOptions.layout_opt _ _
      TensorOptions.layout_opt_set_memory_format,
    TensorOptions.merge_axis_frame TensorOptions.has_layout _ _
      TensorOptions.has_layout_set_memory_format]

/-- The axis `requires_grad` of `a.merge_in(b)`. -/
theorem TensorOptions.merge_in_requires_grad_opt (a b : TensorOptions) :
    (a.merge_in b).requires_grad_opt = if b.has_requires_grad then b.requires_grad_opt else a.requires_grad_opt := by
  simp only [TensorOptions.merge_in, TensorOptions.merge_axis_own TensorOptions.requires_grad_opt TensorOptions.has_requires_grad _
      TensorOptions.requires_grad_opt_set_requires_grad,
    TensorOptions.merge_axis_frame TensorOptions.requires_grad_opt _ _
      TensorOptions.requires_grad_opt_set_device,
    TensorOptions.merge_axis_frame TensorOptions.has_requires_grad _ _
      TensorOptions.has_requires_grad_set_device,
    TensorOptions.merge_axis_frame TensorOptions.requires_grad_opt _ _
      TensorOptions.requires_grad_opt_set_dtype,
    TensorOptions.merge_axis_frame TensorOptions.has_requires_grad _ _
      TensorOptions.has_requires_grad_set_dtype,
    TensorOptions.merge_axis_frame TensorOptions.requires_grad_opt _ _
      TensorOptions.requires_grad_opt_set_layout,
    TensorOptions.merge_axis_frame TensorOptions.has_requires_grad _ _
      TensorOptions.has_requires_grad_set_layout,
    TensorOptions.merge_axis_frame TensorOptions.requires_grad_opt _ _
      TensorOptions.requires_grad_opt_set_pinned_memory,
    TensorOptions.merge_axis_frame TensorOptions.has_requires_grad _ _
      TensorOptions.has_requires_grad_set_pinned_memory,
    TensorOptions.merge_axis_frame TensorOptions.requires_grad_opt _ _
      TensorOptions.requires_grad_opt_set_memory_format,
    TensorOptions.merge_axis_frame TensorOptions.has_requires_grad _ _
      TensorOptions.has_requires_grad_set_memory_format]

/-- The axis `pinned_memory` of `a.merge_in(b)`. -/
theorem TensorOptions.merge_in_pinned_memory_opt (a b : TensorOptions) :
    (a.merge_in b).pinned_memory_opt = if b.has_pinned_memory then b.pinned_memory_opt else a.pinned_memory_opt := by
  simp only [TensorOptions.merge_in, TensorOptions.merge_axis_own TensorOptions.pinned_memory_opt TensorOptions.has_pinned_memory _
      TensorOptions.pinned_memory_opt_set_pinned_memory,
    TensorOptions.merge_axis_frame TensorOptions.pinned_memory_opt _ _
      TensorOptions.pinned_memory_opt_set_device,
    TensorOptions.merge_axis_frame TensorOptions.has_pinned_memory _ _
      TensorOptions.has_pinned_memory_set_device,
    TensorOptions.merge_axis_frame TensorOptions.pinned_memory_opt _ _
      TensorOptions.pinned_memory_opt_set_dtype,
    TensorOptions.merge_axis_frame TensorOptions.has_pinned_memory _ _
      TensorOptions.has_pinned_memory_set_dtype,
    TensorOptions.merge_axis_frame TensorOptions.pinned_memory_opt _ _
      TensorOptions.pinned_memory_opt_set_layout,
    TensorOptions.merge_axis_frame TensorOptions.has_pinned_memory _ _
      TensorOptions.has_pinned_memory_set_layout,
    TensorOptions.merge_axis_frame TensorOptions.pinned_memory_opt _ _
      TensorOptions.pinned_memory_opt_set_requires_grad,
    TensorOptions.merge_axis_frame TensorOptions.has_pinned_memory _ _
      TensorOptions.has_pinned_memory_set_requires_grad,
    TensorOptions.merge_axis_frame TensorOptions.pinned_memory_opt _ _
      TensorOptions.pinned_memory_opt_set_memory_format,
    TensorOptions.merge_axis_frame TensorOptions.has_pinned_memory _ _
      TensorOptions.has_pinned_memory_set_memory_format]

/-- The axis `memory_format` of `a.merge_in(b)`. -/
theorem TensorOptions.merge_in_memory_format_opt (a b : TensorOptions) :
    (a.merge_in b).memory_format_opt = if b.has_memory_format then b.memory_format_opt else a.memory_format_opt := by
  simp only [TensorOptions.merge_in, TensorOptions.merge_axis_own TensorOptions.memory_format_opt TensorOptions.has_memory_format _
      TensorOptions.memory_format_opt_set_memory_format,
    TensorOptions.merge_axis_frame TensorOptions.memory_format_opt _ _
      TensorOptions.memory_format_opt_set_device,
    TensorOptions.merge_axis_frame TensorOptions.has_memory_format _ _
      TensorOptions.has_memory_format_set_device,
    TensorOptions.merge_axis_frame TensorOptions.memory_format_opt _ _
      TensorOptions.memory_format_opt_set_dtype,
    TensorOptions.merge_axis_frame TensorOptions.has_memory_format _ _
      TensorOptions.has_memory_format_set_dtype,
    TensorOptions.merge_axis_frame TensorOptions.memory_format_opt _ _
      TensorOptions.memory_format_opt_set_layout,
    TensorOptions.merge_axis_frame TensorOptions.has_memory_format _ _
      TensorOptions.has_memory_format_set_layout,
    TensorOptions.merge_axis_frame TensorOptions.memory_format_opt _ _
      TensorOptions.memory_format_opt_set_requires_grad,
    TensorOptions.merge_axis_frame TensorOptions.has_memory_format _ _
      TensorOptions.has_memory_format_set_requires_grad,
    TensorOptions.merge_axis_frame TensorOptions.memory_format_opt _ _
      TensorOptions.memory_format_opt_set_pinned_memory,
    TensorOptions.merge_axis_frame TensorOptions.has_memory_format _ _
      TensorOptions.has_memory_format_set_pinned_memory]

/-! ## No statement of a program fails an assertion -/

theorem Result.bind_no_assertion {α β : Type} (r : Result α) (f : α → Memory → Result β)
    (h1 : r.is_assertion_failed = false)
    (h2 : ∀ v m, r = .ok v m → (f v m).is_assertion_failed = false) :
    (r.bind f).is_assertion_failed = false := by
  cases r with
  | ok v m => exact h2 v m rfl
  | assertion_failed msg m => simp [Result.is_assertion_failed] at h1
  | undefined_behavior => rfl
  | out_of_fuel => rfl

theorem lock_loop_no_assertion (N : NullType) (self : weak_intrusive_ptr) :
    ∀ (oracle : List Bool) (refcount : Nat) (m : Memory),
      (weak_intrusive_ptr.lock_loop N self oracle refcount m).is_assertion_failed = false := by
  intro oracle
  induction oracle with
  | nil =>
    intro refcount m
    unfold weak_intrusive_ptr.lock_loop
    split <;> rfl
  | cons spurious rest ih =>
    intro refcount m
    unfold weak_intrusive_ptr.lock_loop
    split
    · rfl
    · apply Result.bind_no_assertion
      · unfold refcount_compare_exchange_weak
        split
        · rfl
        · split <;> rfl
      · intro v m1 _
        split
        · rfl
        · exact ih _ _

/-- The member `lock()` contains no assertion. -/
theorem lock_no_assertion (N : NullType) (self : weak_intrusive_ptr) (oracle : List Bool)
    (m : Memory) : (weak_intrusive_ptr.lock N self oracle m).is_assertion_failed = false := by
  unfold weak_intrusive_ptr.lock
  apply Result.bind_no_assertion
  · unfold refcount_load
    split <;> rfl
  · intro v m1 _
    exact lock_loop_no_assertion N self oracle v m1

/-- The assertion of `weak_intrusive_ptr::reclaim` passes on the sentinel. -/
theorem weak_reclaim_sentinel (debug : Bool) (N : NullType) (m : Memory) :
    weak_intrusive_ptr.reclaim debug N N.singleton m = .ok ⟨N.singleton⟩ m := by
  cases debug <;>
    simp [weak_intrusive_ptr.reclaim, Result.bind, TORCH_INTERNAL_ASSERT_DEBUG_ONLY]

/-- The assertion of `weak_intrusive_ptr::reclaim` passes on the accounted target when a
weak reference to it exists. -/
theorem accounted_weak_reclaim (debug : Bool) (N : NullType) {a : Addr} {ev0 : List Event}
    {S W : Nat} {m : Memory} (ha : a ≠ N.singleton) (h : accounted a ev0 S W m)
    (hW : 0 < W) : weak_intrusive_ptr.reclaim debug N a m = .ok ⟨a⟩ m := by
  obtain ⟨hl, _⟩ := accounted_load_weak h hW
  apply weak_reclaim_of_admitted debug N a m S _ ha hl
  by_cases hS : 0 < S
  · left
    simp [hS]
    omega
  · right
    simp [hS]
    omega

/-- A strong pointer of a program with the invariant holds the sentinel, or the target,
to which a strong reference then exists. -/
theorem Inv.strong_cases {N : NullType} {a : Addr} {ev0 : List Event} {e : Pointers}
    {m : Memory} (hinv : Inv N a ev0 e m) (p : intrusive_ptr) (hp : p ∈ e.strong) :
    (p.target_ = a ∧ 0 < strong_refs a e) ∨ p.target_ = N.singleton := by
  rcases hinv.strong_ok p hp with h | h
  · left
    refine ⟨h, ?_⟩
    have : 0 < strong_holders a e.strong :=
      List.countP_pos_iff.mpr ⟨p, hp, by simpa using h⟩
    unfold strong_refs
    omega
  · exact Or.inr h

/-- A weak pointer of a program with the invariant holds the sentinel, or the target, to
which a weak reference then exists. -/
theorem Inv.weak_cases {N : NullType} {a : Addr} {ev0 : List Event} {e : Pointers}
    {m : Memory} (hinv : Inv N a ev0 e m) (p : weak_intrusive_ptr) (hp : p ∈ e.weak) :
    (p.target_ = a ∧ 0 < weak_refs a e) ∨ p.target_ = N.singleton := by
  rcases hinv.weak_ok p hp with h | h
  · left
    refine ⟨h, ?_⟩
    have : 0 < weak_holders a e.weak :=
      List.countP_pos_iff.mpr ⟨p, hp, by simpa using h⟩
    unfold weak_refs
    omega
  · exact Or.inr h

/-- No statement fails an assertion in a state with the invariant: it returns normally,
or it is not a statement of a program (`undefined_behavior`), or a `lock()` was cut
off. -/
theorem step_no_assertion (debug : Bool) (N : NullType) {a : Addr} {ev0 : List Event}
    (ha : a ≠ N.singleton) (op : Op) (e : Pointers) (m : Memory)
    (hinv : Inv N a ev0 e m) (hb : population e + 1 < 2 ^ 64) :
    (step debug N op e m).is_assertion_failed = false := by
  have hle := refs_le_population a e
  cases op with
  | copy i =>
    cases hi : e.strong[i]? with
    | none => simp [step, hi, Result.is_assertion_failed]
    | some rhs =>
      obtain ⟨m1, hr1, _⟩ := accounted_strong_copy debug N ha hinv.acc (by omega) rhs
        (hinv.strong_cases rhs (List.getElem?_mem hi))
      simp [step, hi, hr1, Result.bind, Result.is_assertion_failed]
  | move i =>
    cases hi : e.strong[i]? <;> simp [step, hi, Result.is_assertion_failed]
  | copy_assign i j =>
    cases hi : e.strong[i]? with
    | none => simp [step, hi, Result.is_assertion_failed]
    | some self =>
      cases hj : e.strong[j]? with
      | none => simp [step, hi, hj, Result.is_assertion_failed]
      | some rhs =>
        obtain ⟨m1, hr1, hacc1⟩ := accounted_strong_copy debug N ha hinv.acc (by omega) rhs
          (hinv.strong_cases rhs (List.getElem?_mem hj))
        obtain ⟨m2, hr2, _⟩ := accounted_strong_dtor debug N ha hacc1
          (by split <;> omega) ⟨self.target_⟩
          (by
            rcases hinv.strong_cases self (List.getElem?_mem hi) with h | h
            · exact Or.inl ⟨h.1, by have := h.2; omega⟩
            · exact Or.inr h)
        simp [step, hi, hj, intrusive_ptr.swap, hr1, hr2, Result.bind,
          Result.is_assertion_failed]
  | move_assign i j =>
    cases hj : e.strong[j]? with
    | none => simp [step, hj, Result.is_assertion_failed]
    | some rhs =>
      cases hi : (e.strong.set j ⟨N.singleton⟩)[i]? with
      | none => simp [step, hj, hi, intrusive_ptr.move_ctor, Result.is_assertion_failed]
      | some self =>
        have hself : (self.target_ = a ∧ 0 < strong_refs a e) ∨ self.target_ = N.singleton := by
          rcases mem_set_cases (List.getElem?_mem hi) with h | h
          · exact hinv.strong_cases self h
          · right
            rw [h]
        obtain ⟨m2, hr2, _⟩ := accounted_strong_dtor debug N ha hinv.acc (by omega)
          ⟨self.target_⟩ hself
        simp [step, hj, hi, intrusive_ptr.move_ctor, intrusive_ptr.swap, hr2, Result.bind,
          Result.is_assertion_failed]
  | reset i =>
    cases hi : e.strong[i]? with
    | none => simp [step, hi, Result.is_assertion_failed]
    | some self =>
      rcases hinv.strong_cases self (List.getElem?_mem hi) with h | h
      · obtain ⟨m1, hr1, _⟩ := accounted_strong_reset debug N ha hinv.acc h.2 (by omega)
        rw [← h.1] at hr1
        simp [step, hi, intrusive_ptr.reset, hr1, Result.bind, Result.is_assertion_failed]
      · simp [step, hi, intrusive_ptr.reset, strong_reset_sentinel debug N self m h,
          Result.bind, Result.is_assertion_failed]
  | destroy i =>
    cases hi : e.strong[i]? with
    | none => simp [step, hi, Result.is_assertion_failed]
    | some self =>
      obtain ⟨m1, hr1, _⟩ := accounted_strong_dtor debug N ha hinv.acc (by omega) self
        (hinv.strong_cases self (List.getElem?_mem hi))
      simp [step, hi, hr1, Result.bind, Result.is_assertion_failed]
  | release i =>
    cases hi : e.strong[i]? <;> simp [step, hi, Result.is_assertion_failed]
  | reclaim k =>
    cases hk : e.raw_strong[k]? <;> simp [step, hk, Result.is_assertion_failed]
  | weak_from_strong i =>
    cases hi : e.strong[i]? with
    | none => simp [step, hi, Result.is_assertion_failed]
    | some ptr =>
      obtain ⟨m1, hr1, _⟩ := accounted_weak_copy debug N ha hinv.acc (by omega) ptr.target_
        (by
          rcases hinv.strong_cases ptr (List.getElem?_mem hi) with h | h
          · exact Or.inl ⟨h.1, by have := h.2; omega⟩
          · exact Or.inr h)
      simp [step, hi, weak_intrusive_ptr.from_strong, intrusive_ptr.get, hr1, Result.bind,
        Result.unwind, Result.is_assertion_failed]
  | weak_copy i =>
    cases hi : e.weak[i]? with
    | none => simp [step, hi, Result.is_assertion_failed]
    | some rhs =>
      obtain ⟨m1, hr1, _⟩ := accounted_weak_copy debug N ha hinv.acc (by omega) rhs.target_
        (by
          rcases hinv.weak_cases rhs (List.getElem?_mem hi) with h | h
          · exact Or.inl ⟨h.1, by have := h.2; omega⟩
          · exact Or.inr h)
      simp [step, hi, weak_intrusive_ptr.copy_ctor, hr1, Result.bind,
        Result.is_assertion_failed]
  | weak_move i =>
    cases hi : e.weak[i]? <;> simp [step, hi, Result.is_assertion_failed]
  | weak_copy_assign i j =>
    cases hi : e.weak[i]? with
    | none => simp [step, hi, Result.is_assertion_failed]
    | some self =>
      cases hj : e.weak[j]? with
      | none => simp [step, hi, hj, Result.is_assertion_failed]
      | some rhs =>
        obtain ⟨m1, hr1, hacc1⟩ := accounted_weak_copy debug N ha hinv.acc (by omega)
          rhs.target_
          (by
            rcases hinv.weak_cases rhs (List.getElem?_mem hj) with h | h
            · exact Or.inl ⟨h.1, by have := h.2; omega⟩
            · exact Or.inr h)
        obtain ⟨m2, hr2, _⟩ := accounted_weak_dtor debug N ha hacc1
          (by split <;> omega) ⟨self.target_⟩
          (by
            rcases hinv.weak_cases self (List.getElem?_mem hi) with h | h
            · exact Or.inl ⟨h.1, by have := h.2; omega⟩
            · exact Or.inr h)
        simp [step, hi, hj, weak_intrusive_ptr.copy_ctor, weak_intrusive_ptr.swap, hr1, hr2,
          Result.bind, Result.is_assertion_failed]
  | weak_move_assign i j =>
    cases hj : e.weak[j]? with
    | none => simp [step, hj, Result.is_assertion_failed]
    | some rhs =>
      cases hi : (e.weak.set j ⟨N.singleton⟩)[i]? with
      | none => simp [step, hj, hi, weak_intrusive_ptr.move_ctor, Result.is_assertion_failed]
      | some self =>
        have hself : (self.target_ = a ∧ 0 < weak_refs a e) ∨ self.target_ = N.singleton := by
          rcases mem_set_cases (List.getElem?_mem hi) with h | h
          · exact hinv.weak_cases self h
          · right
            rw [h]
        obtain ⟨m2, hr2, _⟩ := accounted_weak_dtor debug N ha hinv.acc (by omega)
          ⟨self.target_⟩ hself
        simp [step, hj, hi, weak_intrusive_ptr.move_ctor, weak_intrusive_ptr.swap, hr2,
          Result.bind, Result.is_assertion_failed]
  | weak_reset i =>
    cases hi : e.weak[i]? with
    | none => simp [step, hi, Result.is_assertion_failed]
    | some self =>
      rcases hinv.weak_cases self (List.getElem?_mem hi) with h | h
      · obtain ⟨m1, hr1, _⟩ := accounted_weak_reset debug N ha hinv.acc h.2 (by omega)
        rw [← h.1] at hr1
        simp [step, hi, weak_intrusive_ptr.reset, hr1, Result.bind,
          Result.is_assertion_failed]
      · simp [step, hi, weak_intrusive_ptr.reset, weak_reset_sentinel debug N self m h,
          Result.bind, Result.is_assertion_failed]
  | weak_destroy i =>
    cases hi : e.weak[i]? with
    | none => simp [step, hi, Result.is_assertion_failed]
    | some self =>
      obtain ⟨m1, hr1, _⟩ := accounted_weak_dtor debug N ha hinv.acc (by omega) self
        (hinv.weak_cases self (List.getElem?_mem hi))
      simp [step, hi, hr1, Result.bind, Result.is_assertion_failed]
  | weak_release i =>
    cases hi : e.weak[i]? <;> simp [step, hi, Result.is_assertion_failed]
  | weak_reclaim k =>
    cases hk : e.raw_weak[k]? with
    | none => simp [step, hk, Result.is_assertion_failed]
    | some raw =>
      have hrc : weak_intrusive_ptr.reclaim debug N raw m = .ok ⟨raw⟩ m := by
        rcases hinv.raw_weak_ok raw (List.getElem?_mem hk) with h | h
        · rw [h]
          apply accounted_weak_reclaim debug N ha hinv.acc
          have : 0 < raw_holders a e.raw_weak :=
            List.countP_pos_iff.mpr ⟨raw, List.getElem?_mem hk, by simpa using h⟩
          unfold weak_refs
          omega
        · rw [h]
          exact weak_reclaim_sentinel debug N m
      simp [step, hk, hrc, Result.bind, Result.is_assertion_failed]
  | lock i oracle =>
    cases hi : e.weak[i]? with
    | none => simp [step, hi, Result.is_assertion_failed]
    | some self =>
      simp only [step, hi]
      apply Result.bind_no_assertion _ _ (lock_no_assertion N self oracle m)
      intro v m1 _
      rfl

/-- No run from a state with the invariant fails an assertion. -/
theorem run_no_assertion (debug : Bool) (N : NullType) {a : Addr} {ev0 : List Event}
    (ha : a ≠ N.singleton) :
    ∀ (ops : List Op) (e : Pointers) (m : Memory),
      Inv N a ev0 e m → population e + ops.length < 2 ^ 64 →
      (run debug N ops e m).is_assertion_failed = false := by
  intro ops
  induction ops with
  | nil =>
    intro e m _ _
    rfl
  | cons op ops ih =>
    intro e m hinv hb
    simp only [List.length_cons] at hb
    simp only [run]
    apply Result.bind_no_assertion _ _ (step_no_assertion debug N ha op e m hinv (by omega))
    intro e1 m1 hs
    obtain ⟨hinv1, hp1, _, _⟩ := step_kept debug N ha op e m e1 m1 hinv (by omega) hs
    exact ih e1 m1 hinv1 (by omega)

/-- No program fails an assertion, in a debug build or a release build. -/
theorem program_no_assertion (debug : Bool) (N : NullType) (m0 : Memory)
    (hN : N.singleton ≤ m0.objects.length) (ops : List Op) (hlen : ops.length + 1 < 2 ^ 64) :
    (program debug N ops m0).is_assertion_failed = false := by
  simp only [program, start_eq, Result.bind]
  have hp : population ⟨[⟨m0.objects.length + 1⟩], [], [], []⟩ = 1 := by simp [population]
  exact run_no_assertion debug N (sentinel_ne_fresh N m0 hN) ops _ _ (start_inv N m0)
    (by rw [hp]; omega)

/-! ## Threads that drop strong pointers to one target -/

theorem at_pc_set (a : Addr) (pc : ResetPc) (ts : List Thread) (i : Nat) (t t' : Thread)
    (h : ts[i]? = some t) :
    at_pc a pc (ts.set i t') + (if t = .dropping ⟨a⟩ pc then 1 else 0)
      = at_pc a pc ts + (if t' = .dropping ⟨a⟩ pc then 1 else 0) := by
  simpa [at_pc] using countP_set_add (fun t => decide (t = .dropping ⟨a⟩ pc)) ts i t' t h

theorem at_pc_pos (a : Addr) (pc : ResetPc) (ts : List Thread) (i : Nat)
    (h : ts[i]? = some (.dropping ⟨a⟩ pc)) : 0 < at_pc a pc ts :=
  countP_pos_of_getElem? _ ts i _ h (by simp)

theorem at_pc_replicate (a : Addr) (pc : ResetPc) (n : Nat) :
    at_pc a pc (List.replicate n (.dropping ⟨a⟩ .start)) = if pc = .start then n else 0 := by
  unfold at_pc
  rw [List.countP_replicate]
  by_cases h : pc = .start
  · simp [h]
  · have h2 : ¬ (ResetPc.start = pc) := fun hc => h hc.symm
    simp [h, h2]

/-- The threads start in a state of `dropping_state`. -/
theorem dropping_state_start (a : Addr) (m : Memory) (n w : Nat) (hn : 1 ≤ n)
    (hl : m.load a = some ⟨n, w⟩) :
    dropping_state a m.events w (List.replicate n (.dropping ⟨a⟩ .start)) m := by
  refine ⟨?_, Or.inl ?_⟩
  · intro t ht
    exact ⟨.start, List.eq_of_mem_replicate ht⟩
  · simp only [at_pc_replicate]
    simp
    exact ⟨by omega, hl⟩

/-- Every step of a thread keeps `dropping_state`, and returns normally. -/
theorem dropping_state_step (debug : Bool) (N : NullType) (a : Addr) (ev0 : List Event)
    (w : Nat) (ha : a ≠ N.singleton) (hw : 1 ≤ w) (hw2 : w < 2 ^ 64)
    (ts : List Thread) (m : Memory) (hlen : ts.length < 2 ^ 64)
    (hst : dropping_state a ev0 w ts m) (i : Nat) (spurious : Bool) (t : Thread)
    (hi : ts[i]? = some t) :
    ∃ t' m', t.step debug N spurious m = .ok t' m' ∧
      dropping_state a ev0 w (ts.set i t') m' := by
  obtain ⟨hall, hph⟩ := hst
  obtain ⟨pc, ht⟩ := hall t (List.getElem?_mem hi)
  subst ht
  have hpos := at_pc_pos a pc ts i hi
  have hle : at_pc a .start ts ≤ ts.length := List.countP_le_length _
  have hall' : ∀ pc', ∀ t ∈ ts.set i (.dropping ⟨a⟩ pc'), ∃ pc, t = Thread.dropping ⟨a⟩ pc :=
    fun pc' => forall_mem_set hall ⟨pc', rfl⟩
  have e1 := fun pc' => at_pc_set a .start ts i _ (.dropping ⟨a⟩ pc') hi
  have e2 := fun pc' => at_pc_set a .call_release ts i _ (.dropping ⟨a⟩ pc') hi
  have e3 := fun pc' => at_pc_set a .dec_weak ts i _ (.dropping ⟨a⟩ pc') hi
  have e4 := fun pc' => at_pc_set a .call_delete ts i _ (.dropping ⟨a⟩ pc') hi
  cases pc with
  | start =>
    rcases hph with ⟨h1, h2, h3, h4, hl, he⟩ | ⟨h1, _⟩ | ⟨h1, _⟩ | ⟨h1, _⟩ | ⟨h1, _⟩
    · have hdec : size_t_dec (at_pc a .start ts) = at_pc a .start ts - 1 :=
        size_t_dec_eq (by omega) (by omega)
      by_cases hk : at_pc a .start ts = 1
      · have hl1 : m.load a = some ⟨1, w⟩ := by rw [← hk]; exact hl
        have hdec1 : size_t_dec 1 = 0 := rfl
        refine ⟨.dropping ⟨a⟩ .call_release, m.store a ⟨0, w⟩, ?_, hall' _, ?_⟩
        · simp [Thread.step, intrusive_ptr.reset_step, ha, refcount_dec, hl1, Result.bind,
            hdec1]
        · have a1 := e1 .call_release
          have a2 := e2 .call_release
          have a3 := e3 .call_release
          have a4 := e4 .call_release
          simp at a1 a2 a3 a4
          right; left
          exact ⟨by omega, by omega, by omega, by omega, Memory.load_store_same hl _,
            by rw [Memory.events_store]; exact he⟩
      · refine ⟨.dropping ⟨a⟩ .done, m.store a ⟨at_pc a .start ts - 1, w⟩, ?_, hall' _, ?_⟩
        · have hne : at_pc a .start ts - 1 ≠ 0 := by omega
          simp [Thread.step, intrusive_ptr.reset_step, ha, refcount_dec, hl, Result.bind,
            hdec, hne]
        · have a1 := e1 .done
          have a2 := e2 .done
          have a3 := e3 .done
          have a4 := e4 .done
          simp at a1 a2 a3 a4
          left
          have hk2 : at_pc a .start (ts.set i (.dropping ⟨a⟩ .done))
              = at_pc a .start ts - 1 := by omega
          refine ⟨by omega, by omega, by omega, by omega, ?_,
            by rw [Memory.events_store]; exact he⟩
          rw [hk2]
          exact Memory.load_store_same hl _
    all_goals omega
  | call_release =>
    rcases hph with ⟨_, h2, _⟩ | ⟨h1, h2, h3, h4, hl, he⟩ | ⟨_, h2, _⟩ | ⟨_, h2, _⟩ |
      ⟨_, h2, _⟩
    · omega
    · refine ⟨.dropping ⟨a⟩ .dec_weak, m.emit (.release_resources a), ?_, hall' _, ?_⟩
      · simp [Thread.step, intrusive_ptr.reset_step, release_resources, hl, Result.bind]
      · have a1 := e1 .dec_weak
        have a2 := e2 .dec_weak
        have a3 := e3 .dec_weak
        have a4 := e4 .dec_weak
        simp at a1 a2 a3 a4
        right; right; left
        exact ⟨by omega, by omega, by omega, by omega, by rw [Memory.load_emit]; exact hl,
          by rw [Memory.events_emit, he]⟩
    all_goals omega
  | dec_weak =>
    rcases hph with ⟨_, _, h3, _⟩ | ⟨_, _, h3, _⟩ | ⟨h1, h2, h3, h4, hl, he⟩ | ⟨_, _, h3, _⟩ |
      ⟨_, _, h3, _⟩
    · omega
    · omega
    · have hdec : size_t_dec w = w - 1 := size_t_dec_eq hw hw2
      by_cases hk : w = 1
      · have hl1 : m.load a = some ⟨0, 1⟩ := by rw [← hk]; exact hl
        have hdec1 : size_t_dec 1 = 0 := rfl
        refine ⟨.dropping ⟨a⟩ .call_delete, m.store a ⟨0, 0⟩, ?_, hall' _, ?_⟩
        · simp [Thread.step, intrusive_ptr.reset_step, weakcount_dec, hl1, Result.bind,
            hdec1]
        · have a1 := e1 .call_delete
          have a2 := e2 .call_delete
          have a3 := e3 .call_delete
          have a4 := e4 .call_delete
          simp at a1 a2 a3 a4
          right; right; right; left
          exact ⟨by omega, by omega, by omega, by omega, Memory.load_store_same hl _, hk,
            by rw [Memory.events_store]; exact he⟩
      · refine ⟨.dropping ⟨a⟩ .done, m.store a ⟨0, w - 1⟩, ?_, hall' _, ?_⟩
        · have hne : w - 1 ≠ 0 := by omega
          simp [Thread.step, intrusive_ptr.reset_step, weakcount_dec, hl, Result.bind,
            hdec, hne]
        · have a1 := e1 .done
          have a2 := e2 .done
          have a3 := e3 .done
          have a4 := e4 .done
          simp at a1 a2 a3 a4
          right; right; right; right
          exact ⟨by omega, by omega, by omega, by omega,
            Or.inl ⟨by omega, Memory.load_store_same hl _,
              by rw [Memory.events_store]; exact he⟩⟩
    all_goals omega
  | call_delete =>
    rcases hph with ⟨_, _, _, h4, _⟩ | ⟨_, _, _, h4, _⟩ | ⟨_, _, _, h4, _⟩ |
      ⟨h1, h2, h3, h4, hl, hw1, he⟩ | ⟨_, _, _, h4, _⟩
    · omega
    · omega
    · omega
    · refine ⟨.dropping ⟨a⟩ .done, (m.free a).emit (.deallocate a), ?_, hall' _, ?_⟩
      · simp [Thread.step, intrusive_ptr.reset_step, delete_target, refcount_load,
          weakcount_load, hl, Result.bind, TORCH_INTERNAL_ASSERT_DEBUG_ONLY]
      · have a1 := e1 .done
        have a2 := e2 .done
        have a3 := e3 .done
        have a4 := e4 .done
        simp at a1 a2 a3 a4
        right; right; right; right
        refine ⟨by omega, by omega, by omega, by omega, Or.inr ⟨hw1, ?_, ?_⟩⟩
        · rw [Memory.load_emit]
          exact Memory.load_free_same _ _
        · rw [Memory.events_emit, Memory.events_free, he]
    · omega
  | done =>
    refine ⟨.dropping ⟨a⟩ .done, m, ?_, ?_⟩
    · simp [Thread.step, intrusive_ptr.reset_step, Result.bind]
    · have hset : ts.set i (.dropping ⟨a⟩ .done) = ts := by
        apply List.ext_getElem?
        intro j
        by_cases hj : i = j
        · subst hj
          rw [List.getElem?_set_self' , hi]
          simp
        · rw [List.getElem?_set_ne hj]
      rw [hset]
      exact ⟨hall, hph⟩

/-- Every schedule runs to its end, in a state of `dropping_state`. -/
theorem dropping_state_run (debug : Bool) (N : NullType) (a : Addr) (ev0 : List Event)
    (w : Nat) (ha : a ≠ N.singleton) (hw : 1 ≤ w) (hw2 : w < 2 ^ 64) :
    ∀ (sched : List (Nat × Bool)) (ts : List Thread) (m : Memory),
      ts.length < 2 ^ 64 → dropping_state a ev0 w ts m →
      ∃ ts' m', interleave debug N sched ts m = .ok ts' m' ∧ dropping_state a ev0 w ts' m' := by
  intro sched
  induction sched with
  | nil =>
    intro ts m _ hst
    exact ⟨ts, m, rfl, hst⟩
  | cons s rest ih =>
    intro ts m hlen hst
    obtain ⟨i, spurious⟩ := s
    cases hi : ts[i]? with
    | none =>
      obtain ⟨ts', m', hr, hst'⟩ := ih ts m hlen hst
      exact ⟨ts', m', by simp only [interleave, hi]; exact hr, hst'⟩
    | some t =>
      obtain ⟨t1, m1, hs, hst1⟩ :=
        dropping_state_step debug N a ev0 w ha hw hw2 ts m hlen hst i spurious t hi
      obtain ⟨ts', m', hr, hst'⟩ := ih (ts.set i t1) m1 (by simpa using hlen) hst1
      exact ⟨ts', m', by simp only [interleave, hi, hs, Result.bind]; exact hr, hst'⟩

/-- A step of a dropping thread brings it nearer to its end. -/
theorem reset_step_rank (debug : Bool) (N : NullType) (self : intrusive_ptr) (pc pc' : ResetPc)
    (m m' : Memory) (h : self.reset_step debug N pc m = .ok pc' m') :
    pc'.rank ≤ pc.rank - 1 := by
  cases pc with
  | start =>
    unfold intrusive_ptr.reset_step at h
    simp only at h
    split at h
    · obtain ⟨r, m1, _, h2⟩ := Result.bind_eq_ok h
      injection h2 with h3 _
      subst h3
      split <;> decide
    · injection h with h3 _
      subst h3
      decide
  | call_release =>
    obtain ⟨r, m1, _, h2⟩ := Result.bind_eq_ok h
    injection h2 with h3 _
    subst h3
    decide
  | dec_weak =>
    obtain ⟨r, m1, _, h2⟩ := Result.bind_eq_ok h
    injection h2 with h3 _
    subst h3
    split <;> decide
  | call_delete =>
    obtain ⟨r, m1, _, h2⟩ := Result.bind_eq_ok h
    injection h2 with h3 _
    subst h3
    decide
  | done =>
    injection h with h3 _
    subst h3
    decide

/-- After a schedule a dropping thread is as much nearer to its end as the schedule gave
it steps. -/
theorem interleave_rank (debug : Bool) (N : NullType) :
    ∀ (sched : List (Nat × Bool)) (ts : List Thread) (m : Memory) (ts' : List Thread)
      (m' : Memory), interleave debug N sched ts m = .ok ts' m' →
      ∀ (i : Nat) (p : intrusive_ptr) (pc : ResetPc), ts[i]? = some (.dropping p pc) →
        ∃ pc', ts'[i]? = some (.dropping p pc') ∧ pc'.rank ≤ pc.rank - steps_of i sched := by
  intro sched
  induction sched with
  | nil =>
    intro ts m ts' m' hr i p pc hi
    simp only [interleave] at hr
    injection hr with h1 _
    subst h1
    exact ⟨pc, hi, by simp [steps_of]⟩
  | cons s rest ih =>
    intro ts m ts' m' hr i p pc hi
    obtain ⟨j, spurious⟩ := s
    cases hj : ts[j]? with
    | none =>
      simp only [interleave, hj] at hr
      obtain ⟨pc', h1, h2⟩ := ih ts m ts' m' hr i p pc hi
      have hne : j ≠ i := by
        intro h
        rw [h, hi] at hj
        cases hj
      refine ⟨pc', h1, ?_⟩
      simpa [steps_of, List.countP_cons, hne] using h2
    | some t =>
      simp only [interleave, hj] at hr
      obtain ⟨t1, m1, hs, hr1⟩ := Result.bind_eq_ok hr
      by_cases hji : j = i
      · subst hji
        rw [hi] at hj
        injection hj with hj
        subst hj
        simp only [Thread.step] at hs
        obtain ⟨pc1, m2, hs1, hs2⟩ := Result.bind_eq_ok hs
        injection hs2 with h3 _
        subst h3
        have hrank := reset_step_rank debug N p pc pc1 m m2 hs1
        have hlt : j < ts.length := by
          rcases Nat.lt_or_ge j ts.length with h | h
          · exact h
          · rw [List.getElem?_eq_none h] at hi
            cases hi
        obtain ⟨pc', h1, h2⟩ := ih _ m1 ts' m' hr1 j p pc1
          (by rw [List.getElem?_set_self hlt])
        refine ⟨pc', h1, ?_⟩
        have hcount : steps_of j ((j, spurious) :: rest) = steps_of j rest + 1 := by
          simp [steps_of, List.countP_cons]
        rw [hcount]
        omega
      · obtain ⟨pc', h1, h2⟩ := ih _ m1 ts' m' hr1 i p pc
          (by rw [List.getElem?_set_ne hji]; exact hi)
        refine ⟨pc', h1, ?_⟩
        simpa [steps_of, List.countP_cons, hji] using h2

theorem ResetPc.rank_eq_zero {pc : ResetPc} (h : pc.rank = 0) : pc = .done := by
  cases pc <;> simp [ResetPc.rank] at h ⊢

/-- A schedule keeps the number of threads. -/
theorem interleave_length (debug : Bool) (N : NullType) :
    ∀ (sched : List (Nat × Bool)) (ts : List Thread) (m : Memory) (ts' : List Thread)
      (m' : Memory), interleave debug N sched ts m = .ok ts' m' → ts'.length = ts.length := by
  intro sched
  induction sched with
  | nil =>
    intro ts m ts' m' hr
    simp only [interleave] at hr
    injection hr with h1 _
    rw [h1]
  | cons s rest ih =>
    intro ts m ts' m' hr
    obtain ⟨j, spurious⟩ := s
    cases hj : ts[j]? with
    | none =>
      simp only [interleave, hj] at hr
      exact ih ts m ts' m' hr
    | some t =>
      simp only [interleave, hj] at hr
      obtain ⟨t1, m1, _, hr1⟩ := Result.bind_eq_ok hr
      rw [ih _ m1 ts' m' hr1]
      simp

/-- One thread alone: four steps of `reset_step` are the member `reset_()`. -/
theorem reset_steps_sequential (debug : Bool) (N : NullType) (p : intrusive_ptr)
    (m : Memory) (b1 b2 b3 b4 : Bool) :
    interleave debug N [(0, b1), (0, b2), (0, b3), (0, b4)] [.dropping p .start] m
      = (p.reset_ debug N m).bind fun _ m => .ok [.dropping p .done] m := by
  by_cases hp : p.target_ = N.singleton
  · simp [interleave, Thread.step, intrusive_ptr.reset_step, intrusive_ptr.reset_, hp,
      Result.bind]
  · cases hl : m.load p.target_ with
    | none =>
      simp [interleave, Thread.step, intrusive_ptr.reset_step, intrusive_ptr.reset_, hp,
        refcount_dec, hl, Result.bind]
    | some t =>
      have hl1 : ∀ t', (m.store p.target_ t').load p.target_ = some t' :=
        fun t' => Memory.load_store_same hl t'
      by_cases hr : size_t_dec t.refcount_ = 0
      · by_cases hw : size_t_dec t.weakcount_ = 0
        · simp only [interleave, Thread.step, intrusive_ptr.reset_step, intrusive_ptr.reset_,
            refcount_dec, weakcount_dec, release_resources, hl, hl1, Result.bind, hr, hw,
            List.getElem?_cons_zero, List.set_cons_zero, ne_eq, hp, not_false_eq_true,
            if_true, Memory.load_emit]
          generalize delete_target debug p.target_ _ = r
          cases r <;> rfl
        · simp [interleave, Thread.step, intrusive_ptr.reset_step, intrusive_ptr.reset_, hp,
            refcount_dec, weakcount_dec, release_resources, hl, hl1, Result.bind, hr, hw]
      · simp [interleave, Thread.step, intrusive_ptr.reset_step, intrusive_ptr.reset_, hp,
          refcount_dec, hl, Result.bind, hr]

theorem at_pc_eq_zero_of_all_done (a : Addr) (pc : ResetPc) (hpc : pc ≠ .done)
    (ts : List Thread) (h : ∀ t ∈ ts, t = Thread.dropping ⟨a⟩ .done) : at_pc a pc ts = 0 := by
  unfold at_pc
  rw [List.countP_eq_zero]
  intro t ht
  rw [h t ht]
  simpa using fun hc : ResetPc.done = pc => hpc hc.symm

/-- What `dropping_state` says about the events: `release_resources` was called at most
once, the deallocation comes after it, and the call is still to come exactly while a
thread has not decremented or the thread whose decrement returned 0 stands before the
call. At most one thread is past a decrement that returned 0 and not yet finished. -/
theorem dropping_state_events {a : Addr} {ev0 : List Event} {w : Nat} {ts : List Thread}
    {m : Memory} (h : dropping_state a ev0 w ts m) :
    (m.events = ev0 ∨ m.events = .release_resources a :: ev0 ∨
      m.events = .deallocate a :: .release_resources a :: ev0) ∧
    at_pc a .call_release ts + at_pc a .dec_weak ts + at_pc a .call_delete ts ≤ 1 ∧
    (m.events = ev0 ↔ (0 < at_pc a .start ts ∨ at_pc a .call_release ts = 1)) := by
  have hne1 : Event.release_resources a :: ev0 ≠ ev0 := fun hc =>
    absurd (congrArg List.length hc) (by simp)
  have hne2 : Event.deallocate a :: Event.release_resources a :: ev0 ≠ ev0 := fun hc =>
    absurd (congrArg List.length hc) (by simp; omega)
  rcases h.2 with ⟨h1, h2, h3, h4, _, he⟩ | ⟨h1, h2, h3, h4, _, he⟩ | ⟨h1, h2, h3, h4, _, he⟩ |
    ⟨h1, h2, h3, h4, _, _, he⟩ | ⟨h1, h2, h3, h4, ⟨_, _, he⟩ | ⟨_, _, he⟩⟩
  · exact ⟨Or.inl he, by omega, ⟨fun _ => Or.inl h1, fun _ => he⟩⟩
  · exact ⟨Or.inl he, by omega, ⟨fun _ => Or.inr h2, fun _ => he⟩⟩
  · refine ⟨Or.inr (Or.inl he), by omega, ⟨fun hc => ?_, fun hc => ?_⟩⟩
    · exact absurd (he ▸ hc) hne1
    · omega
  · refine ⟨Or.inr (Or.inl he), by omega, ⟨fun hc => ?_, fun hc => ?_⟩⟩
    · exact absurd (he ▸ hc) hne1
    · omega
  · refine ⟨Or.inr (Or.inl he), by omega, ⟨fun hc => ?_, fun hc => ?_⟩⟩
    · exact absurd (he ▸ hc) hne1
    · omega
  · refine ⟨Or.inr (Or.inr he), by omega, ⟨fun hc => ?_, fun hc => ?_⟩⟩
    · exact absurd (he ▸ hc) hne2
    · omega

/-! ## A thread that locks while another drops the last strong pointer -/

/-- A step of the dropping thread keeps `racing_state`, and returns normally. -/
theorem racing_state_drop_step (debug : Bool) (N : NullType) (a : Addr) (ev0 : List Event)
    (c0 : Nat) (ha : a ≠ N.singleton) (hc : 2 ≤ c0) (hc2 : c0 < 2 ^ 64)
    (pc1 : ResetPc) (pc2 : LockPc) (m : Memory)
    (hst : racing_state N a ev0 c0 pc1 pc2 m) :
    ∃ pc1' m', (⟨a⟩ : intrusive_ptr).reset_step debug N pc1 m = .ok pc1' m' ∧
      racing_state N a ev0 c0 pc1' pc2 m' := by
  obtain ⟨hq, hph⟩ := hst
  cases pc1 with
  | start =>
    obtain ⟨he, ⟨h2, hl⟩ | ⟨h2, hl⟩⟩ := hph
    · refine ⟨.done, m.store a ⟨1, c0⟩, ?_, hq, Or.inl ⟨Memory.load_store_same hl _, ?_, h2⟩⟩
      · have hdec : size_t_dec 2 = 1 := rfl
        simp [intrusive_ptr.reset_step, ha, refcount_dec, hl, Result.bind, hdec]
      · rw [Memory.events_store]
        exact he
    · refine ⟨.call_release, m.store a ⟨0, c0⟩, ?_, hq, Memory.load_store_same hl _, ?_, ?_⟩
      · have hdec : size_t_dec 1 = 0 := rfl
        simp [intrusive_ptr.reset_step, ha, refcount_dec, hl, Result.bind, hdec]
      · rw [Memory.events_store]
        exact he
      · rcases h2 with h | ⟨r, h, _⟩ <;> rw [h] <;> simp
  | call_release =>
    obtain ⟨hl, he, h2⟩ := hph
    refine ⟨.dec_weak, m.emit (.release_resources a), ?_, hq, ?_, ?_, h2⟩
    · simp [intrusive_ptr.reset_step, release_resources, hl, Result.bind]
    · rw [Memory.load_emit]
      exact hl
    · rw [Memory.events_emit, he]
  | dec_weak =>
    obtain ⟨hl, he, h2⟩ := hph
    have hdec : size_t_dec c0 = c0 - 1 := size_t_dec_eq (by omega) hc2
    have hne : c0 - 1 ≠ 0 := by omega
    refine ⟨.done, m.store a ⟨0, c0 - 1⟩, ?_, hq,
      Or.inr ⟨Memory.load_store_same hl _, ?_, h2⟩⟩
    · simp [intrusive_ptr.reset_step, weakcount_dec, hl, Result.bind, hdec, hne]
    · rw [Memory.events_store]
      exact he
  | call_delete => exact absurd hph (by simp)
  | done => exact ⟨.done, m, rfl, hq, hph⟩

/-- A step of the locking thread keeps `racing_state`, and returns normally. -/
theorem racing_state_lock_step (N : NullType) (a : Addr) (ev0 : List Event)
    (c0 : Nat) (ha : a ≠ N.singleton) (spurious : Bool)
    (pc1 : ResetPc) (pc2 : LockPc) (m : Memory)
    (hst : racing_state N a ev0 c0 pc1 pc2 m) :
    ∃ pc2' m', (⟨a⟩ : weak_intrusive_ptr).lock_step N spurious pc2 m = .ok pc2' m' ∧
      racing_state N a ev0 c0 pc1 pc2' m' := by
  have hsent : (⟨N.singleton⟩ : intrusive_ptr) ≠ ⟨a⟩ := by
    intro h
    injection h with h
    exact ha h.symm
  obtain ⟨hq, hph⟩ := hst
  cases pc2 with
  | returned q => exact ⟨.returned q, m, rfl, hq, hph⟩
  | load =>
    cases pc1 with
    | start =>
      obtain ⟨he, ⟨h2, _⟩ | ⟨_, hl⟩⟩ := hph
      · cases h2
      · refine ⟨.loop 1, m, ?_, by simp, he, Or.inr ⟨Or.inr ⟨1, rfl, by decide⟩, hl⟩⟩
        simp [weak_intrusive_ptr.lock_step, refcount_load, hl, Result.bind]
    | call_release =>
      obtain ⟨hl, he, _⟩ := hph
      refine ⟨.loop 0, m, ?_, by simp, hl, he, by simp⟩
      simp [weak_intrusive_ptr.lock_step, refcount_load, hl, Result.bind]
    | dec_weak =>
      obtain ⟨hl, he, _⟩ := hph
      refine ⟨.loop 0, m, ?_, by simp, hl, he, by simp⟩
      simp [weak_intrusive_ptr.lock_step, refcount_load, hl, Result.bind]
    | call_delete => exact absurd hph (by simp)
    | done =>
      rcases hph with ⟨_, _, h2⟩ | ⟨hl, he, _⟩
      · cases h2
      · refine ⟨.loop 0, m, ?_, by simp, Or.inr ⟨hl, he, by simp⟩⟩
        simp [weak_intrusive_ptr.lock_step, refcount_load, hl, Result.bind]
  | loop r =>
    have hret : ∀ q, LockPc.returned (intrusive_ptr.mk_raw N.singleton) = LockPc.returned q →
        q = ⟨a⟩ ∨ q = ⟨N.singleton⟩ := by
      intro q h
      injection h with h
      exact Or.inr h.symm
    have hne : LockPc.returned (intrusive_ptr.mk_raw N.singleton) ≠ LockPc.returned ⟨a⟩ := by
      intro h
      injection h with h
      exact hsent h
    have torn : ∀ w, m.load a = some ⟨0, w⟩ →
        ∃ pc2', (⟨a⟩ : weak_intrusive_ptr).lock_step N spurious (.loop r) m = .ok pc2' m ∧
          (∀ q, pc2' = .returned q → q = ⟨a⟩ ∨ q = ⟨N.singleton⟩) ∧
          pc2' ≠ .returned ⟨a⟩ := by
      intro w hl
      by_cases hr : r = 0
      · exact ⟨_, by simp [weak_intrusive_ptr.lock_step, hr], hret, hne⟩
      · have hr2 : ¬ (0 = r) := fun h => hr h.symm
        exact ⟨.loop 0, by
          simp [weak_intrusive_ptr.lock_step, hr, refcount_compare_exchange_weak, hl,
            Result.bind, hr2], by simp, by simp⟩
    cases pc1 with
    | start =>
      obtain ⟨he, ⟨h2, _⟩ | ⟨h2, hl⟩⟩ := hph
      · cases h2
      · have hr : r ≠ 0 := by
          rcases h2 with h | ⟨r', h, hr'⟩
          · cases h
          · injection h with h
            rw [h]
            exact hr'
        by_cases hcas : 1 = r ∧ spurious = false
        · obtain ⟨h1, hsp⟩ := hcas
          subst h1
          refine ⟨.returned ⟨a⟩, m.store a ⟨2, c0⟩, ?_, ?_, ?_,
            Or.inl ⟨rfl, Memory.load_store_same hl _⟩⟩
          · simp [weak_intrusive_ptr.lock_step, refcount_compare_exchange_weak, hl,
              Result.bind, hsp, intrusive_ptr.mk_raw]
          · intro q h
            injection h with h
            exact Or.inl h.symm
          · rw [Memory.events_store]
            exact he
        · refine ⟨.loop 1, m, ?_, by simp, he, Or.inr ⟨Or.inr ⟨1, rfl, by decide⟩, hl⟩⟩
          simp [weak_intrusive_ptr.lock_step, hr, refcount_compare_exchange_weak, hl,
            Result.bind, hcas]
    | call_release =>
      obtain ⟨hl, he, _⟩ := hph
      obtain ⟨pc2', h1, h2, h3⟩ := torn _ hl
      exact ⟨pc2', m, h1, h2, hl, he, h3⟩
    | dec_weak =>
      obtain ⟨hl, he, _⟩ := hph
      obtain ⟨pc2', h1, h2, h3⟩ := torn _ hl
      exact ⟨pc2', m, h1, h2, hl, he, h3⟩
    | call_delete => exact absurd hph (by simp)
    | done =>
      rcases hph with ⟨_, _, h2⟩ | ⟨hl, he, _⟩
      · cases h2
      · obtain ⟨pc2', h1, h2, h3⟩ := torn _ hl
        exact ⟨pc2', m, h1, h2, Or.inr ⟨hl, he, h3⟩⟩

/-- Every schedule of the two threads runs to its end, in a state of `racing_state`. -/
theorem racing_state_run (debug : Bool) (N : NullType) (a : Addr) (ev0 : List Event)
    (c0 : Nat) (ha : a ≠ N.singleton) (hc : 2 ≤ c0) (hc2 : c0 < 2 ^ 64) :
    ∀ (sched : List (Nat × Bool)) (pc1 : ResetPc) (pc2 : LockPc) (m : Memory),
      racing_state N a ev0 c0 pc1 pc2 m →
      ∃ pc1' pc2' m',
        interleave debug N sched [.dropping ⟨a⟩ pc1, .locking ⟨a⟩ pc2] m
          = .ok [.dropping ⟨a⟩ pc1', .locking ⟨a⟩ pc2'] m' ∧
        racing_state N a ev0 c0 pc1' pc2' m' := by
  intro sched
  induction sched with
  | nil =>
    intro pc1 pc2 m hst
    exact ⟨pc1, pc2, m, rfl, hst⟩
  | cons s rest ih =>
    intro pc1 pc2 m hst
    obtain ⟨i, spurious⟩ := s
    match i with
    | 0 =>
      obtain ⟨pc1', m1, hs, hst1⟩ :=
        racing_state_drop_step debug N a ev0 c0 ha hc hc2 pc1 pc2 m hst
      obtain ⟨pc1'', pc2'', m', hr, hst'⟩ := ih pc1' pc2 m1 hst1
      refine ⟨pc1'', pc2'', m', ?_, hst'⟩
      simp only [interleave, List.getElem?_cons_zero, Thread.step, hs, Result.bind,
        List.set_cons_zero]
      exact hr
    | 1 =>
      obtain ⟨pc2', m1, hs, hst1⟩ :=
        racing_state_lock_step N a ev0 c0 ha spurious pc1 pc2 m hst
      obtain ⟨pc1'', pc2'', m', hr, hst'⟩ := ih pc1 pc2' m1 hst1
      refine ⟨pc1'', pc2'', m', ?_, hst'⟩
      simp only [interleave, List.getElem?_cons_succ, List.getElem?_cons_zero, Thread.step,
        hs, Result.bind, List.set_cons_succ, List.set_cons_zero]
      exact hr
    | k + 2 =>
      obtain ⟨pc1'', pc2'', m', hr, hst'⟩ := ih pc1 pc2 m hst
      refine ⟨pc1'', pc2'', m', ?_, hst'⟩
      simp only [interleave, List.getElem?_cons_succ, List.getElem?_nil]
      exact hr

/-- A schedule in two parts is run part by part. -/
theorem interleave_append (debug : Bool) (N : NullType) :
    ∀ (s1 s2 : List (Nat × Bool)) (ts : List Thread) (m : Memory),
      interleave debug N (s1 ++ s2) ts m
        = (interleave debug N s1 ts m).bind fun ts m => interleave debug N s2 ts m := by
  intro s1
  induction s1 with
  | nil =>
    intro s2 ts m
    rfl
  | cons s rest ih =>
    intro s2 ts m
    obtain ⟨i, spurious⟩ := s
    simp only [List.cons_append, interleave]
    cases hi : ts[i]? with
    | none => exact ih s2 ts m
    | some t =>
      simp only
      cases hs : t.step debug N spurious m with
      | ok t1 m1 => simp only [Result.bind]; exact ih s2 _ m1
      | assertion_failed msg m1 => rfl
      | undefined_behavior => rfl
      | out_of_fuel => rfl

/-- Two steps in a row of the locking thread whose exchanges do not fail spuriously
make `lock()` return, wherever it stands, when the target is allocated. -/
theorem lock_returns_in_two_steps (debug : Bool) (N : NullType) (a : Addr) (t1 : Thread)
    (pc2 : LockPc) (m : Memory) (t : intrusive_ptr_target) (hl : m.load a = some t) :
    ∃ q m', interleave debug N [(1, false), (1, false)] [t1, .locking ⟨a⟩ pc2] m
      = .ok [t1, .locking ⟨a⟩ (.returned q)] m' := by
  have hl1 : ∀ t', (m.store a t').load a = some t' := fun t' => Memory.load_store_same hl t'
  cases pc2 with
  | returned q =>
    exact ⟨q, m, by simp [interleave, Thread.step, weak_intrusive_ptr.lock_step, Result.bind]⟩
  | load =>
    by_cases h0 : t.refcount_ = 0
    · refine ⟨intrusive_ptr.mk_raw N.singleton, m, ?_⟩
      simp [interleave, Thread.step, weak_intrusive_ptr.lock_step, refcount_load, hl,
        Result.bind, h0]
    · refine ⟨intrusive_ptr.mk_raw a,
        m.store a { t with refcount_ := (t.refcount_ + 1) % 2 ^ 64 }, ?_⟩
      simp [interleave, Thread.step, weak_intrusive_ptr.lock_step, refcount_load, hl,
        Result.bind, h0, refcount_compare_exchange_weak]
  | loop r =>
    by_cases hr : r = 0
    · refine ⟨intrusive_ptr.mk_raw N.singleton, m, ?_⟩
      simp [interleave, Thread.step, weak_intrusive_ptr.lock_step, Result.bind, hr]
    · by_cases hrt : t.refcount_ = r
      · refine ⟨intrusive_ptr.mk_raw a,
          m.store a { t with refcount_ := (r + 1) % 2 ^ 64 }, ?_⟩
        simp [interleave, Thread.step, weak_intrusive_ptr.lock_step, hl, Result.bind, hr,
          hrt, refcount_compare_exchange_weak]
      · by_cases h0 : t.refcount_ = 0
        · refine ⟨intrusive_ptr.mk_raw N.singleton, m, ?_⟩
          have hr0 : ¬ 0 = r := fun h => hr h.symm
          simp [interleave, Thread.step, weak_intrusive_ptr.lock_step, hl, Result.bind, hr,
            hr0, h0, refcount_compare_exchange_weak]
        · refine ⟨intrusive_ptr.mk_raw a,
            m.store a { t with refcount_ := (t.refcount_ + 1) % 2 ^ 64 }, ?_⟩
          simp [interleave, Thread.step, weak_intrusive_ptr.lock_step, hl, Result.bind, hr,
            hrt, h0, refcount_compare_exchange_weak]

/-- A thread whose `lock()` has returned stays where it is. -/
theorem interleave_returned (debug : Bool) (N : NullType) (w : weak_intrusive_ptr)
    (q : intrusive_ptr) :
    ∀ (sched : List (Nat × Bool)) (m : Memory),
      interleave debug N sched [.locking w (.returned q)] m
        = .ok [.locking w (.returned q)] m := by
  intro sched
  induction sched with
  | nil =>
    intro m
    rfl
  | cons s rest ih =>
    intro m
    obtain ⟨i, spurious⟩ := s
    cases i with
    | zero =>
      simp only [interleave, List.getElem?_cons_zero, Thread.step,
        weak_intrusive_ptr.lock_step, Result.bind, List.set_cons_zero]
      exact ih m
    | succ k =>
      simp only [interleave, List.getElem?_cons_succ, List.getElem?_nil]
      exact ih m

/-- One thread alone: the steps of `lock_step` from the head of the loop are the loop of
`lock()`, each round taking its spurious failure from the oracle. -/
theorem lock_loop_steps_sequential (debug : Bool) (N : NullType) (w : weak_intrusive_ptr) :
    ∀ (oracle : List Bool) (r : Nat) (m : Memory) (q : intrusive_ptr) (m' : Memory),
      weak_intrusive_ptr.lock_loop N w oracle r m = .ok q m' →
      ∀ b, interleave debug N (oracle.map (fun sp => (0, sp)) ++ [(0, b)])
          [.locking w (.loop r)] m
        = .ok [.locking w (.returned q)] m' := by
  intro oracle
  induction oracle with
  | nil =>
    intro r m q m' h b
    unfold weak_intrusive_ptr.lock_loop at h
    by_cases hr : r = 0
    · simp only [hr, if_true] at h
      injection h with h1 h2
      subst h1 h2
      simp [interleave, Thread.step, weak_intrusive_ptr.lock_step, Result.bind, hr]
    · simp [hr] at h
  | cons sp rest ih =>
    intro r m q m' h b
    unfold weak_intrusive_ptr.lock_loop at h
    by_cases hr : r = 0
    · simp only [hr, if_true] at h
      injection h with h1 h2
      subst h1 h2
      simp only [List.map_cons, List.cons_append, interleave, List.getElem?_cons_zero,
        Thread.step, weak_intrusive_ptr.lock_step, hr, if_true, Result.bind,
        List.set_cons_zero]
      exact interleave_returned debug N w _ _ m
    · simp only [hr, if_false] at h
      obtain ⟨v, m1, hcas, h2⟩ := Result.bind_eq_ok h
      simp only [List.map_cons, List.cons_append, interleave, List.getElem?_cons_zero,
        Thread.step, weak_intrusive_ptr.lock_step, hr, if_false, hcas, Result.bind,
        List.set_cons_zero]
      by_cases hv : v.1 = true
      · simp only [hv, if_true] at h2 ⊢
        injection h2 with h3 h4
        subst h3 h4
        exact interleave_returned debug N w _ _ m1
      · simp only [hv, if_false] at h2 ⊢
        exact ih v.2 m1 q m' h2 b

/-- One thread alone: the steps of `lock_step` are the member `lock()`. -/
theorem lock_steps_sequential (debug : Bool) (N : NullType) (w : weak_intrusive_ptr)
    (oracle : List Bool) (m : Memory) (q : intrusive_ptr) (m' : Memory)
    (h : w.lock N oracle m = .ok q m') (b0 b : Bool) :
    interleave debug N ((0, b0) :: (oracle.map (fun sp => (0, sp)) ++ [(0, b)]))
        [.locking w .load] m
      = .ok [.locking w (.returned q)] m' := by
  unfold weak_intrusive_ptr.lock at h
  obtain ⟨r, m1, h1, h2⟩ := Result.bind_eq_ok h
  simp only [interleave, List.getElem?_cons_zero, Thread.step, weak_intrusive_ptr.lock_step,
    h1, Result.bind, List.set_cons_zero]
  exact lock_loop_steps_sequential debug N w oracle r m1 q m' h2 b

/-- A step of `reset_()` never leads back to its start. -/
theorem reset_step_ne_start (debug : Bool) (N : NullType) (p : intrusive_ptr) (pc pc' : ResetPc)
    (m m' : Memory) (h : p.reset_step debug N pc m = .ok pc' m') : pc' ≠ .start := by
  cases pc with
  | start =>
    unfold intrusive_ptr.reset_step at h
    by_cases hp : p.target_ = N.singleton
    · simp only [ne_eq, hp, not_true_eq_false, if_false] at h
      injection h with h1 _
      rw [← h1]
      decide
    · simp only [ne_eq, hp, not_false_eq_true, if_true] at h
      obtain ⟨r, m1, _, h2⟩ := Result.bind_eq_ok h
      injection h2 with h1 _
      rw [← h1]
      split <;> decide
  | call_release =>
    unfold intrusive_ptr.reset_step at h
    obtain ⟨r, m1, _, h2⟩ := Result.bind_eq_ok h
    injection h2 with h1 _
    rw [← h1]
    decide
  | dec_weak =>
    unfold intrusive_ptr.reset_step at h
    obtain ⟨r, m1, _, h2⟩ := Result.bind_eq_ok h
    injection h2 with h1 _
    rw [← h1]
    split <;> decide
  | call_delete =>
    unfold intrusive_ptr.reset_step at h
    obtain ⟨r, m1, _, h2⟩ := Result.bind_eq_ok h
    injection h2 with h1 _
    rw [← h1]
    decide
  | done =>
    unfold intrusive_ptr.reset_step at h
    injection h with h1 _
    rw [← h1]
    decide

/-- At strong count 0 a step of `lock()` writes nothing. -/
theorem lock_step_of_zero (N : NullType) (a : Addr) (spurious : Bool) (pc pc' : LockPc)
    (m m' : Memory) (c : Nat) (hl : m.load a = some ⟨0, c⟩)
    (h : (⟨a⟩ : weak_intrusive_ptr).lock_step N spurious pc m = .ok pc' m') : m' = m := by
  cases pc with
  | load =>
    simp only [weak_intrusive_ptr.lock_step, refcount_load, hl, Result.bind] at h
    injection h with _ h2
    exact h2.symm
  | loop r =>
    by_cases hr : r = 0
    · simp only [weak_intrusive_ptr.lock_step, hr, if_true] at h
      injection h with _ h2
      exact h2.symm
    · have hr0 : ¬ 0 = r := fun h => hr h.symm
      simp only [weak_intrusive_ptr.lock_step, hr, if_false, refcount_compare_exchange_weak,
        hl, hr0, false_and, Result.bind] at h
      simp at h
      exact h.2.symm
  | returned q =>
    simp only [weak_intrusive_ptr.lock_step] at h
    injection h with _ h2
    exact h2.symm

/-- In a state of `racing_state` the strong count is 0 exactly when the dropping thread
has decremented and `lock()` has not returned the target. -/
theorem racing_state_zero_iff {N : NullType} {a : Addr} {ev0 : List Event} {c0 : Nat}
    {pc1 : ResetPc} {pc2 : LockPc} {m : Memory}
    (hst : racing_state N a ev0 c0 pc1 pc2 m) :
    (∃ c, m.load a = some ⟨0, c⟩) ↔ (pc1 ≠ .start ∧ pc2 ≠ .returned ⟨a⟩) := by
  obtain ⟨_, hph⟩ := hst
  cases pc1 with
  | start =>
    obtain ⟨_, ⟨_, hl⟩ | ⟨_, hl⟩⟩ := hph
    · constructor
      · rintro ⟨c, h⟩
        rw [hl] at h
        cases h
      · rintro ⟨h, _⟩
        exact absurd rfl h
    · constructor
      · rintro ⟨c, h⟩
        rw [hl] at h
        cases h
      · rintro ⟨h, _⟩
        exact absurd rfl h
  | call_release =>
    obtain ⟨hl, _, h2⟩ := hph
    exact ⟨fun _ => ⟨by decide, h2⟩, fun _ => ⟨c0, hl⟩⟩
  | dec_weak =>
    obtain ⟨hl, _, h2⟩ := hph
    exact ⟨fun _ => ⟨by decide, h2⟩, fun _ => ⟨c0, hl⟩⟩
  | call_delete => exact absurd hph (by simp)
  | done =>
    rcases hph with ⟨hl, _, h2⟩ | ⟨hl, _, h2⟩
    · constructor
      · rintro ⟨c, h⟩
        rw [hl] at h
        cases h
      · rintro ⟨_, h⟩
        exact absurd h2 h
    · exact ⟨fun _ => ⟨by decide, h2⟩, fun _ => ⟨c0 - 1, hl⟩⟩

/-- Once the strong count is 0 it stays 0 along every schedule of the two threads: the
run ends with the dropping thread past its decrement and `lock()` not having returned
the target. -/
theorem racing_state_zero_run (debug : Bool) (N : NullType) (a : Addr) (ev0 : List Event)
    (c0 : Nat) (ha : a ≠ N.singleton) (hc : 2 ≤ c0) (hc2 : c0 < 2 ^ 64) :
    ∀ (sched : List (Nat × Bool)) (pc1 : ResetPc) (pc2 : LockPc) (m : Memory),
      racing_state N a ev0 c0 pc1 pc2 m → (∃ c, m.load a = some ⟨0, c⟩) →
      ∃ pc1' pc2' m',
        interleave debug N sched [.dropping ⟨a⟩ pc1, .locking ⟨a⟩ pc2] m
          = .ok [.dropping ⟨a⟩ pc1', .locking ⟨a⟩ pc2'] m' ∧
        racing_state N a ev0 c0 pc1' pc2' m' ∧ (∃ c, m'.load a = some ⟨0, c⟩) := by
  intro sched
  induction sched with
  | nil =>
    intro pc1 pc2 m hst hz
    exact ⟨pc1, pc2, m, rfl, hst, hz⟩
  | cons s rest ih =>
    intro pc1 pc2 m hst hz
    obtain ⟨i, spurious⟩ := s
    match i with
    | 0 =>
      obtain ⟨pc1', m1, hs, hst1⟩ :=
        racing_state_drop_step debug N a ev0 c0 ha hc hc2 pc1 pc2 m hst
      have hz1 : ∃ c, m1.load a = some ⟨0, c⟩ :=
        (racing_state_zero_iff hst1).mpr
          ⟨reset_step_ne_start debug N _ pc1 pc1' m m1 hs,
            ((racing_state_zero_iff hst).mp hz).2⟩
      obtain ⟨pc1'', pc2'', m', hr, hst', hz'⟩ := ih pc1' pc2 m1 hst1 hz1
      refine ⟨pc1'', pc2'', m', ?_, hst', hz'⟩
      simp only [interleave, List.getElem?_cons_zero, Thread.step, hs, Result.bind,
        List.set_cons_zero]
      exact hr
    | 1 =>
      obtain ⟨pc2', m1, hs, hst1⟩ :=
        racing_state_lock_step N a ev0 c0 ha spurious pc1 pc2 m hst
      obtain ⟨c, hzc⟩ := hz
      have hm : m1 = m := lock_step_of_zero N a spurious pc2 pc2' m m1 c hzc hs
      have hz1 : ∃ c, m1.load a = some ⟨0, c⟩ := ⟨c, by rw [hm]; exact hzc⟩
      obtain ⟨pc1'', pc2'', m', hr, hst', hz'⟩ := ih pc1 pc2' m1 hst1 hz1
      refine ⟨pc1'', pc2'', m', ?_, hst', hz'⟩
      simp only [interleave, List.getElem?_cons_succ, List.getElem?_cons_zero, Thread.step,
        hs, Result.bind, List.set_cons_succ, List.set_cons_zero]
      exact hr
    | k + 2 =>
      obtain ⟨pc1'', pc2'', m', hr, hst', hz'⟩ := ih pc1 pc2 m hst hz
      refine ⟨pc1'', pc2'', m', ?_, hst', hz'⟩
      simp only [interleave, List.getElem?_cons_succ, List.getElem?_nil]
      exact hr

/-- The state in which `lock()` has returned the target and the locking thread goes on
to drop the returned pointer is a state of `dropping_state`. -/
theorem dropping_state_of_returned (N : NullType) (a : Addr) (ev0 : List Event) (c0 : Nat)
    (pc1 : ResetPc) (m : Memory)
    (hst : racing_state N a ev0 c0 pc1 (.returned ⟨a⟩) m) :
    dropping_state a ev0 c0 [.dropping ⟨a⟩ pc1, .dropping ⟨a⟩ .start] m := by
  obtain ⟨_, hph⟩ := hst
  refine ⟨?_, Or.inl ?_⟩
  · intro t ht
    simp only [List.mem_cons, List.mem_singleton, List.not_mem_nil, or_false] at ht
    rcases ht with h | h
    · exact ⟨pc1, h⟩
    · exact ⟨.start, h⟩
  · cases pc1 with
    | start =>
      obtain ⟨he, ⟨_, hl⟩ | ⟨h2, _⟩⟩ := hph
      · simp [at_pc, hl, he]
      · rcases h2 with h | ⟨r, h, _⟩ <;> cases h
    | call_release => exact absurd rfl hph.2.2
    | dec_weak => exact absurd rfl hph.2.2
    | call_delete => exact absurd hph (by simp)
    | done =>
      rcases hph with ⟨hl, he, _⟩ | ⟨_, _, h2⟩
      · simp [at_pc, hl, he]
      · exact absurd rfl h2

/-! ## The claims -/

/-- C1. `make_intrusive` (that is `intrusive_ptr::make`) returns normally, in debug and
release builds alike since it contains no assertion. The pointer it returns is defined
(not the sentinel, given that the sentinel is `nullptr` or the address of an object that
already exists), it points to a newly constructed target (no live object was at that
address before), and that target has strong count 1 and weak count 1:
`use_count() == 1`, `weak_use_count() == 1` and `unique()` is true. Nothing else in
memory changes and no `release_resources` or deallocation happens. -/
theorem make_intrusive_counts (N : NullType) (m : Memory)
    (hN : N.singleton ≤ m.objects.length) :
    ∃ p m', make_intrusive m = .ok p m' ∧
      p.defined N = true ∧
      m.load p.target_ = none ∧
      m'.load p.target_ = some ⟨1, 1⟩ ∧
      p.use_count N m' = .ok 1 m' ∧
      p.weak_use_count N m' = .ok 1 m' ∧
      p.unique N m' = .ok true m' ∧
      (∀ b, b ≠ p.target_ → m'.load b = m.load b) ∧
      m'.events = m.events := by
  have hne : m.objects.length + 1 ≠ N.singleton := by
    intro h
    have h2 : m.objects.length + 1 ≤ m.objects.length := h ▸ hN
    omega
  have hload : ((Memory.mk (m.objects ++ [some ⟨0, 0⟩]) m.events).store
      (m.objects.length + 1) ⟨1, 1⟩).load (m.objects.length + 1) = some ⟨1, 1⟩ :=
    Memory.load_store_same (Memory.load_new m) _
  refine ⟨_, _, make_intrusive_eq m, ?_, ?_, hload, ?_, ?_, ?_, ?_, ?_⟩
  · simp [intrusive_ptr.defined, hne]
  · exact Memory.load_of_length_lt m (by simp)
  · simp [intrusive_ptr.use_count, hne, refcount_load, hload]
  · simp [intrusive_ptr.weak_use_count, hne, weakcount_load, hload]
  · simp [intrusive_ptr.unique, intrusive_ptr.use_count, hne, refcount_load, hload, Result.bind]
  · intro b hb
    rw [Memory.load_store_ne _ _ hb]
    exact Memory.load_new_ne m _ hb
  · simp

/-- C1, at a concrete input: the default null type and the empty memory. -/
theorem make_intrusive_counts_witness :
    ∃ p m', make_intrusive ⟨[], []⟩ = .ok p m' ∧
      p.defined intrusive_target_default_null_type = true ∧
      (Memory.mk [] []).load p.target_ = none ∧
      m'.load p.target_ = some ⟨1, 1⟩ ∧
      p.use_count intrusive_target_default_null_type m' = .ok 1 m' ∧
      p.weak_use_count intrusive_target_default_null_type m' = .ok 1 m' ∧
      p.unique intrusive_target_default_null_type m' = .ok true m' ∧
      (∀ b, b ≠ p.target_ → m'.load b = (Memory.mk [] []).load b) ∧
      m'.events = (Memory.mk [] []).events :=
  make_intrusive_counts intrusive_target_default_null_type ⟨[], []⟩ (by decide)

/-- C2. `reset()` on a strong pointer `p`, and likewise its destructor. If `p` holds the
sentinel the memory is left exactly as it was. If `p` holds a live target with strong
count `n ≥ 1` and weak count `w`: the call returns normally; for `n > 1` the target then
has counts `(n - 1, w)` and no `release_resources` or deallocation took place; for `n = 1`
`release_resources` is called, then the weak count is decremented once (`--w`, which is
`w - 1` for `w ≥ 1`), and the target is deallocated exactly when that decrement gives 0,
the deallocation coming after `release_resources`. No other object changes. After
`reset()` the pointer holds the sentinel. -/
theorem intrusive_ptr_reset_effect (debug : Bool) (N : NullType) (p : intrusive_ptr)
    (m : Memory) :
    (p.target_ = N.singleton →
      p.reset debug N m = .ok ⟨N.singleton⟩ m ∧ p.dtor debug N m = .ok () m) ∧
    (∀ n w, p.target_ ≠ N.singleton → m.load p.target_ = some ⟨n, w⟩ → 1 ≤ n → n < 2 ^ 64 →
      ∃ m', p.reset debug N m = .ok ⟨N.singleton⟩ m' ∧ p.dtor debug N m = .ok () m' ∧
        intrusive_ptr.defined N ⟨N.singleton⟩ = false ∧
        same_elsewhere p.target_ m m' ∧
        (1 < n → m'.load p.target_ = some ⟨n - 1, w⟩ ∧ m'.events = m.events) ∧
        (n = 1 → size_t_dec w ≠ 0 →
          m'.load p.target_ = some ⟨0, size_t_dec w⟩ ∧
          m'.events = .release_resources p.target_ :: m.events) ∧
        (n = 1 → size_t_dec w = 0 →
          m'.load p.target_ = none ∧
          m'.events = .deallocate p.target_ :: .release_resources p.target_ :: m.events) ∧
        (1 ≤ w → w < 2 ^ 64 → size_t_dec w = w - 1)) := by
  constructor
  · intro hp
    simp [intrusive_ptr.reset, intrusive_ptr.dtor, strong_reset_sentinel debug N p m hp,
      Result.bind]
  · intro n w hp hl hn hn2
    obtain ⟨m', hr, hse, h1, h2, h3⟩ := strong_reset_spec debug N p m n w hp hl hn hn2
    refine ⟨m', hr, ?_, ?_, hse, h1, h2, h3, fun hw hw2 => size_t_dec_eq hw hw2⟩
    · simp [intrusive_ptr.dtor, hr, Result.bind]
    · simp [intrusive_ptr.defined]

/-- C2, at a concrete input: the last strong pointer to a target with counts `(1, 1)` in
a debug build. -/
theorem intrusive_ptr_reset_effect_witness :
    ∃ m', intrusive_ptr.reset true intrusive_target_default_null_type ⟨1⟩ ⟨[some ⟨1, 1⟩], []⟩
        = .ok ⟨nullptr⟩ m' ∧
      m'.load 1 = none ∧
      m'.events = [.deallocate 1, .release_resources 1] := by
  obtain ⟨m', hr, _, _, _, _, _, h3, _⟩ :=
    (intrusive_ptr_reset_effect true intrusive_target_default_null_type ⟨1⟩
      ⟨[some ⟨1, 1⟩], []⟩).2 1 1 (by decide) (by decide) (by decide) (by decide)
  exact ⟨m', hr, (h3 rfl (by decide)).1, (h3 rfl (by decide)).2⟩

/-- C3. Take any program that starts with `make_intrusive` and goes on with statements on
strong and weak pointers (copy, move, assignment, reset, destruction, weak construction,
lock, release and reclaim), and any state it reaches. (1) Up to that state
`release_resources` was called on the target at most once, and a deallocation of the
target is preceded by that call: the events since the target was made are none, or the
call alone, or the call and then the deallocation. (2) Whatever statement comes next,
`release_resources` is called during it exactly if the strong count is 1 before and the
target is deallocated or has strong count 0 after. The program has fewer than `2 ^ 64 - 2`
statements, so that no `size_t` counter can wrap. -/
theorem release_resources_once (debug : Bool) (N : NullType) (m0 : Memory)
    (hN : N.singleton ≤ m0.objects.length) (ops : List Op) (hlen : ops.length + 2 < 2 ^ 64)
    (e : Pointers) (m : Memory) (hrun : program debug N ops m0 = .ok e m) :
    (∃ new, m.events = new ++ m0.events ∧
      (new = [] ∨ new = [.release_resources (m0.objects.length + 1)] ∨
       new = [.deallocate (m0.objects.length + 1),
              .release_resources (m0.objects.length + 1)])) ∧
    (∀ op e2 m2, step debug N op e m = .ok e2 m2 →
      (called_release_resources (m0.objects.length + 1) m m2 ↔
        ((∃ w, m.load (m0.objects.length + 1) = some ⟨1, w⟩) ∧
         (m2.load (m0.objects.length + 1) = none ∨
          ∃ w, m2.load (m0.objects.length + 1) = some ⟨0, w⟩)))) := by
  obtain ⟨hinv, hpop⟩ := program_inv debug N m0 hN ops (by omega) e m hrun
  have ha := sentinel_ne_fresh N m0 hN
  constructor
  · rcases accounted_stage hinv.acc with ⟨_, he, _⟩ | ⟨_, he, _⟩ | ⟨_, he, _⟩
    · exact ⟨[], by simp [he], Or.inl rfl⟩
    · exact ⟨_, by rw [he]; rfl, Or.inr (Or.inl rfl)⟩
    · exact ⟨_, by rw [he]; rfl, Or.inr (Or.inr rfl)⟩
  · intro op e2 m2 hs
    obtain ⟨hinv2, _, hS1, hS0⟩ := step_kept debug N ha op e m e2 m2 hinv (by omega) hs
    unfold called_release_resources
    rcases accounted_stage hinv.acc with ⟨hp, he, hl⟩ | ⟨hz, he, hl⟩ | ⟨hz, he, hl⟩ <;>
      rcases accounted_stage hinv2.acc with ⟨hp2, he2, hl2⟩ | ⟨hz2, he2, hl2⟩ | ⟨hz2, he2, hl2⟩
    · -- the count stays positive: no call
      rw [he, he2, hl, hl2]
      refine ⟨fun h => ?_, fun h => ?_⟩
      · exfalso
        rcases h with h | h <;> exact absurd (congrArg List.length h) (by simp; try omega)
      · exfalso
        rcases h.2 with h2 | ⟨w, h2⟩
        · simp at h2
        · simp at h2; omega
    · -- from 1 to 0 with weak references left: the call
      rw [he, he2, hl, hl2]
      have h1 : strong_refs (m0.objects.length + 1) e = 1 := by omega
      exact ⟨fun _ => ⟨⟨_, by rw [h1]⟩, Or.inr ⟨_, rfl⟩⟩, fun _ => Or.inl rfl⟩
    · -- from 1 to 0 with no reference left: the call, then the deallocation
      rw [he, he2, hl, hl2]
      have h1 : strong_refs (m0.objects.length + 1) e = 1 := by omega
      exact ⟨fun _ => ⟨⟨_, by rw [h1]⟩, Or.inl rfl⟩, fun _ => Or.inr rfl⟩
    · have := hS0 hz; omega
    · rw [he, he2, hl, hl2]
      refine ⟨fun h => ?_, fun h => ?_⟩
      · exfalso
        rcases h with h | h <;> exact absurd (congrArg List.length h) (by simp; try omega)
      · exfalso
        obtain ⟨⟨w, hw⟩, _⟩ := h
        simp at hw
    · rw [he, he2, hl, hl2]
      refine ⟨fun h => ?_, fun h => ?_⟩
      · exfalso
        rcases h with h | h
        · simp at h
        · exact absurd (congrArg List.length h) (by simp; try omega)
      · exfalso
        obtain ⟨⟨w, hw⟩, _⟩ := h
        simp at hw
    · have := hS0 hz; omega
    · rw [he, he2, hl, hl2]
      refine ⟨fun h => ?_, fun h => ?_⟩
      · exfalso
        rcases h with h | h <;> exact absurd (congrArg List.length h) (by simp; try omega)
      · exfalso
        obtain ⟨⟨w, hw⟩, _⟩ := h
        simp at hw
    · rw [he, he2, hl, hl2]
      refine ⟨fun h => ?_, fun h => ?_⟩
      · exfalso
        rcases h with h | h <;> exact absurd (congrArg List.length h) (by simp; try omega)
      · exfalso
        obtain ⟨⟨w, hw⟩, _⟩ := h
        simp at hw

/-- C3, at a concrete input: after a copy, a weak construction and the destruction of one
strong pointer the target has counts `(1, 2)`; destroying the last strong pointer is the
step that calls `release_resources`. -/
theorem release_resources_once_witness :
    called_release_resources 1 ⟨[some ⟨1, 2⟩], []⟩ ⟨[some ⟨0, 1⟩], [.release_resources 1]⟩ :=
  ((release_resources_once true intrusive_target_default_null_type ⟨[], []⟩ (by decide)
      [.copy 0, .weak_from_strong 0, .destroy 0] (by decide)
      ⟨[⟨1⟩], [⟨1⟩], [], []⟩ ⟨[some ⟨1, 2⟩], []⟩ (by decide)).2 (.destroy 0)
      ⟨[], [⟨1⟩], [], []⟩ ⟨[some ⟨0, 1⟩], [.release_resources 1]⟩ (by decide)).mpr
    ⟨⟨2, by decide⟩, Or.inr ⟨1, by decide⟩⟩

/-- C4 (P1, count balance). Take any program that starts with `make_intrusive` and goes on
with copy construction, move construction, copy assignment, move assignment, `reset()` and
destruction of strong pointers. In the state it reaches, as long as at least one live
strong pointer holds the target, the strong count of the target equals the number of live
strong pointers that hold it, and that is what `use_count()` returns on each of them. The
program has fewer than `2 ^ 64 - 1` statements, so that the `size_t` counter cannot wrap. -/
theorem strong_count_balance (debug : Bool) (N : NullType) (m0 : Memory)
    (hN : N.singleton ≤ m0.objects.length) (ops : List Op)
    (hops : ∀ op ∈ ops, op.is_strong_lifecycle = true) (hlen : ops.length + 1 < 2 ^ 64)
    (e : Pointers) (m : Memory) (hrun : program debug N ops m0 = .ok e m)
    (hlive : 0 < strong_holders (m0.objects.length + 1) e.strong) :
    (∃ w, m.load (m0.objects.length + 1)
        = some ⟨strong_holders (m0.objects.length + 1) e.strong, w⟩) ∧
    (∀ p ∈ e.strong, p.target_ = m0.objects.length + 1 →
      p.use_count N m = .ok (strong_holders (m0.objects.length + 1) e.strong) m) := by
  obtain ⟨hinv, _⟩ := program_inv debug N m0 hN ops hlen e m hrun
  have ha := sentinel_ne_fresh N m0 hN
  have hraw : e.raw_strong = [] := by
    simp only [program, start_eq, Result.bind] at hrun
    exact (run_strong_lifecycle_frame debug N ops _ _ e m hops hrun).2.1
  have hS : strong_refs (m0.objects.length + 1) e
      = strong_holders (m0.objects.length + 1) e.strong := by
    simp [strong_refs, hraw, raw_holders]
  obtain ⟨hl, _⟩ := accounted_load_strong hinv.acc (by rw [hS]; exact hlive)
  rw [hS] at hl
  refine ⟨⟨_, hl⟩, ?_⟩
  intro p _ hp
  have hne : p.target_ ≠ N.singleton := by rw [hp]; exact ha
  unfold intrusive_ptr.use_count
  rw [if_neg hne, hp]
  simp [refcount_load, hl]

/-- C4, at a concrete input: after copying twice, moving once and destroying one copy,
two strong pointers hold the target and its strong count is 2. -/
theorem strong_count_balance_witness :
    (∃ w, (Memory.mk [some ⟨2, 1⟩] []).load 1 = some ⟨2, w⟩) ∧
    (∀ p ∈ [(⟨0⟩ : intrusive_ptr), ⟨1⟩, ⟨1⟩], p.target_ = 1 →
      p.use_count intrusive_target_default_null_type ⟨[some ⟨2, 1⟩], []⟩
        = .ok 2 ⟨[some ⟨2, 1⟩], []⟩) :=
  strong_count_balance true intrusive_target_default_null_type ⟨[], []⟩ (by decide)
    [.copy 0, .copy 1, .move 0, .destroy 1] (by decide) (by decide)
    ⟨[⟨0⟩, ⟨1⟩, ⟨1⟩], [], [], []⟩ ⟨[some ⟨2, 1⟩], []⟩ (by decide) (by decide)

/-- C5 (P2 / I1, phantom invariant). In every state that a program reaches which starts
with `make_intrusive` and goes on with statements on strong and weak pointers (copy, move,
assignment, reset, destruction, weak construction from a strong pointer, lock, matched
release and reclaim): if the target is still allocated and its strong count is greater
than 0, its weak count is at least 1. The program has fewer than `2 ^ 64 - 1` statements,
so that no `size_t` counter can wrap. -/
theorem phantom_invariant (debug : Bool) (N : NullType) (m0 : Memory)
    (hN : N.singleton ≤ m0.objects.length) (ops : List Op) (hlen : ops.length + 1 < 2 ^ 64)
    (e : Pointers) (m : Memory) (hrun : program debug N ops m0 = .ok e m)
    (t : intrusive_ptr_target) (ht : m.load (m0.objects.length + 1) = some t)
    (hpos : 0 < t.refcount_) : 1 ≤ t.weakcount_ := by
  obtain ⟨hinv, _⟩ := program_inv debug N m0 hN ops hlen e m hrun
  rcases accounted_stage hinv.acc with ⟨_, _, hl⟩ | ⟨_, _, hl⟩ | ⟨_, _, hl⟩
  · rw [hl] at ht
    injection ht with ht
    subst ht
    simp
  · rw [hl] at ht
    injection ht with ht
    subst ht
    simp at hpos
  · rw [hl] at ht
    simp at ht

/-- C5, at a concrete input: a weak pointer was made and the first strong pointer moved
away and reset; the target has counts `(1, 2)`. -/
theorem phantom_invariant_witness : 1 ≤ (⟨1, 2⟩ : intrusive_ptr_target).weakcount_ :=
  phantom_invariant true intrusive_target_default_null_type ⟨[], []⟩ (by decide)
    [.weak_from_strong 0, .move 0, .reset 0, .weak_release 0, .weak_reclaim 0] (by decide)
    ⟨[⟨0⟩, ⟨1⟩], [⟨0⟩, ⟨1⟩], [], []⟩ ⟨[some ⟨1, 2⟩], []⟩ (by decide) ⟨1, 2⟩ (by decide)
    (by decide)

/-- C7 (P6 / I2, monotonic death). Take a program that starts with `make_intrusive`, goes
on with statements on strong and weak pointers, and reaches a state in which the strong
count of the target is 0 (or the target is already deallocated). Whatever statements
follow, in the state then reached the strong count is still 0 (or the target is
deallocated), and `lock()` on every weak pointer that holds the target returns the
sentinel and changes nothing. The two parts of the program have fewer than `2 ^ 64 - 1`
statements together, so that no `size_t` counter can wrap. -/
theorem monotonic_death (debug : Bool) (N : NullType) (m0 : Memory)
    (hN : N.singleton ≤ m0.objects.length) (ops1 ops2 : List Op)
    (hlen : ops1.length + ops2.length + 1 < 2 ^ 64)
    (e1 : Pointers) (m1 : Memory) (hrun1 : program debug N ops1 m0 = .ok e1 m1)
    (hdead : ∀ t, m1.load (m0.objects.length + 1) = some t → t.refcount_ = 0)
    (e2 : Pointers) (m2 : Memory) (hrun2 : run debug N ops2 e1 m1 = .ok e2 m2) :
    (∀ t, m2.load (m0.objects.length + 1) = some t → t.refcount_ = 0) ∧
    (∀ w ∈ e2.weak, w.target_ = m0.objects.length + 1 → ∀ oracle,
      w.lock N oracle m2 = .ok ⟨N.singleton⟩ m2 ∧
      intrusive_ptr.defined N ⟨N.singleton⟩ = false) := by
  obtain ⟨hinv1, hpop1⟩ := program_inv debug N m0 hN ops1 (by omega) e1 m1 hrun1
  have ha := sentinel_ne_fresh N m0 hN
  have hS1 : strong_refs (m0.objects.length + 1) e1 = 0 := by
    rcases accounted_stage hinv1.acc with ⟨hp, _, hl⟩ | ⟨hz, _, _⟩ | ⟨hz, _, _⟩
    · have := hdead _ hl
      simp at this
      omega
    · exact hz
    · exact hz
  obtain ⟨hinv2, _, hz⟩ := run_kept debug N ha ops2 e1 m1 e2 m2 hinv1 (by omega) hrun2
  have hS2 := hz hS1
  constructor
  · intro t ht
    rcases accounted_stage hinv2.acc with ⟨hp, _, _⟩ | ⟨_, _, hl⟩ | ⟨_, _, hl⟩
    · omega
    · rw [hl] at ht
      injection ht with ht
      subst ht
      rfl
    · rw [hl] at ht
      simp at ht
  · intro w hw hwa oracle
    refine ⟨?_, by simp [intrusive_ptr.defined]⟩
    obtain ⟨i, hi⟩ := List.getElem?_of_mem hw
    have hW : 0 < weak_refs (m0.objects.length + 1) e2 := by
      have := weak_holders_pos _ _ i w hi hwa
      unfold weak_refs; omega
    obtain ⟨hl, _⟩ := accounted_load_weak hinv2.acc hW
    rw [hS2] at hl
    rw [weak_eq_of_target hwa, weak_intrusive_ptr.lock_eq N _ _ _ oracle m2 hl]
    simp

/-- C7, at a concrete input: the only strong pointer is destroyed while a weak pointer
exists; afterwards the program tries `lock()`, copies the result and makes another weak
pointer, and the strong count is still 0. -/
theorem monotonic_death_witness :
    (∀ t, (Memory.mk [some ⟨0, 2⟩] [.release_resources 1]).load 1 = some t →
      t.refcount_ = 0) ∧
    (∀ w ∈ [(⟨1⟩ : weak_intrusive_ptr), ⟨1⟩], w.target_ = 1 → ∀ oracle,
      w.lock intrusive_target_default_null_type oracle ⟨[some ⟨0, 2⟩], [.release_resources 1]⟩
        = .ok ⟨nullptr⟩ ⟨[some ⟨0, 2⟩], [.release_resources 1]⟩ ∧
      intrusive_ptr.defined intrusive_target_default_null_type ⟨nullptr⟩ = false) :=
  monotonic_death true intrusive_target_default_null_type ⟨[], []⟩ (by decide)
    [.weak_from_strong 0, .destroy 0] [.lock 0 [false], .copy 0, .weak_copy 0, .copy_assign 0 1]
    (by decide) ⟨[], [⟨1⟩], [], []⟩ ⟨[some ⟨0, 1⟩], [.release_resources 1]⟩ (by decide)
    (by decide) ⟨[⟨0⟩, ⟨0⟩], [⟨1⟩, ⟨1⟩], [], []⟩ ⟨[some ⟨0, 2⟩], [.release_resources 1]⟩
    (by decide)

/-- C8. `lock()` on a weak pointer `w` that holds a live target with strong count `n` and
weak count `c`, in sequential execution. If `n = 0` it returns the sentinel (an undefined
strong pointer) and the memory is unchanged. If `n > 0` (and `n + 1` is representable) it
returns, after any number `k` of spuriously failed exchanges, a strong pointer to the
same target, defined when the target is not the sentinel, and the target then has counts
`(n + 1, c)`: one increment, weak count unchanged, nothing else changed, no event. `lock()`
is a const member that gets `w` by value, so `w` holds the target afterwards as before. -/
theorem lock_effect (N : NullType) (w : weak_intrusive_ptr) (m : Memory) (n c : Nat)
    (hl : m.load w.target_ = some ⟨n, c⟩) :
    (n = 0 → ∀ oracle, w.lock N oracle m = .ok ⟨N.singleton⟩ m ∧
      intrusive_ptr.defined N ⟨N.singleton⟩ = false) ∧
    (0 < n → n + 1 < 2 ^ 64 → ∀ k rest, ∃ m',
      w.lock N (List.replicate k true ++ false :: rest) m = .ok ⟨w.target_⟩ m' ∧
      (w.target_ ≠ N.singleton → intrusive_ptr.defined N ⟨w.target_⟩ = true) ∧
      m'.load w.target_ = some ⟨n + 1, c⟩ ∧
      same_elsewhere w.target_ m m' ∧ m'.events = m.events) := by
  have hw : w = ⟨w.target_⟩ := rfl
  constructor
  · intro hn oracle
    rw [hw, weak_intrusive_ptr.lock_eq N _ n c oracle m hl]
    simp [hn, intrusive_ptr.defined]
  · intro hn hn2 k rest
    refine ⟨m.store w.target_ ⟨n + 1, c⟩, ?_, ?_, Memory.load_store_same hl _,
      same_elsewhere_store _ _ _, Memory.events_store _ _ _⟩
    · have hne : n ≠ 0 := by omega
      have hmod : (n + 1) % 2 ^ 64 = n + 1 := Nat.mod_eq_of_lt hn2
      rw [hw, weak_intrusive_ptr.lock_eq N _ n c _ m hl, hmod]
      simp [hne]
    · intro hne
      simp [intrusive_ptr.defined, hne]

/-- C8, at a concrete input: a target with counts `(2, 3)`, the first two exchanges fail
spuriously. -/
theorem lock_effect_witness :
    ∃ m', weak_intrusive_ptr.lock intrusive_target_default_null_type ⟨1⟩
        (List.replicate 2 true ++ false :: []) ⟨[some ⟨2, 3⟩], []⟩ = .ok ⟨1⟩ m' ∧
      m'.load 1 = some ⟨3, 3⟩ := by
  obtain ⟨m', h1, _, h2, _⟩ := (lock_effect intrusive_target_default_null_type ⟨1⟩
    ⟨[some ⟨2, 3⟩], []⟩ 2 3 (by decide)).2 (by decide) (by decide) 2 []
  exact ⟨m', h1, h2⟩

/-- C9. (1) `reset()` on a weak pointer `w`, and likewise its destructor, when `w` holds a
live target with strong count `n` and weak count `c ≥ 1`: the call returns normally, the
weak count becomes `c - 1`, the strong count stays `n`, `release_resources` is not called,
and the target is deallocated exactly if `c - 1 = 0`; no other object changes and `w`
holds the sentinel afterwards. For the last weak reference (`c = 1`) of a debug build this
needs `n = 0`, which the destructor of the target asserts; a weak pointer made by the
library never meets `c = 1` with `n > 0`, since the strong side holds one unit of `c`.
(2) For a target with one strong pointer and `k ≥ 1` weak pointers, counts `(1, k + 1)`:
destroying the strong pointer calls `release_resources` and leaves the target allocated
with counts `(0, k)`; after destroying `j < k` of the weak pointers it is still allocated,
with counts `(0, k - j)`, and destroying the `k`-th deallocates it. -/
theorem weak_reset_effect (debug : Bool) (N : NullType) :
    (∀ (w : weak_intrusive_ptr) (m : Memory) (n c : Nat), w.target_ ≠ N.singleton →
      m.load w.target_ = some ⟨n, c⟩ → 1 ≤ c → c < 2 ^ 64 →
      (1 < c ∨ n = 0 ∨ debug = false) →
      ∃ m', w.reset debug N m = .ok ⟨N.singleton⟩ m' ∧ w.dtor debug N m = .ok () m' ∧
        same_elsewhere w.target_ m m' ∧
        (1 < c → m'.load w.target_ = some ⟨n, c - 1⟩ ∧ m'.events = m.events) ∧
        (c = 1 → m'.load w.target_ = none ∧
          m'.events = .deallocate w.target_ :: m.events)) ∧
    (∀ (a : Addr) (m : Memory) (k : Nat), a ≠ N.singleton → m.load a = some ⟨1, k + 1⟩ →
      1 ≤ k → k + 1 < 2 ^ 64 →
      ∃ m1, intrusive_ptr.dtor debug N ⟨a⟩ m = .ok () m1 ∧ m1.load a = some ⟨0, k⟩ ∧
        m1.events = .release_resources a :: m.events ∧
        (∀ j, j < k → ∃ m2, drop_weak debug N a j m1 = .ok () m2 ∧
          m2.load a = some ⟨0, k - j⟩ ∧ m2.events = m1.events) ∧
        (∃ m3, drop_weak debug N a k m1 = .ok () m3 ∧ m3.load a = none ∧
          m3.events = .deallocate a :: m1.events)) := by
  constructor
  · intro w m n c hne hl hc1 hc hadm
    obtain ⟨m', hr, hse, h1, h2⟩ := weak_reset_spec debug N w m n c hne hl hc1 hc hadm
    exact ⟨m', hr, by simp [weak_intrusive_ptr.dtor, hr, Result.bind], hse, h1, h2⟩
  · intro a m k ha hl hk hk2
    obtain ⟨m1, hr, _, _, h2, _⟩ :=
      strong_reset_spec debug N ⟨a⟩ m 1 (k + 1) ha hl (by omega) (by omega)
    have hdec : size_t_dec (k + 1) = k := by
      rw [size_t_dec_eq (by omega) hk2]; rfl
    obtain ⟨hl1, he1⟩ := h2 rfl (by rw [hdec]; omega)
    rw [hdec] at hl1
    refine ⟨m1, by simp [intrusive_ptr.dtor, hr, Result.bind], hl1, he1, ?_, ?_⟩
    · intro j hj
      exact drop_weak_some debug N a ha j m1 k hl1 hj (by omega)
    · obtain ⟨k', rfl⟩ : ∃ k', k = k' + 1 := ⟨k - 1, by omega⟩
      exact drop_weak_all debug N a ha k' m1 hl1 (by omega)

/-- C9, at a concrete input: one strong pointer and two weak pointers in a debug build. -/
theorem weak_reset_effect_witness :
    ∃ m1, intrusive_ptr.dtor true intrusive_target_default_null_type ⟨1⟩ ⟨[some ⟨1, 3⟩], []⟩
        = .ok () m1 ∧ m1.load 1 = some ⟨0, 2⟩ ∧
      ∃ m3, drop_weak true intrusive_target_default_null_type 1 2 m1 = .ok () m3 ∧
        m3.load 1 = none := by
  obtain ⟨m1, h1, h2, _, _, m3, h3, h4, _⟩ :=
    (weak_reset_effect true intrusive_target_default_null_type).2 1 ⟨[some ⟨1, 3⟩], []⟩ 2
      (by decide) (by decide) (by decide) (by decide)
  exact ⟨m1, h1, h2, m3, h3, h4⟩

/-- C10. For every weak pointer `w`: `expired()` returns whether `use_count()` is 0;
`use_count()` is 0 when `w` holds the sentinel, and is the strong count `refcount_` of the
target (not its weak count) when `w` holds a live target, so that `expired()` is then true
exactly if the strong count is 0. Neither call changes the memory. -/
theorem expired_iff_use_count_zero (N : NullType) (w : weak_intrusive_ptr) (m : Memory) :
    (∀ c m', w.use_count N m = .ok c m' → w.expired N m = .ok (c == 0) m' ∧ m' = m) ∧
    (w.target_ = N.singleton → w.use_count N m = .ok 0 m ∧ w.expired N m = .ok true m) ∧
    (∀ t, w.target_ ≠ N.singleton → m.load w.target_ = some t →
      w.use_count N m = .ok t.refcount_ m ∧
      (w.expired N m = .ok true m ↔ t.refcount_ = 0) ∧
      (w.expired N m = .ok false m ↔ t.refcount_ ≠ 0)) := by
  refine ⟨?_, ?_, ?_⟩
  · intro c m' h
    constructor
    · simp [weak_intrusive_ptr.expired, h, Result.bind]
    · unfold weak_intrusive_ptr.use_count at h
      split at h
      · injection h with _ h2
        exact h2.symm
      · unfold refcount_load at h
        split at h
        · simp at h
        · injection h with _ h2
          exact h2.symm
  · intro h
    simp [weak_intrusive_ptr.expired, weak_intrusive_ptr.use_count, h, Result.bind]
  · intro t hne hl
    simp [weak_intrusive_ptr.expired, weak_intrusive_ptr.use_count, hne, refcount_load, hl,
      Result.bind]

/-- C10, at a concrete input: a target with strong count 0 and weak count 2 is expired,
although its weak count is not 0. -/
theorem expired_iff_use_count_zero_witness :
    weak_intrusive_ptr.use_count intrusive_target_default_null_type ⟨1⟩ ⟨[some ⟨0, 2⟩], []⟩
      = .ok 0 ⟨[some ⟨0, 2⟩], []⟩ ∧
    weak_intrusive_ptr.expired intrusive_target_default_null_type ⟨1⟩ ⟨[some ⟨0, 2⟩], []⟩
      = .ok true ⟨[some ⟨0, 2⟩], []⟩ :=
  have h := (expired_iff_use_count_zero intrusive_target_default_null_type ⟨1⟩
    ⟨[some ⟨0, 2⟩], []⟩).2.2 ⟨0, 2⟩ (by decide) (by decide)
  ⟨h.1, h.2.1.mpr rfl⟩

/-- C11. Copy-constructing a strong pointer `q` from a strong pointer `p`, in debug and
release builds. If `p` holds the sentinel, `q` holds the sentinel and the memory is
unchanged. If `p` holds a live target with strong count `n ≥ 1` (and `n + 1` is
representable) and weak count `w`, the constructor returns normally, `q` holds the same
target as `p` (`p == q`, and `p` is a const reference, so it holds what it held), and the
target then has counts `(n + 1, w)`; no other object changes and no `release_resources`
or deallocation happens. -/
theorem copy_ctor_effect (debug : Bool) (N : NullType) (p : intrusive_ptr) (m : Memory) :
    (p.target_ = N.singleton →
      intrusive_ptr.copy_ctor debug N p m = .ok ⟨N.singleton⟩ m) ∧
    (∀ n w, p.target_ ≠ N.singleton → m.load p.target_ = some ⟨n, w⟩ → 1 ≤ n →
      n + 1 < 2 ^ 64 →
      ∃ q m', intrusive_ptr.copy_ctor debug N p m = .ok q m' ∧
        q.target_ = p.target_ ∧ intrusive_ptr.operator_eq p q = true ∧ q.defined N = true ∧
        m'.load p.target_ = some ⟨n + 1, w⟩ ∧
        same_elsewhere p.target_ m m' ∧ m'.events = m.events) := by
  constructor
  · intro hp
    simp [intrusive_ptr.copy_ctor, intrusive_ptr.retain_, hp, Result.bind]
  · intro n w hp hl hn hn2
    have hr := strong_retain_spec debug N ⟨p.target_⟩ m n w hp hl hn hn2
    refine ⟨⟨p.target_⟩, m.store p.target_ ⟨n + 1, w⟩, ?_, rfl, ?_, ?_,
      Memory.load_store_same hl _, same_elsewhere_store _ _ _, Memory.events_store _ _ _⟩
    · simp [intrusive_ptr.copy_ctor, hr, Result.bind]
    · simp [intrusive_ptr.operator_eq, intrusive_ptr.get]
    · simp [intrusive_ptr.defined, hp]

/-- C11, at a concrete input: a copy of a pointer to a target with counts `(2, 1)`. -/
theorem copy_ctor_effect_witness :
    ∃ q m', intrusive_ptr.copy_ctor true intrusive_target_default_null_type ⟨1⟩
        ⟨[some ⟨2, 1⟩], []⟩ = .ok q m' ∧ q.target_ = 1 ∧ m'.load 1 = some ⟨3, 1⟩ := by
  obtain ⟨q, m', h1, h2, _, _, h3, _⟩ :=
    (copy_ctor_effect true intrusive_target_default_null_type ⟨1⟩ ⟨[some ⟨2, 1⟩], []⟩).2 2 1
      (by decide) (by decide) (by decide) (by decide)
  exact ⟨q, m', h1, h2, h3⟩

/-- C12. Copy-constructing a strong pointer from a strong pointer `p` whose target is
not the sentinel and has strong count `n`. In a debug build (one that evaluates
`TORCH_INTERNAL_ASSERT_DEBUG_ONLY`) with `n = 0` the constructor does not return a copy:
it fails with "intrusive_ptr: Cannot increase refcount after it reached zero.", the
counter having been incremented to 1 before the check. With `n ≥ 1` it returns normally in
every build. In every build an assertion fails exactly if the build is a debug build and
`n = 0`; a copy of a pointer that holds the sentinel never fails. -/
theorem copy_ctor_from_zero (debug : Bool) (N : NullType) (p : intrusive_ptr) (m : Memory) :
    (p.target_ = N.singleton → intrusive_ptr.copy_ctor debug N p m = .ok ⟨N.singleton⟩ m) ∧
    (∀ n w, p.target_ ≠ N.singleton → m.load p.target_ = some ⟨n, w⟩ → n < 2 ^ 64 →
      (n = 0 → intrusive_ptr.copy_ctor true N p m
        = .assertion_failed .cannot_increase_refcount (m.store p.target_ ⟨1, w⟩)) ∧
      (1 ≤ n → ∃ q m', intrusive_ptr.copy_ctor debug N p m = .ok q m') ∧
      ((∃ msg m', intrusive_ptr.copy_ctor debug N p m = .assertion_failed msg m') ↔
        (debug = true ∧ n = 0))) := by
  constructor
  · intro hp
    simp [intrusive_ptr.copy_ctor, intrusive_ptr.retain_, hp, Result.bind]
  · intro n w hp hl hn2
    have hr : ∀ d, intrusive_ptr.retain_ d N ⟨p.target_⟩ m = _ :=
      fun d => strong_retain_eq d N ⟨p.target_⟩ m n w hp hl
    refine ⟨?_, ?_, ?_⟩
    · intro hn
      subst hn
      have h1 : size_t_inc 0 = 1 := by decide
      simp [intrusive_ptr.copy_ctor, hr, h1, Result.bind]
    · intro hn
      have h1 := size_t_inc_ne_one hn hn2
      exact ⟨⟨p.target_⟩, m.store p.target_ ⟨size_t_inc n, w⟩,
        by simp [intrusive_ptr.copy_ctor, hr, h1, Result.bind]⟩
    · by_cases hn : n = 0
      · subst hn
        have h1 : size_t_inc 0 = 1 := by decide
        cases debug <;> simp [intrusive_ptr.copy_ctor, hr, h1, Result.bind]
      · have h1 := size_t_inc_ne_one (by omega) hn2
        simp [intrusive_ptr.copy_ctor, hr, h1, Result.bind, hn]

/-- C12, at a concrete input: a debug build, a target with counts `(0, 3)`. -/
theorem copy_ctor_from_zero_witness :
    intrusive_ptr.copy_ctor true intrusive_target_default_null_type ⟨1⟩ ⟨[some ⟨0, 3⟩], []⟩
      = .assertion_failed .cannot_increase_refcount
          ((Memory.mk [some ⟨0, 3⟩] []).store 1 ⟨1, 3⟩) :=
  ((copy_ctor_from_zero true intrusive_target_default_null_type ⟨1⟩
    ⟨[some ⟨0, 3⟩], []⟩).2 0 3 (by decide) (by decide) (by decide)).1 rfl

/-- C13. Move construction of a strong pointer `q` from a strong pointer `p`: `q` holds
exactly what `p` held, `p` holds the sentinel afterwards (`p.defined()` is false), and as
a statement of a program it leaves the whole memory as it was, so no strong or weak count
of any target changes and nothing is torn down. The same holds for move construction of
weak pointers. -/
theorem move_ctor_effect (debug : Bool) (N : NullType) :
    (∀ p : intrusive_ptr,
      (intrusive_ptr.move_ctor N p).1 = p ∧
      (intrusive_ptr.move_ctor N p).2.target_ = N.singleton ∧
      (intrusive_ptr.move_ctor N p).2.defined N = false) ∧
    (∀ w : weak_intrusive_ptr,
      (weak_intrusive_ptr.move_ctor N w).1 = w ∧
      (weak_intrusive_ptr.move_ctor N w).2.target_ = N.singleton) ∧
    (∀ (e : Pointers) (m : Memory) (i : Nat) (p : intrusive_ptr), e.strong[i]? = some p →
      step debug N (.move i) e m
        = .ok { e with strong := e.strong.set i ⟨N.singleton⟩ ++ [p] } m) ∧
    (∀ (e : Pointers) (m : Memory) (i : Nat) (w : weak_intrusive_ptr), e.weak[i]? = some w →
      step debug N (.weak_move i) e m
        = .ok { e with weak := e.weak.set i ⟨N.singleton⟩ ++ [w] } m) := by
  refine ⟨?_, ?_, ?_, ?_⟩
  · intro p
    simp [intrusive_ptr.move_ctor, intrusive_ptr.defined]
  · intro w
    simp [weak_intrusive_ptr.move_ctor]
  · intro e m i p hi
    simp [step, hi, intrusive_ptr.move_ctor]
  · intro e m i w hi
    simp [step, hi, weak_intrusive_ptr.move_ctor]

/-- C13, at a concrete input: moving the only strong pointer of a program. -/
theorem move_ctor_effect_witness :
    step true intrusive_target_default_null_type (.move 0) ⟨[⟨1⟩], [], [], []⟩
        ⟨[some ⟨1, 1⟩], []⟩
      = .ok ⟨[⟨nullptr⟩, ⟨1⟩], [], [], []⟩ ⟨[some ⟨1, 1⟩], []⟩ :=
  (move_ctor_effect true intrusive_target_default_null_type).2.2.1 ⟨[⟨1⟩], [], [], []⟩
    ⟨[some ⟨1, 1⟩], []⟩ 0 ⟨1⟩ rfl

/-- C14. The round trip `r = intrusive_ptr::reclaim(p.release())`, for every strong
pointer `p` and every memory: `r` holds the reference `p` held, `p` holds the sentinel
after `release()`, and `use_count()` and `weak_use_count()` give on `r` what they gave on
`p` before. Neither function reads or writes a counter: as statements of a program,
`release()` and `reclaim()` each leave the whole memory as it was. -/
theorem release_reclaim_round_trip (debug : Bool) (N : NullType) :
    (∀ (p : intrusive_ptr) (m : Memory),
      intrusive_ptr.reclaim (p.release N).1 = p ∧
      (p.release N).2.target_ = N.singleton ∧
      (p.release N).2.defined N = false ∧
      (intrusive_ptr.reclaim (p.release N).1).use_count N m = p.use_count N m ∧
      (intrusive_ptr.reclaim (p.release N).1).weak_use_count N m = p.weak_use_count N m) ∧
    (∀ (e : Pointers) (m : Memory) (i : Nat) (p : intrusive_ptr), e.strong[i]? = some p →
      step debug N (.release i) e m
        = .ok { e with strong := e.strong.set i ⟨N.singleton⟩,
                       raw_strong := e.raw_strong ++ [p.target_] } m) ∧
    (∀ (e : Pointers) (m : Memory) (k : Nat) (raw : Addr), e.raw_strong[k]? = some raw →
      step debug N (.reclaim k) e m
        = .ok { e with strong := e.strong ++ [⟨raw⟩],
                       raw_strong := e.raw_strong.eraseIdx k } m) := by
  refine ⟨?_, ?_, ?_⟩
  · intro p m
    simp [intrusive_ptr.release, intrusive_ptr.reclaim, intrusive_ptr.mk_raw,
      intrusive_ptr.defined]
  · intro e m i p hi
    simp [step, hi, intrusive_ptr.release]
  · intro e m k raw hk
    simp [step, hk, intrusive_ptr.reclaim, intrusive_ptr.mk_raw]

/-- C14, at a concrete input: releasing and reclaiming the only strong pointer of a
program leaves the counts `(1, 1)` and gives back a pointer to the target. -/
theorem release_reclaim_round_trip_witness :
    run true intrusive_target_default_null_type [.release 0, .reclaim 0] ⟨[⟨1⟩], [], [], []⟩
        ⟨[some ⟨1, 1⟩], []⟩
      = .ok ⟨[⟨nullptr⟩, ⟨1⟩], [], [], []⟩ ⟨[some ⟨1, 1⟩], []⟩ := by
  have h1 := (release_reclaim_round_trip true intrusive_target_default_null_type).2.1
    ⟨[⟨1⟩], [], [], []⟩ ⟨[some ⟨1, 1⟩], []⟩ 0 ⟨1⟩ rfl
  have h2 := (release_reclaim_round_trip true intrusive_target_default_null_type).2.2
    ⟨[⟨nullptr⟩], [], [1], []⟩ ⟨[some ⟨1, 1⟩], []⟩ 0 1 rfl
  simp only [run, Result.bind, h1]
  exact h2

/-- C15. `intrusive_ptr::unsafe_reclaim_from_nonowning(raw)`. For the sentinel it returns
a pointer that holds the sentinel and leaves the memory unchanged. For a live target
with strong count `n > 0` (and `n + 1` representable) and weak count `w` it returns a
defined strong pointer to that target, which then has counts `(n + 1, w)`; nothing else
changes. For a live target that is not the sentinel and has strong count 0, such as one
that was default-constructed and did not come from `make_intrusive`, a debug build (one
that evaluates `TORCH_INTERNAL_ASSERT_DEBUG_ONLY`) rejects the call with "intrusive_ptr:
Can only reclaim pointers that are owned by someone", before any counter is touched. -/
theorem unsafe_reclaim_from_nonowning_effect (debug : Bool) (N : NullType) (raw : Addr)
    (m : Memory) :
    (raw = N.singleton →
      intrusive_ptr.unsafe_reclaim_from_nonowning debug N raw m = .ok ⟨N.singleton⟩ m) ∧
    (∀ n w, raw ≠ N.singleton → m.load raw = some ⟨n, w⟩ →
      (0 < n → n + 1 < 2 ^ 64 →
        ∃ m', intrusive_ptr.unsafe_reclaim_from_nonowning debug N raw m = .ok ⟨raw⟩ m' ∧
          intrusive_ptr.defined N ⟨raw⟩ = true ∧
          m'.load raw = some ⟨n + 1, w⟩ ∧
          same_elsewhere raw m m' ∧ m'.events = m.events) ∧
      (n = 0 → intrusive_ptr.unsafe_reclaim_from_nonowning true N raw m
        = .assertion_failed .reclaim_not_owned m)) := by
  constructor
  · intro hr
    subst hr
    cases debug <;>
      simp [intrusive_ptr.unsafe_reclaim_from_nonowning, intrusive_ptr.retain_,
        intrusive_ptr.reclaim, intrusive_ptr.mk_raw, Result.bind,
        TORCH_INTERNAL_ASSERT_DEBUG_ONLY]
  · intro n w hne hl
    constructor
    · intro hn hn2
      have hr := strong_retain_spec debug N ⟨raw⟩ m n w hne hl hn hn2
      refine ⟨m.store raw ⟨n + 1, w⟩, ?_, by simp [intrusive_ptr.defined, hne],
        Memory.load_store_same hl _, same_elsewhere_store _ _ _, Memory.events_store _ _ _⟩
      cases debug <;>
        simp [intrusive_ptr.unsafe_reclaim_from_nonowning, hne, refcount_load, hl,
          intrusive_ptr.reclaim, intrusive_ptr.mk_raw, Result.bind,
          TORCH_INTERNAL_ASSERT_DEBUG_ONLY, hn, hr]
    · intro hn
      subst hn
      simp [intrusive_ptr.unsafe_reclaim_from_nonowning, hne, refcount_load, hl,
        Result.bind, TORCH_INTERNAL_ASSERT_DEBUG_ONLY]

/-- C15, at a concrete input: a default-constructed target with counts `(0, 0)` in a
debug build. -/
theorem unsafe_reclaim_from_nonowning_effect_witness :
    intrusive_ptr.unsafe_reclaim_from_nonowning true intrusive_target_default_null_type 1
        ⟨[some ⟨0, 0⟩], []⟩
      = .assertion_failed .reclaim_not_owned ⟨[some ⟨0, 0⟩], []⟩ :=
  ((unsafe_reclaim_from_nonowning_effect true intrusive_target_default_null_type 1
    ⟨[some ⟨0, 0⟩], []⟩).2 0 0 (by decide) (by decide)).2 rfl

/-- C16. The code does not do what the Note [Stack allocated intrusive_ptr_target safety]
says: `intrusive_ptr::reclaim` reads no counter and makes no check. For the raw pointer
to a default-constructed target with counts `(0, 0)` that did not come from
`make_intrusive`, it returns a defined strong pointer in every build; when that pointer
is destroyed, even in a debug build, the strong count wraps from 0 to `2 ^ 64 - 1` and
nothing reports it. -/
theorem reclaim_makes_no_check :
    (Memory.mk [some intrusive_ptr_target.default_ctor] []).load 1 = some ⟨0, 0⟩ ∧
    intrusive_ptr.reclaim 1 = ⟨1⟩ ∧
    (intrusive_ptr.reclaim 1).defined intrusive_target_default_null_type = true ∧
    intrusive_ptr.dtor true intrusive_target_default_null_type (intrusive_ptr.reclaim 1)
        ⟨[some intrusive_ptr_target.default_ctor], []⟩
      = .ok () ⟨[some ⟨2 ^ 64 - 1, 0⟩], []⟩ := by
  decide

/-- C17. `weak_intrusive_ptr::reclaim(raw)` in a debug build (one that evaluates
`TORCH_INTERNAL_ASSERT_DEBUG_ONLY`). For the sentinel it returns a weak pointer holding
`raw` and changes nothing. For a live target with strong count `n` and weak count `c` it
succeeds, returning a weak pointer that holds `raw` with the memory unchanged, if and
only if `c > 1`, or `n = 0` and `c > 0`; in every other case (counts `(0, 0)`, or `n > 0`
with `c ≤ 1`) it is rejected with "weak_intrusive_ptr: Can only
weak_intrusive_ptr::reclaim() owning pointers that were created using
weak_intrusive_ptr::release()." and the memory is unchanged as well. When the condition
holds the call succeeds in every build. -/
theorem weak_reclaim_iff (debug : Bool) (N : NullType) (raw : Addr) (m : Memory) :
    (raw = N.singleton → weak_intrusive_ptr.reclaim debug N raw m = .ok ⟨raw⟩ m) ∧
    (∀ n c, raw ≠ N.singleton → m.load raw = some ⟨n, c⟩ →
      ((1 < c ∨ (n = 0 ∧ 0 < c)) → weak_intrusive_ptr.reclaim debug N raw m = .ok ⟨raw⟩ m) ∧
      (¬ (1 < c ∨ (n = 0 ∧ 0 < c)) →
        weak_intrusive_ptr.reclaim true N raw m
          = .assertion_failed .weak_reclaim_not_released m) ∧
      ((∃ q m', weak_intrusive_ptr.reclaim true N raw m = .ok q m') ↔
        (1 < c ∨ (n = 0 ∧ 0 < c))) ∧
      (∀ q m', weak_intrusive_ptr.reclaim true N raw m = .ok q m' → q = ⟨raw⟩ ∧ m' = m)) := by
  constructor
  · intro hr
    cases debug <;>
      simp [weak_intrusive_ptr.reclaim, hr, Result.bind, TORCH_INTERNAL_ASSERT_DEBUG_ONLY]
  · intro n c hne hl
    have heq := weak_reclaim_debug_eq N raw m n c hne hl
    refine ⟨fun hadm => weak_reclaim_of_admitted debug N raw m n c hne hl hadm, ?_, ?_, ?_⟩
    · intro hadm
      rw [heq, if_neg hadm]
    · by_cases hadm : 1 < c ∨ (n = 0 ∧ 0 < c)
      · rw [heq, if_pos hadm]
        exact ⟨fun _ => hadm, fun _ => ⟨_, _, rfl⟩⟩
      · rw [heq, if_neg hadm]
        constructor
        · rintro ⟨q, m', h⟩
          simp at h
        · intro h
          exact absurd h hadm
    · intro q m' h
      exact weak_intrusive_ptr.reclaim_ok true N raw m m' q h

/-- C17, at a concrete input: a target with counts `(1, 1)`, to which no weak pointer
exists, in a debug build. -/
theorem weak_reclaim_iff_witness :
    weak_intrusive_ptr.reclaim true intrusive_target_default_null_type 1 ⟨[some ⟨1, 1⟩], []⟩
      = .assertion_failed .weak_reclaim_not_released ⟨[some ⟨1, 1⟩], []⟩ :=
  ((weak_reclaim_iff true intrusive_target_default_null_type 1 ⟨[some ⟨1, 1⟩], []⟩).2 1 1
    (by decide) (by decide)).2.1 (by decide)

/-- C18. Counts belong to the storage location. A default-constructed
`intrusive_ptr_target` has counts `(0, 0)`; a copy-constructed or move-constructed one has
counts `(0, 0)` whatever the counts of the source are, and the source keeps its counts;
copy assignment and move assignment leave the counts of the destination and of the
source as they were. The object that `new TTarget(...)` puts into fresh storage is the
default-constructed one. -/
theorem target_counts_stay_with_storage (self other : intrusive_ptr_target) :
    intrusive_ptr_target.default_ctor.refcount_ = 0 ∧
    intrusive_ptr_target.default_ctor.weakcount_ = 0 ∧
    (intrusive_ptr_target.copy_ctor other).1 = ⟨0, 0⟩ ∧
    (intrusive_ptr_target.copy_ctor other).2 = other ∧
    (intrusive_ptr_target.move_ctor other).1 = ⟨0, 0⟩ ∧
    (intrusive_ptr_target.move_ctor other).2 = other ∧
    intrusive_ptr_target.copy_assign self other = (self, other) ∧
    intrusive_ptr_target.move_assign self other = (self, other) ∧
    (∀ m : Memory, new_target m
      = .ok (m.objects.length + 1)
          ⟨m.objects ++ [some intrusive_ptr_target.default_ctor], m.events⟩) :=
  ⟨rfl, rfl, rfl, rfl, rfl, rfl, rfl, rfl, fun _ => rfl⟩

/-- C19, as stated, fails: in a debug build, on a target with counts `(0, 0)`, the typed
path (copy construction) is rejected with "Cannot increase refcount after it reached
zero", while `raw::intrusive_ptr::incref` returns normally and has moved the strong count
from 0 to 1. -/
theorem raw_incref_differs_from_typed :
    raw.intrusive_ptr.incref 1 ⟨[some ⟨0, 0⟩], []⟩ = .ok () ⟨[some ⟨1, 0⟩], []⟩ ∧
    typed_incref true 1 ⟨[some ⟨0, 0⟩], []⟩
      = .assertion_failed .cannot_increase_refcount ⟨[some ⟨1, 0⟩], []⟩ ∧
    raw.intrusive_ptr.incref 1 ⟨[some ⟨0, 0⟩], []⟩ ≠ typed_incref true 1 ⟨[some ⟨0, 0⟩], []⟩ := by
  decide

/-- C19, amended. `raw::intrusive_ptr::incref(p)` does the same count arithmetic as the
typed path (copy-constructing a strong pointer to `p` and releasing the copy): for every
pointer and every memory the two end with the same memory, so with the same strong and
weak counts. They have the same outcome in a release build, and in a debug build
whenever `p` does not point to a target with strong count 0. The raw increment contains
no assertion: on a target with strong count 0 it returns normally with strong count 1 in
every build, where the typed path of a debug build raises its assertion after the same
increment. -/
theorem raw_incref_same_counts (debug : Bool) (p : Addr) (m : Memory) :
    (raw.intrusive_ptr.incref p m).final_memory = (typed_incref debug p m).final_memory ∧
    ((debug = false ∨ ∀ t, m.load p = some t → t.refcount_ ≠ 0 ∧ t.refcount_ < 2 ^ 64) →
      raw.intrusive_ptr.incref p m = typed_incref debug p m) ∧
    (∀ w, m.load p = some ⟨0, w⟩ →
      raw.intrusive_ptr.incref p m = .ok () (m.store p ⟨1, w⟩) ∧
      typed_incref true p m
        = .assertion_failed .cannot_increase_refcount (m.store p ⟨1, w⟩)) := by
  cases hl : m.load p with
  | none =>
    have hboth : raw.intrusive_ptr.incref p m = typed_incref debug p m := by
      by_cases hp : p = nullptr
      · subst hp
        simp [raw.intrusive_ptr.incref, typed_incref, intrusive_ptr.copy_ctor,
          intrusive_ptr.retain_, intrusive_target_default_null_type, Result.bind,
          intrusive_ptr.release, intrusive_ptr.dtor, intrusive_ptr.reset_]
      · have hp2 : p ≠ intrusive_target_default_null_type.singleton := hp
        simp [raw.intrusive_ptr.incref, typed_incref, intrusive_ptr.copy_ctor,
          intrusive_ptr.retain_, hp, hp2, refcount_inc, hl, Result.bind]
    refine ⟨by rw [hboth], fun _ => hboth, ?_⟩
    intro w hw
    simp at hw
  | some t =>
    obtain ⟨n, w⟩ := t
    have hraw := raw_incref_eq p m n w hl
    have htyped := typed_incref_eq debug p m n w hl
    refine ⟨?_, ?_, ?_⟩
    · rw [hraw, htyped]
      split <;> rfl
    · intro h
      rw [hraw, htyped]
      have hno : ¬ (debug = true ∧ size_t_inc n = 1) := by
        rcases h with h | h
        · simp [h]
        · obtain ⟨h0, h2⟩ := h ⟨n, w⟩ rfl
          have := size_t_inc_ne_one (n := n) (by simp at h0; omega) (by simpa using h2)
          simp [this]
      rw [if_neg hno]
    · intro w' hw
      injection hw with hw
      injection hw with h1 h2
      subst h1 h2
      have h1 : size_t_inc 0 = 1 := by decide
      rw [typed_incref_eq true p m 0 w hl, hraw, h1]
      simp

/-- C19 amended, at a concrete input: a target with counts `(2, 1)` in a debug build. -/
theorem raw_incref_same_counts_witness :
    raw.intrusive_ptr.incref 1 ⟨[some ⟨2, 1⟩], []⟩ = typed_incref true 1 ⟨[some ⟨2, 1⟩], []⟩ :=
  (raw_incref_same_counts true 1 ⟨[some ⟨2, 1⟩], []⟩).2.1
    (Or.inr (fun t ht => by
      have h : t = ⟨2, 1⟩ := by
        have h0 : (Memory.mk [some ⟨2, 1⟩] []).load 1 = some ⟨2, 1⟩ := rfl
        rw [h0] at ht
        exact (Option.some.inj ht).symm
      subst h
      decide))

/-- C20. `raw::weak_intrusive_ptr::lock(p)` for a raw weak pointer `p` (not null) to a
live target with strong count `n` and weak count `c` to which a weak reference exists
(`c > 1`, or `n = 0` and `c > 0`), in debug and release builds. If `n = 0` it returns the
null pointer and the memory is unchanged. If `n > 0` (and `n + 1` is representable) it
returns `p` itself, after any number `k` of spuriously failed exchanges, and the target
then has counts `(n + 1, c)`. In both cases the weak count is unchanged, the target is
still allocated, no `release_resources` or deallocation takes place and no other object
changes: the destructors of the two local pointers find the sentinel. -/
theorem raw_weak_lock_effect (debug : Bool) (p : Addr) (m : Memory) (n c : Nat)
    (hp : p ≠ nullptr) (hl : m.load p = some ⟨n, c⟩)
    (hweak : 1 < c ∨ (n = 0 ∧ 0 < c)) :
    (n = 0 → ∀ oracle, raw.weak_intrusive_ptr.lock debug p oracle m = .ok nullptr m) ∧
    (0 < n → n + 1 < 2 ^ 64 → ∀ k rest, ∃ m',
      raw.weak_intrusive_ptr.lock debug p (List.replicate k true ++ false :: rest) m
        = .ok p m' ∧
      m'.load p = some ⟨n + 1, c⟩ ∧ same_elsewhere p m m' ∧ m'.events = m.events) := by
  have hp2 : p ≠ intrusive_target_default_null_type.singleton := hp
  have hrec := weak_reclaim_of_admitted debug intrusive_target_default_null_type p m n c hp2
    hl hweak
  have hlock := weak_intrusive_ptr.lock_eq intrusive_target_default_null_type p n c
  constructor
  · intro hn oracle
    unfold raw.weak_intrusive_ptr.lock
    rw [hrec]
    simp only [Result.bind]
    rw [hlock oracle m hl, if_pos hn]
    simp [intrusive_ptr.release, weak_intrusive_ptr.release, intrusive_ptr.dtor,
      weak_intrusive_ptr.dtor, intrusive_ptr.reset_, weak_intrusive_ptr.reset_, Result.bind]
    rfl
  · intro hn hn2 k rest
    have hne : n ≠ 0 := by omega
    have hmod : (n + 1) % 2 ^ 64 = n + 1 := Nat.mod_eq_of_lt hn2
    refine ⟨m.store p ⟨n + 1, c⟩, ?_, Memory.load_store_same hl _,
      same_elsewhere_store _ _ _, Memory.events_store _ _ _⟩
    have hl2 := hlock (List.replicate k true ++ false :: rest) m hl
    rw [hmod] at hl2
    unfold raw.weak_intrusive_ptr.lock
    rw [hrec]
    simp only [Result.bind]
    rw [hl2, if_neg hne, if_pos (by simp)]
    simp [intrusive_ptr.release, weak_intrusive_ptr.release, intrusive_ptr.dtor,
      weak_intrusive_ptr.dtor, intrusive_ptr.reset_, weak_intrusive_ptr.reset_, Result.bind]

/-- C20, at a concrete input: a target with counts `(3, 2)` in a debug build, the first
exchange fails spuriously. -/
theorem raw_weak_lock_effect_witness :
    ∃ m', raw.weak_intrusive_ptr.lock true 1 (List.replicate 1 true ++ false :: [])
        ⟨[some ⟨3, 2⟩], []⟩ = .ok 1 m' ∧ m'.load 1 = some ⟨4, 2⟩ := by
  obtain ⟨m', h1, h2, _⟩ := (raw_weak_lock_effect true 1 ⟨[some ⟨3, 2⟩], []⟩ 3 2
    (by decide) (by decide) (by decide)).2 (by decide) (by decide) 1 []
  exact ⟨m', h1, h2⟩

/-- C21. `raw::intrusive_ptr::make_weak(p)` for a raw strong pointer `p` to a live target
with strong count `n` (in particular `n > 0`) and weak count `c`, where `c + 1` is
representable and, in a debug build, `c >= 1` (the weak reference that the strong
pointers hold together). The call returns the address `p` itself, the target then has the
counts `(n, c + 1)` and is still allocated, no `release_resources` or deallocation takes
place, and no other object changes: the strong reference of the caller still stands. -/
theorem raw_make_weak_effect (debug : Bool) (p : Addr) (m : Memory) (n c : Nat)
    (hl : m.load p = some ⟨n, c⟩) (hc : 1 ≤ c ∨ debug = false) (hc2 : c + 1 < 2 ^ 64) :
    ∃ m', raw.intrusive_ptr.make_weak debug p m = .ok p m' ∧
      m'.load p = some ⟨n, c + 1⟩ ∧ same_elsewhere p m m' ∧ m'.events = m.events :=
  ⟨m.store p ⟨n, c + 1⟩, raw_make_weak_eq debug p m n c hl hc hc2,
    Memory.load_store_same hl _, same_elsewhere_store _ _ _, Memory.events_store _ _ _⟩

/-- C21, at a concrete input: a target with counts `(3, 2)` in a debug build. -/
theorem raw_make_weak_effect_witness :
    ∃ m', raw.intrusive_ptr.make_weak true 1 ⟨[some ⟨3, 2⟩], []⟩ = .ok 1 m' ∧
      m'.load 1 = some ⟨3, 3⟩ := by
  obtain ⟨m', h1, h2, _⟩ := raw_make_weak_effect true 1 ⟨[some ⟨3, 2⟩], []⟩ 3 2
    (by decide) (by decide) (by decide)
  exact ⟨m', h1, h2⟩

/-- C22, refuted as stated: for a target whose strong count is `2 ^ 32` both raw
`use_count` functions return 0, while `intrusive_ptr::use_count()` returns `2 ^ 32`. -/
theorem raw_use_count_truncates :
    raw.intrusive_ptr.use_count true 1 ⟨[some ⟨2 ^ 32, 2⟩], []⟩
      = .ok 0 ⟨[some ⟨2 ^ 32, 2⟩], []⟩ ∧
    raw.weak_intrusive_ptr.use_count true 1 ⟨[some ⟨2 ^ 32, 2⟩], []⟩
      = .ok 0 ⟨[some ⟨2 ^ 32, 2⟩], []⟩ ∧
    intrusive_ptr.use_count intrusive_target_default_null_type ⟨1⟩
        ⟨[some ⟨2 ^ 32, 2⟩], []⟩
      = .ok (2 ^ 32) ⟨[some ⟨2 ^ 32, 2⟩], []⟩ :=
  ⟨rfl, rfl, rfl⟩

/-- C22, amended. For a raw pointer `p` to a live target with strong count `n` and weak
count `c`, in a debug or a release build: `raw::intrusive_ptr::use_count(p)` returns `n`
reduced modulo `2 ^ 32`, its return type being `uint32_t`, and leaves the memory, so both
counts, unchanged; this holds for all counts. The typed `intrusive_ptr::use_count()`
returns `n`, and the raw function agrees with it exactly when `n < 2 ^ 32`.
`raw::weak_intrusive_ptr::use_count(p)` returns the same value `n` modulo `2 ^ 32` with
the memory unchanged whenever the assertion of `weak_intrusive_ptr::reclaim`, through
which it passes, holds (`c > 1`, or `n = 0` and `c > 0`: a weak reference exists) or is
not evaluated (release build); in a debug build where it does not hold the call fails
with that assertion, the memory unchanged. -/
theorem raw_use_count_mod (debug : Bool) (p : Addr) (m : Memory) (n c : Nat)
    (hl : m.load p = some ⟨n, c⟩) :
    raw.intrusive_ptr.use_count debug p m = .ok (n % 2 ^ 32) m ∧
    intrusive_ptr.use_count intrusive_target_default_null_type ⟨p⟩ m = .ok n m ∧
    (n < 2 ^ 32 ↔
      raw.intrusive_ptr.use_count debug p m
        = intrusive_ptr.use_count intrusive_target_default_null_type ⟨p⟩ m) ∧
    ((1 < c ∨ (n = 0 ∧ 0 < c)) ∨ debug = false →
      raw.weak_intrusive_ptr.use_count debug p m = .ok (n % 2 ^ 32) m) ∧
    (¬ (1 < c ∨ (n = 0 ∧ 0 < c)) →
      raw.weak_intrusive_ptr.use_count true p m
        = .assertion_failed .weak_reclaim_not_released m) := by
  have hp := load_ne_nullptr hl
  have h1 := raw_use_count_eq debug p m n c hl
  have h3 : intrusive_ptr.use_count intrusive_target_default_null_type ⟨p⟩ m = .ok n m := by
    simp [intrusive_ptr.use_count, hp, refcount_load, hl]
  refine ⟨h1, h3, ?_, fun hadm => raw_weak_use_count_eq debug p m n c hl hadm, ?_⟩
  · rw [h1, h3]
    constructor
    · intro h
      rw [Nat.mod_eq_of_lt h]
    · intro h
      have h4 : n % 2 ^ 32 = n := by
        injection h
      have := Nat.mod_lt n (show 0 < 2 ^ 32 by decide)
      omega
  · intro hadm
    unfold raw.weak_intrusive_ptr.use_count
    rw [weak_reclaim_debug_eq _ p m n c hp hl, if_neg hadm]
    rfl

/-- C22 amended, at concrete inputs in a debug build: the strong function on a target
with counts `(1, 1)`, as right after `make_intrusive`, and the weak function on a target
with counts `(3, 2)`. -/
theorem raw_use_count_mod_witness :
    raw.intrusive_ptr.use_count true 1 ⟨[some ⟨1, 1⟩], []⟩
      = .ok (1 % 2 ^ 32) ⟨[some ⟨1, 1⟩], []⟩ ∧
    raw.weak_intrusive_ptr.use_count true 1 ⟨[some ⟨3, 2⟩], []⟩
      = .ok (3 % 2 ^ 32) ⟨[some ⟨3, 2⟩], []⟩ :=
  ⟨(raw_use_count_mod true 1 ⟨[some ⟨1, 1⟩], []⟩ 1 1 (by decide)).1,
    (raw_use_count_mod true 1 ⟨[some ⟨3, 2⟩], []⟩ 3 2 (by decide)).2.2.2.1
      (Or.inl (Or.inl (by decide)))⟩

/-- C25. `DispatchKeySet::highestPriorityTypeId` on a set `s` (its `repr_` a 64-bit
word). If `s` is not empty, the key `k` it returns is a member, `s.has(k)`, and every
key `t` with `s.has(t)` has a numeric value of at most that of `k`. For the empty set it
returns `Undefined`, and it returns `Undefined` for the empty set only. -/
theorem highestPriorityTypeId_is_largest_member (s : DispatchKeySet)
    (hs : s.repr_ < 2 ^ 64) :
    (s.empty = false →
      s.has s.highestPriorityTypeId = some true ∧
      ∀ t : DispatchKey, s.has t = some true →
        t.value ≤ s.highestPriorityTypeId.value) ∧
    (s.empty = true → s.highestPriorityTypeId = DispatchKey.Undefined) ∧
    (s.highestPriorityTypeId = DispatchKey.Undefined → s.empty = true) := by
  obtain ⟨h1, h2, h3⟩ := highest_bit_spec s.repr_ hs
  have hle : llvm.countLeadingZeros s.repr_ ≤ 64 := (countLeadingZeros_below_spec 64 _).1
  refine ⟨?_, ?_, ?_⟩
  · intro he
    have hne : s.repr_ ≠ 0 := by simpa [DispatchKeySet.empty] using he
    have hk : 1 ≤ s.highestPriorityTypeId.value := by
      have : ¬ (64 - llvm.countLeadingZeros s.repr_ = 0) := fun h => hne (h1.1 h)
      simp only [DispatchKeySet.highestPriorityTypeId]
      omega
    have hk2 : s.highestPriorityTypeId.value ≤ 64 := by
      simp only [DispatchKeySet.highestPriorityTypeId]
      omega
    constructor
    · rw [DispatchKeySet.has_eq_testBit s _ hk hk2]
      exact congrArg some (h2 hne)
    · intro t ht
      have ht1 : 1 ≤ t.value := by
        by_contra hc
        have h0 : t = DispatchKey.Undefined := by
          cases t with
          | mk v =>
            have : v = 0 := by simp only at hc; omega
            rw [this]
            rfl
        rw [h0] at ht
        simp [DispatchKeySet.has, TORCH_INTERNAL_ASSERT] at ht
      rw [DispatchKeySet.has_eq s t ht1] at ht
      have hbit : s.repr_.testBit (t.value - 1) = true := by
        have := Option.some.inj ht
        simp only [Bool.and_eq_true] at this
        exact this.2
      have := h3 _ hbit
      simp only [DispatchKeySet.highestPriorityTypeId]
      omega
  · intro he
    have h0 : s.repr_ = 0 := by simpa [DispatchKeySet.empty] using he
    simp only [DispatchKeySet.highestPriorityTypeId, DispatchKey.Undefined]
    exact congrArg DispatchKey.mk (h1.2 h0)
  · intro hu
    have : 64 - llvm.countLeadingZeros s.repr_ = 0 := by
      simpa [DispatchKeySet.highestPriorityTypeId, DispatchKey.Undefined] using hu
    simp [DispatchKeySet.empty, h1.1 this]

/-- C25, at a concrete input: the set of `CPU`, `XLA` and `Autograd`, whose largest key
is `Autograd`. -/
theorem highestPriorityTypeId_is_largest_member_witness :
    (DispatchKeySet.of_list [DispatchKey.CPU, DispatchKey.Autograd, DispatchKey.XLA]).has
        (DispatchKeySet.of_list
          [DispatchKey.CPU, DispatchKey.Autograd, DispatchKey.XLA]).highestPriorityTypeId
      = some true ∧
    (DispatchKeySet.of_list
        [DispatchKey.CPU, DispatchKey.Autograd, DispatchKey.XLA]).highestPriorityTypeId
      = DispatchKey.Autograd :=
  ⟨((highestPriorityTypeId_is_largest_member
      (DispatchKeySet.of_list [DispatchKey.CPU, DispatchKey.Autograd, DispatchKey.XLA])
      (by decide)).1 (by decide)).1, by decide⟩

/-- C26. `DispatchKeySet::add` returns a new set and leaves `s` alone (it is a `const`
member; here a function of `s`). For keys `t`, `u` from 1 to 64, so other than
`Undefined`, `s.add(t).has(u)` holds iff `u == t` or `s.has(u)`. For every key `t`,
`s.add(t).add(t) == s.add(t)`. `DispatchKeySet(Undefined)` is the empty set and
`s.add(Undefined) == s`. -/
theorem add_is_insertion (s : DispatchKeySet) (t u : DispatchKey) :
    (1 ≤ t.value → t.value ≤ 64 → 1 ≤ u.value → u.value ≤ 64 →
      ∃ b, s.has u = some b ∧ (s.add t).has u = some (decide (u = t) || b)) ∧
    ((s.add t).add t).operator_eq (s.add t) = true ∧
    DispatchKeySet.of_key DispatchKey.Undefined = DispatchKeySet.default_ctor ∧
    (s.add DispatchKey.Undefined).operator_eq s = true ∧
    s.add DispatchKey.Undefined = s := by
  refine ⟨?_, ?_, rfl, ?_, ?_⟩
  · intro ht ht2 hu hu2
    refine ⟨s.repr_.testBit (u.value - 1), DispatchKeySet.has_eq_testBit s u hu hu2, ?_⟩
    rw [DispatchKeySet.has_eq_testBit _ u hu hu2]
    simp only [DispatchKeySet.add, DispatchKeySet.operator_or, Nat.testBit_or,
      DispatchKeySet.of_key_testBit t ht ht2]
    have hiff : (t.value - 1 = u.value - 1) ↔ u = t := by
      constructor
      · intro h
        cases t; cases u
        simp only at h ht hu
        simp only [DispatchKey.mk.injEq]
        omega
      · intro h
        rw [h]
    rw [Bool.or_comm, decide_eq_decide.mpr hiff]
  · simp [DispatchKeySet.operator_eq, DispatchKeySet.add, DispatchKeySet.operator_or,
      Nat.or_assoc]
  · simp [DispatchKeySet.operator_eq, DispatchKeySet.add, DispatchKeySet.operator_or,
      DispatchKeySet.of_key]
  · simp [DispatchKeySet.add, DispatchKeySet.operator_or, DispatchKeySet.of_key]

/-- C26, at a concrete input: adding `Autograd` to the set of `CPU`, asked for
`Autograd`. -/
theorem add_is_insertion_witness :
    ∃ b, (DispatchKeySet.of_key DispatchKey.CPU).has DispatchKey.Autograd = some b ∧
      ((DispatchKeySet.of_key DispatchKey.CPU).add DispatchKey.Autograd).has
          DispatchKey.Autograd
        = some (decide (DispatchKey.Autograd = DispatchKey.Autograd) || b) :=
  (add_is_insertion (DispatchKeySet.of_key DispatchKey.CPU) DispatchKey.Autograd
    DispatchKey.Autograd).1 (by decide) (by decide) (by decide) (by decide)

/-- C27. The operators of `DispatchKeySet` on sets `a`, `b`, for keys `t`, `u` from 1 to
64, so other than `Undefined`: `(a | b).has(t)` iff `a.has(t)` or `b.has(t)`;
`(a & b).has(t)` iff `a.has(t)` and `b.has(t)`; `(a - b).has(t)` iff `a.has(t)` and not
`b.has(t)`; `a.remove(t) == a - DispatchKeySet(t)`; and `a.remove(t).has(u)` iff
`u != t` and `a.has(u)`. -/
theorem operators_are_set_operations (a b : DispatchKeySet) (t u : DispatchKey)
    (ht : 1 ≤ t.value) (ht2 : t.value ≤ 64) (hu : 1 ≤ u.value) (hu2 : u.value ≤ 64) :
    (∃ x y, a.has t = some x ∧ b.has t = some y ∧
      (a.operator_or b).has t = some (x || y) ∧
      (a.operator_and b).has t = some (x && y) ∧
      (a.operator_sub b).has t = some (x && !y)) ∧
    (a.remove t).operator_eq (a.operator_sub (DispatchKeySet.of_key t)) = true ∧
    (∃ z, a.has u = some z ∧ (a.remove t).has u = some (decide (u ≠ t) && z)) := by
  have h64 : t.value - 1 < 64 := by omega
  have h64u : u.value - 1 < 64 := by omega
  refine ⟨⟨_, _, DispatchKeySet.has_eq_testBit a t ht ht2,
    DispatchKeySet.has_eq_testBit b t ht ht2, ?_, ?_, ?_⟩, ?_,
    ⟨_, DispatchKeySet.has_eq_testBit a u hu hu2, ?_⟩⟩
  · rw [DispatchKeySet.has_eq_testBit _ t ht ht2]
    simp [DispatchKeySet.operator_or, Nat.testBit_or]
  · rw [DispatchKeySet.has_eq_testBit _ t ht ht2]
    simp [DispatchKeySet.operator_and, Nat.testBit_and]
  · rw [DispatchKeySet.has_eq_testBit _ t ht ht2]
    simp [DispatchKeySet.operator_sub, Nat.testBit_and, uint64_not_testBit, h64]
  · simp [DispatchKeySet.operator_eq, DispatchKeySet.remove, DispatchKeySet.operator_sub]
  · rw [DispatchKeySet.has_eq_testBit _ u hu hu2]
    simp only [DispatchKeySet.remove, Nat.testBit_and, uint64_not_testBit,
      DispatchKeySet.of_key_testBit t ht ht2]
    have hiff : (t.value - 1 = u.value - 1) ↔ u = t := by
      constructor
      · intro h
        cases t; cases u
        simp only at h ht hu
        simp only [DispatchKey.mk.injEq]
        omega
      · intro h
        rw [h]
    by_cases hut : u = t
    · have h1 : t.value - 1 = u.value - 1 := hiff.mpr hut
      simp [hut]
    · have h1 : ¬ (t.value - 1 = u.value - 1) := fun h => hut (hiff.mp h)
      simp [hut, h1, h64u, Bool.and_comm]

/-- C27, at a concrete input: the sets of `CPU, XLA` and of `XLA, Autograd`, asked for
`XLA`; `XLA` removed from the first, asked for `CPU`. -/
theorem operators_are_set_operations_witness :
    (∃ x y, (DispatchKeySet.of_list [DispatchKey.CPU, DispatchKey.XLA]).has DispatchKey.XLA
        = some x ∧
      (DispatchKeySet.of_list [DispatchKey.XLA, DispatchKey.Autograd]).has DispatchKey.XLA
        = some y ∧
      ((DispatchKeySet.of_list [DispatchKey.CPU, DispatchKey.XLA]).operator_or
        (DispatchKeySet.of_list [DispatchKey.XLA, DispatchKey.Autograd])).has
          DispatchKey.XLA = some (x || y) ∧
      ((DispatchKeySet.of_list [DispatchKey.CPU, DispatchKey.XLA]).operator_and
        (DispatchKeySet.of_list [DispatchKey.XLA, DispatchKey.Autograd])).has
          DispatchKey.XLA = some (x && y) ∧
      ((DispatchKeySet.of_list [DispatchKey.CPU, DispatchKey.XLA]).operator_sub
        (DispatchKeySet.of_list [DispatchKey.XLA, DispatchKey.Autograd])).has
          DispatchKey.XLA = some (x && !y)) :=
  (operators_are_set_operations (DispatchKeySet.of_list [DispatchKey.CPU, DispatchKey.XLA])
    (DispatchKeySet.of_list [DispatchKey.XLA, DispatchKey.Autograd]) DispatchKey.XLA
    DispatchKey.CPU (by decide) (by decide) (by decide) (by decide)).1

/-- C28. `DispatchKeySet(FULL_AFTER, t)` for keys `t`, `u` from 1 to 64, so other than
`Undefined`: `has(u)` holds iff the numeric value of `u` is strictly less than that of
`t`. In particular `has(t)` is false, and `DispatchKeySet(FULL_AFTER, CPU)` is the empty
set. -/
theorem full_after_has_iff_lower (t u : DispatchKey)
    (ht : 1 ≤ t.value) (ht2 : t.value ≤ 64) (hu : 1 ≤ u.value) (hu2 : u.value ≤ 64) :
    (DispatchKeySet.FULL_AFTER t).has u = some (decide (u.value < t.value)) ∧
    (DispatchKeySet.FULL_AFTER t).has t = some false ∧
    DispatchKeySet.FULL_AFTER DispatchKey.CPU = DispatchKeySet.default_ctor ∧
    (DispatchKeySet.FULL_AFTER DispatchKey.CPU).empty = true := by
  have hrepr : (DispatchKeySet.FULL_AFTER t).repr_ = 2 ^ (t.value - 1) - 1 := by
    have h1 : 2 ^ (t.value - 1) < 2 ^ 64 := Nat.pow_lt_pow_right (by decide) (by omega)
    have h2 : 0 < 2 ^ (t.value - 1) := Nat.pow_pos (by decide)
    simp only [DispatchKeySet.FULL_AFTER, Nat.one_shiftLeft, Nat.mod_eq_of_lt h1]
    omega
  have hbit : ∀ v : DispatchKey, 1 ≤ v.value → v.value ≤ 64 →
      (DispatchKeySet.FULL_AFTER t).has v = some (decide (v.value < t.value)) := by
    intro v hv hv2
    rw [DispatchKeySet.has_eq_testBit _ v hv hv2, hrepr, Nat.testBit_two_pow_sub_one]
    have hiff : v.value - 1 < t.value - 1 ↔ v.value < t.value := by omega
    rw [decide_eq_decide.mpr hiff]
  refine ⟨hbit u hu hu2, ?_, rfl, rfl⟩
  rw [hbit t ht ht2]
  simp

/-- C28, at a concrete input: the keys below `Autograd`, asked for `XLA`. -/
theorem full_after_has_iff_lower_witness :
    (DispatchKeySet.FULL_AFTER DispatchKey.Autograd).has DispatchKey.XLA
      = some (decide (DispatchKey.XLA.value < DispatchKey.Autograd.value)) :=
  (full_after_has_iff_lower DispatchKey.Autograd DispatchKey.XLA (by decide) (by decide)
    (by decide) (by decide)).1

/-- C29. The priorities that `DispatchKey.h` documents, as `highestPriorityTypeId`
computes them. A sparse key wins over its dense backend: `{CPU, SparseCPU}`,
`{CUDA, SparseCUDA}` and `{HIP, SparseHIP}` give the sparse key. `Autograd` wins over
every key `b` declared before it, the backends among them: `{b, Autograd}` gives
`Autograd`, as does `{XLA, Autograd}`. Every pre-autograd key `p` (`XLAPreAutograd`,
`Autocast`, `PrivateUse1_PreAutograd` to `PrivateUse3_PreAutograd`) wins over `Autograd`:
`{Autograd, p}` gives `p`, `{XLA, Autograd, XLAPreAutograd}` gives `XLAPreAutograd` and
`{Autograd, Autocast}` gives `Autocast`. The set `XLA()` has, among the keys from 1 to
64, exactly the members `XLA` and `XLAPreAutograd`, and its highest-priority key is
`XLAPreAutograd`. -/
theorem documented_priorities :
    (DispatchKeySet.of_list [DispatchKey.CPU, DispatchKey.SparseCPU]).highestPriorityTypeId
      = DispatchKey.SparseCPU ∧
    (DispatchKeySet.of_list [DispatchKey.CUDA, DispatchKey.SparseCUDA]).highestPriorityTypeId
      = DispatchKey.SparseCUDA ∧
    (DispatchKeySet.of_list [DispatchKey.HIP, DispatchKey.SparseHIP]).highestPriorityTypeId
      = DispatchKey.SparseHIP ∧
    (DispatchKeySet.of_list [DispatchKey.XLA, DispatchKey.Autograd]).highestPriorityTypeId
      = DispatchKey.Autograd ∧
    (∀ v : Nat, v < DispatchKey.Autograd.value →
      (DispatchKeySet.of_list [⟨v⟩, DispatchKey.Autograd]).highestPriorityTypeId
        = DispatchKey.Autograd) ∧
    (∀ p : DispatchKey, p ∈ [DispatchKey.XLAPreAutograd, DispatchKey.Autocast,
        DispatchKey.PrivateUse1_PreAutograd, DispatchKey.PrivateUse2_PreAutograd,
        DispatchKey.PrivateUse3_PreAutograd] →
      (DispatchKeySet.of_list [DispatchKey.Autograd, p]).highestPriorityTypeId = p) ∧
    (DispatchKeySet.of_list [DispatchKey.XLA, DispatchKey.Autograd,
        DispatchKey.XLAPreAutograd]).highestPriorityTypeId = DispatchKey.XLAPreAutograd ∧
    (DispatchKeySet.of_list [DispatchKey.Autograd, DispatchKey.Autocast]).highestPriorityTypeId
      = DispatchKey.Autocast ∧
    (∀ v : Nat, v < 64 →
      XLA.has ⟨v + 1⟩
        = some (decide ((⟨v + 1⟩ : DispatchKey) = DispatchKey.XLA ∨
            (⟨v + 1⟩ : DispatchKey) = DispatchKey.XLAPreAutograd))) ∧
    XLA.highestPriorityTypeId = DispatchKey.XLAPreAutograd := by
  refine ⟨by decide, by decide, by decide, by decide, by decide, by decide, by decide,
    by decide, by decide, by decide⟩

/-- C29, at concrete inputs: `MSNPU` below `Autograd`, the pre-autograd key
`PrivateUse2_PreAutograd`, and the key `XLAPreAutograd` in `XLA()`. -/
theorem documented_priorities_witness :
    (DispatchKeySet.of_list [DispatchKey.MSNPU, DispatchKey.Autograd]).highestPriorityTypeId
      = DispatchKey.Autograd ∧
    (DispatchKeySet.of_list
        [DispatchKey.Autograd, DispatchKey.PrivateUse2_PreAutograd]).highestPriorityTypeId
      = DispatchKey.PrivateUse2_PreAutograd ∧
    XLA.has DispatchKey.XLAPreAutograd = some true :=
  ⟨documented_priorities.2.2.2.2.1 5 (by decide),
    documented_priorities.2.2.2.2.2.1 DispatchKey.PrivateUse2_PreAutograd (by decide),
    documented_priorities.2.2.2.2.2.2.2.2.1 29 (by decide)⟩

/-- C30. `TensorOptions::merge_in` is the right-biased merge. For all options `a`, `b`
and each of the six axes `X` (device, dtype, layout, requires_grad, pinned_memory,
memory_format), `a.merge_in(b).X_opt()` is `b.X_opt()` when `b.has_X()` and `a.X_opt()`
otherwise. So `requires_grad` is neither a logical OR nor a logical AND of the two
sides, and `device({kCUDA, 1}).merge_in(kCUDA)` has the device `kCUDA` with the index
`-1` of the right side, not 1. Merging a default-constructed `TensorOptions` into `a`
leaves the six `X_opt()` of `a` as they are. -/
theorem merge_in_right_biased (a b : TensorOptions) :
    ((a.merge_in b).device_opt = if b.has_device then b.device_opt else a.device_opt) ∧
    ((a.merge_in b).dtype_opt = if b.has_dtype then b.dtype_opt else a.dtype_opt) ∧
    ((a.merge_in b).layout_opt = if b.has_layout then b.layout_opt else a.layout_opt) ∧
    ((a.merge_in b).requires_grad_opt
      = if b.has_requires_grad then b.requires_grad_opt else a.requires_grad_opt) ∧
    ((a.merge_in b).pinned_memory_opt
      = if b.has_pinned_memory then b.pinned_memory_opt else a.pinned_memory_opt) ∧
    ((a.merge_in b).memory_format_opt
      = if b.has_memory_format then b.memory_format_opt else a.memory_format_opt) ∧
    ((requires_grad true).merge_in (requires_grad false)).requires_grad_opt = some false ∧
    ((requires_grad false).merge_in (requires_grad true)).requires_grad_opt = some true ∧
    ((device ⟨kCUDA, 1⟩).merge_in (TensorOptions.of_device_type kCUDA)).device_opt
      = some ⟨kCUDA, -1⟩ ∧
    ((a.merge_in TensorOptions.default_ctor).device_opt = a.device_opt ∧
      (a.merge_in TensorOptions.default_ctor).dtype_opt = a.dtype_opt ∧
      (a.merge_in TensorOptions.default_ctor).layout_opt = a.layout_opt ∧
      (a.merge_in TensorOptions.default_ctor).requires_grad_opt = a.requires_grad_opt ∧
      (a.merge_in TensorOptions.default_ctor).pinned_memory_opt = a.pinned_memory_opt ∧
      (a.merge_in TensorOptions.default_ctor).memory_format_opt = a.memory_format_opt) := by
  refine ⟨TensorOptions.merge_in_device_opt a b, TensorOptions.merge_in_dtype_opt a b,
    TensorOptions.merge_in_layout_opt a b, TensorOptions.merge_in_requires_grad_opt a b,
    TensorOptions.merge_in_pinned_memory_opt a b,
    TensorOptions.merge_in_memory_format_opt a b, by decide, by decide, by decide,
    ?_, ?_, ?_, ?_, ?_, ?_⟩
  · rw [TensorOptions.merge_in_device_opt]
    rfl
  · rw [TensorOptions.merge_in_dtype_opt]
    rfl
  · rw [TensorOptions.merge_in_layout_opt]
    rfl
  · rw [TensorOptions.merge_in_requires_grad_opt]
    rfl
  · rw [TensorOptions.merge_in_pinned_memory_opt]
    rfl
  · rw [TensorOptions.merge_in_memory_format_opt]
    rfl

/-- C31. The builder methods of `TensorOptions` that take an optional value: `device`,
`dtype`, `layout`, `requires_grad`, `pinned_memory` and `memory_format`. Each is a
`const` member that returns a new value, here a function of `o`, so `o` is as before.
For every `o` and optional `v`, the axis of the builder is `v` in the result
(`o.device(v).device_opt() == v`), the axis is specified there exactly if `v` has a
value, and the `X_opt()` of the other five axes are those of `o`. The legacy overload
`dtype(optional<ScalarType>)` does the same with `v` converted by
`scalarTypeToTypeMeta`. -/
theorem builders_touch_own_axis :
    (∀ (o : TensorOptions) (v : Option Device),
      (o.device v).device_opt = v ∧ (o.device v).has_device = v.isSome ∧
      (o.device v).dtype_opt = o.dtype_opt ∧
      (o.device v).layout_opt = o.layout_opt ∧
      (o.device v).requires_grad_opt = o.requires_grad_opt ∧
      (o.device v).pinned_memory_opt = o.pinned_memory_opt ∧
      (o.device v).memory_format_opt = o.memory_format_opt) ∧
    (∀ (o : TensorOptions) (v : Option caffe2.TypeMeta),
      (o.dtype v).dtype_opt = v ∧ (o.dtype v).has_dtype = v.isSome ∧
      (o.dtype v).device_opt = o.device_opt ∧
      (o.dtype v).layout_opt = o.layout_opt ∧
      (o.dtype v).requires_grad_opt = o.requires_grad_opt ∧
      (o.dtype v).pinned_memory_opt = o.pinned_memory_opt ∧
      (o.dtype v).memory_format_opt = o.memory_format_opt) ∧
    (∀ (o : TensorOptions) (v : Option Layout),
      (o.layout v).layout_opt = v ∧ (o.layout v).has_layout = v.isSome ∧
      (o.layout v).device_opt = o.device_opt ∧
      (o.layout v).dtype_opt = o.dtype_opt ∧
      (o.layout v).requires_grad_opt = o.requires_grad_opt ∧
      (o.layout v).pinned_memory_opt = o.pinned_memory_opt ∧
      (o.layout v).memory_format_opt = o.memory_format_opt) ∧
    (∀ (o : TensorOptions) (v : Option Bool),
      (o.requires_grad v).requires_grad_opt = v ∧
      (o.requires_grad v).has_requires_grad = v.isSome ∧
      (o.requires_grad v).device_opt = o.device_opt ∧
      (o.requires_grad v).dtype_opt = o.dtype_opt ∧
      (o.requires_grad v).layout_opt = o.layout_opt ∧
      (o.requires_grad v).pinned_memory_opt = o.pinned_memory_opt ∧
      (o.requires_grad v).memory_format_opt = o.memory_format_opt) ∧
    (∀ (o : TensorOptions) (v : Option Bool),
      (o.pinned_memory v).pinned_memory_opt = v ∧
      (o.pinned_memory v).has_pinned_memory = v.isSome ∧
      (o.pinned_memory v).device_opt = o.device_opt ∧
      (o.pinned_memory v).dtype_opt = o.dtype_opt ∧
      (o.pinned_memory v).layout_opt = o.layout_opt ∧
      (o.pinned_memory v).requires_grad_opt = o.requires_grad_opt ∧
      (o.pinned_memory v).memory_format_opt = o.memory_format_opt) ∧
    (∀ (o : TensorOptions) (v : Option MemoryFormat),
      (o.memory_format v).memory_format_opt = v ∧
      (o.memory_format v).has_memory_format = v.isSome ∧
      (o.memory_format v).device_opt = o.device_opt ∧
      (o.memory_format v).dtype_opt = o.dtype_opt ∧
      (o.memory_format v).layout_opt = o.layout_opt ∧
      (o.memory_format v).requires_grad_opt = o.requires_grad_opt ∧
      (o.memory_format v).pinned_memory_opt = o.pinned_memory_opt) ∧
    (∀ (ScalarType : Type) (scalarTypeToTypeMeta : ScalarType → caffe2.TypeMeta)
        (o : TensorOptions) (v : Option ScalarType),
      (o.dtype_scalar scalarTypeToTypeMeta v).dtype_opt = v.map scalarTypeToTypeMeta ∧
      (o.dtype_scalar scalarTypeToTypeMeta v).has_dtype = v.isSome ∧
      (o.dtype_scalar scalarTypeToTypeMeta v).device_opt = o.device_opt ∧
      (o.dtype_scalar scalarTypeToTypeMeta v).layout_opt = o.layout_opt ∧
      (o.dtype_scalar scalarTypeToTypeMeta v).requires_grad_opt = o.requires_grad_opt ∧
      (o.dtype_scalar scalarTypeToTypeMeta v).pinned_memory_opt = o.pinned_memory_opt ∧
      (o.dtype_scalar scalarTypeToTypeMeta v).memory_format_opt = o.memory_format_opt) := by
  refine ⟨?_, ?_, ?_, ?_, ?_, ?_, ?_⟩
  · intro o v
    simp [TensorOptions.device]
  · intro o v
    simp [TensorOptions.dtype]
  · intro o v
    simp [TensorOptions.layout]
  · intro o v
    simp [TensorOptions.requires_grad]
  · intro o v
    simp [TensorOptions.pinned_memory]
  · intro o v
    simp [TensorOptions.memory_format]
  · intro ScalarType conv o v
    cases v <;> exact ⟨rfl, rfl, rfl, rfl, rfl, rfl, rfl⟩

/-- C32. A default-constructed `TensorOptions` has no axis specified: every `has_X()` is
false and every `X_opt()` is `nullopt`. For every `TensorOptions` `o`, the getter of an
unspecified axis returns the documented default: `device()` is `Device(kCPU)`,
`layout()` is `kStrided`, `requires_grad()` and `pinned_memory()` are false; that is so
too after the axis was set to a value and then cleared with `nullopt`. The getter of a
specified axis returns the specified value. -/
theorem getters_default_when_unspecified :
    TensorOptions.default_ctor.has_device = false ∧
    TensorOptions.default_ctor.device_opt = none ∧
    TensorOptions.default_ctor.has_dtype = false ∧
    TensorOptions.default_ctor.dtype_opt = none ∧
    TensorOptions.default_ctor.has_layout = false ∧
    TensorOptions.default_ctor.layout_opt = none ∧
    TensorOptions.default_ctor.has_requires_grad = false ∧
    TensorOptions.default_ctor.requires_grad_opt = none ∧
    TensorOptions.default_ctor.has_pinned_memory = false ∧
    TensorOptions.default_ctor.pinned_memory_opt = none ∧
    TensorOptions.default_ctor.has_memory_format = false ∧
    TensorOptions.default_ctor.memory_format_opt = none ∧
    (∀ o : TensorOptions,
      (o.has_device = false → o.device_getter = Device.of_type kCPU) ∧
      (o.has_layout = false → o.layout_getter = Layout.Strided) ∧
      (o.has_requires_grad = false → o.requires_grad_getter = false) ∧
      (o.has_pinned_memory = false → o.pinned_memory_getter = false)) ∧
    (∀ o : TensorOptions,
      (∀ v, ((o.device (some v)).device none).device_getter = Device.of_type kCPU) ∧
      (∀ v, ((o.layout (some v)).layout none).layout_getter = Layout.Strided) ∧
      (∀ v, ((o.requires_grad (some v)).requires_grad none).requires_grad_getter = false) ∧
      (∀ v, ((o.pinned_memory (some v)).pinned_memory none).pinned_memory_getter = false)) ∧
    (∀ o : TensorOptions,
      (∀ v, o.device_opt = some v → o.device_getter = v) ∧
      (∀ v, o.layout_opt = some v → o.layout_getter = v) ∧
      (∀ v, o.requires_grad_opt = some v → o.requires_grad_getter = v) ∧
      (∀ v, o.pinned_memory_opt = some v → o.pinned_memory_getter = v)) ∧
    (∀ o : TensorOptions,
      (∀ v, (o.device (some v)).device_getter = v) ∧
      (∀ v, (o.layout (some v)).layout_getter = v) ∧
      (∀ v, (o.requires_grad (some v)).requires_grad_getter = v) ∧
      (∀ v, (o.pinned_memory (some v)).pinned_memory_getter = v)) := by
  refine ⟨rfl, rfl, rfl, rfl, rfl, rfl, rfl, rfl, rfl, rfl, rfl, rfl, ?_, ?_, ?_, ?_⟩
  · intro o
    refine ⟨?_, ?_, ?_, ?_⟩
    · intro h
      simp only [TensorOptions.has_device] at h
      simp [TensorOptions.device_getter, h]
    · intro h
      simp only [TensorOptions.has_layout] at h
      simp [TensorOptions.layout_getter, h, kStrided]
    · intro h
      simp only [TensorOptions.has_requires_grad] at h
      simp [TensorOptions.requires_grad_getter, h]
    · intro h
      simp only [TensorOptions.has_pinned_memory] at h
      simp [TensorOptions.pinned_memory_getter, h]
  · intro o
    exact ⟨fun _ => rfl, fun _ => rfl, fun _ => rfl, fun _ => rfl⟩
  · intro o
    refine ⟨?_, ?_, ?_, ?_⟩
    · intro v h
      cases hh : o.has_device_ <;>
        simp [TensorOptions.device_opt, TensorOptions.device_getter, hh] at h ⊢
      exact h
    · intro v h
      cases hh : o.has_layout_ <;>
        simp [TensorOptions.layout_opt, TensorOptions.layout_getter, hh] at h ⊢
      exact h
    · intro v h
      cases hh : o.has_requires_grad_ <;>
        simp [TensorOptions.requires_grad_opt, TensorOptions.requires_grad_getter, hh] at h ⊢
      exact h
    · intro v h
      cases hh : o.has_pinned_memory_ <;>
        simp [TensorOptions.pinned_memory_opt, TensorOptions.pinned_memory_getter, hh] at h ⊢
      exact h
  · intro o
    exact ⟨fun _ => rfl, fun _ => rfl, fun _ => rfl, fun _ => rfl⟩

/-- C32, at concrete inputs: the default-constructed options, whose device is
unspecified, and options with the layout set to `Sparse`. -/
theorem getters_default_when_unspecified_witness :
    TensorOptions.default_ctor.device_getter = Device.of_type kCPU ∧
    (TensorOptions.default_ctor.layout (some Layout.Sparse)).layout_getter = Layout.Sparse :=
  ⟨(getters_default_when_unspecified.2.2.2.2.2.2.2.2.2.2.2.2.1
      TensorOptions.default_ctor).1 rfl,
    (getters_default_when_unspecified.2.2.2.2.2.2.2.2.2.2.2.2.2.2.1
      (TensorOptions.default_ctor.layout (some Layout.Sparse))).2.1 Layout.Sparse rfl⟩

/-- C33. `TensorOptions::computeDispatchKey` on options `o`, by `layout()`,
`device().type()` and whether `dtype()` is a quantized integer type
(`isQIntType(typeMetaToScalarType(dtype()))`). `Strided` with `CPU` gives `QuantizedCPU`
for a quantized dtype and `CPU` otherwise; `Strided` with `CUDA` gives `QuantizedCUDA`
or `CUDA` likewise; `Strided` with `MKLDNN`, `OPENGL`, `OPENCL`, `IDEEP`, `HIP`, `FPGA`,
`MSNPU`, `XLA`, `Vulkan` gives the key of that name. `Sparse` with `CPU`, `CUDA`, `HIP`
gives `SparseCPU`, `SparseCUDA`, `SparseHIP`. `Mkldnn` with `CPU` gives `MkldnnCPU`.
Every other pair of layout and device type raises the error. Two options that agree in
the three inputs get the same outcome, and `key_set()` is `DispatchKeySet(k)` for the
computed key `k`. -/
theorem computeDispatchKey_by_layout_and_device {ScalarType : Type}
    (get_default_dtype : caffe2.TypeMeta)
    (typeMetaToScalarType : caffe2.TypeMeta → ScalarType) (isQIntType : ScalarType → Bool)
    (o : TensorOptions) :
    (o.layout_getter = Layout.Strided →
      (o.device_getter.type_ = DeviceType.CPU →
        o.computeDispatchKey get_default_dtype typeMetaToScalarType isQIntType
          = some (if isQIntType (typeMetaToScalarType (o.dtype_getter get_default_dtype))
              then DispatchKey.QuantizedCPU else DispatchKey.CPU)) ∧
      (o.device_getter.type_ = DeviceType.CUDA →
        o.computeDispatchKey get_default_dtype typeMetaToScalarType isQIntType
          = some (if isQIntType (typeMetaToScalarType (o.dtype_getter get_default_dtype))
              then DispatchKey.QuantizedCUDA else DispatchKey.CUDA)) ∧
      (o.device_getter.type_ = DeviceType.MKLDNN → o.computeDispatchKey get_default_dtype typeMetaToScalarType isQIntType = some DispatchKey.MKLDNN) ∧
      (o.device_getter.type_ = DeviceType.OPENGL → o.computeDispatchKey get_default_dtype typeMetaToScalarType isQIntType = some DispatchKey.OpenGL) ∧
      (o.device_getter.type_ = DeviceType.OPENCL → o.computeDispatchKey get_default_dtype typeMetaToScalarType isQIntType = some DispatchKey.OpenCL) ∧
      (o.device_getter.type_ = DeviceType.IDEEP → o.computeDispatchKey get_default_dtype typeMetaToScalarType isQIntType = some DispatchKey.IDEEP) ∧
      (o.device_getter.type_ = DeviceType.HIP → o.computeDispatchKey get_default_dtype typeMetaToScalarType isQIntType = some DispatchKey.HIP) ∧
      (o.device_getter.type_ = DeviceType.FPGA → o.computeDispatchKey get_default_dtype typeMetaToScalarType isQIntType = some DispatchKey.FPGA) ∧
      (o.device_getter.type_ = DeviceType.MSNPU → o.computeDispatchKey get_default_dtype typeMetaToScalarType isQIntType = some DispatchKey.MSNPU) ∧
      (o.device_getter.type_ = DeviceType.XLA → o.computeDispatchKey get_default_dtype typeMetaToScalarType isQIntType = some DispatchKey.XLA) ∧
      (o.device_getter.type_ = DeviceType.Vulkan → o.computeDispatchKey get_default_dtype typeMetaToScalarType isQIntType = some DispatchKey.Vulkan) ∧
      (∀ tag, o.device_getter.type_ = DeviceType.other tag → o.computeDispatchKey get_default_dtype typeMetaToScalarType isQIntType = none)) ∧
    (o.layout_getter = Layout.Sparse →
      (o.device_getter.type_ = DeviceType.CPU → o.computeDispatchKey get_default_dtype typeMetaToScalarType isQIntType = some DispatchKey.SparseCPU) ∧
      (o.device_getter.type_ = DeviceType.CUDA → o.computeDispatchKey get_default_dtype typeMetaToScalarType isQIntType = some DispatchKey.SparseCUDA) ∧
      (o.device_getter.type_ = DeviceType.HIP → o.computeDispatchKey get_default_dtype typeMetaToScalarType isQIntType = some DispatchKey.SparseHIP) ∧
      (o.device_getter.type_ ∉ [DeviceType.CPU, DeviceType.CUDA, DeviceType.HIP] →
        o.computeDispatchKey get_default_dtype typeMetaToScalarType isQIntType = none)) ∧
    (o.layout_getter = Layout.Mkldnn →
      (o.device_getter.type_ = DeviceType.CPU → o.computeDispatchKey get_default_dtype typeMetaToScalarType isQIntType = some DispatchKey.MkldnnCPU) ∧
      (o.device_getter.type_ ≠ DeviceType.CPU → o.computeDispatchKey get_default_dtype typeMetaToScalarType isQIntType = none)) ∧
    (∀ tag, o.layout_getter = Layout.other tag → o.computeDispatchKey get_default_dtype typeMetaToScalarType isQIntType = none) ∧
    (∀ o2 : TensorOptions, o2.layout_getter = o.layout_getter →
      o2.device_getter.type_ = o.device_getter.type_ →
      isQIntType (typeMetaToScalarType (o2.dtype_getter get_default_dtype)) = isQIntType (typeMetaToScalarType (o.dtype_getter get_default_dtype)) →
      o2.computeDispatchKey get_default_dtype typeMetaToScalarType isQIntType = o.computeDispatchKey get_default_dtype typeMetaToScalarType isQIntType) ∧
    o.key_set get_default_dtype typeMetaToScalarType isQIntType
      = (o.computeDispatchKey get_default_dtype typeMetaToScalarType isQIntType).map DispatchKeySet.of_key := by
  refine ⟨?_, ?_, ?_, ?_, ?_, rfl⟩
  · intro hl
    refine ⟨?_, ?_, ?_, ?_, ?_, ?_, ?_, ?_, ?_, ?_, ?_, ?_⟩ <;>
      intros <;> simp_all [TensorOptions.computeDispatchKey]
    split <;> rfl
    split <;> rfl
  · intro hl
    refine ⟨?_, ?_, ?_, ?_⟩
    · intro hd
      simp [TensorOptions.computeDispatchKey, hl, hd]
    · intro hd
      simp [TensorOptions.computeDispatchKey, hl, hd]
    · intro hd
      simp [TensorOptions.computeDispatchKey, hl, hd]
    · intro hd
      simp only [List.mem_cons, List.mem_singleton, not_or, List.not_mem_nil, or_false] at hd
      cases ht : o.device_getter.type_ <;>
        simp_all [TensorOptions.computeDispatchKey]
  · intro hl
    refine ⟨?_, ?_⟩
    · intro hd
      simp [TensorOptions.computeDispatchKey, hl, hd]
    · intro hd
      cases ht : o.device_getter.type_ <;>
        simp_all [TensorOptions.computeDispatchKey]
  · intro tag hl
    simp [TensorOptions.computeDispatchKey, hl]
  · intro o2 h1 h2 h3
    simp only [TensorOptions.computeDispatchKey, h1, h2, h3]

/-- C33, at a concrete input: the options with layout `Sparse` and device `CUDA`. -/
theorem computeDispatchKey_by_layout_and_device_witness :
    ((TensorOptions.default_ctor.layout (some Layout.Sparse)).device
        (some (Device.of_type kCUDA))).computeDispatchKey caffe2.TypeMeta.Make_float
      (fun t => t) (fun _ => false) = some DispatchKey.SparseCUDA :=
  ((computeDispatchKey_by_layout_and_device caffe2.TypeMeta.Make_float (fun t => t)
    (fun _ => false)
    ((TensorOptions.default_ctor.layout (some Layout.Sparse)).device
      (some (Device.of_type kCUDA)))).2.1 rfl).2.1 rfl

/-- C34, refuted by the code: for the options `TensorOptions().layout(Layout::Sparse)`
whose layout was then cleared with `layout(nullopt)`, `is_sparse()` is true although
`layout()` is `Strided` and `has_layout()` is false. The member `is_sparse()` compares
the stored `layout_`, which `set_layout(nullopt)` leaves in place. -/
theorem is_sparse_reads_cleared_layout :
    ((TensorOptions.default_ctor.layout (some Layout.Sparse)).layout none).is_sparse = true ∧
    ((TensorOptions.default_ctor.layout (some Layout.Sparse)).layout none).layout_getter
      = Layout.Strided ∧
    ((TensorOptions.default_ctor.layout (some Layout.Sparse)).layout none).has_layout
      = false ∧
    ((TensorOptions.default_ctor.layout (some Layout.Sparse)).layout none).layout_opt
      = none := by
  decide

/-- C35, refuted by the code: a weak pointer that holds the null sentinel is expired
(`expired()` compares `target_` with the sentinel first and answers true), yet `lock()`
on it is not defined: it begins with `target_->refcount_.load()` and so reads through
the null pointer, whatever the memory and the oracle of its exchanges. A program gets
there with the pointer types alone: `weak_intrusive_ptr w(p)`, then `w` is moved from,
then `w.lock()`. -/
theorem lock_reads_through_null_sentinel (debug : Bool) (m : Memory) (oracle : List Bool) :
    weak_intrusive_ptr.expired intrusive_target_default_null_type ⟨nullptr⟩ m = .ok true m ∧
    weak_intrusive_ptr.lock intrusive_target_default_null_type ⟨nullptr⟩ oracle m
      = .undefined_behavior ∧
    program debug intrusive_target_default_null_type [.weak_from_strong 0, .weak_move 0]
        ⟨[], []⟩
      = .ok ⟨[⟨1⟩], [⟨nullptr⟩, ⟨1⟩], [], []⟩ ⟨[some ⟨1, 2⟩], []⟩ ∧
    program debug intrusive_target_default_null_type
        [.weak_from_strong 0, .weak_move 0, .lock 0 oracle] ⟨[], []⟩
      = .undefined_behavior := by
  refine ⟨rfl, rfl, ?_, ?_⟩
  · cases debug <;> rfl
  · cases debug <;> rfl

/-- C36. The assertions of `~intrusive_ptr_target` (refcount 0 and weakcount 0 at the
`delete`) hold whenever the pointer types deallocate. Take a program that starts with
`make_intrusive` and goes on with statements on strong and weak pointers, fewer than
`2 ^ 64 - 1` of them. It fails no assertion, in a debug build or a release build. In
every state it reaches: `reset_()` on a strong pointer that holds the target returns
normally, and if it deallocates the target, the counts were `(1, 1)` before the call,
which decrements both before the `delete`; `reset_()` on a weak pointer that holds the
target returns normally, and if it deallocates, the counts were `(0, 1)` before. Since the
program began the target was deallocated at most once, after its one `release_resources`;
once it is deallocated, no strong or weak pointer object and no owning raw pointer of the
program holds it. -/
theorem deallocation_only_at_zero_counts (debug : Bool) (N : NullType) (m0 : Memory)
    (hN : N.singleton ≤ m0.objects.length) (ops : List Op) (hlen : ops.length + 1 < 2 ^ 64) :
    (program debug N ops m0).is_assertion_failed = false ∧
    ∀ (e : Pointers) (m : Memory), program debug N ops m0 = .ok e m →
      (∀ p ∈ e.strong, p.target_ = m0.objects.length + 1 →
        ∃ m', p.reset_ debug N m = .ok ⟨N.singleton⟩ m' ∧
          (m'.load (m0.objects.length + 1) = none →
            m.load (m0.objects.length + 1) = some ⟨1, 1⟩ ∧ m.events = m0.events)) ∧
      (∀ w ∈ e.weak, w.target_ = m0.objects.length + 1 →
        ∃ m', w.reset_ debug N m = .ok ⟨N.singleton⟩ m' ∧
          (m'.load (m0.objects.length + 1) = none →
            m.load (m0.objects.length + 1) = some ⟨0, 1⟩ ∧
            m.events = .release_resources (m0.objects.length + 1) :: m0.events)) ∧
      (m.events = m0.events ∨
        m.events = .release_resources (m0.objects.length + 1) :: m0.events ∨
        m.events = .deallocate (m0.objects.length + 1)
          :: .release_resources (m0.objects.length + 1) :: m0.events) ∧
      (m.load (m0.objects.length + 1) = none →
        (∀ p ∈ e.strong, p.target_ ≠ m0.objects.length + 1) ∧
        (∀ w ∈ e.weak, w.target_ ≠ m0.objects.length + 1) ∧
        m0.objects.length + 1 ∉ e.raw_strong ∧ m0.objects.length + 1 ∉ e.raw_weak) := by
  refine ⟨program_no_assertion debug N m0 hN ops hlen, ?_⟩
  intro e m hrun
  obtain ⟨hinv, hpop⟩ := program_inv debug N m0 hN ops hlen e m hrun
  have ha := sentinel_ne_fresh N m0 hN
  have hle := refs_le_population (m0.objects.length + 1) e
  refine ⟨?_, ?_, ?_, ?_⟩
  · intro p hp ht
    rcases hinv.strong_cases p hp with h | h
    · obtain ⟨hl, he⟩ := accounted_load_strong hinv.acc h.2
      obtain ⟨m', hr, hacc⟩ := accounted_strong_reset debug N ha hinv.acc h.2 (by omega)
      refine ⟨m', by rw [strong_eq_of_target ht]; exact hr, ?_⟩
      intro hnone
      rcases hacc with ⟨hl', _, _⟩ | ⟨_, hS, hW, _⟩
      · rw [hl'] at hnone
        cases hnone
      · have hS1 : strong_refs (m0.objects.length + 1) e = 1 := by omega
        rw [hS1, hW] at hl
        exact ⟨hl, he⟩
    · exact absurd (ht ▸ h) ha
  · intro w hw ht
    rcases hinv.weak_cases w hw with h | h
    · obtain ⟨hl, he⟩ := accounted_load_weak hinv.acc h.2
      obtain ⟨m', hr, hacc⟩ := accounted_weak_reset debug N ha hinv.acc h.2 (by omega)
      refine ⟨m', by rw [weak_eq_of_target ht]; exact hr, ?_⟩
      intro hnone
      rcases hacc with ⟨hl', _, _⟩ | ⟨_, hS, hW, _⟩
      · rw [hl'] at hnone
        cases hnone
      · have hW1 : weak_refs (m0.objects.length + 1) e = 1 := by omega
        rw [hS, hW1] at hl
        rw [hS] at he
        exact ⟨by simpa using hl, by simpa using he⟩
    · exact absurd (ht ▸ h) ha
  · rcases accounted_stage hinv.acc with ⟨_, he, _⟩ | ⟨_, he, _⟩ | ⟨_, he, _⟩
    · exact Or.inl he
    · exact Or.inr (Or.inl he)
    · exact Or.inr (Or.inr he)
  · intro hnone
    rcases hinv.acc with ⟨hl, _, _⟩ | ⟨_, hS, hW, _⟩
    · rw [hl] at hnone
      cases hnone
    · simp only [strong_refs, weak_refs, strong_holders, weak_holders, raw_holders,
        Nat.add_eq_zero, List.countP_eq_zero, decide_eq_true_eq] at hS hW
      exact ⟨hS.1, hW.1, fun hc => hS.2 _ hc rfl, fun hc => hW.2 _ hc rfl⟩

/-- C36, at a concrete input: a debug build; a weak pointer is made, the strong pointer
is destroyed, then the weak pointer, which deallocates the target. -/
theorem deallocation_only_at_zero_counts_witness :
    (program true intrusive_target_default_null_type
      [.weak_from_strong 0, .destroy 0, .weak_destroy 0] ⟨[], []⟩).is_assertion_failed
        = false ∧
    ∃ m', (⟨1⟩ : weak_intrusive_ptr).reset_ true intrusive_target_default_null_type
        ⟨[some ⟨0, 1⟩], [.release_resources 1]⟩
      = .ok ⟨intrusive_target_default_null_type.singleton⟩ m' :=
  ⟨(deallocation_only_at_zero_counts true intrusive_target_default_null_type ⟨[], []⟩
      (by decide) [.weak_from_strong 0, .destroy 0, .weak_destroy 0] (by decide)).1,
    (((deallocation_only_at_zero_counts true intrusive_target_default_null_type ⟨[], []⟩
      (by decide) [.weak_from_strong 0, .destroy 0] (by decide)).2
      ⟨[], [⟨1⟩], [], []⟩ ⟨[some ⟨0, 1⟩], [.release_resources 1]⟩ (by decide)).2.1
      ⟨1⟩ (by decide) (by decide)).imp fun _ h => h.1⟩

/-- C37. Take a program that starts with `make_intrusive` and goes on with statements on
strong and weak pointers, fewer than `2 ^ 64 - 3` of them, in a debug or a release build.
In every state it reaches, for every weak pointer `w` of the program,
`weak_intrusive_ptr::reclaim(w.release())` passes its assertion and returns a weak
pointer that holds what `w` held, the memory, so both counts, being as before. With the
default null type, for every strong pointer `p` that holds the target,
`raw::intrusive_ptr::make_weak(p.get())` returns the address of the target with the weak
count raised by one, and `weak_intrusive_ptr::reclaim` of that raw pointer passes its
assertion and returns a weak pointer to the target with the memory as before. -/
theorem weak_reclaim_passes_when_reachable (debug : Bool) (N : NullType) (m0 : Memory)
    (hN : N.singleton ≤ m0.objects.length) (ops : List Op) (hlen : ops.length + 3 < 2 ^ 64)
    (e : Pointers) (m : Memory) (hrun : program debug N ops m0 = .ok e m) :
    (∀ w ∈ e.weak,
      weak_intrusive_ptr.reclaim debug N (w.release N).1 m = .ok ⟨w.target_⟩ m) ∧
    (N = intrusive_target_default_null_type →
      ∀ p ∈ e.strong, p.target_ = m0.objects.length + 1 →
        ∃ n c m1, m.load (m0.objects.length + 1) = some ⟨n, c⟩ ∧
          raw.intrusive_ptr.make_weak debug p.get m = .ok (m0.objects.length + 1) m1 ∧
          m1.load (m0.objects.length + 1) = some ⟨n, c + 1⟩ ∧
          weak_intrusive_ptr.reclaim debug N (m0.objects.length + 1) m1
            = .ok ⟨m0.objects.length + 1⟩ m1) := by
  obtain ⟨hinv, hpop⟩ := program_inv debug N m0 hN ops (by omega) e m hrun
  have ha := sentinel_ne_fresh N m0 hN
  have hle := refs_le_population (m0.objects.length + 1) e
  constructor
  · intro w hw
    simp only [weak_intrusive_ptr.release]
    rcases hinv.weak_cases w hw with h | h
    · rw [h.1]
      exact accounted_weak_reclaim debug N ha hinv.acc h.2
    · rw [h]
      exact weak_reclaim_sentinel debug N m
  · intro hN0 p hp ht
    rcases hinv.strong_cases p hp with h | h
    · obtain ⟨hl, _⟩ := accounted_load_strong hinv.acc h.2
      have hmk := raw_make_weak_eq debug (m0.objects.length + 1) m _ _ hl
        (Or.inl (by omega)) (by omega)
      refine ⟨_, _, _, hl, ?_, Memory.load_store_same hl _, ?_⟩
      · simp only [intrusive_ptr.get, ht]
        exact hmk
      · exact weak_reclaim_of_admitted debug N _ _ _ _ ha (Memory.load_store_same hl _)
          (Or.inl (by omega))
    · exact absurd (ht ▸ h) ha

/-- C37, at a concrete input: a debug build, one weak pointer was made from the strong
pointer; the target has counts `(1, 2)`. -/
theorem weak_reclaim_passes_when_reachable_witness :
    weak_intrusive_ptr.reclaim true intrusive_target_default_null_type
        ((⟨1⟩ : weak_intrusive_ptr).release intrusive_target_default_null_type).1
        ⟨[some ⟨1, 2⟩], []⟩
      = .ok ⟨1⟩ ⟨[some ⟨1, 2⟩], []⟩ :=
  (weak_reclaim_passes_when_reachable true intrusive_target_default_null_type ⟨[], []⟩
    (by decide) [.weak_from_strong 0] (by decide) ⟨[⟨1⟩], [⟨1⟩], [], []⟩
    ⟨[some ⟨1, 2⟩], []⟩ (by decide)).1 ⟨1⟩ (by decide)

/-- C23 (P3, single teardown under concurrency). `n` threads each drop one of the `n`
strong pointers to the target at `a`, whose strong count is `n` and whose weak count is
`w >= 1`; they run `intrusive_ptr::reset_()` in steps that a schedule interleaves. For
every schedule the run returns normally (no thread touches freed storage, no assertion
fails, in a debug or a release build) and ends in a state of `dropping_state`. So
`release_resources` has been called at most once, and a deallocation only after it; at
most one thread, the one whose decrement returned 0, is between that decrement and its
end; the call has not yet happened exactly while some thread has not yet decremented or
that one thread stands before the call. When all threads have finished,
`release_resources` has been called exactly once. Every schedule that gives each thread
four steps lets all threads finish. -/
theorem single_teardown_in_every_interleaving (debug : Bool) (N : NullType) (a : Addr)
    (m : Memory) (n w : Nat) (ha : a ≠ N.singleton) (hl : m.load a = some ⟨n, w⟩)
    (hn : 1 ≤ n) (hn2 : n < 2 ^ 64) (hw : 1 ≤ w) (hw2 : w < 2 ^ 64)
    (sched : List (Nat × Bool)) :
    ∃ ts m',
      interleave debug N sched (List.replicate n (.dropping ⟨a⟩ .start)) m = .ok ts m' ∧
      dropping_state a m.events w ts m' ∧
      (m'.events = m.events ∨ m'.events = .release_resources a :: m.events ∨
        m'.events = .deallocate a :: .release_resources a :: m.events) ∧
      at_pc a .call_release ts + at_pc a .dec_weak ts + at_pc a .call_delete ts ≤ 1 ∧
      (m'.events = m.events ↔ (0 < at_pc a .start ts ∨ at_pc a .call_release ts = 1)) ∧
      ((∀ t ∈ ts, t = Thread.dropping ⟨a⟩ .done) →
        m'.events = .release_resources a :: m.events ∨
        m'.events = .deallocate a :: .release_resources a :: m.events) ∧
      ((∀ i, i < n → 4 ≤ steps_of i sched) → ∀ t ∈ ts, t = Thread.dropping ⟨a⟩ .done) := by
  obtain ⟨ts, m', hr, hst⟩ := dropping_state_run debug N a m.events w ha hw hw2 sched
    (List.replicate n (.dropping ⟨a⟩ .start)) m (by simpa using hn2)
    (dropping_state_start a m n w hn hl)
  obtain ⟨hev, hone, hiff⟩ := dropping_state_events hst
  refine ⟨ts, m', hr, hst, hev, hone, hiff, ?_, ?_⟩
  · intro hdone
    have h1 := at_pc_eq_zero_of_all_done a .start (by decide) ts hdone
    have h2 := at_pc_eq_zero_of_all_done a .call_release (by decide) ts hdone
    rcases hev with he | he | he
    · have := hiff.mp he
      omega
    · exact Or.inl he
    · exact Or.inr he
  · intro hfair t ht
    obtain ⟨i, hi⟩ := List.getElem?_of_mem ht
    have hlen := interleave_length debug N sched _ m ts m' hr
    have hlt : i < n := by
      rcases Nat.lt_or_ge i ts.length with h | h
      · simpa [hlen] using h
      · rw [List.getElem?_eq_none h] at hi
        cases hi
    obtain ⟨pc', h1, h2⟩ := interleave_rank debug N sched _ m ts m' hr i ⟨a⟩ .start
      (by simp [List.getElem?_replicate, hlt])
    rw [hi] at h1
    injection h1 with h1
    rw [h1]
    have hfi := hfair i hlt
    have h4 : ResetPc.start.rank = 4 := rfl
    have h0 : pc'.rank = 0 := by
      rw [h4] at h2
      omega
    rw [ResetPc.rank_eq_zero h0]

/-- C23, at a concrete input: two threads, a target with counts `(2, 1)` in a debug
build, and a schedule that lets the second thread overtake the first. -/
theorem single_teardown_in_every_interleaving_witness :
    ∃ ts m',
      interleave true intrusive_target_default_null_type
        [(0, false), (1, false), (1, false), (1, false), (1, false), (0, false)]
        (List.replicate 2 (.dropping ⟨1⟩ .start)) ⟨[some ⟨2, 1⟩], []⟩ = .ok ts m' ∧
      (m'.events = [] ∨ m'.events = [.release_resources 1] ∨
        m'.events = [.deallocate 1, .release_resources 1]) := by
  obtain ⟨ts, m', h1, _, h3, _⟩ := single_teardown_in_every_interleaving true
    intrusive_target_default_null_type 1 ⟨[some ⟨2, 1⟩], []⟩ 2 1 (by decide) (by decide)
    (by decide) (by decide) (by decide) (by decide)
    [(0, false), (1, false), (1, false), (1, false), (1, false), (0, false)]
  exact ⟨ts, m', h1, h3⟩

/-- C24 (P5, upgrade correctness under concurrency). One thread drops the last strong
pointer to the target at `a` (strong count 1) while another calls `lock()` on a weak
pointer to it (weak count `c >= 2`: the weak pointer and the unit of the strong
pointers); a schedule interleaves the steps of `intrusive_ptr::reset_()` and of
`weak_intrusive_ptr::lock()` and says which weak exchanges fail spuriously. For every
schedule the run returns normally and ends in a state of `racing_state`; the storage is
still allocated and nothing has been deallocated. If `lock()` has returned, it returned
either the target, and then the strong count is at least 1, `release_resources` has not
been called, and when the locking thread goes on to drop the returned pointer, in every
schedule of the two drops `release_resources` is not called while that drop has not
decremented and has been called once when both have finished; or the sentinel, and then
the dropping thread has decremented and the strong count is 0. If the strong count was 0
at any earlier point of the schedule, `lock()` has not returned the target. Two more
steps of the locking thread without a spurious failure make `lock()` return. -/
theorem lock_against_last_drop_in_every_interleaving (debug : Bool) (N : NullType)
    (a : Addr) (m : Memory) (c : Nat) (ha : a ≠ N.singleton)
    (hl : m.load a = some ⟨1, c⟩) (hc : 2 ≤ c) (hc2 : c < 2 ^ 64)
    (sched : List (Nat × Bool)) :
    ∃ pc1 pc2 m',
      interleave debug N sched [.dropping ⟨a⟩ .start, .locking ⟨a⟩ .load] m
        = .ok [.dropping ⟨a⟩ pc1, .locking ⟨a⟩ pc2] m' ∧
      racing_state N a m.events c pc1 pc2 m' ∧
      (∃ t, m'.load a = some t ∧ 1 ≤ t.weakcount_) ∧
      (m'.events = m.events ∨ m'.events = .release_resources a :: m.events) ∧
      (∀ q, pc2 = .returned q →
        (q = ⟨a⟩ ∧ m'.events = m.events ∧ (∃ t, m'.load a = some t ∧ 1 ≤ t.refcount_) ∧
          ∀ sched2, ∃ ts m'',
            interleave debug N sched2 [.dropping ⟨a⟩ pc1, .dropping ⟨a⟩ .start] m'
              = .ok ts m'' ∧
            (ts[1]? = some (.dropping ⟨a⟩ .start) → m''.events = m.events) ∧
            ((∀ t ∈ ts, t = Thread.dropping ⟨a⟩ .done) →
              m''.events = .release_resources a :: m.events ∧
              m''.load a = some ⟨0, c - 1⟩)) ∨
        (q = ⟨N.singleton⟩ ∧ pc1 ≠ .start ∧ ∃ c', m'.load a = some ⟨0, c'⟩)) ∧
      (∀ s1 s2 ts1 m1, sched = s1 ++ s2 →
        interleave debug N s1 [.dropping ⟨a⟩ .start, .locking ⟨a⟩ .load] m = .ok ts1 m1 →
        (∃ c', m1.load a = some ⟨0, c'⟩) → pc2 ≠ .returned ⟨a⟩) ∧
      (∃ q m'', interleave debug N (sched ++ [(1, false), (1, false)])
          [.dropping ⟨a⟩ .start, .locking ⟨a⟩ .load] m
        = .ok [.dropping ⟨a⟩ pc1, .locking ⟨a⟩ (.returned q)] m'') := by
  have hst0 : racing_state N a m.events c .start .load m :=
    ⟨by simp, rfl, Or.inr ⟨Or.inl rfl, hl⟩⟩
  obtain ⟨pc1, pc2, m', hr, hst⟩ :=
    racing_state_run debug N a m.events c ha hc hc2 sched .start .load m hst0
  have hsent : (⟨N.singleton⟩ : intrusive_ptr) ≠ ⟨a⟩ := by
    intro h
    injection h with h
    exact ha h.symm
  have halloc : ∃ t, m'.load a = some t ∧ 1 ≤ t.weakcount_ := by
    obtain ⟨_, hph⟩ := hst
    cases pc1 with
    | start =>
      obtain ⟨_, ⟨_, h⟩ | ⟨_, h⟩⟩ := hph
      · exact ⟨_, h, by show 1 ≤ c; omega⟩
      · exact ⟨_, h, by show 1 ≤ c; omega⟩
    | call_release => exact ⟨_, hph.1, by show 1 ≤ c; omega⟩
    | dec_weak => exact ⟨_, hph.1, by show 1 ≤ c; omega⟩
    | call_delete => exact absurd hph (by simp)
    | done =>
      rcases hph with ⟨h, _⟩ | ⟨h, _⟩
      · exact ⟨_, h, by show 1 ≤ c; omega⟩
      · exact ⟨_, h, by show 1 ≤ c - 1; omega⟩
  have hev : m'.events = m.events ∨ m'.events = .release_resources a :: m.events := by
    obtain ⟨_, hph⟩ := hst
    cases pc1 with
    | start => exact Or.inl hph.1
    | call_release => exact Or.inl hph.2.1
    | dec_weak => exact Or.inr hph.2.1
    | call_delete => exact absurd hph (by simp)
    | done =>
      rcases hph with ⟨_, h, _⟩ | ⟨_, h, _⟩
      · exact Or.inl h
      · exact Or.inr h
  refine ⟨pc1, pc2, m', hr, hst, halloc, hev, ?_, ?_, ?_⟩
  · intro q hq
    rcases hst.1 q hq with hqa | hqs
    · left
      subst hqa
      subst hq
      have hnz : ¬ ∃ c', m'.load a = some ⟨0, c'⟩ := fun hz =>
        ((racing_state_zero_iff hst).mp hz).2 rfl
      have hds := dropping_state_of_returned N a m.events c pc1 m' hst
      refine ⟨rfl, ?_, ?_, ?_⟩
      · obtain ⟨_, hph⟩ := hst
        cases pc1 with
        | start => exact hph.1
        | call_release => exact absurd rfl hph.2.2
        | dec_weak => exact absurd rfl hph.2.2
        | call_delete => exact absurd hph (by simp)
        | done =>
          rcases hph with ⟨_, h, _⟩ | ⟨_, _, h⟩
          · exact h
          · exact absurd rfl h
      · obtain ⟨t, ht, _⟩ := halloc
        refine ⟨t, ht, ?_⟩
        rcases Nat.eq_zero_or_pos t.refcount_ with h0 | h0
        · exact absurd ⟨t.weakcount_, by rw [ht, ← h0]⟩ hnz
        · exact h0
      · intro sched2
        obtain ⟨ts, m'', hr2, hst2⟩ := dropping_state_run debug N a m.events c ha
          (by omega) hc2 sched2 _ m' (by simp) hds
        obtain ⟨hev2, _, hiff⟩ := dropping_state_events hst2
        refine ⟨ts, m'', hr2, ?_, ?_⟩
        · intro h1
          exact hiff.mpr (Or.inl (at_pc_pos a .start ts 1 h1))
        · intro hdone
          have h1 := at_pc_eq_zero_of_all_done a .start (by decide) ts hdone
          have h2 := at_pc_eq_zero_of_all_done a .call_release (by decide) ts hdone
          have h3 := at_pc_eq_zero_of_all_done a .dec_weak (by decide) ts hdone
          have h4 := at_pc_eq_zero_of_all_done a .call_delete (by decide) ts hdone
          rcases hst2.2 with ⟨h, _⟩ | ⟨_, h, _⟩ | ⟨_, _, h, _⟩ | ⟨_, _, _, h, _⟩ |
            ⟨_, _, _, _, ⟨_, hl2, he2⟩ | ⟨hw1, _⟩⟩
          · omega
          · omega
          · omega
          · omega
          · exact ⟨he2, hl2⟩
          · omega
    · right
      subst hqs
      subst hq
      have hne : LockPc.returned ⟨N.singleton⟩ ≠ LockPc.returned ⟨a⟩ := by
        intro h
        injection h with h
        exact hsent h
      obtain ⟨_, hph⟩ := hst
      cases pc1 with
      | start =>
        obtain ⟨_, ⟨h, _⟩ | ⟨h, _⟩⟩ := hph
        · exact absurd h hne
        · rcases h with h | ⟨r, h, _⟩ <;> cases h
      | call_release => exact ⟨rfl, by decide, c, hph.1⟩
      | dec_weak => exact ⟨rfl, by decide, c, hph.1⟩
      | call_delete => exact absurd hph (by simp)
      | done =>
        rcases hph with ⟨_, _, h⟩ | ⟨h, _⟩
        · exact absurd h hne
        · exact ⟨rfl, by decide, c - 1, h⟩
  · intro s1 s2 ts1 m1 hs h1 hz
    obtain ⟨p1, p2, m1', hr1, hst1⟩ :=
      racing_state_run debug N a m.events c ha hc hc2 s1 .start .load m hst0
    rw [hr1] at h1
    injection h1 with h1a h1b
    subst h1b
    obtain ⟨p1', p2', m2, hr2, hst2, hz2⟩ :=
      racing_state_zero_run debug N a m.events c ha hc hc2 s2 p1 p2 m1' hst1 hz
    have hrun : interleave debug N sched [.dropping ⟨a⟩ .start, .locking ⟨a⟩ .load] m
        = .ok [.dropping ⟨a⟩ p1', .locking ⟨a⟩ p2'] m2 := by
      rw [hs, interleave_append, hr1]
      exact hr2
    rw [hr] at hrun
    injection hrun with hts hm
    subst hm
    simp only [List.cons.injEq, Thread.dropping.injEq, Thread.locking.injEq, true_and,
      and_true] at hts
    obtain ⟨_, h2⟩ := hts
    rw [h2]
    exact ((racing_state_zero_iff hst2).mp hz2).2
  · obtain ⟨t, ht, _⟩ := halloc
    obtain ⟨q, m'', h2⟩ := lock_returns_in_two_steps debug N a (.dropping ⟨a⟩ pc1) pc2 m' t ht
    refine ⟨q, m'', ?_⟩
    rw [interleave_append, hr]
    exact h2

/-- C24, at a concrete input: a target with counts `(1, 2)` in a debug build, and a
schedule in which `lock()` loads the count, the drop decrements it, and the exchange of
`lock()` then fails and its retry returns the sentinel. -/
theorem lock_against_last_drop_in_every_interleaving_witness :
    ∃ pc1 pc2 m',
      interleave true intrusive_target_default_null_type
        [(1, false), (0, false), (1, false), (1, false), (0, false), (0, false)]
        [.dropping ⟨1⟩ .start, .locking ⟨1⟩ .load] ⟨[some ⟨1, 2⟩], []⟩
        = .ok [.dropping ⟨1⟩ pc1, .locking ⟨1⟩ pc2] m' ∧
      (∃ t, m'.load 1 = some t ∧ 1 ≤ t.weakcount_) ∧
      (m'.events = [] ∨ m'.events = [.release_resources 1]) := by
  obtain ⟨pc1, pc2, m', h1, _, h3, h4, _⟩ :=
    lock_against_last_drop_in_every_interleaving true intrusive_target_default_null_type 1
      ⟨[some ⟨1, 2⟩], []⟩ 2 (by decide) (by decide) (by decide) (by decide)
      [(1, false), (0, false), (1, false), (1, false), (0, false), (0, false)]
  exact ⟨pc1, pc2, m', h1, h3, h4⟩

end c10
